import Mathlib

/-!
# Vue 3 reactivity engine (`src/reactivity.cjs.js`): embedding and properties

The engine is embedded shallowly: every engine function of `reactivity.cjs.js`
is a Lean function of the same name over an explicit `World` (the module-level
state of the file plus the JavaScript heap).  User code (effect bodies, getters,
top-level scripts such as `08-vue-reactivity.js`) is a small expression language
`Prog`.  Engine functions that call back into user code or into a proxy trap take
the interpreter `k` as their first argument; `interp` ties the knot by recursion
on a nesting bound.

Modelling conventions
* Objects have identity: a `Value.obj a` is a reference to heap cell `a`.
* JavaScript numbers are exact decimals (`Decimal`) or `NaN`; rounding is not modelled.
* A `Set<Effect>` held in `targetMap` is never replaced once created, so its
  identity is the pair (target, key); `effect.deps` is a list of such pairs.
* `WeakMap`/`Map`/`Set` are insertion-ordered association lists.
* Raw objects have own data properties only; of the built-in prototypes only the
  members the engine uses are present.
* `effect.options` is read once, when the effect is created.
-/

namespace Reactivity

/-! ## Values -/

/-- Exact decimal number `mant * 10 ^ (-exp)`, kept normalised by `Decimal.norm`. -/
structure Decimal where
  mant : Int
  exp : Nat
  deriving DecidableEq, Repr

/-- Strip trailing decimal zeros. -/
def Decimal.norm : Nat → Int → Decimal
  | 0, m => ⟨m, 0⟩
  | e + 1, m => if m % 10 = 0 then Decimal.norm e (m / 10) else ⟨m, e + 1⟩

def Decimal.ofInt (i : Int) : Decimal := ⟨i, 0⟩

def Decimal.mul (a b : Decimal) : Decimal := Decimal.norm (a.exp + b.exp) (a.mant * b.mant)

def Decimal.add (a b : Decimal) : Decimal :=
  Decimal.norm (max a.exp b.exp)
    (a.mant * 10 ^ (max a.exp b.exp - a.exp) + b.mant * 10 ^ (max a.exp b.exp - b.exp))

/-- Is `a < b`?  Compared after scaling to a common exponent. -/
def Decimal.lt (a b : Decimal) : Bool :=
  decide (a.mant * 10 ^ (max a.exp b.exp - a.exp) < b.mant * 10 ^ (max a.exp b.exp - b.exp))

/-- Symbols: `ITERATE_KEY = Symbol('iterate')`, the well-known symbols collected in
`builtInSymbols`, and symbols made by user code. -/
inductive Sym where
  | iterate
  | builtIn (n : Nat)
  | user (n : Nat)
  deriving DecidableEq, Repr

/-- The `toRawType` classes; `Other` stands for every class outside the whitelist. -/
inductive Kind where
  | Object | Array | Map | Set | WeakMap | WeakSet | Other
  deriving DecidableEq, Repr

/-- Built-in function objects the engine hands out or calls. -/
inductive Builtin where
  | ctor (k : Kind)
  | arrayInstrumentation (name : String)
  | instrumentation (readonly : Bool) (name : String)
  | proto (k : Kind) (name : String)
  deriving DecidableEq, Repr

inductive Value where
  | undefined
  | null
  | bool (b : Bool)
  | num (q : Decimal)
  | nan
  | str (s : String)
  | sym (s : Sym)
  | fn (b : Builtin)
  | obj (a : Nat)
  deriving DecidableEq, Repr

def ITERATE_KEY : Value := .sym .iterate

/-- `builtInSymbols.has(key)` for a key that is a symbol. -/
def isBuiltInSymbol : Value → Bool
  | .sym (.builtIn _) => true
  | _ => false

def isSymbol : Value → Bool
  | .sym _ => true
  | _ => false

/-- JavaScript truthiness (objects and functions are truthy). -/
def truthy : Value → Bool
  | .undefined => false
  | .null => false
  | .bool b => b
  | .num q => decide (q.mant ≠ 0)
  | .nan => false
  | .str s => decide (s ≠ "")
  | _ => true

/-- `a === b`. -/
def strictEq (a b : Value) : Bool :=
  match a with
  | .nan => false
  | _ => decide (a = b)

/-- `hasChanged(value, oldValue)`:
`value !== oldValue && (value === value || oldValue === oldValue)`. -/
def hasChanged (value oldValue : Value) : Bool :=
  !strictEq value oldValue && (strictEq value value || strictEq oldValue oldValue)

/-! ## User programs -/

inductive BinOp where
  | mul | add | strictEq
  deriving DecidableEq, Repr

/-- The engine's exported functions. -/
inductive Api where
  | reactive | readonly | shallowReactive | shallowReadonly
  | isReactive | isReadonly | toRaw | markReadonly | markNonReactive
  | ref | shallowRef | isRef | unref | toRefs
  | computed | effect | stop
  | lock | unlock
  | pauseTracking | enableTracking | resetTracking
  | track | trigger
  deriving DecidableEq, Repr

/-- User code.  Variables are script-level bindings (`let` at top level, captured by
the closures that use them). -/
inductive Prog where
  | lit (v : Value)
  | var (x : String)
  | assign (x : String) (e : Prog)
  | seq (a b : Prog)
  | ite (c t e : Prog)
  | binop (op : BinOp) (a b : Prog)
  | get (o key : Prog)
  | set (o key v : Prog)
  | del (o key : Prog)
  | has (key o : Prog)
  | ownKeys (o : Prog)
  | call (o : Prog) (m : String) (args : List Prog)
  | invoke (f : Prog) (args : List Prog)
  | func (params : List String) (body : Prog)
  | newObj (kind : Kind) (props : List (String × Prog)) (entries : List (Prog × Prog))
  | api (f : Api) (args : List Prog)
  | throw (e : Prog)

/-! ## Heap and module state -/

/-- The options read by the engine from the object passed to `effect`. -/
structure Options where
  lazy : Value := .undefined
  computed : Value := .undefined
  scheduler : Value := .undefined
  onTrack : Value := .undefined
  onTrigger : Value := .undefined
  onStop : Value := .undefined
  deriving DecidableEq, Repr

/-- The function object built by `createReactiveEffect`. -/
structure EffectRec where
  raw : Value
  active : Bool
  deps : List (Nat × Value)
  options : Options
  deriving DecidableEq, Repr

/-- The four handler sets for plain objects and arrays and the two for collections. -/
inductive Handlers where
  | mutableHandlers | readonlyHandlers | shallowReactiveHandlers | shallowReadonlyHandlers
  | mutableCollectionHandlers | readonlyCollectionHandlers
  deriving DecidableEq, Repr

inductive Cell where
  | raw (kind : Kind) (props : List (Value × Value)) (entries : List (Value × Value))
  | proxy (target : Nat) (handlers : Handlers)
  | ref (value : Value) (shallow : Bool)
  | computed (dirty : Bool) (value : Value) (runner : Value) (setter : Value)
  | proxyRef (object : Value) (key : Value)
  | effect (e : EffectRec)
  | fn (params : List String) (body : Prog)
  | computedScheduler (cell : Nat)
  | computedWarnSetter

/-- Module-level state of `reactivity.cjs.js`, the heap, the script variables and the
text written with `console.warn`. -/
structure World where
  heap : List Cell := []
  targetMap : List (Nat × List (Value × List Nat)) := []
  effectStack : List Nat := []
  activeEffect : Option Nat := none
  shouldTrack : Bool := true
  trackStack : List Bool := []
  LOCKED : Bool := true
  rawToReactive : List (Nat × Nat) := []
  reactiveToRaw : List (Nat × Nat) := []
  rawToReadonly : List (Nat × Nat) := []
  readonlyToRaw : List (Nat × Nat) := []
  readonlyValues : List Nat := []
  nonReactiveValues : List Nat := []
  vars : List (String × Value) := []
  warnings : List String := []

/-- The state in which the module has just been loaded. -/
def World.init : World := {}

/-! ## Outcomes -/

/-- Result of running code: a value, a thrown exception, the nesting bound reached,
or an operation outside the modelled fragment of JavaScript. -/
inductive Res (α : Type) where
  | ok (a : α) (w : World)
  | throw (e : Value) (w : World)
  | timeout
  | unsupported

def M (α : Type) : Type := World → Res α

def M.pure {α : Type} (a : α) : M α := fun w => .ok a w

/-- Continue with `f` after a normal completion; anything else is passed on. -/
def Res.bind {α β : Type} (r : Res α) (f : α → World → Res β) : Res β :=
  match r with
  | .ok a w' => f a w'
  | .throw e w' => .throw e w'
  | .timeout => .timeout
  | .unsupported => .unsupported

def M.bind {α β : Type} (m : M α) (f : α → M β) : M β := fun w => (m w).bind f

instance : Monad M where
  pure := M.pure
  bind := M.bind

def getW : M World := fun w => .ok w w

def modifyW (f : World → World) : M Unit := fun w => .ok () (f w)

def throwE {α : Type} (e : Value) : M α := fun w => .throw e w

def unsupportedM {α : Type} : M α := fun _ => .unsupported

/-- Apply the state update `fin` to the final state of a completion, normal or abrupt. -/
def Res.finally {α : Type} (r : Res α) (fin : World → World) : Res α :=
  match r with
  | .ok a w' => .ok a (fin w')
  | .throw e w' => .throw e (fin w')
  | .timeout => .timeout
  | .unsupported => .unsupported

/-- A `try { body } finally { fin }` block whose `finally` part is a state update. -/
def tryFinallyM {α : Type} (body : M α) (fin : World → World) : M α := fun w =>
  (body w).finally fin

def TypeError : Value := .str "TypeError"

def RangeError : Value := .str "RangeError"

/-- `console.warn(msg)`. -/
def warn (msg : String) : M Unit := modifyW fun w => { w with warnings := w.warnings ++ [msg] }

/-- The value and the final state of a normal completion. -/
def Res.val? {α : Type} : Res α → Option α
  | .ok a _ => some a
  | _ => none

def Res.world? {α : Type} : Res α → Option World
  | .ok _ w => some w
  | .throw _ w => some w
  | _ => none

/-! ## Association lists (`Map`, `WeakMap`) and lists as `Set` -/

def alookup {κ β : Type} [DecidableEq κ] (k : κ) : List (κ × β) → Option β
  | [] => none
  | (k', v) :: r => if k' = k then some v else alookup k r

/-- `map.set(k, v)`: an existing key keeps its position, a new key goes last. -/
def ainsert {κ β : Type} [DecidableEq κ] (k : κ) (v : β) : List (κ × β) → List (κ × β)
  | [] => [(k, v)]
  | (k', v') :: r => if k' = k then (k, v) :: r else (k', v') :: ainsert k v r

def aerase {κ β : Type} [DecidableEq κ] (k : κ) : List (κ × β) → List (κ × β)
  | [] => []
  | (k', v') :: r => if k' = k then r else (k', v') :: aerase k r

/-- `set.add(x)`. -/
def sadd {κ : Type} [DecidableEq κ] (x : κ) (s : List κ) : List κ :=
  if x ∈ s then s else s ++ [x]

/-- `set.delete(x)`. -/
def sdelete {κ : Type} [DecidableEq κ] (x : κ) (s : List κ) : List κ :=
  s.filter fun y => decide (y ≠ x)

/-! ## Heap access -/

def World.cell? (w : World) (a : Nat) : Option Cell := w.heap.get? a

/-- Allocate a fresh cell; its address is returned. -/
def alloc (c : Cell) : M Nat := fun w => .ok w.heap.length { w with heap := w.heap ++ [c] }

def World.setCell (w : World) (a : Nat) (c : Cell) : World := { w with heap := w.heap.set a c }

def World.effect? (w : World) (a : Nat) : Option EffectRec :=
  match w.cell? a with
  | some (.effect e) => some e
  | _ => none

/-- `typeof val === 'function'`. -/
def isFunction (w : World) : Value → Bool
  | .fn _ => true
  | .obj a =>
    match w.cell? a with
    | some (.effect _) => true
    | some (.fn _ _) => true
    | some (.computedScheduler _) => true
    | some .computedWarnSetter => true
    | _ => false
  | _ => false

/-- `val !== null && typeof val === 'object'`. -/
def isObject (w : World) : Value → Bool
  | .obj a => !isFunction w (.obj a)
  | _ => false

/-- The class of the object behind a value, looking through proxies (as `Array.isArray`,
`instanceof` and `Object.prototype.toString` do); cells made by the engine are plain
objects.  The bound is the number of proxy layers looked through. -/
def kindOf (w : World) : Nat → Value → Option Kind
  | 0, _ => none
  | n + 1, .obj a =>
    match w.cell? a with
    | some (.raw kind _ _) => some kind
    | some (.proxy t _) => kindOf w n (.obj t)
    | some (.ref _ _) => some .Object
    | some (.computed _ _ _ _) => some .Object
    | some (.proxyRef _ _) => some .Object
    | _ => none
  | _ + 1, _ => none

def isArray (w : World) (v : Value) : Bool := kindOf w (w.heap.length + 1) v == some .Array

/-- `target instanceof Map`. -/
def instanceofMap (w : World) (v : Value) : Bool := kindOf w (w.heap.length + 1) v == some .Map

/-! ## Calls the engine makes back into JavaScript -/

/-- The object-internal operations and function calls the engine performs on values it
does not control: they may run a proxy trap, an accessor or user code. -/
inductive Call where
  | eval (p : Prog)
  | get (target key receiver : Value)
  | set (target key value receiver : Value)
  | has (target key : Value)
  | deleteProperty (target key : Value)
  | ownKeys (target : Value)
  | apply (f this : Value) (args : List Value)

/-- The interpreter handed to engine functions. -/
abbrev Interp : Type := Call → M Value

/-- Run `f` on every element, in order (`forEach`). -/
def forEachM {α : Type} (f : α → M Unit) : List α → M Unit
  | [] => pure ()
  | x :: xs => do
    f x
    forEachM f xs

/-! ## effect.js: the tracking context -/

/-- `pauseTracking`.  The head of `trackStack` is the top of the JavaScript array. -/
def pauseTracking (w : World) : World :=
  { w with trackStack := w.shouldTrack :: w.trackStack, shouldTrack := false }

def enableTracking (w : World) : World :=
  { w with trackStack := w.shouldTrack :: w.trackStack, shouldTrack := true }

/-- `resetTracking`: `last = trackStack.pop(); shouldTrack = last === undefined ? true : last`. -/
def resetTracking (w : World) : World :=
  match w.trackStack with
  | [] => { w with shouldTrack := true }
  | last :: rest => { w with trackStack := rest, shouldTrack := last }

/-! ## effect.js: the dependency registry -/

/-- `targetMap.get(target).get(key)`, with absence read as the empty set. -/
def World.dep (w : World) (t : Nat) (key : Value) : List Nat :=
  match alookup t w.targetMap with
  | none => []
  | some depsMap => (alookup key depsMap).getD []

/-- `dep.delete(effect)` on the set stored at (target, key). -/
def depDelete (e : Nat) (tk : Nat × Value) (tm : List (Nat × List (Value × List Nat))) :
    List (Nat × List (Value × List Nat)) :=
  match alookup tk.1 tm with
  | none => tm
  | some depsMap =>
    match alookup tk.2 depsMap with
    | none => tm
    | some dep => ainsert tk.1 (ainsert tk.2 (sdelete e dep) depsMap) tm

/-- `cleanup(effect)`: delete the effect from every set in `effect.deps`, then empty
`effect.deps`. -/
def cleanup (e : Nat) (w : World) : World :=
  match w.effect? e with
  | none => w
  | some r =>
    { (w.setCell e (.effect { r with deps := [] })) with
      targetMap := r.deps.foldl (fun tm tk => depDelete e tk tm) w.targetMap }

/-- `track(target, type, key)`. -/
def track (k : Interp) (target : Value) (type : String) (key : Value) : M Unit := fun w0 => (( do
  let w ← getW
  match w.shouldTrack, w.activeEffect with
  | true, some e =>
    match target with
    | .obj t =>
      let depsMap := (alookup t w.targetMap).getD []
      let dep := (alookup key depsMap).getD []
      if e ∈ dep then pure ()
      else
        match w.effect? e with
        | none => unsupportedM
        | some r => do
          modifyW fun w =>
            { (w.setCell e (.effect { r with deps := r.deps ++ [(t, key)] })) with
              targetMap := ainsert t (ainsert key (dep ++ [e]) depsMap) w.targetMap }
          if truthy r.options.onTrack then do
            let ev ← alloc (.raw .Object
              [(.str "effect", .obj e), (.str "target", target), (.str "type", .str type),
               (.str "key", key)] [])
            let _ ← k (.apply r.options.onTrack .undefined [.obj ev])
            pure ()
          else pure ()
    | _ => throwE TypeError
  | _, _ => pure ()) : M Unit) w0

/-! ## effect.js: running effects -/

/-- The first statements of the `try` block of `run`:
`enableTracking(); effectStack.push(effect); activeEffect = effect`.  The head of
`effectStack` is the top of the JavaScript array. -/
def runEnter (effect : Nat) (w : World) : World :=
  { enableTracking w with effectStack := effect :: w.effectStack, activeEffect := some effect }

/-- The `finally` block of `run`:
`effectStack.pop(); resetTracking(); activeEffect = effectStack[effectStack.length - 1]`. -/
def runExit (w : World) : World :=
  let w1 := { w with effectStack := w.effectStack.tail }
  let w2 := resetTracking w1
  { w2 with activeEffect := w2.effectStack.head? }

/-- `run(effect, fn, args)`. -/
def run (k : Interp) (effect : Nat) (fn : Value) (args : List Value) : M Value := fun w0 => (( do
  let w ← getW
  match w.effect? effect with
  | none => unsupportedM
  | some r =>
    if !r.active then k (.apply fn .undefined args)
    else if effect ∈ w.effectStack then pure .undefined
    else do
      modifyW (cleanup effect)
      tryFinallyM
        (do
          modifyW (runEnter effect)
          k (.apply fn .undefined args))
        runExit) : M Value) w0

/-- `createReactiveEffect(fn, options)`. -/
def createReactiveEffect (fn : Value) (options : Options) : M Nat := fun w0 => ((
  alloc (.effect { raw := fn, active := true, deps := [], options := options })) : M Nat) w0

/-- `isEffect(fn)`: `fn != null && fn._isEffect === true`.  Only an object can carry the
property: on a primitive or a built-in function it reads as `undefined`. -/
def isEffect (k : Interp) (fn : Value) : M Bool := fun w0 => ((
  match fn with
  | .obj _ => do
    let v ← k (.get fn (.str "_isEffect") fn)
    pure (strictEq v (.bool true))
  | _ => pure false) : M Bool) w0

/-- `effect(fn, options)`, the options already read off the options object. -/
def effect (k : Interp) (fn : Value) (options : Options) : M Value := fun w0 => (( do
  let fn ← (do
    if ← isEffect k fn then k (.get fn (.str "raw") fn) else pure fn)
  let e ← createReactiveEffect fn options
  if !truthy options.lazy then do
    let _ ← k (.apply (.obj e) .undefined [])
    pure (.obj e)
  else pure (.obj e)) : M Value) w0

/-- `stop(effect)`. -/
def stop (k : Interp) (effect : Value) : M Unit := fun w0 => (( do
  match effect with
  | .obj a =>
    match (← getW).effect? a with
    | none => unsupportedM
    | some r =>
      if r.active then do
        modifyW (cleanup a)
        (if truthy r.options.onStop then do
          let _ ← k (.apply r.options.onStop .undefined [])
          pure ()
        else pure ())
        modifyW fun w =>
          match w.effect? a with
          | some r1 => w.setCell a (.effect { r1 with active := false })
          | none => w
      else pure ()
  | .undefined => throwE TypeError
  | .null => throwE TypeError
  | .fn _ => pure ()
  | _ => pure ()) : M Unit) w0

/-! ## effect.js: the trigger dispatcher -/

/-- `addRunners(effects, computedRunners, effectsToAdd)`; the result is the pair
(effects, computedRunners). -/
def addRunners (w : World) (acc : List Nat × List Nat) (effectsToAdd : Option (List Nat)) :
    List Nat × List Nat :=
  match effectsToAdd with
  | none => acc
  | some dep =>
    dep.foldl (fun (acc : List Nat × List Nat) effect =>
      if some effect ≠ w.activeEffect then
        match w.effect? effect with
        | some r =>
          if truthy r.options.computed then (acc.1, sadd effect acc.2)
          else (sadd effect acc.1, acc.2)
        | none => (sadd effect acc.1, acc.2)
      else acc) acc

/-- Outcome of the relational comparison `key >= newValue`. -/
inductive Cmp where
  | res (b : Bool)
  | typeError
  | unsupported
  deriving DecidableEq, Repr

def digitsToNat (cs : List Char) : Nat :=
  cs.foldl (fun n c => 10 * n + (c.toNat - 48)) 0

/-- `ToNumber` of a string, for sequences of decimal digits (the array indices), the
empty string and plain words; other strings are outside the model (`none`). -/
def strToNumber (s : String) : Option Value :=
  if s.data = [] then some (.num (Decimal.ofInt 0))
  else if s.data.all Char.isDigit then some (.num (Decimal.ofInt (digitsToNat s.data)))
  else if s.data.all Char.isAlpha && s ≠ "Infinity" then some .nan
  else none

/-- `ToNumber`, for the values that have one without running code. -/
def toNumber : Value → Option Value
  | .undefined => some .nan
  | .null => some (.num (Decimal.ofInt 0))
  | .bool b => some (.num (Decimal.ofInt (if b then 1 else 0)))
  | .num q => some (.num q)
  | .nan => some .nan
  | .str s => strToNumber s
  | _ => none

/-- The comparison `a >= b` of JavaScript: a symbol operand throws a `TypeError`, two
strings compare as strings, anything else compares as numbers (false when either is
`NaN`). -/
def geJS (a b : Value) : Cmp :=
  match a, b with
  | .obj _, _ => .unsupported
  | _, .obj _ => .unsupported
  | .fn _, _ => .unsupported
  | _, .fn _ => .unsupported
  | .sym _, _ => .typeError
  | _, .sym _ => .typeError
  | .str s, .str t => .res (!decide (s.data < t.data))
  | a, b =>
    match toNumber a, toNumber b with
    | some (.num x), some (.num y) => .res (!Decimal.lt x y)
    | some _, some _ => .res false
    | _, _ => .unsupported

/-- The `depsMap.forEach` of the array-length branch of `trigger`. -/
def lengthRunners (w : World) (newValue : Value) :
    List (Value × List Nat) → List Nat × List Nat → M (List Nat × List Nat)
  | [], acc => pure acc
  | (key, dep) :: rest, acc =>
    if key = .str "length" then lengthRunners w newValue rest (addRunners w acc (some dep))
    else
      match geJS key newValue with
      | .res true => lengthRunners w newValue rest (addRunners w acc (some dep))
      | .res false => lengthRunners w newValue rest acc
      | .typeError => throwE TypeError
      | .unsupported => unsupportedM

/-- The subscribers resolved by `trigger`, as the pair (effects, computedRunners). -/
def resolveRunners (w : World) (depsMap : List (Value × List Nat)) (target : Value)
    (type : String) (key newValue : Value) : M (List Nat × List Nat) := fun w0 => ((
  if type = "clear" then
    pure (depsMap.foldl (fun acc kd => addRunners w acc (some kd.2)) ([], []))
  else if key = .str "length" && isArray w target then
    lengthRunners w newValue depsMap ([], [])
  else
    let acc1 := if key ≠ .undefined then addRunners w ([], []) (alookup key depsMap) else ([], [])
    if type = "add" || type = "delete" || (type = "set" && instanceofMap w target) then
      let iterationKey := if isArray w target then .str "length" else ITERATE_KEY
      pure (addRunners w acc1 (alookup iterationKey depsMap))
    else pure acc1) : M (List Nat × List Nat)) w0

/-- `scheduleRun(effect, target, type, key, extraInfo)`. -/
def scheduleRun (k : Interp) (effect : Nat) (target : Value) (type : String)
    (key newValue oldValue oldTarget : Value) : M Unit := fun w0 => (( do
  match (← getW).effect? effect with
  | none => unsupportedM
  | some r =>
    (if truthy r.options.onTrigger then do
      let ev ← alloc (.raw .Object
        [(.str "effect", .obj effect), (.str "target", target), (.str "key", key),
         (.str "type", .str type), (.str "newValue", newValue), (.str "oldValue", oldValue),
         (.str "oldTarget", oldTarget)] [])
      let _ ← k (.apply r.options.onTrigger .undefined [.obj ev])
      pure ()
    else pure ())
    if r.options.scheduler ≠ .undefined then do
      let _ ← k (.apply r.options.scheduler .undefined [.obj effect])
      pure ()
    else do
      let _ ← k (.apply (.obj effect) .undefined [])
      pure ()) : M Unit) w0

/-- `trigger(target, type, key, newValue, oldValue, oldTarget)`. -/
def trigger (k : Interp) (target : Value) (type : String)
    (key newValue oldValue oldTarget : Value) : M Unit := fun w0 => (( do
  let w ← getW
  match target with
  | .obj t =>
    match alookup t w.targetMap with
    | none => pure ()
    | some depsMap => do
      let runners ← resolveRunners w depsMap target type key newValue
      forEachM (fun e => scheduleRun k e target type key newValue oldValue oldTarget) runners.2
      forEachM (fun e => scheduleRun k e target type key newValue oldValue oldTarget) runners.1
  | _ => pure ()) : M Unit) w0

/-! ## lock.js -/

def lock (w : World) : World := { w with LOCKED := true }

def unlock (w : World) : World := { w with LOCKED := false }

/-! ## reactive.js -/

/-- The two pairs of identity maps: (`rawToReactive`, `reactiveToRaw`) and
(`rawToReadonly`, `readonlyToRaw`). -/
inductive Family where
  | reactive | readonly
  deriving DecidableEq, Repr

def World.toProxy (w : World) : Family → List (Nat × Nat)
  | .reactive => w.rawToReactive
  | .readonly => w.rawToReadonly

def World.toRawMap (w : World) : Family → List (Nat × Nat)
  | .reactive => w.reactiveToRaw
  | .readonly => w.readonlyToRaw

/-- `toProxy.set(target, observed); toRaw.set(observed, target)`. -/
def World.register (w : World) (f : Family) (target observed : Nat) : World :=
  match f with
  | .reactive =>
    { w with rawToReactive := ainsert target observed w.rawToReactive,
             reactiveToRaw := ainsert observed target w.reactiveToRaw }
  | .readonly =>
    { w with rawToReadonly := ainsert target observed w.rawToReadonly,
             readonlyToRaw := ainsert observed target w.readonlyToRaw }

/-- `weakMap.has(v)` / `weakSet.has(v)`: false for a value that is not an object. -/
def wmHas {β : Type} (m : List (Nat × β)) : Value → Bool
  | .obj a => (alookup a m).isSome
  | _ => false

def wsHas (s : List Nat) : Value → Bool
  | .obj a => decide (a ∈ s)
  | _ => false

/-- `toRaw(observed)`:
`reactiveToRaw.get(observed) || readonlyToRaw.get(observed) || observed`. -/
def toRaw (w : World) (observed : Value) : Value :=
  match observed with
  | .obj a =>
    match alookup a w.reactiveToRaw with
    | some r => .obj r
    | none =>
      match alookup a w.readonlyToRaw with
      | some r => .obj r
      | none => observed
  | _ => observed

def isReactive (w : World) (value : Value) : Bool :=
  wmHas w.reactiveToRaw value || wmHas w.readonlyToRaw value

def isReadonly (w : World) (value : Value) : Bool := wmHas w.readonlyToRaw value

/-- `markReadonly(value)`; a `WeakSet` refuses a value that is not an object. -/
def markReadonly (value : Value) : M Value := fun w0 => ((
  match value with
  | .obj a => do
    modifyW fun w => { w with readonlyValues := sadd a w.readonlyValues }
    pure value
  | .fn _ => unsupportedM
  | _ => throwE TypeError) : M Value) w0

def markNonReactive (value : Value) : M Value := fun w0 => ((
  match value with
  | .obj a => do
    modifyW fun w => { w with nonReactiveValues := sadd a w.nonReactiveValues }
    pure value
  | .fn _ => unsupportedM
  | _ => throwE TypeError) : M Value) w0

/-- `isObservableType(toRawType(value))`, the whitelist
`Object,Array,Map,Set,WeakMap,WeakSet`. -/
def isObservableType (w : World) (value : Value) : Bool :=
  match kindOf w (w.heap.length + 1) value with
  | some .Other => false
  | some _ => true
  | none => false

/-- `canObserve(value)`. -/
def canObserve (k : Interp) (value : Value) : M Bool := fun w0 => (( do
  let isVue ← k (.get value (.str "_isVue") value)
  if truthy isVue then pure false
  else do
    let isVNode ← k (.get value (.str "_isVNode") value)
    if truthy isVNode then pure false
    else do
      let w ← getW
      pure (isObservableType w value && !wsHas w.nonReactiveValues value)) : M Bool) w0

/-- `collectionTypes.has(target.constructor)`. -/
def isCollectionCtor : Value → Bool
  | .fn (.ctor .Set) => true
  | .fn (.ctor .Map) => true
  | .fn (.ctor .WeakMap) => true
  | .fn (.ctor .WeakSet) => true
  | _ => false

/-- `createReactiveObject(target, toProxy, toRaw, baseHandlers, collectionHandlers)`; the
two maps are given by their family. -/
def createReactiveObject (k : Interp) (target : Value) (f : Family)
    (baseHandlers collectionHandlers : Handlers) : M Value := fun w0 => (( do
  let w ← getW
  if !isObject w target then do
    warn "value cannot be made reactive"
    pure target
  else
    match target with
    | .obj t =>
      match alookup t (w.toProxy f) with
      | some observed => pure (.obj observed)
      | none =>
        if wmHas (w.toRawMap f) target then pure target
        else do
          if !(← canObserve k target) then pure target
          else do
            let ctor ← k (.get target (.str "constructor") target)
            let handlers := if isCollectionCtor ctor then collectionHandlers else baseHandlers
            let observed ← alloc (.proxy t handlers)
            modifyW fun w => w.register f t observed
            pure (.obj observed)
    | _ => pure target) : M Value) w0

/-- `isRef(r)`: `r ? r._isRef === true : false`.  An object is truthy; on a primitive or
a built-in function `_isRef` reads as `undefined`, whatever its truthiness. -/
def isRef (k : Interp) (r : Value) : M Bool := fun w0 => ((
  match r with
  | .obj _ => do
    let v ← k (.get r (.str "_isRef") r)
    pure (strictEq v (.bool true))
  | _ => pure false) : M Bool) w0

/-- `readonly(target)`. -/
def readonly (k : Interp) (target : Value) : M Value := fun w0 => (( do
  let w ← getW
  let target := match target with
    | .obj a =>
      match alookup a w.reactiveToRaw with
      | some r => Value.obj r
      | none => target
    | _ => target
  createReactiveObject k target .readonly .readonlyHandlers .readonlyCollectionHandlers) : M Value) w0

/-- `reactive(target)`. -/
def reactive (k : Interp) (target : Value) : M Value := fun w0 => (( do
  let w ← getW
  if wmHas w.readonlyToRaw target then pure target
  else if wsHas w.readonlyValues target then readonly k target
  else if ← isRef k target then pure target
  else createReactiveObject k target .reactive .mutableHandlers .mutableCollectionHandlers) : M Value) w0

def shallowReadonly (k : Interp) (target : Value) : M Value := fun w0 => ((
  createReactiveObject k target .readonly .shallowReadonlyHandlers .readonlyCollectionHandlers) : M Value) w0

def shallowReactive (k : Interp) (target : Value) : M Value := fun w0 => ((
  createReactiveObject k target .reactive .shallowReactiveHandlers .mutableCollectionHandlers) : M Value) w0

/-! ## ref.js -/

/-- `convert(val)`: `isObject(val) ? reactive(val) : val`. -/
def convert (k : Interp) (val : Value) : M Value := fun w0 => (( do
  if isObject (← getW) val then reactive k val else pure val) : M Value) w0

/-- `createRef(value, shallow)`. -/
def createRef (k : Interp) (value : Value) (shallow : Bool) : M Value := fun w0 => (( do
  if ← isRef k value then pure value
  else do
    let value ← (if !shallow then convert k value else pure value)
    let r ← alloc (.ref value shallow)
    pure (.obj r)) : M Value) w0

def ref (k : Interp) (value : Value) : M Value := fun w0 => (( createRef k value false) : M Value) w0

def shallowRef (k : Interp) (value : Value) : M Value := fun w0 => (( createRef k value true) : M Value) w0

/-- The `get value()` accessor of the object built by `createRef`. -/
def refGetValue (k : Interp) (r : Nat) : M Value := fun w0 => (( do
  track k (.obj r) "get" (.str "value")
  match (← getW).cell? r with
  | some (.ref value _) => pure value
  | _ => unsupportedM) : M Value) w0

/-- The `set value(newVal)` accessor of the object built by `createRef`. -/
def refSetValue (k : Interp) (r : Nat) (newVal : Value) : M Unit := fun w0 => (( do
  match (← getW).cell? r with
  | some (.ref _ shallow) => do
    let value ← (if shallow then pure newVal else convert k newVal)
    modifyW fun w => w.setCell r (.ref value shallow)
    let info ← alloc (.raw .Object [(.str "newValue", newVal)] [])
    trigger k (.obj r) "set" (.str "value") (.obj info) .undefined .undefined
  | _ => unsupportedM) : M Unit) w0

/-- `unref(ref)`. -/
def unref (k : Interp) (r : Value) : M Value := fun w0 => (( do
  if ← isRef k r then k (.get r (.str "value") r) else pure r) : M Value) w0

/-! ## computed.js -/

/-- `computed(getterOrOptions)`.  The cell holds the closure variables `dirty` and
`value`, the runner and the setter. -/
def computed (k : Interp) (getterOrOptions : Value) : M Value := fun w0 => (( do
  let w ← getW
  let getter ← (if isFunction w getterOrOptions then pure getterOrOptions
    else k (.get getterOrOptions (.str "get") getterOrOptions))
  let setter ← (if isFunction w getterOrOptions then do
      let s ← alloc .computedWarnSetter
      pure (Value.obj s)
    else k (.get getterOrOptions (.str "set") getterOrOptions))
  let c ← alloc (.computed true .undefined .undefined setter)
  let sched ← alloc (.computedScheduler c)
  let runner ← effect k getter
    { lazy := .bool true, computed := .bool true, scheduler := .obj sched }
  modifyW fun w => w.setCell c (.computed true .undefined runner setter)
  pure (.obj c)) : M Value) w0

/-- The scheduler closure of a computed cell:
`if (!dirty) { dirty = true; trigger(computed, "set", 'value') }`. -/
def computedScheduler (k : Interp) (c : Nat) : M Unit := fun w0 => (( do
  match (← getW).cell? c with
  | some (.computed dirty value runner setter) =>
    if !dirty then do
      modifyW fun w => w.setCell c (.computed true value runner setter)
      trigger k (.obj c) "set" (.str "value") .undefined .undefined .undefined
    else pure ()
  | _ => unsupportedM) : M Unit) w0

/-- The `get value()` accessor of a computed cell. -/
def computedGetValue (k : Interp) (c : Nat) : M Value := fun w0 => (( do
  match (← getW).cell? c with
  | some (.computed dirty _ runner _) => do
    (if dirty then do
      let v ← k (.apply runner .undefined [])
      modifyW fun w =>
        match w.cell? c with
        | some (.computed _ _ runner1 setter1) => w.setCell c (.computed false v runner1 setter1)
        | _ => w
    else pure ())
    track k (.obj c) "get" (.str "value")
    match (← getW).cell? c with
    | some (.computed _ value _ _) => pure value
    | _ => unsupportedM
  | _ => unsupportedM) : M Value) w0

/-- The `set value(newValue)` accessor of a computed cell: `setter(newValue)`. -/
def computedSetValue (k : Interp) (c : Nat) (newValue : Value) : M Unit := fun w0 => (( do
  match (← getW).cell? c with
  | some (.computed _ _ _ setter) => do
    let _ ← k (.apply setter .undefined [newValue])
    pure ()
  | _ => unsupportedM) : M Unit) w0

/-! ## baseHandlers.js -/

/-- `hasOwn(arrayInstrumentations, key)`. -/
def isArrayInstrumentation : Value → Option String
  | .str s => if s = "includes" || s = "indexOf" || s = "lastIndexOf" then some s else none
  | _ => none

/-- The own property keys of a heap cell. -/
def ownKeysOf : Cell → List Value
  | .raw _ props _ => props.map Prod.fst
  | .ref _ _ => [.str "_isRef", .str "value"]
  | .computed _ _ _ _ => [.str "_isRef", .str "effect", .str "value"]
  | .proxyRef _ _ => [.str "_isRef", .str "value"]
  | .effect _ => [.str "_isEffect", .str "active", .str "raw", .str "deps", .str "options"]
  | _ => []

/-- `hasOwn(val, key)`, that is `Object.prototype.hasOwnProperty.call(val, key)`; a proxy
made by the engine has no trap for it and answers for its target. -/
def hasOwn (w : World) : Nat → Value → Value → Bool
  | 0, _, _ => false
  | n + 1, .obj a, key =>
    match w.cell? a with
    | some (.proxy t _) => hasOwn w n (.obj t) key
    | some c => decide (key ∈ ownKeysOf c)
    | none => false
  | _ + 1, _, _ => false

/-- The trap `get` made by `createGetter(isReadonly, shallow)`. -/
def createGetter (isReadonly shallow : Bool) (k : Interp) (target key receiver : Value) :
    M Value := fun w0 => (( do
  let w ← getW
  match (if isArray w target then isArrayInstrumentation key else none) with
  | some name => pure (.fn (.arrayInstrumentation name))
  | none => do
    let res ← k (.get target key receiver)
    if isSymbol key && isBuiltInSymbol key then pure res
    else if shallow then do
      track k target "get" key
      pure res
    else do
      let resIsRef ← isRef k res
      if resIsRef && !isArray (← getW) target then k (.get res (.str "value") res)
      else do
        track k target "get" key
        if isObject (← getW) res then
          (if isReadonly then readonly k res else reactive k res)
        else pure res) : M Value) w0

/-- The trap `set` made by `createSetter(isReadonly, shallow)`. -/
def createSetter (isReadonly shallow : Bool) (k : Interp) (target key value receiver : Value) :
    M Value := fun w0 => (( do
  let w ← getW
  if isReadonly && w.LOCKED then do
    warn "Set operation failed: target is readonly."
    pure (.bool true)
  else do
    let oldValue ← k (.get target key target)
    let w0 ← getW
    let value := if !shallow then toRaw w0 value else value
    let redirect ← (do
      if !shallow then
        if !isArray (← getW) target then
          if ← isRef k oldValue then
            if !(← isRef k value) then pure true else pure false
          else pure false
        else pure false
      else pure false)
    if redirect then do
      let _ ← k (.set oldValue (.str "value") value oldValue)
      pure (.bool true)
    else do
      let w1 ← getW
      let hadKey := hasOwn w1 (w1.heap.length + 1) target key
      let result ← k (.set target key value receiver)
      (if target = toRaw (← getW) receiver then
        if !hadKey then trigger k target "add" key value .undefined .undefined
        else if hasChanged value oldValue then trigger k target "set" key value oldValue .undefined
        else pure ()
      else pure ())
      pure result) : M Value) w0

/-- The trap `deleteProperty` of the mutable handlers. -/
def deleteProperty (k : Interp) (target key : Value) : M Value := fun w0 => (( do
  let w ← getW
  let hadKey := hasOwn w (w.heap.length + 1) target key
  let oldValue ← k (.get target key target)
  let result ← k (.deleteProperty target key)
  (if truthy result && hadKey then trigger k target "delete" key .undefined oldValue .undefined
   else pure ())
  pure result) : M Value) w0

/-- The trap `has`. -/
def has (k : Interp) (target key : Value) : M Value := fun w0 => (( do
  let result ← k (.has target key)
  track k target "has" key
  pure result) : M Value) w0

/-- The trap `ownKeys`. -/
def ownKeys (k : Interp) (target : Value) : M Value := fun w0 => (( do
  track k target "iterate" ITERATE_KEY
  k (.ownKeys target)) : M Value) w0

/-- The trap `deleteProperty` of `readonlyHandlers`. -/
def readonlyDeleteProperty (k : Interp) (target key : Value) : M Value := fun w0 => (( do
  if (← getW).LOCKED then do
    warn "Delete operation failed: target is readonly."
    pure (.bool true)
  else deleteProperty k target key) : M Value) w0

/-! ## collectionHandlers.js -/

def toReactive (k : Interp) (value : Value) : M Value := fun w0 => (( do
  if isObject (← getW) value then reactive k value else pure value) : M Value) w0

def toReadonly (k : Interp) (value : Value) : M Value := fun w0 => (( do
  if isObject (← getW) value then readonly k value else pure value) : M Value) w0

/-- The wrap function chosen by `isReadonly ? toReadonly : toReactive`. -/
def wrapWith (isReadonly : Bool) (k : Interp) (value : Value) : M Value := fun w0 => ((
  if isReadonly then toReadonly k value else toReactive k value) : M Value) w0

/-- The names defined on the prototype of a collection class. -/
def collectionProtoNames : Kind → List String
  | .Map => ["get", "set", "has", "delete", "clear", "forEach", "keys", "values", "entries",
             "size"]
  | .Set => ["has", "add", "delete", "clear", "forEach", "keys", "values", "entries", "size"]
  | .WeakMap => ["get", "set", "has", "delete"]
  | .WeakSet => ["add", "has", "delete"]
  | _ => []

/-- `getProto(target)[name].call(target, ...args)` for a raw collection: the built-in
method of `Map`, `Set`, `WeakMap` or `WeakSet`.  Keys are compared by SameValueZero. -/
def protoCall (name : String) (target : Value) (args : List Value) : M Value := fun w0 => (( do
  let w ← getW
  match target with
  | .obj t =>
    match w.cell? t with
    | some (.raw kind props entries) =>
      if name ∈ collectionProtoNames kind then
        let key := args.headD .undefined
        let value := (args.tail).headD .undefined
        if name = "has" then pure (.bool (alookup key entries).isSome)
        else if name = "get" then pure ((alookup key entries).getD .undefined)
        else if name = "add" then do
          modifyW fun w => w.setCell t (.raw kind props
            (if (alookup key entries).isSome then entries else entries ++ [(key, key)]))
          pure target
        else if name = "set" then do
          modifyW fun w => w.setCell t (.raw kind props (ainsert key value entries))
          pure target
        else if name = "delete" then do
          modifyW fun w => w.setCell t (.raw kind props (aerase key entries))
          pure (.bool (alookup key entries).isSome)
        else if name = "clear" then do
          modifyW fun w => w.setCell t (.raw kind props [])
          pure .undefined
        else unsupportedM
      else throwE TypeError
    | _ => throwE TypeError
  | _ => throwE TypeError) : M Value) w0

/-- `Reflect.get(getProto(target), 'size', target)`: the `size` accessor of `Map.prototype`
or `Set.prototype` run on `target`. -/
def protoSize (target : Value) : M Value := fun w0 => (( do
  match target with
  | .obj t =>
    match (← getW).cell? t with
    | some (.raw .Map _ entries) => pure (.num (Decimal.ofInt entries.length))
    | some (.raw .Set _ entries) => pure (.num (Decimal.ofInt entries.length))
    | some (.raw .WeakMap _ _) => pure .undefined
    | some (.raw .WeakSet _ _) => pure .undefined
    | _ => throwE TypeError
  | _ => throwE TypeError) : M Value) w0

/-- The instrumented `get`: `get$1(target, key, wrap)`. -/
def get_1 (k : Interp) (target key : Value) (isReadonly : Bool) : M Value := fun w0 => (( do
  let w ← getW
  let target := toRaw w target
  let key := toRaw w key
  track k target "get" key
  let res ← protoCall "get" target [key]
  wrapWith isReadonly k res) : M Value) w0

/-- The instrumented `has`: `has$1(key)`. -/
def has_1 (k : Interp) (this key : Value) : M Value := fun w0 => (( do
  let w ← getW
  let target := toRaw w this
  let key := toRaw w key
  track k target "has" key
  protoCall "has" target [key]) : M Value) w0

/-- The instrumented accessor `size(target)`. -/
def size (k : Interp) (target : Value) : M Value := fun w0 => (( do
  let target := toRaw (← getW) target
  track k target "iterate" ITERATE_KEY
  protoSize target) : M Value) w0

/-- The instrumented `add(value)`. -/
def add (k : Interp) (this value : Value) : M Value := fun w0 => (( do
  let w ← getW
  let value := toRaw w value
  let target := toRaw w this
  let hadKey ← protoCall "has" target [value]
  let result ← protoCall "add" target [value]
  (if !truthy hadKey then trigger k target "add" value value .undefined .undefined else pure ())
  pure result) : M Value) w0

/-- The instrumented `set`: `set$1(key, value)`. -/
def set_1 (k : Interp) (this key value : Value) : M Value := fun w0 => (( do
  let w ← getW
  let value := toRaw w value
  let key := toRaw w key
  let target := toRaw w this
  let hadKey ← protoCall "has" target [key]
  let oldValue ← protoCall "get" target [key]
  let result ← protoCall "set" target [key, value]
  (if !truthy hadKey then trigger k target "add" key value .undefined .undefined
   else if hasChanged value oldValue then trigger k target "set" key value oldValue .undefined
   else pure ())
  pure result) : M Value) w0

/-- Does the prototype of the raw collection define `name`? (`proto.get ? ... : undefined`) -/
def protoDefines (w : World) (target : Value) (name : String) : Bool :=
  match target with
  | .obj t =>
    match w.cell? t with
    | some (.raw kind _ _) => decide (name ∈ collectionProtoNames kind)
    | _ => false
  | _ => false

/-- The instrumented `delete`: `deleteEntry(key)`. -/
def deleteEntry (k : Interp) (this key : Value) : M Value := fun w0 => (( do
  let w ← getW
  let key := toRaw w key
  let target := toRaw w this
  let hadKey ← protoCall "has" target [key]
  let oldValue ← (if protoDefines w target "get" then protoCall "get" target [key]
    else pure .undefined)
  let result ← protoCall "delete" target [key]
  (if truthy hadKey then trigger k target "delete" key .undefined oldValue .undefined else pure ())
  pure result) : M Value) w0

/-- The instrumented `clear()`. -/
def clear (k : Interp) (this : Value) : M Value := fun w0 => (( do
  let w ← getW
  let target := toRaw w this
  let sz ← k (.get target (.str "size") target)
  let hadItems := !strictEq sz (.num (Decimal.ofInt 0))
  let oldTarget ← (match target with
    | .obj t =>
      match w.cell? t with
      | some (.raw kind _ entries) =>
        alloc (.raw (if kind = .Map then .Map else .Set) [] entries)
      | _ => unsupportedM
    | _ => unsupportedM)
  let result ← protoCall "clear" target []
  (if hadItems then trigger k target "clear" .undefined .undefined (.obj oldTarget) .undefined
   else pure ())
  pure result) : M Value) w0

/-- The method made by `createReadonlyMethod(method, type)`, given the original method. -/
def createReadonlyMethod (method : M Value) (type : String) (this : Value) : M Value := fun w0 => (( do
  if (← getW).LOCKED then do
    warn (type ++ " operation failed: target is readonly.")
    pure (if type = "delete" then .bool false else this)
  else method) : M Value) w0

/-- The own keys of `mutableInstrumentations` and `readonlyInstrumentations`. -/
def isInstrumentation : Value → Option String
  | .str s =>
    if s ∈ ["get", "size", "has", "add", "set", "delete", "clear", "forEach", "keys", "values",
            "entries"] then some s else none
  | .sym (.builtIn 1) => some "Symbol.iterator"
  | _ => none

/-- The trap `get` made by `createInstrumentationGetter(instrumentations)`. -/
def createInstrumentationGetter (isReadonly : Bool) (k : Interp)
    (target key receiver : Value) : M Value := fun w0 => (( do
  match isInstrumentation key with
  | some name => do
    let inTarget ← k (.has target key)
    if truthy inTarget then
      if name = "size" then size k receiver
      else pure (.fn (.instrumentation isReadonly name))
    else k (.get target key receiver)
  | none => k (.get target key receiver)) : M Value) w0

/-- Calling a method of `mutableInstrumentations` or `readonlyInstrumentations`. -/
def callInstrumentation (isReadonly : Bool) (name : String) (k : Interp) (this : Value)
    (args : List Value) : M Value := fun w0 => ((
  let a0 := args.headD .undefined
  let a1 := (args.tail).headD .undefined
  if name = "get" then get_1 k this a0 isReadonly
  else if name = "has" then has_1 k this a0
  else if name = "add" then
    (if isReadonly then createReadonlyMethod (add k this a0) "add" this else add k this a0)
  else if name = "set" then
    (if isReadonly then createReadonlyMethod (set_1 k this a0 a1) "set" this
     else set_1 k this a0 a1)
  else if name = "delete" then
    (if isReadonly then createReadonlyMethod (deleteEntry k this a0) "delete" this
     else deleteEntry k this a0)
  else if name = "clear" then
    (if isReadonly then createReadonlyMethod (clear k this) "clear" this else clear k this)
  else unsupportedM) : M Value) w0

/-! ## Raw objects: the built-in behaviour of `Reflect.*` on an object that is not a proxy -/

/-- The number named by a canonical array index (`"0"`, `"1"`, ...). -/
def isCanonicalIndex (s : String) : Option Nat :=
  if s.data ≠ [] ∧ s.data.all Char.isDigit ∧ (s.data.head? ≠ some (Char.ofNat 48) ∨ s.data.length = 1)
  then some (digitsToNat s.data) else none

/-- The property key a value denotes (`ToPropertyKey`), for strings, symbols, natural
numbers and the primitive constants. -/
def toPropertyKey : Value → Option Value
  | .str s => some (.str s)
  | .sym s => some (.sym s)
  | .num ⟨Int.ofNat n, 0⟩ => some (.str (Nat.repr n))
  | .undefined => some (.str "undefined")
  | .null => some (.str "null")
  | .bool true => some (.str "true")
  | .bool false => some (.str "false")
  | .nan => some (.str "NaN")
  | _ => none

def kindName : Kind → String
  | .Object => "Object"
  | .Array => "Array"
  | .Map => "Map"
  | .Set => "Set"
  | .WeakMap => "WeakMap"
  | .WeakSet => "WeakSet"
  | .Other => "Other"

/-- Is `key` found on the prototype chain of a raw object of this class? -/
def protoHas (kind : Kind) : Value → Bool
  | .str s =>
    s = "constructor" || decide (s ∈ collectionProtoNames kind) ||
      (kind = .Array && (isArrayInstrumentation (.str s)).isSome)
  | .sym (.builtIn 0) => decide (collectionProtoNames kind ≠ [])
  | .sym (.builtIn 1) => kind = .Map || kind = .Set || kind = .Array
  | _ => false

/-- The value of an inherited property that is not an accessor. -/
def protoGet (kind : Kind) : Value → Value
  | .str s =>
    if s = "constructor" then .fn (.ctor kind)
    else if s ∈ collectionProtoNames kind then .fn (.proto kind s)
    else if kind = .Array && (isArrayInstrumentation (.str s)).isSome then .fn (.proto kind s)
    else .undefined
  | .sym (.builtIn 0) => if collectionProtoNames kind ≠ [] then .str (kindName kind) else .undefined
  | .sym (.builtIn 1) =>
    if kind = .Map || kind = .Set || kind = .Array then .fn (.proto kind "Symbol.iterator")
    else .undefined
  | _ => .undefined

/-- The current `length` of a raw array. -/
def arrayLength (props : List (Value × Value)) : Nat :=
  match alookup (.str "length") props with
  | some (.num ⟨Int.ofNat n, 0⟩) => n
  | _ => 0

/-- Outcome of a write to an own property of a raw object. -/
inductive SetOutcome where
  | ok (props : List (Value × Value))
  | rangeError
  | unsupported

/-- The own properties after `target[key] = value` on a raw object; an array keeps its
`length` in step with its indices. -/
def rawSetProps (kind : Kind) (props : List (Value × Value)) (key value : Value) : SetOutcome :=
  match kind, key with
  | .Array, .str s =>
    if s = "length" then
      match value with
      | .num ⟨Int.ofNat n, 0⟩ =>
        .ok (ainsert key value (props.filter fun kv =>
          match kv.1 with
          | .str s1 =>
            match isCanonicalIndex s1 with
            | some i => decide (i < n)
            | none => true
          | _ => true))
      | .num _ => .rangeError
      | .nan => .rangeError
      | _ => .unsupported
    else
      match isCanonicalIndex s with
      | some i =>
        if i < arrayLength props then .ok (ainsert key value props)
        else .ok (ainsert (.str "length") (.num (Decimal.ofInt (i + 1))) (ainsert key value props))
      | none => .ok (ainsert key value props)
  | _, _ => .ok (ainsert key value props)

/-- The raw object behind a chain of proxies. -/
def underlying (w : World) : Nat → Value → Value
  | 0, v => v
  | n + 1, .obj a =>
    match w.cell? a with
    | some (.proxy t _) => underlying w n (.obj t)
    | _ => .obj a
  | _ + 1, v => v

/-- The elements of a raw array, in index order. -/
def arrayElems (props : List (Value × Value)) : List Value :=
  (List.range (arrayLength props)).map fun i => (alookup (.str (Nat.repr i)) props).getD .undefined

/-- Position of the first element equal to `x`. -/
def indexOfAux (eq : Value → Value → Bool) (x : Value) : List Value → Nat → Option Nat
  | [], _ => none
  | y :: ys, i => if eq y x then some i else indexOfAux eq x ys (i + 1)

def lastIndexOfAux (eq : Value → Value → Bool) (x : Value) : List Value → Nat → Option Nat → Option Nat
  | [], _, acc => acc
  | y :: ys, i, acc => lastIndexOfAux eq x ys (i + 1) (if eq y x then some i else acc)

def indexValue : Option Nat → Value
  | some i => .num (Decimal.ofInt i)
  | none => .num (Decimal.ofInt (-1))

/-- `arr[name](...args)` for `includes`, `indexOf`, `lastIndexOf` on a raw array, called
with one argument. -/
def arraySearch (name : String) (props : List (Value × Value)) (x : Value) : M Value := fun w0 => ((
  if name = "includes" then
    pure (.bool (indexOfAux (fun a b => decide (a = b)) x (arrayElems props) 0).isSome)
  else if name = "indexOf" then pure (indexValue (indexOfAux strictEq x (arrayElems props) 0))
  else if name = "lastIndexOf" then
    pure (indexValue (lastIndexOfAux strictEq x (arrayElems props) 0 none))
  else unsupportedM) : M Value) w0

/-- The function `arrayInstrumentations[name]` called on `this` with `args`. -/
def arrayInstrumentation (name : String) (k : Interp) (this : Value) (args : List Value) :
    M Value := fun w0 => (( do
  let arr := toRaw (← getW) this
  let l ← k (.get this (.str "length") this)
  match l with
  | .num ⟨Int.ofNat n, 0⟩ => do
    forEachM (fun i => track k arr "get" (.str (Nat.repr i))) (List.range n)
    let w ← getW
    match arr with
    | .obj a =>
      match w.cell? a with
      | some (.raw .Array props _) => arraySearch name props (toRaw w (args.headD .undefined))
      | _ => unsupportedM
    | _ => unsupportedM
  | _ => unsupportedM) : M Value) w0

/-! ## Object-internal operations -/

/-- `Reflect.get(target, key, receiver)`. -/
def getImpl (k : Interp) (target key receiver : Value) : M Value := fun w0 => (( do
  match target with
  | .undefined => throwE TypeError
  | .null => throwE TypeError
  | .obj a =>
    match (← getW).cell? a with
    | none => unsupportedM
    | some (.proxy t .mutableHandlers) => createGetter false false k (.obj t) key receiver
    | some (.proxy t .readonlyHandlers) => createGetter true false k (.obj t) key receiver
    | some (.proxy t .shallowReactiveHandlers) => createGetter false true k (.obj t) key receiver
    | some (.proxy t .shallowReadonlyHandlers) => createGetter true true k (.obj t) key receiver
    | some (.proxy t .mutableCollectionHandlers) =>
      createInstrumentationGetter false k (.obj t) key receiver
    | some (.proxy t .readonlyCollectionHandlers) =>
      createInstrumentationGetter true k (.obj t) key receiver
    | some (.raw kind props _) =>
      match alookup key props with
      | some v => pure v
      | none =>
        if key = .str "size" && (kind = .Map || kind = .Set) then
          (if kindOf (← getW) 1 receiver = some kind then protoSize receiver else throwE TypeError)
        else pure (protoGet kind key)
    | some (.ref _ _) =>
      if key = .str "value" then refGetValue k a
      else if key = .str "_isRef" then pure (.bool true)
      else pure .undefined
    | some (.computed _ _ runner _) =>
      if key = .str "value" then computedGetValue k a
      else if key = .str "_isRef" then pure (.bool true)
      else if key = .str "effect" then pure runner
      else pure .undefined
    | some (.proxyRef object pkey) =>
      if key = .str "value" then k (.get object pkey object)
      else if key = .str "_isRef" then pure (.bool true)
      else pure .undefined
    | some (.effect r) =>
      if key = .str "_isEffect" then pure (.bool true)
      else if key = .str "active" then pure (.bool r.active)
      else if key = .str "raw" then pure r.raw
      else if key = .str "deps" || key = .str "options" then unsupportedM
      else pure .undefined
    | some _ => pure .undefined
  | _ => pure .undefined) : M Value) w0

/-- `Reflect.set(target, key, value, receiver)`; the result is the success flag. -/
def setImpl (k : Interp) (target key value receiver : Value) : M Value := fun w0 => (( do
  match target with
  | .undefined => throwE TypeError
  | .null => throwE TypeError
  | .obj a =>
    let w ← getW
    match w.cell? a with
    | none => unsupportedM
    | some (.proxy t .mutableHandlers) => createSetter false false k (.obj t) key value receiver
    | some (.proxy t .readonlyHandlers) => createSetter true false k (.obj t) key value receiver
    | some (.proxy t .shallowReactiveHandlers) =>
      createSetter false true k (.obj t) key value receiver
    | some (.proxy t .shallowReadonlyHandlers) =>
      createSetter true true k (.obj t) key value receiver
    | some (.proxy t _) => k (.set (.obj t) key value receiver)
    | some (.raw kind props entries) =>
      if underlying w (w.heap.length + 1) receiver = target then
        match rawSetProps kind props key value with
        | .ok props1 => do
          modifyW fun w => w.setCell a (.raw kind props1 entries)
          pure (.bool true)
        | .rangeError => throwE RangeError
        | .unsupported => unsupportedM
      else unsupportedM
    | some (.ref _ _) =>
      if key = .str "value" then do
        refSetValue k a value
        pure (.bool true)
      else unsupportedM
    | some (.computed _ _ _ _) =>
      if key = .str "value" then do
        computedSetValue k a value
        pure (.bool true)
      else unsupportedM
    | some (.proxyRef object pkey) =>
      if key = .str "value" then k (.set object pkey value object)
      else unsupportedM
    | some _ => unsupportedM
  | _ => unsupportedM) : M Value) w0

/-- `Reflect.has(target, key)`. -/
def hasImpl (k : Interp) (target key : Value) : M Value := fun w0 => (( do
  match target with
  | .obj a =>
    let w ← getW
    match w.cell? a with
    | none => unsupportedM
    | some (.proxy t .mutableCollectionHandlers) => k (.has (.obj t) key)
    | some (.proxy t .readonlyCollectionHandlers) => k (.has (.obj t) key)
    | some (.proxy t _) => has k (.obj t) key
    | some (.raw kind props _) => pure (.bool ((alookup key props).isSome || protoHas kind key))
    | some c => pure (.bool (decide (key ∈ ownKeysOf c)))
  | _ => throwE TypeError) : M Value) w0

/-- Is `key` a non-configurable own property of the object behind `target`?  Of the
objects a script can build, only the `length` of an array is one. -/
def nonConfigurableOwn (w : World) (target key : Value) : Bool :=
  isArray w target && key = .str "length"

/-- `Reflect.deleteProperty(target, key)`.  On a proxy whose `deleteProperty` trap does not
forward to the target (the readonly handlers while locked), the `[[Delete]]` method of the
proxy checks the trap's answer: success reported for a non-configurable own property of the
target is a TypeError. -/
def deleteImpl (k : Interp) (target key : Value) : M Value := fun w0 => (( do
  match target with
  | .obj a =>
    let w ← getW
    match w.cell? a with
    | none => unsupportedM
    | some (.proxy t .mutableHandlers) => deleteProperty k (.obj t) key
    | some (.proxy t .shallowReactiveHandlers) => deleteProperty k (.obj t) key
    | some (.proxy t .readonlyHandlers) => do
      let result ← readonlyDeleteProperty k (.obj t) key
      if truthy result && nonConfigurableOwn (← getW) (.obj t) key then throwE TypeError
      else pure result
    | some (.proxy t .shallowReadonlyHandlers) => do
      let result ← readonlyDeleteProperty k (.obj t) key
      if truthy result && nonConfigurableOwn (← getW) (.obj t) key then throwE TypeError
      else pure result
    | some (.proxy t _) => k (.deleteProperty (.obj t) key)
    | some (.raw kind props entries) =>
      if kind = .Array && key = .str "length" then pure (.bool false)
      else do
        modifyW fun w => w.setCell a (.raw kind (aerase key props) entries)
        pure (.bool true)
    | some _ => unsupportedM
  | _ => throwE TypeError) : M Value) w0

/-- `Reflect.ownKeys(target)`; the result is a fresh array of the keys. -/
def ownKeysImpl (k : Interp) (target : Value) : M Value := fun w0 => (( do
  match target with
  | .obj a =>
    let w ← getW
    match w.cell? a with
    | none => unsupportedM
    | some (.proxy t .mutableCollectionHandlers) => k (.ownKeys (.obj t))
    | some (.proxy t .readonlyCollectionHandlers) => k (.ownKeys (.obj t))
    | some (.proxy t _) => ownKeys k (.obj t)
    | some c => do
      let keys := ownKeysOf c
      let arr ← alloc (.raw .Array
        ((List.range keys.length).zip keys |>.map (fun ik => (Value.str (Nat.repr ik.1), ik.2))
          |>.append [(.str "length", .num (Decimal.ofInt keys.length))]) [])
      pure (.obj arr)
  | _ => throwE TypeError) : M Value) w0

/-- Bind the parameters of a user function to the arguments of a call. -/
def bindParams : List String → List Value → List (String × Value) → List (String × Value)
  | [], _, vars => vars
  | x :: xs, [], vars => bindParams xs [] (ainsert x .undefined vars)
  | x :: xs, v :: vs, vars => bindParams xs vs (ainsert x v vars)

/-- `f.apply(this, args)`. -/
def applyImpl (k : Interp) (f this : Value) (args : List Value) : M Value := fun w0 => (( do
  match f with
  | .fn (.instrumentation ro name) => callInstrumentation ro name k this args
  | .fn (.arrayInstrumentation name) => arrayInstrumentation name k this args
  | .fn (.proto kind name) =>
    if kind = .Array then
      match this with
      | .obj a =>
        match (← getW).cell? a with
        | some (.raw .Array props _) => arraySearch name props (args.headD .undefined)
        | _ => unsupportedM
      | _ => unsupportedM
    else if kindOf (← getW) 1 this = some kind then protoCall name this args
    else throwE TypeError
  | .fn (.ctor _) => unsupportedM
  | .obj a =>
    match (← getW).cell? a with
    | some (.effect r) => run k a r.raw args
    | some (.fn params body) => do
      modifyW fun w => { w with vars := bindParams params args w.vars }
      k (.eval body)
    | some (.computedScheduler c) => do
      computedScheduler k c
      pure .undefined
    | some .computedWarnSetter => do
      warn "Write operation failed: computed value is readonly"
      pure .undefined
    | _ => throwE TypeError
  | _ => throwE TypeError) : M Value) w0

/-! ## User code -/

def evalList (k : Interp) : List Prog → M (List Value)
  | [] => pure []
  | p :: ps => do
    let v ← k (.eval p)
    let vs ← evalList k ps
    pure (v :: vs)

def evalProps (k : Interp) : List (String × Prog) → M (List (Value × Value))
  | [] => pure []
  | (x, p) :: ps => do
    let v ← k (.eval p)
    let vs ← evalProps k ps
    pure ((.str x, v) :: vs)

def evalEntries (k : Interp) : List (Prog × Prog) → M (List (Value × Value))
  | [] => pure []
  | (p, q) :: ps => do
    let a ← k (.eval p)
    let b ← k (.eval q)
    let vs ← evalEntries k ps
    pure (ainsert a b vs)

/-- The arithmetic and comparison operators available to user code. -/
def evalBinOp (op : BinOp) (a b : Value) : M Value := fun w0 => ((
  match op with
  | .strictEq => pure (.bool (strictEq a b))
  | .mul =>
    match toNumber a, toNumber b with
    | some (.num x), some (.num y) => pure (.num (x.mul y))
    | some _, some _ => pure .nan
    | _, _ => unsupportedM
  | .add =>
    match a, b with
    | .str s, .str t => pure (.str (s ++ t))
    | .str _, _ => unsupportedM
    | _, .str _ => unsupportedM
    | _, _ =>
      match toNumber a, toNumber b with
      | some (.num x), some (.num y) => pure (.num (x.add y))
      | some _, some _ => pure .nan
      | _, _ => unsupportedM) : M Value) w0

/-- The options object passed to `effect`, read as the engine reads it. -/
def readOptions (w : World) (options : Value) : Option Options :=
  match options with
  | .obj a =>
    match w.cell? a with
    | some (.raw _ props _) =>
      some { lazy := (alookup (.str "lazy") props).getD .undefined,
             computed := (alookup (.str "computed") props).getD .undefined,
             scheduler := (alookup (.str "scheduler") props).getD .undefined,
             onTrack := (alookup (.str "onTrack") props).getD .undefined,
             onTrigger := (alookup (.str "onTrigger") props).getD .undefined,
             onStop := (alookup (.str "onStop") props).getD .undefined }
    | _ => none
  | .null => none
  | _ => some {}

/-- `toProxyRef(object, key)`. -/
def toProxyRef (object key : Value) : M Value := fun w0 => (( do
  let r ← alloc (.proxyRef object key)
  pure (.obj r)) : M Value) w0

def toRefsLoop (object : Value) : List Value → M (List (Value × Value))
  | [] => pure []
  | key :: keys => do
    let r ← toProxyRef object key
    let rest ← toRefsLoop object keys
    pure ((key, r) :: rest)

/-- `toRefs(object)`; `for (const key in object)` enumerates the string keys reported by
the object. -/
def toRefs (k : Interp) (object : Value) : M Value := fun w0 => (( do
  (if !isReactive (← getW) object then
    warn "toRefs() expects a reactive object but received a plain one."
   else pure ())
  let keysArr ← k (.ownKeys object)
  match keysArr with
  | .obj a =>
    match (← getW).cell? a with
    | some (.raw .Array props _) => do
      let keys := (arrayElems props).filter fun key =>
        match key with
        | .str s => decide (s ≠ "length")
        | _ => false
      let refs ← toRefsLoop object keys
      let ret ← alloc (.raw .Object refs [])
      pure (.obj ret)
    | _ => unsupportedM
  | _ => unsupportedM) : M Value) w0

/-- A call of an exported engine function with evaluated arguments. -/
def callApi (k : Interp) (f : Api) (args : List Value) : M Value := fun w0 => ((
  let a0 := args.headD .undefined
  let a1 := (args.tail).headD .undefined
  let a2 := (args.drop 2).headD .undefined
  match f with
  | .reactive => reactive k a0
  | .readonly => readonly k a0
  | .shallowReactive => shallowReactive k a0
  | .shallowReadonly => shallowReadonly k a0
  | .isReactive => do pure (.bool (isReactive (← getW) a0))
  | .isReadonly => do pure (.bool (isReadonly (← getW) a0))
  | .toRaw => do pure (toRaw (← getW) a0)
  | .markReadonly => markReadonly a0
  | .markNonReactive => markNonReactive a0
  | .ref => ref k a0
  | .shallowRef => shallowRef k a0
  | .isRef => do pure (.bool (← isRef k a0))
  | .unref => unref k a0
  | .toRefs => toRefs k a0
  | .computed => computed k a0
  | .effect => do
    match readOptions (← getW) a1 with
    | some options => effect k a0 options
    | none => if a1 = .null then throwE TypeError else unsupportedM
  | .stop => do
    stop k a0
    pure .undefined
  | .lock => do
    modifyW lock
    pure .undefined
  | .unlock => do
    modifyW unlock
    pure .undefined
  | .pauseTracking => do
    modifyW pauseTracking
    pure .undefined
  | .enableTracking => do
    modifyW enableTracking
    pure .undefined
  | .resetTracking => do
    modifyW resetTracking
    pure .undefined
  | .track =>
    match a1 with
    | .str type => do
      track k a0 type a2
      pure .undefined
    | _ => unsupportedM
  | .trigger =>
    match a1 with
    | .str type => do
      trigger k a0 type a2 ((args.drop 3).headD .undefined) ((args.drop 4).headD .undefined)
        ((args.drop 5).headD .undefined)
      pure .undefined
    | _ => unsupportedM) : M Value) w0

/-- One level of evaluation of user code. -/
def evalProg (k : Interp) : Prog → M Value
  | .lit v => pure v
  | .var x => do pure ((alookup x (← getW).vars).getD .undefined)
  | .assign x e => do
    let v ← k (.eval e)
    modifyW fun w => { w with vars := ainsert x v w.vars }
    pure v
  | .seq a b => do
    let _ ← k (.eval a)
    k (.eval b)
  | .ite c t e => do
    let cv ← k (.eval c)
    if truthy cv then k (.eval t) else k (.eval e)
  | .binop op a b => do
    let av ← k (.eval a)
    let bv ← k (.eval b)
    evalBinOp op av bv
  | .get o key => do
    let ov ← k (.eval o)
    let kv ← k (.eval key)
    match toPropertyKey kv with
    | some pk => k (.get ov pk ov)
    | none => unsupportedM
  | .set o key v => do
    let ov ← k (.eval o)
    let kv ← k (.eval key)
    let vv ← k (.eval v)
    match toPropertyKey kv with
    | some pk => do
      let _ ← k (.set ov pk vv ov)
      pure vv
    | none => unsupportedM
  | .del o key => do
    let ov ← k (.eval o)
    let kv ← k (.eval key)
    match toPropertyKey kv with
    | some pk => k (.deleteProperty ov pk)
    | none => unsupportedM
  | .has key o => do
    let kv ← k (.eval key)
    let ov ← k (.eval o)
    match toPropertyKey kv with
    | some pk => k (.has ov pk)
    | none => unsupportedM
  | .ownKeys o => do
    let ov ← k (.eval o)
    k (.ownKeys ov)
  | .call o m args => do
    let ov ← k (.eval o)
    let f ← k (.get ov (.str m) ov)
    let vs ← evalList k args
    k (.apply f ov vs)
  | .invoke f args => do
    let fv ← k (.eval f)
    let vs ← evalList k args
    k (.apply fv .undefined vs)
  | .func params body => do
    let a ← alloc (.fn params body)
    pure (.obj a)
  | .newObj kind props entries => do
    let ps ← evalProps k props
    let es ← evalEntries k entries
    let a ← alloc (.raw kind ps es)
    pure (.obj a)
  | .api f args => do
    let vs ← evalList k args
    callApi k f vs
  | .throw e => do
    let v ← k (.eval e)
    throwE v

/-- One level of interpretation. -/
def step (k : Interp) : Call → M Value
  | .eval p => evalProg k p
  | .get target key receiver => getImpl k target key receiver
  | .set target key value receiver => setImpl k target key value receiver
  | .has target key => hasImpl k target key
  | .deleteProperty target key => deleteImpl k target key
  | .ownKeys target => ownKeysImpl k target
  | .apply f this args => applyImpl k f this args

/-- The interpreter; the first argument bounds the nesting depth of calls. -/
def interp : Nat → Interp
  | 0 => fun _ _ => .timeout
  | n + 1 => step (interp n)

/-- Run a script from the freshly loaded module. -/
def runScript (n : Nat) (p : Prog) : Res Value := interp n (.eval p) World.init

/-! ## Auxiliary definitions for the statements -/

/-- The three operations on the tracking flag. -/
inductive TrackOp where
  | pause | enable | reset
  deriving DecidableEq, Repr

def TrackOp.apply : TrackOp → World → World
  | .pause => pauseTracking
  | .enable => enableTracking
  | .reset => resetTracking

/-- Run a sequence of tracking operations, first to last. -/
def runTrackOps : List TrackOp → World → World
  | [], w => w
  | op :: ops, w => runTrackOps ops (op.apply w)

/-- Properly nested sequences: every `pause` or `enable` is closed by its own `reset`. -/
inductive Nested : List TrackOp → Prop where
  | nil : Nested []
  | pause (a b : List TrackOp) : Nested a → Nested b → Nested (.pause :: a ++ .reset :: b)
  | enable (a b : List TrackOp) : Nested a → Nested b → Nested (.enable :: a ++ .reset :: b)

/-- The state after `track` has added the active effect `e` to the set of (t, key). -/
def trackAdded (w : World) (e t : Nat) (key : Value) (r : EffectRec) : World :=
  { (w.setCell e (.effect { r with deps := r.deps ++ [(t, key)] })) with
    targetMap := ainsert t (ainsert key (w.dep t key ++ [e])
      ((alookup t w.targetMap).getD [])) w.targetMap }

/-- A state in which effect `1` is running and has not read anything yet. -/
def trackWorld : World :=
  { heap := [.raw .Object [(.str "x", .num (Decimal.ofInt 1))] [],
             .effect { raw := .undefined, active := true, deps := [], options := {} }],
    effectStack := [1], activeEffect := some 1 }

/-- The `options.computed` flag of an effect, read as `addRunners` reads it. -/
def isComputedRunner (w : World) (e : Nat) : Bool :=
  match w.effect? e with
  | some r => truthy r.options.computed
  | none => false

/-- One iteration of the `forEach` in `addRunners`. -/
def addRunner (w : World) (acc : List Nat × List Nat) (effect : Nat) : List Nat × List Nat :=
  if some effect ≠ w.activeEffect then
    match w.effect? effect with
    | some r =>
      if truthy r.options.computed then (acc.1, sadd effect acc.2)
      else (sadd effect acc.1, acc.2)
    | none => (sadd effect acc.1, acc.2)
  else acc

/-- What `trigger` relies on about the pair (effects, computedRunners) it builds: no
duplicates, the split by the `computed` flag, and the running effect left out. -/
structure Runners (w : World) (acc : List Nat × List Nat) : Prop where
  nodup1 : acc.1.Nodup
  nodup2 : acc.2.Nodup
  plain : ∀ e ∈ acc.1, isComputedRunner w e = false
  computed : ∀ e ∈ acc.2, isComputedRunner w e = true
  notActive : ∀ e, e ∈ acc.1 ∨ e ∈ acc.2 → some e ≠ w.activeEffect

/-- Add every set of a list with `addRunners`, first to last. -/
def addAll (w : World) (sets : List (List Nat)) (acc : List Nat × List Nat) :
    List Nat × List Nat :=
  sets.foldl (fun acc d => addRunners w acc (some d)) acc

/-- The subscriber sets chosen by the array-length branch of `trigger`: those stored under
`'length'` and under every key `k` with `k >= newValue`. -/
def lengthSets (newValue : Value) : List (Value × List Nat) → M (List (List Nat))
  | [] => pure []
  | (key, dep) :: rest =>
    if key = .str "length" then do
      let sets ← lengthSets newValue rest
      pure (dep :: sets)
    else
      match geJS key newValue with
      | .res true => do
        let sets ← lengthSets newValue rest
        pure (dep :: sets)
      | .res false => lengthSets newValue rest
      | .typeError => throwE TypeError
      | .unsupported => unsupportedM

/-- The subscriber sets resolved by `trigger`, in the order in which it adds them: all of
them for `clear`; the array-length selection; otherwise the set of the key (when the key
is not `undefined`) and, for `add`, `delete` and a `set` on a `Map`, the set of the
iteration key. -/
def resolvedSets (w : World) (depsMap : List (Value × List Nat)) (target : Value)
    (type : String) (key newValue : Value) : M (List (List Nat)) :=
  if type = "clear" then pure (depsMap.map Prod.snd)
  else if key = .str "length" && isArray w target then lengthSets newValue depsMap
  else
    pure ((if key ≠ .undefined then (alookup key depsMap).toList else []) ++
      (if type = "add" || type = "delete" || (type = "set" && instanceofMap w target) then
        (alookup (if isArray w target then .str "length" else ITERATE_KEY) depsMap).toList
       else []))

/-! ### Scripts -/

def nlit (i : Int) : Prog := .lit (.num (Decimal.ofInt i))

def slit (x : String) : Prog := .lit (.str x)

def blit (b : Bool) : Prog := .lit (.bool b)

def undefinedLit : Prog := .lit .undefined

/-- Statements in sequence. -/
def block : List Prog → Prog
  | [] => .lit .undefined
  | [p] => p
  | p :: ps => .seq p (block ps)

/-- `x++` for a script variable. -/
def incr (x : String) : Prog := .assign x (.binop .add (.var x) (nlit 1))

/-- The value of a script variable when the script has ended, normally or by an
exception. -/
def varOf (r : Res Value) (x : String) : Option Value :=
  match r with
  | .ok _ w => alookup x w.vars
  | .throw _ w => alookup x w.vars
  | _ => none

/-- The exception a script ended with. -/
def thrownBy (r : Res Value) : Option Value :=
  match r with
  | .throw e _ => some e
  | _ => none

/-- A state with a tracked object `0`, plain effects `1` and `3` and an effect `2` flagged
`computed`; all three subscribe to key `x`, effects `3` and `2` to the iterate marker. -/
def dispatchWorld : World :=
  { heap := [.raw .Object [(.str "x", .num (Decimal.ofInt 1))] [],
             .effect { raw := .undefined, active := true, deps := [], options := {} },
             .effect { raw := .undefined, active := true, deps := [],
                       options := { computed := .bool true } },
             .effect { raw := .undefined, active := true, deps := [], options := {} }],
    targetMap := [(0, [(.str "x", [1, 2, 3]), (ITERATE_KEY, [3, 2])])] }

/-- `const a = reactive({ x: 0 }); effect(() => { runs1++; if (a.x === 1) throw 'boom' });
effect(() => { runs2++; a.x }); a.x = 1`: the first subscriber of `a.x` throws when it is
dispatched. -/
def throwingSubscriber : Prog := block [
  .assign "runs1" (nlit 0),
  .assign "runs2" (nlit 0),
  .assign "a" (.api .reactive [.newObj .Object [("x", nlit 0)] []]),
  .api .effect [.func [] (block [incr "runs1",
    .ite (.binop .strictEq (.get (.var "a") (slit "x")) (nlit 1)) (.throw (slit "boom"))
      undefinedLit])],
  .api .effect [.func [] (block [incr "runs2", .get (.var "a") (slit "x")])],
  .set (.var "a") (slit "x") (nlit 1)]

/-- `const s = reactive(new Set()); effect(() => { runs++; h = s.has(undefined) });
s.add(undefined); now = s.has(undefined)`. -/
def setAddUndefined : Prog := block [
  .assign "runs" (nlit 0),
  .assign "s" (.api .reactive [.newObj .Set [] []]),
  .api .effect [.func [] (block [incr "runs",
    .assign "h" (.call (.var "s") "has" [undefinedLit])])],
  .call (.var "s") "add" [undefinedLit],
  .assign "now" (.call (.var "s") "has" [undefinedLit])]

/-- The array literal `[1, 2, 3]`. -/
def array123 : Prog :=
  .newObj .Array [("0", nlit 1), ("1", nlit 2), ("2", nlit 3), ("length", nlit 3)] []

/-- `const arr = reactive([1, 2, 3]); effect(() => { runs++; Reflect.ownKeys(arr);
arr.length }); arr.length = 0`. -/
def lengthAfterOwnKeys : Prog := block [
  .assign "runs" (nlit 0),
  .assign "arr" (.api .reactive [array123]),
  .api .effect [.func [] (block [incr "runs", .ownKeys (.var "arr"),
    .get (.var "arr") (slit "length")])],
  .set (.var "arr") (slit "length") (nlit 0)]

/-- `const c = computed({ get: () => 1 }); before = c.value; c.value = 5`. -/
def writeComputedWithoutSet : Prog := block [
  .assign "c" (.api .computed [.newObj .Object [("get", .func [] (nlit 1))] []]),
  .assign "before" (.get (.var "c") (slit "value")),
  .set (.var "c") (slit "value") (nlit 5)]

/-- `const c = computed(() => 1); before = c.value; c.value = 5; after = c.value`. -/
def writeComputedGetter : Prog := block [
  .assign "c" (.api .computed [.func [] (nlit 1)]),
  .assign "before" (.get (.var "c") (slit "value")),
  .set (.var "c") (slit "value") (nlit 5),
  .assign "after" (.get (.var "c") (slit "value"))]

/-- The value `Reflect.get` finds for a key of a raw object: the own property, else the
inherited one. -/
def rawProp (kind : Kind) (props : List (Value × Value)) (key : Value) : Value :=
  (alookup key props).getD (protoGet kind key)

/-- The interpreter reads the properties of a raw object (other than the accessor `size`)
as `Reflect.get` does, without touching the state. -/
def ReadsRaw (k : Interp) : Prop :=
  ∀ (w : World) (o : Nat) (kind : Kind) (props entries : List (Value × Value))
    (key recv : Value), w.cell? o = some (.raw kind props entries) → key ≠ .str "size" →
    k (.get (.obj o) key recv) w = .ok (rawProp kind props key) w

/-- `canObserve` for a raw object, computed from its cell. -/
def observableRaw (w : World) (o : Nat) (kind : Kind) (props : List (Value × Value)) : Bool :=
  !truthy (rawProp kind props (.str "_isVue")) && (!truthy (rawProp kind props (.str "_isVNode")) &&
    (isObservableType w (.obj o) && !wsHas w.nonReactiveValues (.obj o)))

/-- The handlers `createReactiveObject` picks for a raw object. -/
def handlersFor (kind : Kind) (props : List (Value × Value))
    (baseHandlers collectionHandlers : Handlers) : Handlers :=
  if isCollectionCtor (rawProp kind props (.str "constructor")) then collectionHandlers
  else baseHandlers

/-- The outcome of `createReactiveObject` on a raw object. -/
def wrapRaw (w : World) (o : Nat) (kind : Kind) (props : List (Value × Value)) (f : Family)
    (baseHandlers collectionHandlers : Handlers) : Value × World :=
  match alookup o (w.toProxy f) with
  | some observed => (.obj observed, w)
  | none =>
    if wmHas (w.toRawMap f) (.obj o) then (.obj o, w)
    else if observableRaw w o kind props then
      (.obj w.heap.length,
        ({ w with heap := w.heap ++ [Cell.proxy o (handlersFor kind props baseHandlers
            collectionHandlers)] }).register f o w.heap.length)
    else (.obj o, w)

/-- What the identity maps hold about a raw object `o`: it is not registered as a wrapper,
its wrappers are registered back to it, and no address beyond the heap is registered. -/
structure RawEntry (w : World) (o : Nat) : Prop where
  notWrapper1 : alookup o w.reactiveToRaw = none
  notWrapper2 : alookup o w.readonlyToRaw = none
  reactiveInv : ∀ p, alookup o w.rawToReactive = some p → alookup p w.reactiveToRaw = some o
  readonlyInv : ∀ r, alookup o w.rawToReadonly = some r →
    alookup r w.readonlyToRaw = some o ∧ alookup r w.reactiveToRaw = none ∧
    alookup r w.rawToReadonly = none ∧ isObject w (.obj r) = true ∧ r < w.heap.length
  fresh : ∀ a, w.heap.length ≤ a →
    alookup a w.reactiveToRaw = none ∧ alookup a w.rawToReadonly = none

/-- The claim of C11 for a wrapper `x` of `o`, in a state `w1`. -/
def ReadonlyOfWrapper (k : Interp) (o : Nat) (x : Value) (w1 : World) : Prop :=
  ∃ r w2, readonly k x w1 = .ok r w2 ∧ readonly k (.obj o) w1 = .ok r w2 ∧ toRaw w2 r = .obj o

/-- The state after a fresh mutable wrapper of `o` has been registered. -/
def wrappedReactive (w : World) (o : Nat) (h : Handlers) : World :=
  ({ w with heap := w.heap ++ [Cell.proxy o h] } : World).register .reactive o w.heap.length

/-- A state holding one raw object `{ x: 1 }` and nothing else. -/
def oneObjectWorld : World :=
  { heap := [.raw .Object [(.str "x", .num (Decimal.ofInt 1))] []] }

/-- `const o = { x: 1 }; const p = reactive(o); const sr = shallowReadonly(p)`, followed by
`isReadonly(sr)`, `toRaw(sr)` and `isReactive(p)`. -/
def shallowReadonlyOfReactive : Prog := block [
  .assign "o" (.newObj .Object [("x", nlit 1)] []),
  .assign "p" (.api .reactive [.var "o"]),
  .assign "sr" (.api .shallowReadonly [.var "p"]),
  .assign "srIsReadonly" (.api .isReadonly [.var "sr"]),
  .assign "srRaw" (.api .toRaw [.var "sr"]),
  .assign "pIsReactive" (.api .isReactive [.var "p"])]

/-- The state after `value = v; dirty = false` in the `value` getter of the computed
cell `c`. -/
def computedStore (c : Nat) (v : Value) (w : World) : World :=
  match w.cell? c with
  | some (.computed _ _ runner setter) => w.setCell c (.computed false v runner setter)
  | _ => w

/-- The end of the `value` getter of a computed cell: `track(computed, "get", 'value');
return value`. -/
def computedTrackReturn (k : Interp) (c : Nat) : M Value := do
  track k (.obj c) "get" (.str "value")
  match (← getW).cell? c with
  | some (.computed _ value _ _) => pure value
  | _ => unsupportedM

/-- The options `computed` passes to `effect`. -/
def computedOptions (sched : Nat) : Options :=
  { lazy := .bool true, computed := .bool true, scheduler := .obj sched }

/-- The state after `computed(getter)` for a getter function: four new objects (the
warning setter, the cell with `dirty = true`, its scheduler and its runner), nothing
else. -/
def computedCreated (w : World) (getter : Value) : World :=
  { w with heap := w.heap ++
      [.computedWarnSetter,
       .computed true .undefined (.obj (w.heap.length + 3)) (.obj w.heap.length),
       .computedScheduler (w.heap.length + 1),
       .effect { raw := getter, active := true, deps := [],
                 options := computedOptions (w.heap.length + 2) }] }

/-- A state just after `const c = computed(() => 1)`: the getter is object `0`, the cell
is object `2`, its scheduler object `3` and its runner object `4`. -/
def computedWorld : World := computedCreated { heap := [.fn [] (nlit 1)] } (.obj 0)

/-- `const c = computed(() => { calls++; inner = c.value; return 7 }); v = c.value`. -/
def selfReadingComputed : Prog := block [
  .assign "calls" (nlit 0),
  .assign "c" (.api .computed [.func [] (block [incr "calls",
    .assign "inner" (.get (.var "c") (slit "value")), nlit 7])]),
  .assign "v" (.get (.var "c") (slit "value"))]

/-- The final state of a completion is related by `R` to the state `w` the computation
started in. -/
def Res.Rel {α : Type} (R : World → World → Prop) (w : World) : Res α → Prop
  | .ok _ w1 => R w w1
  | .throw _ w1 => R w w1
  | .timeout => True
  | .unsupported => True

/-- Every completion of `m`, normal or abrupt, ends in a state related by `R` to the
state it started in. -/
structure Preserves {α : Type} (R : World → World → Prop) (m : M α) : Prop where
  out : ∀ w, (m w).Rel R w

/-- The last statement of `stop`: `effect.active = false`. -/
def markStopped (a : Nat) (w : World) : World :=
  match w.effect? a with
  | some r1 => w.setCell a (.effect { r1 with active := false })
  | none => w

/-- A relation between states that every state update of the engine other than the
addition made by `track` respects: it is a preorder; it relates a state to the state after
the allocation of an object that is not an effect or of a new effect without dependencies,
after a write to an object that is not an effect, after a change of the variables,
warnings, lock, identity maps, mark sets or tracking flag, after `cleanup` and after
`effect.active = false`; and it relates the state before a run of an active effect that is
not running to the state after the `finally` block whenever it relates the state in which
the body started to the one in which it ended. -/
structure StableCore (R : World → World → Prop) : Prop where
  refl : ∀ w, R w w
  trans : ∀ a b c, R a b → R b c → R a c
  alloc : ∀ (w : World) (c : Cell), (∀ r, c ≠ .effect r) → R w { w with heap := w.heap ++ [c] }
  allocEffect : ∀ (w : World) (fn : Value) (options : Options),
    R w { w with heap := w.heap ++
      [.effect { raw := fn, active := true, deps := [], options := options }] }
  setCell : ∀ w a c, (∀ r, c ≠ .effect r) → R w (w.setCell a c)
  other : ∀ w w1 : World, w1.heap = w.heap → w1.targetMap = w.targetMap →
    w1.effectStack = w.effectStack → w1.activeEffect = w.activeEffect → R w w1
  cleaned : ∀ w e, R w (cleanup e w)
  stopMark : ∀ w a, R w (markStopped a w)
  run : ∀ w e r w1, w.effect? e = some r → r.active = true → e ∉ w.effectStack →
    R (runEnter e (cleanup e w)) w1 → R w (runExit w1)

/-- A relation between states that every state update of the engine respects: those of
`StableCore`, and the addition `track` makes of the active effect to a subscriber set. -/
structure Stable (R : World → World → Prop) extends StableCore R : Prop where
  trackAdd : ∀ w e t key r, w.activeEffect = some e → w.effect? e = some r →
    e ∉ w.dep t key → R w (trackAdded w e t key r)

/-- The effect stack is the same in `w1` as in `w`, and so is the active effect when it
was the top of the stack in `w` (as it is in every state the engine reaches). -/
def Frame (w w1 : World) : Prop :=
  w1.effectStack = w.effectStack ∧
    (w.activeEffect = w.effectStack.head? → w1.activeEffect = w.activeEffect)

/-- A state holding an active effect (object `1`) whose function (object `0`) is
`() => pauseTracking()`. -/
def unbalancedWorld : World :=
  { heap := [.fn [] (.api .pauseTracking []),
             .effect { raw := .obj 0, active := true, deps := [], options := {} }] }

/-- The tracking flag and the tracking-flag stack of a state. -/
def World.tracking (w : World) : Bool × List Bool := (w.shouldTrack, w.trackStack)

/-- `const a = reactive({ x: 0 }); effect(() => { runs++; a.x = a.x + 1 }); a.x = 10`: an
effect that reads and writes the same key. -/
def selfWritingEffect : Prog := block [
  .assign "runs" (nlit 0),
  .assign "a" (.api .reactive [.newObj .Object [("x", nlit 0)] []]),
  .api .effect [.func [] (block [incr "runs",
    .set (.var "a") (slit "x") (.binop .add (.get (.var "a") (slit "x")) (nlit 1))])],
  .assign "runsAfterCreation" (.var "runs"),
  .set (.var "a") (slit "x") (nlit 10),
  .assign "x" (.get (.var "a") (slit "x"))]

/-- An effect `e` that stops itself during its second run, reads `a.x` and then writes
`a.y`; a second effect `f` answers the write of `a.y` by writing `a.x`:
`const a = reactive({ x: 0, y: 0 });
const f = effect(() => { if (a.y === 1) a.x = 5 });
const e = effect(() => { if (inside) reentered = true; inside = true; runs++;
  if (runs === 2) { stop(e); a.x; a.y = 1 } else { a.x }; inside = false });
e()`. -/
def selfStoppingEffect : Prog := block [
  .assign "runs" (nlit 0),
  .assign "inside" (blit false),
  .assign "reentered" (blit false),
  .assign "a" (.api .reactive [.newObj .Object [("x", nlit 0), ("y", nlit 0)] []]),
  .assign "f" (.api .effect [.func [] (.ite
    (.binop .strictEq (.get (.var "a") (slit "y")) (nlit 1))
    (.set (.var "a") (slit "x") (nlit 5)) undefinedLit)]),
  .assign "e" (.api .effect [.func [] (block [
    .ite (.var "inside") (.assign "reentered" (blit true)) undefinedLit,
    .assign "inside" (blit true),
    incr "runs",
    .ite (.binop .strictEq (.var "runs") (nlit 2))
      (block [.api .stop [.var "e"], .get (.var "a") (slit "x"),
        .set (.var "a") (slit "y") (nlit 1)])
      (.get (.var "a") (slit "x")),
    .assign "inside" (blit false)])]),
  .invoke (.var "e") []]

/-- The subscriber set stored at (t, key) in a target map, absence read as the empty set. -/
def depIn (tm : List (Nat × List (Value × List Nat))) (t : Nat) (key : Value) : List Nat :=
  match alookup t tm with
  | none => []
  | some depsMap => (alookup key depsMap).getD []

/-- The target map with the set at (t, key) replaced by `d`. -/
def setDep (tm : List (Nat × List (Value × List Nat))) (t : Nat) (key : Value) (d : List Nat) :
    List (Nat × List (Value × List Nat)) :=
  ainsert t (ainsert key d ((alookup t tm).getD [])) tm

/-- No key occurs twice in the target map or in one of its `depsMap`s. -/
def KeysUnique (tm : List (Nat × List (Value × List Nat))) : Prop :=
  (tm.map Prod.fst).Nodup ∧ ∀ p ∈ tm, (p.2.map Prod.fst).Nodup

/-- The registry and the reverse index agree: keys are unique; an effect is a member of
the subscriber set of (t, key) exactly when (t, key) occurs in its `deps`; no set occurs
twice in `deps`; and the members of the subscriber sets are addresses of the heap. -/
structure Consistent (w : World) : Prop where
  keys : KeysUnique w.targetMap
  index : ∀ e r, w.effect? e = some r → ∀ t key, e ∈ w.dep t key ↔ (t, key) ∈ r.deps
  nodup : ∀ e r, w.effect? e = some r → r.deps.Nodup
  valid : ∀ t key x, x ∈ w.dep t key → x < w.heap.length

/-- Consistency of the registry is kept from `w` to `w1`. -/
def StaysConsistent (w w1 : World) : Prop := Consistent w → Consistent w1

/-- `const a = reactive({ flag: true, x: 1 }); const e = effect(() => { runs++; if (a.flag)
seen = a.x }); a.flag = false; a.x = 2; stop(e)`. -/
def conditionalRead : Prog := block [
  .assign "runs" (nlit 0),
  .assign "a" (.api .reactive [.newObj .Object [("flag", blit true), ("x", nlit 1)] []]),
  .assign "e" (.api .effect [.func [] (block [incr "runs",
    .ite (.get (.var "a") (slit "flag")) (.assign "seen" (.get (.var "a") (slit "x")))
      undefinedLit])]),
  .set (.var "a") (slit "flag") (blit false),
  .assign "runsAfterFlag" (.var "runs"),
  .set (.var "a") (slit "x") (nlit 2),
  .api .stop [.var "e"]]

/-- The effect `e` is out of use: it is inactive with an empty reverse index (if it still
is an effect), it is not running, and no subscriber set of the registry holds it. -/
structure Detached (e : Nat) (w : World) : Prop where
  valid : e < w.heap.length
  inactive : ∀ r, w.effect? e = some r → r.active = false ∧ r.deps = []
  notRunning : e ∉ w.effectStack
  notActive : w.activeEffect ≠ some e
  unsubscribed : ∀ p ∈ w.targetMap, ∀ q ∈ p.2, e ∉ q.2

/-- Once out of use, the effect `e` stays out of use from `w` to `w1`. -/
def StaysDetached (e : Nat) (w w1 : World) : Prop := Detached e w → Detached e w1

/-- A state in which the effect `1` has read the key `x` of the object `0`. -/
def subscribedWorld : World :=
  { heap := [.raw .Object [(.str "x", .num (Decimal.ofInt 1))] [],
             .effect { raw := .undefined, active := true, deps := [(0, .str "x")],
                       options := {} }],
    targetMap := [(0, [(.str "x", [1])])] }

/-- `const a = reactive({ x: 0 }); const e = effect(() => { runs++; if (runs === 2) stop(e);
a.x }); a.x = 1; a.x = 2`: the effect stops itself during its second run. -/
def stoppedWhileRunning : Prog := block [
  .assign "runs" (nlit 0),
  .assign "a" (.api .reactive [.newObj .Object [("x", nlit 0)] []]),
  .assign "e" (.api .effect [.func [] (block [incr "runs",
    .ite (.binop .strictEq (.var "runs") (nlit 2)) (.api .stop [.var "e"]) undefinedLit,
    .get (.var "a") (slit "x")])]),
  .set (.var "a") (slit "x") (nlit 1),
  .assign "runsAfterStop" (.var "runs"),
  .set (.var "a") (slit "x") (nlit 2)]

/-- The state `subscribedWorld` while its effect `1` is running. -/
def runningWorld : World :=
  { subscribedWorld with effectStack := [1], activeEffect := some 1 }

/-- `const a = reactive({ x: 0 }); const e = effect(() => { runs++; a.x; if (runs === 2)
inner = e() }); e(); runsBefore = runs; a.x = 1`: during its second run the effect invokes
itself. -/
def selfInvokingEffect : Prog := block [
  .assign "runs" (nlit 0),
  .assign "a" (.api .reactive [.newObj .Object [("x", nlit 0)] []]),
  .assign "e" (.api .effect [.func [] (block [incr "runs", .get (.var "a") (slit "x"),
    .ite (.binop .strictEq (.var "runs") (nlit 2))
      (.assign "inner" (.invoke (.var "e") [])) undefinedLit])]),
  .invoke (.var "e") [],
  .assign "runsBefore" (.var "runs"),
  .set (.var "a") (slit "x") (nlit 1)]

/-- `const o = reactive({ a: ref(1) }); effect(() => { runs++; seen = o.a });
o.a = ref(2); now = o.a`. -/
def refSlotReplaced : Prog := block [
  .assign "runs" (nlit 0),
  .assign "o" (.api .reactive [.newObj .Object [("a", .api .ref [nlit 1])] []]),
  .api .effect [.func [] (block [incr "runs", .assign "seen" (.get (.var "o") (slit "a"))])],
  .set (.var "o") (slit "a") (.api .ref [nlit 2]),
  .assign "now" (.get (.var "o") (slit "a"))]

/-- `const arr = reactive([1]); effect(() => { runs++; Reflect.ownKeys(arr) }); arr[1] = 2;
runsAfterAdd = runs; delete arr[0]`. -/
def arrayKeysThenAdd : Prog := block [
  .assign "runs" (nlit 0),
  .assign "arr" (.api .reactive [.newObj .Array [("0", nlit 1), ("length", nlit 1)] []]),
  .api .effect [.func [] (block [incr "runs", .ownKeys (.var "arr")])],
  .set (.var "arr") (slit "1") (nlit 2),
  .assign "runsAfterAdd" (.var "runs"),
  .del (.var "arr") (slit "0")]

/-- `const o = reactive({ a: 1 }); effect(() => { runs++; Reflect.ownKeys(o) }); o.b = 2;
runsAfterAdd = runs; delete o.a`. -/
def objectKeysThenAdd : Prog := block [
  .assign "runs" (nlit 0),
  .assign "o" (.api .reactive [.newObj .Object [("a", nlit 1)] []]),
  .api .effect [.func [] (block [incr "runs", .ownKeys (.var "o")])],
  .set (.var "o") (slit "b") (nlit 2),
  .assign "runsAfterAdd" (.var "runs"),
  .del (.var "o") (slit "a")]

/-- `const sym = Symbol(); const arr = reactive([1, 2]); effect(() => { runs++; arr[sym] });
arr.length = 0`. -/
def lengthAfterSymbolRead : Prog := block [
  .assign "runs" (nlit 0),
  .assign "arr" (.api .reactive [.newObj .Array [("0", nlit 1), ("1", nlit 2),
    ("length", nlit 2)] []]),
  .api .effect [.func [] (block [incr "runs", .get (.var "arr") (.lit (.sym (.user 0)))])],
  .set (.var "arr") (slit "length") (nlit 0)]

/-- `const o = markReadonly({ x: 1 }); const p = reactive(o); const s = shallowReactive(o)`,
followed by `p === s`, `isReadonly(p)` and `isReadonly(s)`. -/
def markedReadonlyRaw : Prog := block [
  .assign "o" (.api .markReadonly [.newObj .Object [("x", nlit 1)] []]),
  .assign "p" (.api .reactive [.var "o"]),
  .assign "s" (.api .shallowReactive [.var "o"]),
  .assign "same" (.binop .strictEq (.var "p") (.var "s")),
  .assign "pIsReadonly" (.api .isReadonly [.var "p"]),
  .assign "sIsReadonly" (.api .isReadonly [.var "s"])]

/-- `const o = { x: 1 }; const p = reactive(o); markReadonly(p); const pp = reactive(p);
const q = reactive(o)`, followed by `pp === p`, `q === p` and `isReadonly(pp)`. -/
def markedReadonlyWrapper : Prog := block [
  .assign "o" (.newObj .Object [("x", nlit 1)] []),
  .assign "p" (.api .reactive [.var "o"]),
  .api .markReadonly [.var "p"],
  .assign "pp" (.api .reactive [.var "p"]),
  .assign "same" (.binop .strictEq (.var "pp") (.var "p")),
  .assign "ppIsReadonly" (.api .isReadonly [.var "pp"]),
  .assign "q" (.api .reactive [.var "o"]),
  .assign "again" (.binop .strictEq (.var "q") (.var "p"))]

/-- `const o = markNonReactive({ x: 1 }); const r = ref(o); v = r.value`, and
`const r2 = ref(1); r2.value = ref(5); v2 = r2.value`, each followed by `isReactive` of the
value read. -/
def refOfUnobservable : Prog := block [
  .assign "o" (.api .markNonReactive [.newObj .Object [("x", nlit 1)] []]),
  .assign "r" (.api .ref [.var "o"]),
  .assign "v" (.get (.var "r") (slit "value")),
  .assign "vIsReactive" (.api .isReactive [.var "v"]),
  .assign "vIsO" (.binop .strictEq (.var "v") (.var "o")),
  .assign "r2" (.api .ref [nlit 1]),
  .set (.var "r2") (slit "value") (.api .ref [nlit 5]),
  .assign "v2" (.get (.var "r2") (slit "value")),
  .assign "v2IsReactive" (.api .isReactive [.var "v2"]),
  .assign "v2IsRef" (.api .isRef [.var "v2"])]

/-- The state after `value = convert(newVal)` and the creation of the object
`{ newValue: newVal }` in the setter of the deep ref `r`. -/
def refStored (w1 : World) (r : Nat) (x newVal : Value) : World :=
  { (w1.setCell r (.ref x false)) with
    heap := (w1.setCell r (.ref x false)).heap ++ [.raw .Object [(.str "newValue", newVal)] []] }

/-- What the deep mutable trap `set` does after `Reflect.set`: `trigger` with `add` when
the key was not an own key, with `set` when the value has changed, nothing otherwise. -/
def setterTrigger (k : Interp) (t : Nat) (hadKey : Bool) (key value oldValue : Value) :
    M Unit :=
  if !hadKey then trigger k (.obj t) "add" key value .undefined .undefined
  else if hasChanged value oldValue then trigger k (.obj t) "set" key value oldValue .undefined
  else pure ()

/-- A state with a raw object `0` = `{ x: 1 }`, its mutable wrapper `1`, a raw object `2`
= `{ y: 2 }` and its mutable wrapper `3`. -/
def twoWrappedWorld : World :=
  { heap := [.raw .Object [(.str "x", .num (Decimal.ofInt 1))] [],
             .proxy 0 .mutableHandlers,
             .raw .Object [(.str "y", .num (Decimal.ofInt 2))] [],
             .proxy 2 .mutableHandlers],
    rawToReactive := [(0, 1), (2, 3)],
    reactiveToRaw := [(1, 0), (3, 2)] }

/-- `const t = new Map(); const o = { x: 1 }; const po = reactive(o); reactive(t).k = po`,
followed by `t.k === o` and `t.k === po`. -/
def wrapperStoredInMap : Prog := block [
  .assign "t" (.newObj .Map [] []),
  .assign "o" (.newObj .Object [("x", nlit 1)] []),
  .assign "po" (.api .reactive [.var "o"]),
  .set (.api .reactive [.var "t"]) (slit "k") (.var "po"),
  .assign "slotIsRaw" (.binop .strictEq (.get (.var "t") (slit "k")) (.var "o")),
  .assign "slotIsWrapper" (.binop .strictEq (.get (.var "t") (slit "k")) (.var "po"))]
/-- The state after `value = newVal` (a value that is not an object) and the creation of
the object `{ newValue: newVal }` in the setter of the ref `r`. -/
def refAssigned (w : World) (r : Nat) (newVal : Value) (shallow : Bool) : World :=
  { (w.setCell r (.ref newVal shallow)) with
    heap := (w.setCell r (.ref newVal shallow)).heap ++
      [.raw .Object [(.str "newValue", newVal)] []] }

/-- A state with a ref `0` holding 1, a raw object `1` = `{ a: <ref 0> }` and the mutable
wrapper `2` of that object. -/
def refSlotWorld : World :=
  { heap := [.ref (.num (Decimal.ofInt 1)) false,
             .raw .Object [(.str "a", .obj 0)] [],
             .proxy 1 .mutableHandlers],
    rawToReactive := [(1, 2)],
    reactiveToRaw := [(2, 1)] }

/-- `const inner = ref(1); const o = reactive({ a: inner }); const v = { z: 1 }; o.a = v`,
followed by `inner.value === v`, `o.a === v` and `isReactive(o.a)`. -/
def objectIntoRefSlot : Prog := block [
  .assign "inner" (.api .ref [nlit 1]),
  .assign "o" (.api .reactive [.newObj .Object [("a", .var "inner")] []]),
  .assign "v" (.newObj .Object [("z", nlit 1)] []),
  .set (.var "o") (slit "a") (.var "v"),
  .assign "innerIsV" (.binop .strictEq (.get (.var "inner") (slit "value")) (.var "v")),
  .assign "readIsV" (.binop .strictEq (.get (.var "o") (slit "a")) (.var "v")),
  .assign "readIsReactive" (.api .isReactive [.get (.var "o") (slit "a")])]

/-- `const inner = ref(1); const o = reactive({ a: inner }); o.a = 2`, followed by
`inner.value` and `o.a`. -/
def numberIntoRefSlot : Prog := block [
  .assign "inner" (.api .ref [nlit 1]),
  .assign "o" (.api .reactive [.newObj .Object [("a", .var "inner")] []]),
  .set (.var "o") (slit "a") (nlit 2),
  .assign "innerValue" (.get (.var "inner") (slit "value")),
  .assign "read" (.get (.var "o") (slit "a"))]

/-- `const product = reactive({ price: 5 }); product.name = 'Shoes'; effect(() => { runs++;
name = product.name }); product.name = 'Socks'; product.name = 'Socks'`. -/
def addThenSet : Prog := block [
  .assign "runs" (nlit 0),
  .assign "product" (.api .reactive [.newObj .Object [("price", nlit 5)] []]),
  .set (.var "product") (slit "name") (slit "Shoes"),
  .api .effect [.func [] (block [incr "runs",
    .assign "name" (.get (.var "product") (slit "name"))])],
  .set (.var "product") (slit "name") (slit "Socks"),
  .assign "runsAfterChange" (.var "runs"),
  .set (.var "product") (slit "name") (slit "Socks")]

/-- Two writes of a value `v` with `v !== old`: `const x = {}; const p = reactive({ k: x });
effect(() => { runs++; p.k }); p.k = reactive(x)`, and `const q = reactive({ a: ref(1) });
effect(() => { hasRuns++; 'a' in q }); q.a = 2`. -/
def unchangedRawWrites : Prog := block [
  .assign "runs" (nlit 0),
  .assign "hasRuns" (nlit 0),
  .assign "x" (.newObj .Object [] []),
  .assign "p" (.api .reactive [.newObj .Object [("k", .var "x")] []]),
  .api .effect [.func [] (block [incr "runs", .get (.var "p") (slit "k")])],
  .assign "v" (.api .reactive [.var "x"]),
  .assign "differs" (.binop .strictEq (.var "v") (.var "x")),
  .set (.var "p") (slit "k") (.var "v"),
  .assign "q" (.api .reactive [.newObj .Object [("a", .api .ref [nlit 1])] []]),
  .api .effect [.func [] (block [incr "hasRuns", .has (slit "a") (.var "q")])],
  .set (.var "q") (slit "a") (nlit 2)]

/-- A state with a raw object `0` = `{ x: 1 }` and its readonly wrapper `1`. -/
def readonlyWrappedWorld : World :=
  { heap := [.raw .Object [(.str "x", .num (Decimal.ofInt 1))] [],
             .proxy 0 .readonlyHandlers],
    rawToReadonly := [(0, 1)],
    readonlyToRaw := [(1, 0)] }

/-- `const m = new Map(); const ro = readonly(m); ro.x = 2; raw = m.x`, and
`const ro2 = readonly({ x: 1 }); ro2.x = 2; x2 = ro2.x`. -/
def readonlyMapWrite : Prog := block [
  .assign "m" (.newObj .Map [] []),
  .assign "ro" (.api .readonly [.var "m"]),
  .set (.var "ro") (slit "x") (nlit 2),
  .assign "raw" (.get (.var "m") (slit "x")),
  .assign "ro2" (.api .readonly [.newObj .Object [("x", nlit 1)] []]),
  .set (.var "ro2") (slit "x") (nlit 2),
  .assign "x2" (.get (.var "ro2") (slit "x"))]

/-- `const ro = readonly([1, 2]); delete ro.length; done = true`. -/
def readonlyArrayDeleteLength : Prog := block [
  .assign "ro" (.api .readonly [.newObj .Array
    [("0", nlit 1), ("1", nlit 2), ("length", nlit 2)] []]),
  .del (.var "ro") (slit "length"),
  .assign "done" (blit true)]

/-- `const r = ref(NaN); let runs = 0; effect(() => { r.value; runs++ }); r.value = NaN`. -/
def nanIntoRef : Prog := block [
  .assign "runs" (nlit 0),
  .assign "r" (.api .ref [.lit .nan]),
  .api .effect [.func [] (block [.get (.var "r") (slit "value"), incr "runs"])],
  .set (.var "r") (slit "value") (.lit .nan)]

/-- `const r = ref(1); let runs = 0; effect(() => { r.value; runs++ });
r.value = r.value`. -/
def sameIntoRef : Prog := block [
  .assign "runs" (nlit 0),
  .assign "r" (.api .ref [nlit 1]),
  .api .effect [.func [] (block [.get (.var "r") (slit "value"), incr "runs"])],
  .set (.var "r") (slit "value") (.get (.var "r") (slit "value"))]

/-- The body `if (a.flag) thenP` of an effect that evaluates `thenP` (which may read `a.x`)
only when `a.flag` is true. -/
def guardedRead (a flag : String) (thenP : Prog) : Prog :=
  .ite (.get (.var a) (slit flag)) thenP undefinedLit

/-- The state after the run of the effect `e` whose body is `if (a.flag) thenP`, started in
the state `w` where `a.flag` is false: `cleanup`, the entry of `run`, the recorded read of
`(ta, flag)`, the exit of `run`. -/
def afterGuardedRun (w : World) (e ta : Nat) (flag : String) (r : EffectRec) : World :=
  runExit (trackAdded (runEnter e (cleanup e w)) e ta (.str flag) { r with deps := [] })

/-- A state with the raw object `0` = `{ flag: false, x: 1 }`, its mutable wrapper `1` bound
to the variable `a`, the function `2` = `() => { if (a.flag) seen = a.x }` and the effect
`3` made from it, which has read `a.flag` and `a.x` in its last run. -/
def guardedWorld : World :=
  { heap := [.raw .Object [(.str "flag", .bool false), (.str "x", .num (Decimal.ofInt 1))] [],
             .proxy 0 .mutableHandlers,
             .fn [] (guardedRead "a" "flag" (.assign "seen" (.get (.var "a") (slit "x")))),
             .effect { raw := .obj 2, active := true,
                       deps := [(0, .str "flag"), (0, .str "x")], options := {} }],
    targetMap := [(0, [(.str "flag", [3]), (.str "x", [3])])],
    rawToReactive := [(0, 1)],
    reactiveToRaw := [(1, 0)],
    vars := [("a", .obj 1)] }

/-- `const a = reactive({ x: 1 }); effect(() => { runs++; pauseTracking(); seen = a.x;
resetTracking() }); a.x = 2`: the effect reads `a.x` while tracking is paused. -/
def readWhilePaused : Prog := block [
  .assign "runs" (nlit 0),
  .assign "a" (.api .reactive [.newObj .Object [("x", nlit 1)] []]),
  .api .effect [.func [] (block [incr "runs",
    .api .pauseTracking [],
    .assign "seen" (.get (.var "a") (slit "x")),
    .api .resetTracking []])],
  .set (.var "a") (slit "x") (nlit 2)]

/-- The effects a `trigger` dispatches for the resolved sets, in dispatch order: the
computed runners, then the plain effects. -/
def dispatched (w : World) (sets : List (List Nat)) : List Nat :=
  (addAll w sets ([], [])).2 ++ (addAll w sets ([], [])).1

/-- `const s = reactive(new Set([1, 2])); let size; effect(() => { runs++; size = s.size });
s.add(3)`. -/
def setAddSize : Prog := block [
  .assign "runs" (nlit 0),
  .assign "s" (.api .reactive [.newObj .Set [] [(nlit 1, nlit 1), (nlit 2, nlit 2)]]),
  .api .effect [.func [] (block [incr "runs",
    .assign "size" (.get (.var "s") (slit "size"))])],
  .assign "sizeBefore" (.var "size"),
  .call (.var "s") "add" [nlit 3]]

/-- A state with the raw set `0` = `new Set([1, 2])`, its mutable wrapper `1`, and the
effect `2`, which has read the size of the set. -/
def sizeReaderWorld : World :=
  { heap := [.raw .Set [] [(.num (Decimal.ofInt 1), .num (Decimal.ofInt 1)),
                           (.num (Decimal.ofInt 2), .num (Decimal.ofInt 2))],
             .proxy 0 .mutableCollectionHandlers,
             .effect { raw := .undefined, active := true, deps := [(0, ITERATE_KEY)],
                       options := {} }],
    targetMap := [(0, [(ITERATE_KEY, [2])])],
    rawToReactive := [(0, 1)],
    reactiveToRaw := [(1, 0)] }

/-- `const s = reactive(new Set([1, 2])); let size; effect(() => { runs++; size = s.size;
s.add(3) }); now = s.size`: the effect that reads `s.size` calls `s.add(3)` itself. -/
def setAddBySelf : Prog := block [
  .assign "runs" (nlit 0),
  .assign "s" (.api .reactive [.newObj .Set [] [(nlit 1, nlit 1), (nlit 2, nlit 2)]]),
  .api .effect [.func [] (block [incr "runs",
    .assign "size" (.get (.var "s") (slit "size")),
    .call (.var "s") "add" [nlit 3]])],
  .assign "now" (.get (.var "s") (slit "size"))]

/-- `const s = reactive(new Set([1, 2])); let size; effect(() => { runs++; size = s.size },
{ scheduler: job => {} }); s.add(3); now = s.size`. -/
def setAddScheduled : Prog := block [
  .assign "runs" (nlit 0),
  .assign "s" (.api .reactive [.newObj .Set [] [(nlit 1, nlit 1), (nlit 2, nlit 2)]]),
  .api .effect [.func [] (block [incr "runs",
    .assign "size" (.get (.var "s") (slit "size"))]),
    .newObj .Object [("scheduler", .func ["job"] undefinedLit)] []],
  .call (.var "s") "add" [nlit 3],
  .assign "now" (.get (.var "s") (slit "size"))]

/-- The calls through which a read of the key `k0` of the object `t0` is recorded with
`track`: the traps `get` and `has` of a wrapper of `t0` for the key `k0`, and the trap
`ownKeys` of a wrapper of `t0` when `k0` is the iteration key; the read of `value` of `t0`
when it is a ref or a computed cell and `k0` is `value`; the read of `size` through the
wrapper of a collection when `k0` is the iteration key; the instrumented `get` and `has`
of collections called with the key `k0` on `t0` or on a wrapper of it; the instrumented
search methods of arrays called on `t0` or on a wrapper of it; and the exported function
`track`. -/
def recordsRead (t0 : Nat) (k0 : Value) (c : Call) (w : World) : Bool :=
  match c with
  | .get (.obj a) key _ =>
    match w.cell? a with
    | some (.proxy _ .mutableCollectionHandlers) => decide (ITERATE_KEY = k0 ∧ key = .str "size")
    | some (.proxy _ .readonlyCollectionHandlers) => decide (ITERATE_KEY = k0 ∧ key = .str "size")
    | some (.proxy t _) => decide (t = t0 ∧ key = k0)
    | some (.ref _ _) => decide (a = t0 ∧ key = .str "value" ∧ Value.str "value" = k0)
    | some (.computed _ _ _ _) => decide (a = t0 ∧ key = .str "value" ∧ Value.str "value" = k0)
    | _ => false
  | .has (.obj a) key =>
    match w.cell? a with
    | some (.proxy _ .mutableCollectionHandlers) => false
    | some (.proxy _ .readonlyCollectionHandlers) => false
    | some (.proxy t _) => decide (t = t0 ∧ key = k0)
    | _ => false
  | .ownKeys (.obj a) =>
    match w.cell? a with
    | some (.proxy _ .mutableCollectionHandlers) => false
    | some (.proxy _ .readonlyCollectionHandlers) => false
    | some (.proxy t _) => decide (t = t0 ∧ ITERATE_KEY = k0)
    | _ => false
  | .apply (.fn (.instrumentation _ name)) this args =>
    decide ((name = "get" ∨ name = "has") ∧ toRaw w this = .obj t0 ∧
      toRaw w (args.headD .undefined) = k0)
  | .apply (.fn (.arrayInstrumentation _)) this _ => decide (toRaw w this = .obj t0)
  | .eval (.api .track _) => true
  | _ => false

/-- The interpreter that refuses the calls recording a read of the key `k0` of the object
`t0`: such a call ends the computation with the outcome `unsupported`, which nothing
catches.  A computation that completes under this interpreter has made none of those
calls. -/
def interpWithout (t0 : Nat) (k0 : Value) : Nat → Interp
  | 0 => fun _ _ => .timeout
  | n + 1 => fun c w =>
    if recordsRead t0 k0 c w then .unsupported else step (interpWithout t0 k0 n) c w

/-- The subscriber set of (`t0`, `k0`) has no member in `w1` that it does not have in
`w`. -/
structure NoNewSubscriber (t0 : Nat) (k0 : Value) (w w1 : World) : Prop where
  sub : ∀ e, e ∈ w1.dep t0 k0 → e ∈ w.dep t0 k0

/-- `const a = reactive(Object.assign([1, 2, 3], { flag: true })); effect(() => { runs++;
if (a.flag) len = a.length; last = a[2] }); a.flag = false; a.length = 1`: the effect reads
`a.length` only when `a.flag` is true. -/
def guardedLength : Prog := block [
  .assign "runs" (nlit 0),
  .assign "a" (.api .reactive [.newObj .Array [("0", nlit 1), ("1", nlit 2), ("2", nlit 3),
    ("length", nlit 3), ("flag", blit true)] []]),
  .api .effect [.func [] (block [incr "runs",
    .ite (.get (.var "a") (slit "flag")) (.assign "len" (.get (.var "a") (slit "length")))
      undefinedLit,
    .assign "last" (.get (.var "a") (slit "2"))])],
  .set (.var "a") (slit "flag") (blit false),
  .assign "runsAfterFlag" (.var "runs"),
  .set (.var "a") (slit "length") (nlit 1)]

/-- `const m = reactive(new Map([['flag', true], ['x', 1]])); effect(() => { runs++;
if (m.get('flag')) seen = m.get('x'); n = m.size }); m.set('flag', false); m.set('x', 2)`:
the effect reads the entry `x` only when the entry `flag` is true. -/
def guardedMapEntry : Prog := block [
  .assign "runs" (nlit 0),
  .assign "m" (.api .reactive [.newObj .Map [] [(slit "flag", blit true), (slit "x", nlit 1)]]),
  .api .effect [.func [] (block [incr "runs",
    .ite (.call (.var "m") "get" [slit "flag"])
      (.assign "seen" (.call (.var "m") "get" [slit "x"])) undefinedLit,
    .assign "n" (.get (.var "m") (slit "size"))])],
  .call (.var "m") "set" [slit "flag", blit false],
  .assign "runsAfterFlag" (.var "runs"),
  .call (.var "m") "set" [slit "x", nlit 2]]

/-! # Theorems -/

/-! ## Reasoning about outcomes -/

theorem bind_apply {α β : Type} (m : M α) (f : α → M β) (w : World) :
    (m >>= f) w = (m w).bind f := rfl

theorem pure_apply {α : Type} (a : α) (w : World) : (pure a : M α) w = .ok a w := rfl

theorem Res.bind_ok {α β : Type} (a : α) (w : World) (f : α → World → Res β) :
    (Res.ok a w).bind f = f a w := rfl

theorem getW_apply (w : World) : getW w = .ok w w := rfl

theorem modifyW_apply (f : World → World) (w : World) : modifyW f w = .ok () (f w) := rfl

/-! ## The tracking context (C20) -/

theorem resetTracking_pauseTracking (w : World) : resetTracking (pauseTracking w) = w := rfl

theorem resetTracking_enableTracking (w : World) : resetTracking (enableTracking w) = w := rfl

theorem runTrackOps_append (a b : List TrackOp) (w : World) :
    runTrackOps (a ++ b) w = runTrackOps b (runTrackOps a w) := by
  induction a generalizing w with
  | nil => rfl
  | cons op a ih => exact ih (op.apply w)

theorem runTrackOps_nested (ops : List TrackOp) (h : Nested ops) (w : World) :
    runTrackOps ops w = w := by
  induction h generalizing w with
  | nil => rfl
  | pause a b _ _ iha ihb =>
    show runTrackOps (a ++ .reset :: b) (pauseTracking w) = w
    rw [runTrackOps_append, iha]
    exact ihb w
  | enable a b _ _ iha ihb =>
    show runTrackOps (a ++ .reset :: b) (enableTracking w) = w
    rw [runTrackOps_append, iha]
    exact ihb w

/-- C20: `pauseTracking()` then `resetTracking()`, and `enableTracking()` then
`resetTracking()`, give back the state they started from (flag and stack, and nothing
else is touched); hence every properly nested sequence of the three operations restores
the state; and after a `pause` (an `enable`) followed by any properly nested sequence,
that is at every point between it and its matching `reset` at which the inner pairs are
closed, the flag is `false` (`true`). -/
theorem C20_tracking_stack_restores :
    (∀ w : World, resetTracking (pauseTracking w) = w) ∧
    (∀ w : World, resetTracking (enableTracking w) = w) ∧
    (∀ (ops : List TrackOp) (w : World), Nested ops → runTrackOps ops w = w) ∧
    (∀ (ops : List TrackOp) (w : World), Nested ops →
      (runTrackOps (.pause :: ops) w).shouldTrack = false ∧
      (runTrackOps (.enable :: ops) w).shouldTrack = true) := by
  refine ⟨resetTracking_pauseTracking, resetTracking_enableTracking, ?_, ?_⟩
  · intro ops w h
    exact runTrackOps_nested ops h w
  · intro ops w h
    constructor
    · show (runTrackOps ops (pauseTracking w)).shouldTrack = false
      rw [runTrackOps_nested ops h]
      rfl
    · show (runTrackOps ops (enableTracking w)).shouldTrack = true
      rw [runTrackOps_nested ops h]
      rfl

/-- A nested sequence: `pause(); enable(); reset(); reset()`. -/
theorem nested_example : Nested [.pause, .enable, .reset, .reset] :=
  Nested.pause [.enable, .reset] [] (Nested.enable [] [] Nested.nil Nested.nil) Nested.nil

/-- Witness for C20 at `pause(); enable(); reset(); reset()` run from a paused state. -/
theorem C20_tracking_stack_restores_witness :
    runTrackOps [.pause, .enable, .reset, .reset] (pauseTracking World.init)
      = pauseTracking World.init ∧
    (runTrackOps [.pause, .enable, .reset] (pauseTracking World.init)).shouldTrack = false :=
  ⟨C20_tracking_stack_restores.2.2.1 _ _ nested_example,
   (C20_tracking_stack_restores.2.2.2 [.enable, .reset] (pauseTracking World.init)
      (Nested.enable [] [] Nested.nil Nested.nil)).1⟩

/-! ## Association lists -/

theorem alookup_ainsert_self {κ β : Type} [DecidableEq κ] (k : κ) (v : β) (l : List (κ × β)) :
    alookup k (ainsert k v l) = some v := by
  induction l with
  | nil => simp [ainsert, alookup]
  | cons p l ih =>
    obtain ⟨k1, v1⟩ := p
    by_cases h : k1 = k
    · simp [ainsert, alookup, h]
    · simp [ainsert, alookup, h, ih]

theorem alookup_ainsert_ne {κ β : Type} [DecidableEq κ] (k k2 : κ) (v : β) (l : List (κ × β))
    (h : k2 ≠ k) : alookup k2 (ainsert k v l) = alookup k2 l := by
  induction l with
  | nil => simp [ainsert, alookup, h.symm]
  | cons p l ih =>
    obtain ⟨k1, v1⟩ := p
    by_cases h1 : k1 = k
    · subst h1
      simp [ainsert, alookup, h.symm]
    · by_cases h2 : k1 = k2
      · subst h2
        simp [ainsert, alookup, h1]
      · simp [ainsert, alookup, h1, h2, ih]

/-! ## `track` (C12) -/

theorem World.dep_eq (w : World) (t : Nat) (key : Value) :
    (alookup key ((alookup t w.targetMap).getD [])).getD [] = w.dep t key := by
  unfold World.dep
  cases h : alookup t w.targetMap <;> simp [alookup]

theorem trackAdded_dep (w : World) (e t : Nat) (key : Value) (r : EffectRec) :
    (trackAdded w e t key r).dep t key = w.dep t key ++ [e] := by
  simp [trackAdded, World.dep, alookup_ainsert_self]

theorem track_disabled (k : Interp) (target : Value) (type : String) (key : Value) (w : World)
    (h : w.shouldTrack = false ∨ w.activeEffect = none) :
    track k target type key w = .ok () w := by
  simp only [track, bind_apply, getW_apply, Res.bind_ok]
  rcases h with h | h
  · rw [h]
    rfl
  · rw [h]
    cases w.shouldTrack <;> rfl

theorem track_member (k : Interp) (type : String) (key : Value) (w : World) (e t : Nat)
    (hs : w.shouldTrack = true) (ha : w.activeEffect = some e) (hm : e ∈ w.dep t key) :
    track k (.obj t) type key w = .ok () w := by
  simp only [track, bind_apply, getW_apply, Res.bind_ok]
  rw [hs, ha]
  simp only []
  rw [World.dep_eq, if_pos hm]
  rfl

theorem track_add (k : Interp) (type : String) (key : Value) (w : World) (e t : Nat)
    (r : EffectRec)
    (hs : w.shouldTrack = true) (ha : w.activeEffect = some e) (hr : w.effect? e = some r)
    (ht : truthy r.options.onTrack = false) (hm : e ∉ w.dep t key) :
    track k (.obj t) type key w = .ok () (trackAdded w e t key r) := by
  simp only [track, bind_apply, getW_apply, Res.bind_ok]
  rw [hs, ha]
  simp only []
  rw [World.dep_eq, if_neg hm, hr]
  simp only [bind_apply, modifyW_apply, Res.bind_ok, ht]
  rfl

/-- C12: `track(entity, kind, key)` returns with the whole state unchanged (so the
registry and every reverse index are unchanged) when tracking is disabled or there is no
active effect, and also when the active effect is already a member of the subscriber set
of (entity, key).  Tracking a pair twice equals tracking it once: after a first `track`
(of an effect without `onTrack` hook) has added the effect, a second `track` of the same
pair changes nothing. -/
theorem C12_track_noop (k : Interp) (type : String) (key : Value) (w : World) :
    (∀ target : Value, (w.shouldTrack = false ∨ w.activeEffect = none) →
      track k target type key w = .ok () w) ∧
    (∀ e t : Nat, w.shouldTrack = true → w.activeEffect = some e → e ∈ w.dep t key →
      track k (.obj t) type key w = .ok () w) ∧
    (∀ (e t : Nat) (r : EffectRec), w.shouldTrack = true → w.activeEffect = some e →
      w.effect? e = some r → truthy r.options.onTrack = false → e ∉ w.dep t key →
      ∃ w1, track k (.obj t) type key w = .ok () w1 ∧ w1.dep t key = w.dep t key ++ [e] ∧
        track k (.obj t) type key w1 = .ok () w1) := by
  refine ⟨fun target h => track_disabled k target type key w h,
    fun e t hs ha hm => track_member k type key w e t hs ha hm, ?_⟩
  intro e t r hs ha hr ht hm
  refine ⟨trackAdded w e t key r, track_add k type key w e t r hs ha hr ht hm,
    trackAdded_dep w e t key r, ?_⟩
  apply track_member k type key _ e t
  · exact hs
  · exact ha
  · rw [trackAdded_dep]
    simp

/-- Witness for C12: with tracking paused nothing is recorded; in `trackWorld` the first
`track` of (0, "x") records effect `1` and the second changes nothing. -/
theorem C12_track_noop_witness :
    track (interp 0) (.obj 0) "get" (.str "x") (pauseTracking trackWorld)
      = .ok () (pauseTracking trackWorld) ∧
    ∃ w1, track (interp 0) (.obj 0) "get" (.str "x") trackWorld = .ok () w1 ∧
      w1.dep 0 (.str "x") = trackWorld.dep 0 (.str "x") ++ [1] ∧
      track (interp 0) (.obj 0) "get" (.str "x") w1 = .ok () w1 :=
  ⟨(C12_track_noop (interp 0) "get" (.str "x") (pauseTracking trackWorld)).1 (.obj 0)
      (Or.inl rfl),
   (C12_track_noop (interp 0) "get" (.str "x") trackWorld).2.2 1 0
      { raw := .undefined, active := true, deps := [], options := {} }
      rfl rfl rfl rfl (by decide)⟩

/-! ## The trigger dispatcher (C3, C13) -/

theorem addRunners_some (w : World) (acc : List Nat × List Nat) (dep : List Nat) :
    addRunners w acc (some dep) = dep.foldl (addRunner w) acc := rfl

theorem mem_sadd {κ : Type} [DecidableEq κ] (x y : κ) (s : List κ) :
    y ∈ sadd x s ↔ y ∈ s ∨ y = x := by
  unfold sadd
  split
  · constructor
    · intro h; exact Or.inl h
    · rintro (h | h)
      · exact h
      · subst h; assumption
  · simp

theorem nodup_sadd {κ : Type} [DecidableEq κ] (x : κ) (s : List κ) (h : s.Nodup) :
    (sadd x s).Nodup := by
  unfold sadd
  split
  · exact h
  · rename_i hx
    exact List.nodup_append.mpr ⟨h, List.nodup_singleton x, by
      intro a ha hb
      simp at hb
      subst hb
      exact hx ha⟩

theorem Runners.empty (w : World) : Runners w ([], []) :=
  ⟨List.nodup_nil, List.nodup_nil, by simp, by simp, by simp⟩

theorem addRunner_mem (w : World) (acc : List Nat × List Nat) (x e : Nat) :
    (e ∈ (addRunner w acc x).1 ∨ e ∈ (addRunner w acc x).2) ↔
      (e ∈ acc.1 ∨ e ∈ acc.2) ∨ (e = x ∧ some x ≠ w.activeEffect) := by
  unfold addRunner
  by_cases ha : some x ≠ w.activeEffect
  · rw [if_pos ha]
    cases hr : w.effect? x with
    | none => simp [mem_sadd, ha]; tauto
    | some r =>
      by_cases hc : truthy r.options.computed = true
      · simp [hc, mem_sadd, ha]; tauto
      · simp [hc, mem_sadd, ha]; tauto
  · rw [if_neg ha]
    simp [ha]

theorem addRunner_runners (w : World) (acc : List Nat × List Nat) (x : Nat)
    (h : Runners w acc) : Runners w (addRunner w acc x) := by
  unfold addRunner
  by_cases ha : some x ≠ w.activeEffect
  · rw [if_pos ha]
    cases hr : w.effect? x with
    | none =>
      refine ⟨nodup_sadd x _ h.nodup1, h.nodup2, ?_, h.computed, ?_⟩
      · intro e he
        rcases (mem_sadd x e _).mp he with he | he
        · exact h.plain e he
        · subst he; simp [isComputedRunner, hr]
      · intro e he
        rcases he with he | he
        · rcases (mem_sadd x e _).mp he with he | he
          · exact h.notActive e (Or.inl he)
          · subst he; exact ha
        · exact h.notActive e (Or.inr he)
    | some r =>
      by_cases hc : truthy r.options.computed = true
      · simp only [hc, if_true]
        refine ⟨h.nodup1, nodup_sadd x _ h.nodup2, h.plain, ?_, ?_⟩
        · intro e he
          rcases (mem_sadd x e _).mp he with he | he
          · exact h.computed e he
          · subst he; simp [isComputedRunner, hr, hc]
        · intro e he
          rcases he with he | he
          · exact h.notActive e (Or.inl he)
          · rcases (mem_sadd x e _).mp he with he | he
            · exact h.notActive e (Or.inr he)
            · subst he; exact ha
      · simp only [hc]
        refine ⟨nodup_sadd x _ h.nodup1, h.nodup2, ?_, h.computed, ?_⟩
        · intro e he
          rcases (mem_sadd x e _).mp he with he | he
          · exact h.plain e he
          · subst he; simpa [isComputedRunner, hr] using hc
        · intro e he
          rcases he with he | he
          · rcases (mem_sadd x e _).mp he with he | he
            · exact h.notActive e (Or.inl he)
            · subst he; exact ha
          · exact h.notActive e (Or.inr he)
  · rw [if_neg ha]
    exact h

theorem foldl_addRunner_mem (w : World) (dep : List Nat) (acc : List Nat × List Nat) (e : Nat) :
    (e ∈ (dep.foldl (addRunner w) acc).1 ∨ e ∈ (dep.foldl (addRunner w) acc).2) ↔
      (e ∈ acc.1 ∨ e ∈ acc.2) ∨ (e ∈ dep ∧ some e ≠ w.activeEffect) := by
  induction dep generalizing acc with
  | nil => simp
  | cons x dep ih =>
    rw [List.foldl_cons, ih, addRunner_mem]
    constructor
    · rintro ((h | ⟨h1, h2⟩) | ⟨h1, h2⟩)
      · exact Or.inl h
      · subst h1; exact Or.inr ⟨List.mem_cons_self _ _, h2⟩
      · exact Or.inr ⟨List.mem_cons_of_mem _ h1, h2⟩
    · rintro (h | ⟨h1, h2⟩)
      · exact Or.inl (Or.inl h)
      · rcases List.mem_cons.mp h1 with h1 | h1
        · subst h1; exact Or.inl (Or.inr ⟨rfl, h2⟩)
        · exact Or.inr ⟨h1, h2⟩

theorem foldl_addRunner_runners (w : World) (dep : List Nat) (acc : List Nat × List Nat)
    (h : Runners w acc) : Runners w (dep.foldl (addRunner w) acc) := by
  induction dep generalizing acc with
  | nil => exact h
  | cons x dep ih => exact ih _ (addRunner_runners w acc x h)

/-- Membership after `addRunners`: what was there, and the members of the added set other
than the running effect. -/
theorem addRunners_mem (w : World) (acc : List Nat × List Nat) (d : Option (List Nat)) (e : Nat) :
    (e ∈ (addRunners w acc d).1 ∨ e ∈ (addRunners w acc d).2) ↔
      (e ∈ acc.1 ∨ e ∈ acc.2) ∨ (e ∈ d.getD [] ∧ some e ≠ w.activeEffect) := by
  cases d with
  | none => simp [addRunners]
  | some dep => exact foldl_addRunner_mem w dep acc e

theorem addRunners_runners (w : World) (acc : List Nat × List Nat) (d : Option (List Nat))
    (h : Runners w acc) : Runners w (addRunners w acc d) := by
  cases d with
  | none => exact h
  | some dep => exact foldl_addRunner_runners w dep acc h



theorem addAll_mem (w : World) (sets : List (List Nat)) (acc : List Nat × List Nat) (e : Nat) :
    (e ∈ (addAll w sets acc).1 ∨ e ∈ (addAll w sets acc).2) ↔
      (e ∈ acc.1 ∨ e ∈ acc.2) ∨ ((∃ d ∈ sets, e ∈ d) ∧ some e ≠ w.activeEffect) := by
  induction sets generalizing acc with
  | nil => simp [addAll]
  | cons d sets ih =>
    show (e ∈ (addAll w sets (addRunners w acc (some d))).1 ∨
      e ∈ (addAll w sets (addRunners w acc (some d))).2) ↔ _
    rw [ih, addRunners_mem]
    simp only [Option.getD_some, List.mem_cons, exists_eq_or_imp]
    tauto

theorem addAll_runners (w : World) (sets : List (List Nat)) (acc : List Nat × List Nat)
    (h : Runners w acc) : Runners w (addAll w sets acc) := by
  induction sets generalizing acc with
  | nil => exact h
  | cons d sets ih => exact ih _ (addRunners_runners w acc (some d) h)

theorem lengthRunners_eq (w : World) (newValue : Value) (l : List (Value × List Nat))
    (acc : List Nat × List Nat) (w0 : World) :
    lengthRunners w newValue l acc w0 =
      (lengthSets newValue l w0).bind fun sets w1 => .ok (addAll w sets acc) w1 := by
  induction l generalizing acc with
  | nil => rfl
  | cons p l ih =>
    obtain ⟨key, dep⟩ := p
    by_cases hk : key = .str "length"
    · simp only [lengthRunners, lengthSets, hk, if_true, ih, bind_apply, pure_apply]
      cases lengthSets newValue l w0 <;> rfl
    · simp only [lengthRunners, lengthSets, hk, if_false]
      cases hg : geJS key newValue with
      | res b =>
        cases b with
        | true =>
          simp only [ih, bind_apply, pure_apply]
          cases lengthSets newValue l w0 <;> rfl
        | false => simp only [ih]
      | typeError => rfl
      | unsupported => rfl

theorem foldl_addRunners_eq_addAll (w : World) (depsMap : List (Value × List Nat))
    (acc : List Nat × List Nat) :
    depsMap.foldl (fun acc kd => addRunners w acc (some kd.2)) acc
      = addAll w (depsMap.map Prod.snd) acc := by
  induction depsMap generalizing acc with
  | nil => rfl
  | cons p l ih => exact ih _

theorem addRunners_eq_addAll (w : World) (acc : List Nat × List Nat) (d : Option (List Nat)) :
    addRunners w acc d = addAll w d.toList acc := by
  cases d <;> rfl

theorem addAll_append (w : World) (a b : List (List Nat)) (acc : List Nat × List Nat) :
    addAll w (a ++ b) acc = addAll w b (addAll w a acc) := by
  simp [addAll, List.foldl_append]

/-- `resolveRunners` adds the resolved sets, in order, to two empty sets. -/
theorem resolveRunners_eq (w : World) (depsMap : List (Value × List Nat)) (target : Value)
    (type : String) (key newValue : Value) (w0 : World) :
    resolveRunners w depsMap target type key newValue w0 =
      (resolvedSets w depsMap target type key newValue w0).bind
        fun sets w1 => .ok (addAll w sets ([], [])) w1 := by
  unfold resolveRunners resolvedSets
  by_cases h1 : type = "clear"
  · simp only [h1, if_true, pure_apply, Res.bind_ok, foldl_addRunners_eq_addAll]
  · simp only [h1, if_false]
    by_cases h2 : (key = .str "length" && isArray w target) = true
    · simp only [h2, if_true, lengthRunners_eq]
    · simp only [h2]
      simp only [Bool.false_eq_true, if_false, pure_apply, Res.bind_ok, addAll_append, addRunners_eq_addAll]
      by_cases h3 : key ≠ .undefined <;>
        by_cases h4 : (type = "add" || type = "delete" || (type = "set" && instanceofMap w target)) = true <;>
        simp [h3, h4, addAll, pure_apply]



theorem forEachM_append {α : Type} (f : α → M Unit) (a b : List α) (w : World) :
    forEachM f (a ++ b) w = (forEachM f a w).bind fun _ w1 => forEachM f b w1 := by
  induction a generalizing w with
  | nil => rfl
  | cons x a ih =>
    simp only [List.cons_append, forEachM, bind_apply]
    cases f x w with
    | ok u w1 => exact ih w1
    | throw e w1 => rfl
    | timeout => rfl
    | unsupported => rfl

theorem forEachM_split {α : Type} (f : α → M Unit) (a : List α) (e : α) (b : List α)
    (w : World) :
    forEachM f (a ++ e :: b) w
      = (forEachM f a w).bind fun _ w1 => (f e w1).bind fun _ w2 => forEachM f b w2 := by
  rw [forEachM_append]
  rfl

/-- C3 (amended): with `sets` the subscriber sets resolved by a `trigger` call, the call
dispatches (`scheduleRun`) the effects of the list `computedRunners ++ effects`, in that
order; the first part holds exactly the resolved subscribers flagged `computed`, the second
exactly those not flagged (the running effect is in neither), so every computed-flagged one
comes before every plain one; the list has no duplicates, so a subscriber that belongs to
several resolved sets occurs in it once; each member is dispatched once, when the
dispatches of the members before it have returned; and when the dispatch of a member
throws, the `trigger` call throws with it and the members after it are not dispatched. -/
theorem C3_dispatch_order (k : Interp) (t : Nat) (type : String)
    (key newValue oldValue oldTarget : Value) (w : World) (depsMap : List (Value × List Nat))
    (hd : alookup t w.targetMap = some depsMap) :
    trigger k (.obj t) type key newValue oldValue oldTarget w =
      ((resolvedSets w depsMap (.obj t) type key newValue w).bind fun sets w1 =>
        forEachM (fun e => scheduleRun k e (.obj t) type key newValue oldValue oldTarget)
          ((addAll w sets ([], [])).2 ++ (addAll w sets ([], [])).1) w1) ∧
    (∀ sets : List (List Nat),
      ((addAll w sets ([], [])).2 ++ (addAll w sets ([], [])).1).Nodup ∧
      (∀ e ∈ (addAll w sets ([], [])).2, isComputedRunner w e = true) ∧
      (∀ e ∈ (addAll w sets ([], [])).1, isComputedRunner w e = false) ∧
      (∀ e, e ∈ (addAll w sets ([], [])).2 ++ (addAll w sets ([], [])).1 ↔
        (∃ d ∈ sets, e ∈ d) ∧ some e ≠ w.activeEffect)) ∧
    (∀ (sets : List (List Nat)) (a : List Nat) (e : Nat) (b : List Nat) (w1 : World),
      (addAll w sets ([], [])).2 ++ (addAll w sets ([], [])).1 = a ++ e :: b →
      e ∉ a ∧ e ∉ b ∧
      forEachM (fun e => scheduleRun k e (.obj t) type key newValue oldValue oldTarget)
          ((addAll w sets ([], [])).2 ++ (addAll w sets ([], [])).1) w1
        = (forEachM (fun e => scheduleRun k e (.obj t) type key newValue oldValue oldTarget)
            a w1).bind fun _ w2 =>
            (scheduleRun k e (.obj t) type key newValue oldValue oldTarget w2).bind
              fun _ w3 =>
                forEachM (fun e => scheduleRun k e (.obj t) type key newValue oldValue
                  oldTarget) b w3) ∧
    ∀ (sets : List (List Nat)) (a : List Nat) (e : Nat) (b : List Nat) (w1 w2 w3 : World)
      (x : Value),
      (addAll w sets ([], [])).2 ++ (addAll w sets ([], [])).1 = a ++ e :: b →
      forEachM (fun e => scheduleRun k e (.obj t) type key newValue oldValue oldTarget)
        a w1 = .ok () w2 →
      scheduleRun k e (.obj t) type key newValue oldValue oldTarget w2 = .throw x w3 →
      forEachM (fun e => scheduleRun k e (.obj t) type key newValue oldValue oldTarget)
          ((addAll w sets ([], [])).2 ++ (addAll w sets ([], [])).1) w1
        = .throw x w3 := by
  have hnd : ∀ sets : List (List Nat),
      ((addAll w sets ([], [])).2 ++ (addAll w sets ([], [])).1).Nodup := by
    intro sets
    have hr := addAll_runners w sets ([], []) (Runners.empty w)
    refine List.nodup_append.mpr ⟨hr.nodup2, hr.nodup1, ?_⟩
    intro a h2 h1
    have := hr.computed a h2
    rw [hr.plain a h1] at this
    exact Bool.noConfusion this
  refine ⟨?_, ?_, ?_, ?_⟩
  · simp only [trigger, bind_apply, getW_apply, Res.bind_ok, hd, resolveRunners_eq]
    cases resolvedSets w depsMap (.obj t) type key newValue w with
    | ok sets w1 =>
      simp only [Res.bind_ok, forEachM_append]
      rfl
    | throw e w1 => rfl
    | timeout => rfl
    | unsupported => rfl
  · intro sets
    have hr := addAll_runners w sets ([], []) (Runners.empty w)
    refine ⟨hnd sets, hr.computed, hr.plain, ?_⟩
    intro e
    rw [List.mem_append, Or.comm, addAll_mem]
    simp
  · intro sets a e b w1 hl
    have h := hnd sets
    rw [hl] at h ⊢
    have h1 := List.nodup_append.mp h
    have h2 := List.nodup_cons.mp h1.2.1
    exact ⟨fun hm => h1.2.2 hm (List.mem_cons_self _ _), h2.1, forEachM_split _ a e b w1⟩
  · intro sets a e b w1 w2 w3 x hl ha he
    rw [hl, forEachM_split, ha, Res.bind_ok, he]
    rfl


theorem exists_mem_toList (o : Option (List Nat)) (e : Nat) :
    (∃ d ∈ o.toList, e ∈ d) ↔ e ∈ o.getD [] := by
  cases o <;> simp

theorem exists_mem_append (a b : List (List Nat)) (e : Nat) :
    (∃ d ∈ a ++ b, e ∈ d) ↔ (∃ d ∈ a, e ∈ d) ∨ (∃ d ∈ b, e ∈ d) := by
  simp only [List.mem_append]
  constructor
  · rintro ⟨d, h | h, he⟩
    · exact Or.inl ⟨d, h, he⟩
    · exact Or.inr ⟨d, h, he⟩
  · rintro (⟨d, h, he⟩ | ⟨d, h, he⟩)
    · exact ⟨d, Or.inl h, he⟩
    · exact ⟨d, Or.inr h, he⟩

/-- C13 (amended): for a `set`, `add` or `delete` trigger that is not an array length
change, the resolved subscribers are, leaving out the running effect, those of the mutated
key when that key is not `undefined`, plus, exactly when the kind is `add`, `delete` or a
`set` on a `Map`, those of the iteration key (`'length'` for an array, the iterate marker
otherwise).  In particular a `set` on a plain object or array element resolves only the
subscribers of its key. -/
theorem C13_resolve_key (w : World) (depsMap : List (Value × List Nat)) (target : Value)
    (type : String) (key newValue : Value) (w0 : World)
    (htype : type = "set" ∨ type = "add" ∨ type = "delete")
    (hlen : ¬ (key = .str "length" ∧ isArray w target = true)) :
    ∃ runners, resolveRunners w depsMap target type key newValue w0 = .ok runners w0 ∧
      ∀ e, (e ∈ runners.1 ∨ e ∈ runners.2) ↔
        some e ≠ w.activeEffect ∧
        ((key ≠ .undefined ∧ e ∈ (alookup key depsMap).getD []) ∨
         ((type = "add" ∨ type = "delete" ∨ (type = "set" ∧ instanceofMap w target = true)) ∧
           e ∈ (alookup (if isArray w target then .str "length" else ITERATE_KEY)
                  depsMap).getD [])) := by
  have hclear : type ≠ "clear" := by
    rcases htype with h | h | h <;> rw [h] <;> decide
  have h2 : (key = .str "length" && isArray w target) = false := by
    cases h : (key = .str "length" && isArray w target)
    · rfl
    · exact absurd (by simpa using h) hlen
  refine ⟨addAll w ((if key ≠ .undefined then (alookup key depsMap).toList else []) ++
      (if type = "add" || type = "delete" || (type = "set" && instanceofMap w target) then
        (alookup (if isArray w target then .str "length" else ITERATE_KEY) depsMap).toList
       else [])) ([], []), ?_, ?_⟩
  · rw [resolveRunners_eq]
    unfold resolvedSets
    rw [if_neg hclear, h2]
    rfl
  · intro e
    rw [addAll_mem, exists_mem_append]
    have hA : (∃ d ∈ (if key ≠ .undefined then (alookup key depsMap).toList else []), e ∈ d) ↔
        (key ≠ .undefined ∧ e ∈ (alookup key depsMap).getD []) := by
      by_cases h3 : key ≠ .undefined
      · rw [if_pos h3, exists_mem_toList]
        exact ⟨fun h => ⟨h3, h⟩, fun h => h.2⟩
      · rw [if_neg h3]
        simp [h3]
    have hB : (∃ d ∈ (if type = "add" || type = "delete" || (type = "set" && instanceofMap w target)
        then (alookup (if isArray w target then .str "length" else ITERATE_KEY) depsMap).toList
        else []), e ∈ d) ↔
        ((type = "add" ∨ type = "delete" ∨ (type = "set" ∧ instanceofMap w target = true)) ∧
           e ∈ (alookup (if isArray w target then .str "length" else ITERATE_KEY)
                  depsMap).getD []) := by
      by_cases h4 : (type = "add" || type = "delete" || (type = "set" && instanceofMap w target)) = true
      · rw [if_pos h4, exists_mem_toList]
        have : type = "add" ∨ type = "delete" ∨ (type = "set" ∧ instanceofMap w target = true) := by
          simpa [or_assoc] using h4
        exact ⟨fun h => ⟨this, h⟩, fun h => h.2⟩
      · rw [if_neg h4]
        have : ¬ (type = "add" ∨ type = "delete" ∨ (type = "set" ∧ instanceofMap w target = true)) := by
          simpa [or_assoc] using h4
        simp [this]
    rw [hA, hB]
    simp only [List.not_mem_nil, or_self, false_or]
    exact ⟨fun h => ⟨h.2, h.1⟩, fun h => ⟨h.2, h.1⟩⟩

/-- Witness for C3 in `dispatchWorld`, for the sets of key `x` and of the iterate marker. -/
theorem C3_dispatch_order_witness :
    ((addAll dispatchWorld [[1, 2, 3], [3, 2]] ([], [])).2 ++
      (addAll dispatchWorld [[1, 2, 3], [3, 2]] ([], [])).1).Nodup ∧
    (∀ e ∈ (addAll dispatchWorld [[1, 2, 3], [3, 2]] ([], [])).2,
      isComputedRunner dispatchWorld e = true) :=
  ⟨((C3_dispatch_order (interp 0) 0 "add" (.str "x") .undefined .undefined .undefined
      dispatchWorld _ rfl).2.1 [[1, 2, 3], [3, 2]]).1,
   ((C3_dispatch_order (interp 0) 0 "add" (.str "x") .undefined .undefined .undefined
      dispatchWorld _ rfl).2.1 [[1, 2, 3], [3, 2]]).2.1⟩

/-- Counterexample to C3 as stated: two effects subscribe to `a.x` and the first throws
when it is dispatched; the `trigger` of the write `a.x = 1` dispatches the first (it has run
twice), the exception leaves the write, and the second resolved subscriber is not dispatched
at all (it has run once). -/
theorem C3_counterexample :
    thrownBy (runScript 40 throwingSubscriber) = some (.str "boom") ∧
    varOf (runScript 40 throwingSubscriber) "runs1" = some (.num (Decimal.ofInt 2)) ∧
    varOf (runScript 40 throwingSubscriber) "runs2" = some (.num (Decimal.ofInt 1)) := by
  decide!


/-- Witness for C13: an `add` of key `x` in `dispatchWorld`. -/
theorem C13_resolve_key_witness :
    ∃ runners, resolveRunners dispatchWorld [(.str "x", [1, 2, 3]), (ITERATE_KEY, [3, 2])]
        (.obj 0) "add" (.str "x") .undefined dispatchWorld = .ok runners dispatchWorld ∧
      ∀ e, (e ∈ runners.1 ∨ e ∈ runners.2) ↔
        some e ≠ dispatchWorld.activeEffect ∧
        ((Value.str "x" ≠ .undefined ∧
            e ∈ (alookup (.str "x") [(Value.str "x", [1, 2, 3]), (ITERATE_KEY, [3, 2])]).getD []) ∨
         (("add" = "add" ∨ "add" = "delete" ∨
              ("add" = "set" ∧ instanceofMap dispatchWorld (.obj 0) = true)) ∧
           e ∈ (alookup (if isArray dispatchWorld (.obj 0) then .str "length" else ITERATE_KEY)
                  [(Value.str "x", [1, 2, 3]), (ITERATE_KEY, [3, 2])]).getD [])) :=
  C13_resolve_key dispatchWorld _ (.obj 0) "add" (.str "x") .undefined dispatchWorld
    (Or.inr (Or.inl rfl)) (by decide)

/-- Counterexample to C13 as stated: an effect subscribed to the key `undefined` of a
reactive `Set` (through `has`) is not resolved by the `add` trigger of that key: it ran
once, and still holds `false` although the set now has the key. -/
theorem C13_counterexample :
    varOf (runScript 30 setAddUndefined) "runs" = some (.num (Decimal.ofInt 1)) ∧
    varOf (runScript 30 setAddUndefined) "h" = some (.bool false) ∧
    varOf (runScript 30 setAddUndefined) "now" = some (.bool true) := by
  decide!

/-! ## Array length change (C14) -/

/-- C14 at its failing input: an effect has enumerated the keys of a reactive array, which
records the iterate marker (a symbol); assigning a new length then throws a `TypeError`
out of the comparison `key >= newValue`, and no subscriber is re-run (`runs` stays 1). -/
theorem C14_length_trigger_throws :
    thrownBy (runScript 30 lengthAfterOwnKeys) = some TypeError ∧
    varOf (runScript 30 lengthAfterOwnKeys) "runs" = some (.num (Decimal.ofInt 1)) := by
  decide!

/-! ## Writing to a computed cell (C19) -/

/-- C19 at its failing input: a computed cell made from an options object with `get` and
no `set` has `undefined` as its setter, and assigning to `.value` throws a `TypeError`. -/
theorem C19_computed_options_without_set_throws :
    thrownBy (runScript 30 writeComputedWithoutSet) = some TypeError ∧
    varOf (runScript 30 writeComputedWithoutSet) "before" = some (.num (Decimal.ofInt 1)) := by
  decide!

/-- The case of C19 the code handles: for a computed cell made from a bare getter the
write returns normally and the value read afterwards is unchanged. -/
theorem computed_getter_write_ignored :
    thrownBy (runScript 30 writeComputedGetter) = none ∧
    varOf (runScript 30 writeComputedGetter) "after" = some (.num (Decimal.ofInt 1)) := by
  decide!

/-! ## Canonical wrapping of raw objects (C11) -/

theorem getImpl_raw (k : Interp) (w : World) (o : Nat) (kind : Kind)
    (props entries : List (Value × Value)) (key recv : Value)
    (hc : w.cell? o = some (.raw kind props entries)) (hk : key ≠ .str "size") :
    getImpl k (.obj o) key recv w = .ok (rawProp kind props key) w := by
  simp only [getImpl, bind_apply, getW_apply, Res.bind_ok, hc]
  cases h : alookup key props with
  | some v => simp [rawProp, h, pure_apply]
  | none => simp [rawProp, h, hk, pure_apply]

theorem interp_readsRaw (n : Nat) : ReadsRaw (interp (n + 1)) := by
  intro w o kind props entries key recv hc hk
  exact getImpl_raw (interp n) w o kind props entries key recv hc hk

theorem canObserve_raw (k : Interp) (hk : ReadsRaw k) (w : World) (o : Nat) (kind : Kind)
    (props entries : List (Value × Value)) (hc : w.cell? o = some (.raw kind props entries)) :
    canObserve k (.obj o) w = .ok (observableRaw w o kind props) w := by
  have e1 := hk w o kind props entries (.str "_isVue") (.obj o) hc (by decide)
  have e2 := hk w o kind props entries (.str "_isVNode") (.obj o) hc (by decide)
  simp only [canObserve, bind_apply, Res.bind_ok, e1]
  unfold observableRaw
  cases h1 : truthy (rawProp kind props (.str "_isVue"))
  · cases h2 : truthy (rawProp kind props (.str "_isVNode"))
    · simp [h2, bind_apply, Res.bind_ok, e2, getW_apply, pure_apply]
    · simp [h2, bind_apply, Res.bind_ok, e2, pure_apply]
  · simp [pure_apply]

theorem isObject_raw (w : World) (o : Nat) (kind : Kind) (props entries : List (Value × Value))
    (hc : w.cell? o = some (.raw kind props entries)) : isObject w (.obj o) = true := by
  simp [isObject, isFunction, hc]

theorem createReactiveObject_raw (k : Interp) (hk : ReadsRaw k) (w : World) (o : Nat)
    (kind : Kind) (props entries : List (Value × Value)) (f : Family) (bh ch : Handlers)
    (hc : w.cell? o = some (.raw kind props entries)) :
    createReactiveObject k (.obj o) f bh ch w =
      .ok (wrapRaw w o kind props f bh ch).1 (wrapRaw w o kind props f bh ch).2 := by
  simp only [createReactiveObject, bind_apply, getW_apply, Res.bind_ok,
    isObject_raw w o kind props entries hc]
  unfold wrapRaw
  cases h1 : alookup o (w.toProxy f) with
  | some p => simp [pure_apply]
  | none =>
    cases h2 : wmHas (w.toRawMap f) (.obj o) with
    | true => simp [pure_apply]
    | false =>
      simp only [Bool.not_true, Bool.false_eq_true, if_false, bind_apply,
        canObserve_raw k hk w o kind props entries hc, Res.bind_ok]
      cases h3 : observableRaw w o kind props with
      | false => simp [pure_apply]
      | true =>
        have e3 := hk w o kind props entries (.str "constructor") (.obj o) hc (by decide)
        simp [bind_apply, Res.bind_ok, e3, alloc, modifyW_apply, pure_apply, handlersFor]

theorem cell_lt (w : World) (a : Nat) (c : Cell) (h : w.cell? a = some c) : a < w.heap.length := by
  unfold World.cell? at h
  exact (List.get?_eq_some.mp h).1

theorem cell_append (w : World) (a : Nat) (c d : Cell) (h : w.cell? a = some c) :
    ({ w with heap := w.heap ++ [d] } : World).cell? a = some c := by
  unfold World.cell? at *
  rw [List.get?_eq_getElem?, List.getElem?_append_left (cell_lt w a c h), ← List.get?_eq_getElem?]
  exact h

theorem readonly_eq (k : Interp) (x : Nat) (w : World) :
    readonly k (.obj x) w =
      createReactiveObject k (.obj ((alookup x w.reactiveToRaw).getD x)) .readonly
        .readonlyHandlers .readonlyCollectionHandlers w := by
  simp only [readonly, bind_apply, getW_apply, Res.bind_ok]
  cases alookup x w.reactiveToRaw <;> rfl

theorem isRef_raw (k : Interp) (hk : ReadsRaw k) (w : World) (o : Nat) (kind : Kind)
    (props entries : List (Value × Value)) (hc : w.cell? o = some (.raw kind props entries)) :
    isRef k (.obj o) w = .ok (strictEq (rawProp kind props (.str "_isRef")) (.bool true)) w := by
  have e1 := hk w o kind props entries (.str "_isRef") (.obj o) hc (by decide)
  simp only [isRef, bind_apply, Res.bind_ok, e1, pure_apply]

/-- `createReactiveObject` on a value already registered as a wrapper of the family. -/
theorem createReactiveObject_wrapper (k : Interp) (w : World) (r : Nat) (f : Family)
    (bh ch : Handlers) (ho : isObject w (.obj r) = true) (h1 : alookup r (w.toProxy f) = none)
    (h2 : wmHas (w.toRawMap f) (.obj r) = true) :
    createReactiveObject k (.obj r) f bh ch w = .ok (.obj r) w := by
  simp [createReactiveObject, bind_apply, getW_apply, Res.bind_ok, ho, h1, h2, pure_apply]

theorem RawEntry.toRaw_self {w : World} {o : Nat} (h : RawEntry w o) : toRaw w (.obj o) = .obj o := by
  simp [toRaw, h.notWrapper1, h.notWrapper2]

/-- Under `RawEntry`, the readonly wrapping of the raw object `o` has `o` as its raw. -/
theorem wrapRaw_readonly_toRaw (w : World) (o : Nat) (kind : Kind)
    (props : List (Value × Value)) (bh ch : Handlers) (h : RawEntry w o) :
    toRaw (wrapRaw w o kind props .readonly bh ch).2 (wrapRaw w o kind props .readonly bh ch).1
      = .obj o := by
  unfold wrapRaw
  cases h1 : alookup o (w.toProxy .readonly) with
  | some r =>
    have := h.readonlyInv r h1
    simp [toRaw, this.1, this.2.1]
  | none =>
    simp only []
    cases h2 : wmHas (w.toRawMap .readonly) (.obj o) with
    | true => simpa using h.toRaw_self
    | false =>
      cases h3 : observableRaw w o kind props with
      | false => simpa using h.toRaw_self
      | true =>
        simp [toRaw, World.register, (h.fresh w.heap.length (Nat.le_refl _)).1,
          alookup_ainsert_self]

theorem reactive_raw (k : Interp) (hk : ReadsRaw k) (w : World) (o : Nat) (kind : Kind)
    (props entries : List (Value × Value)) (hc : w.cell? o = some (.raw kind props entries))
    (h2 : alookup o w.readonlyToRaw = none) :
    reactive k (.obj o) w =
      if wsHas w.readonlyValues (.obj o) then readonly k (.obj o) w
      else if strictEq (rawProp kind props (.str "_isRef")) (.bool true) then .ok (.obj o) w
      else .ok (wrapRaw w o kind props .reactive .mutableHandlers .mutableCollectionHandlers).1
             (wrapRaw w o kind props .reactive .mutableHandlers .mutableCollectionHandlers).2 := by
  simp only [reactive, bind_apply, getW_apply, Res.bind_ok, wmHas, h2, Option.isSome_none,
    Bool.false_eq_true, if_false]
  by_cases h3 : wsHas w.readonlyValues (.obj o) = true
  · simp only [h3, if_true]
  · by_cases h4 : strictEq (rawProp kind props (.str "_isRef")) (.bool true) = true
    · simp [h3, h4, bind_apply, isRef_raw k hk w o kind props entries hc, Res.bind_ok,
        pure_apply]
    · simp [h3, h4, bind_apply, isRef_raw k hk w o kind props entries hc, Res.bind_ok,
        createReactiveObject_raw k hk w o kind props entries _ _ _ hc]

theorem readonly_raw (k : Interp) (hk : ReadsRaw k) (w : World) (o : Nat) (kind : Kind)
    (props entries : List (Value × Value)) (hc : w.cell? o = some (.raw kind props entries))
    (h1 : alookup o w.reactiveToRaw = none) :
    readonly k (.obj o) w =
      .ok (wrapRaw w o kind props .readonly .readonlyHandlers .readonlyCollectionHandlers).1
          (wrapRaw w o kind props .readonly .readonlyHandlers .readonlyCollectionHandlers).2 := by
  rw [readonly_eq, h1]
  exact createReactiveObject_raw k hk w o kind props entries _ _ _ hc

theorem cell_append_self (w : World) (d : Cell) :
    ({ w with heap := w.heap ++ [d] } : World).cell? w.heap.length = some d := by
  simp [World.cell?]

theorem readonlyOfWrapper_self (k : Interp) (hk : ReadsRaw k) (w : World) (o : Nat)
    (kind : Kind) (props entries : List (Value × Value))
    (hc : w.cell? o = some (.raw kind props entries)) (h : RawEntry w o) :
    ReadonlyOfWrapper k o (.obj o) w :=
  ⟨_, _, readonly_raw k hk w o kind props entries hc h.notWrapper1,
    readonly_raw k hk w o kind props entries hc h.notWrapper1,
    wrapRaw_readonly_toRaw w o kind props _ _ h⟩

theorem readonlyOfWrapper_reactive (k : Interp) (hk : ReadsRaw k) (w : World) (o p : Nat)
    (kind : Kind) (props entries : List (Value × Value))
    (hc : w.cell? o = some (.raw kind props entries)) (h : RawEntry w o)
    (hp : alookup p w.reactiveToRaw = some o) :
    ReadonlyOfWrapper k o (.obj p) w := by
  refine ⟨_, _, ?_, readonly_raw k hk w o kind props entries hc h.notWrapper1,
    wrapRaw_readonly_toRaw w o kind props _ _ h⟩
  rw [readonly_eq, hp]
  exact createReactiveObject_raw k hk w o kind props entries _ _ _ hc

theorem isObject_heap (w1 w2 : World) (h : w1.heap = w2.heap) (v : Value) :
    isObject w1 v = isObject w2 v := by
  cases v <;> simp [isObject, isFunction, World.cell?, h]

theorem isObject_append (w : World) (a : Nat) (d : Cell) (h : a < w.heap.length) :
    isObject ({ w with heap := w.heap ++ [d] } : World) (.obj a) = isObject w (.obj a) := by
  have : ({ w with heap := w.heap ++ [d] } : World).cell? a = w.cell? a := by
    simp [World.cell?, List.getElem?_append_left h]
  simp [isObject, isFunction, this]

theorem RawEntry.wrappedReactive {w : World} {o : Nat} (h : RawEntry w o)
    (ho : o < w.heap.length) (hs : Handlers) : RawEntry (wrappedReactive w o hs) o := by
  have hne : o ≠ w.heap.length := Nat.ne_of_lt ho
  constructor
  · simp [Reactivity.wrappedReactive, World.register, alookup_ainsert_ne _ _ _ _ hne,
      h.notWrapper1]
  · simp [Reactivity.wrappedReactive, World.register, h.notWrapper2]
  · intro p hp
    simp only [Reactivity.wrappedReactive, World.register, alookup_ainsert_self] at hp
    cases hp
    simp [Reactivity.wrappedReactive, World.register, alookup_ainsert_self]
  · intro r hr
    have hr0 : alookup o w.rawToReadonly = some r := hr
    obtain ⟨a1, a2, a3, a4, a5⟩ := h.readonlyInv r hr0
    have hne2 : r ≠ w.heap.length := Nat.ne_of_lt a5
    refine ⟨a1, ?_, a3, ?_, ?_⟩
    · simp [Reactivity.wrappedReactive, World.register, alookup_ainsert_ne _ _ _ _ hne2, a2]
    · rw [isObject_heap (Reactivity.wrappedReactive w o hs)
        ({ w with heap := w.heap ++ [Cell.proxy o hs] } : World) rfl, isObject_append w r _ a5]
      exact a4
    · simp [Reactivity.wrappedReactive, World.register]
      omega
  · intro a ha
    have ha1 : w.heap.length ≤ a := by
      simp [Reactivity.wrappedReactive, World.register] at ha
      omega
    have hne3 : a ≠ w.heap.length := by
      simp [Reactivity.wrappedReactive, World.register] at ha
      omega
    obtain ⟨b1, b2⟩ := h.fresh a ha1
    exact ⟨by simp [Reactivity.wrappedReactive, World.register,
      alookup_ainsert_ne _ _ _ _ hne3, b1], b2⟩

theorem wrapRaw_reactive_cases (w : World) (o : Nat) (kind : Kind) (props : List (Value × Value))
    (bh ch : Handlers) (h : RawEntry w o) :
    (wrapRaw w o kind props .reactive bh ch = (.obj o, w)) ∨
    (∃ p, alookup p w.reactiveToRaw = some o ∧ wrapRaw w o kind props .reactive bh ch = (.obj p, w)) ∨
    (wrapRaw w o kind props .reactive bh ch =
      (.obj w.heap.length, wrappedReactive w o (handlersFor kind props bh ch))) := by
  unfold wrapRaw
  cases h1 : alookup o (w.toProxy .reactive) with
  | some p => exact Or.inr (Or.inl ⟨p, h.reactiveInv p h1, rfl⟩)
  | none =>
    simp only []
    cases h2 : wmHas (w.toRawMap .reactive) (.obj o) with
    | true => exact Or.inl rfl
    | false =>
      cases h3 : observableRaw w o kind props with
      | false => exact Or.inl rfl
      | true => exact Or.inr (Or.inr rfl)

/-- `readonly` of the wrapper that `readonly(o)` itself returns. -/
theorem readonlyOfWrapper_readonly (k : Interp) (hk : ReadsRaw k) (w : World) (o : Nat)
    (kind : Kind) (props entries : List (Value × Value))
    (hc : w.cell? o = some (.raw kind props entries)) (h : RawEntry w o) :
    ReadonlyOfWrapper k o
      (wrapRaw w o kind props .readonly .readonlyHandlers .readonlyCollectionHandlers).1
      (wrapRaw w o kind props .readonly .readonlyHandlers .readonlyCollectionHandlers).2 := by
  have ho := cell_lt w o _ hc
  unfold wrapRaw
  cases h1 : alookup o (w.toProxy .readonly) with
  | some r =>
    obtain ⟨a1, a2, a3, a4, _⟩ := h.readonlyInv r h1
    refine ⟨.obj r, w, ?_, ?_, ?_⟩
    · rw [readonly_eq, a2]
      exact createReactiveObject_wrapper k w r .readonly _ _ a4 a3 (by simp [wmHas, World.toRawMap, a1])
    · rw [readonly_raw k hk w o kind props entries hc h.notWrapper1]
      simp [wrapRaw, h1]
    · simp [toRaw, a1, a2]
  | none =>
    simp only []
    have h2 : wmHas (w.toRawMap .readonly) (.obj o) = false := by
      simp [wmHas, World.toRawMap, h.notWrapper2]
    rw [h2]
    cases h3 : observableRaw w o kind props with
    | false => exact readonlyOfWrapper_self k hk w o kind props entries hc h
    | true =>
      simp only [Bool.false_eq_true, if_false, if_true]
      have hne : o ≠ w.heap.length := Nat.ne_of_lt ho
      have hf := h.fresh w.heap.length (Nat.le_refl _)
      refine ⟨.obj w.heap.length, ({ w with heap := w.heap ++ [Cell.proxy o (handlersFor kind props
            .readonlyHandlers .readonlyCollectionHandlers)] } : World).register .readonly o
              w.heap.length, ?_, ?_, ?_⟩
      · rw [readonly_eq]
        simp only [World.register, hf.1, Option.getD_none]
        apply createReactiveObject_wrapper
        · simp [isObject, isFunction, World.cell?]
        · simp [World.toProxy, alookup_ainsert_ne _ _ _ _ hne.symm, hf.2]
        · simp [wmHas, World.toRawMap, alookup_ainsert_self]
      · have hc2 : (({ w with heap := w.heap ++ [Cell.proxy o (handlersFor kind props
            .readonlyHandlers .readonlyCollectionHandlers)] } : World).register .readonly o
              w.heap.length).cell? o = some (.raw kind props entries) := cell_append w o _ _ hc
        rw [readonly_raw k hk _ o kind props entries hc2 h.notWrapper1]
        simp [wrapRaw, World.toProxy, World.register, alookup_ainsert_self]
      · simp [toRaw, World.register, hf.1, alookup_ainsert_self]

/-- C11 (amended): for every raw object `o`, whatever `reactive(o)` returns (its mutable
wrapper, old or new; its readonly wrapper when `o` is marked readonly; `o` itself when `o`
is a Ref or cannot be observed), `readonly` of that value returns what `readonly(o)`
returns, in the same state, and `toRaw` of the result is `o`: the wrapper that `readonly`
makes from a mutable wrapper has the raw object, never the mutable wrapper, as its
target. -/
theorem C11_readonly_of_reactive (k : Interp) (hk : ReadsRaw k) (w : World) (o : Nat)
    (kind : Kind) (props entries : List (Value × Value))
    (hc : w.cell? o = some (.raw kind props entries)) (h : RawEntry w o) :
    ∃ x w1 r w2, reactive k (.obj o) w = .ok x w1 ∧ readonly k x w1 = .ok r w2 ∧
      readonly k (.obj o) w1 = .ok r w2 ∧ toRaw w2 r = .obj o := by
  have ho := cell_lt w o _ hc
  rw [reactive_raw k hk w o kind props entries hc h.notWrapper2]
  by_cases h3 : wsHas w.readonlyValues (.obj o) = true
  · rw [if_pos h3, readonly_raw k hk w o kind props entries hc h.notWrapper1]
    obtain ⟨r, w2, e1, e2, e3⟩ := readonlyOfWrapper_readonly k hk w o kind props entries hc h
    exact ⟨_, _, r, w2, rfl, e1, e2, e3⟩
  · rw [if_neg h3]
    by_cases h4 : strictEq (rawProp kind props (.str "_isRef")) (.bool true) = true
    · rw [if_pos h4]
      obtain ⟨r, w2, e1, e2, e3⟩ := readonlyOfWrapper_self k hk w o kind props entries hc h
      exact ⟨_, _, r, w2, rfl, e1, e2, e3⟩
    · rw [if_neg h4]
      rcases wrapRaw_reactive_cases w o kind props .mutableHandlers .mutableCollectionHandlers h
        with e | ⟨p, hp, e⟩ | e
      · rw [e]
        obtain ⟨r, w2, e1, e2, e3⟩ := readonlyOfWrapper_self k hk w o kind props entries hc h
        exact ⟨_, _, r, w2, rfl, e1, e2, e3⟩
      · rw [e]
        obtain ⟨r, w2, e1, e2, e3⟩ :=
          readonlyOfWrapper_reactive k hk w o p kind props entries hc h hp
        exact ⟨_, _, r, w2, rfl, e1, e2, e3⟩
      · rw [e]
        have hc1 : (wrappedReactive w o (handlersFor kind props .mutableHandlers
            .mutableCollectionHandlers)).cell? o = some (.raw kind props entries) :=
          cell_append w o _ _ hc
        obtain ⟨r, w2, e1, e2, e3⟩ :=
          readonlyOfWrapper_reactive k hk _ o w.heap.length kind props entries hc1
            (h.wrappedReactive ho _)
            (by simp [wrappedReactive, World.register, alookup_ainsert_self])
        exact ⟨_, _, r, w2, rfl, e1, e2, e3⟩

theorem oneObjectWorld_rawEntry : RawEntry oneObjectWorld 0 :=
  ⟨rfl, rfl, fun _ h => (nomatch h), fun _ h => (nomatch h), fun _ _ => ⟨rfl, rfl⟩⟩

/-- Witness for C11: the object of `oneObjectWorld`. -/
theorem C11_readonly_of_reactive_witness :
    ∃ x w1 r w2, reactive (interp 1) (.obj 0) oneObjectWorld = .ok x w1 ∧
      readonly (interp 1) x w1 = .ok r w2 ∧
      readonly (interp 1) (.obj 0) w1 = .ok r w2 ∧ toRaw w2 r = .obj 0 :=
  C11_readonly_of_reactive (interp 1) (interp_readsRaw 0) oneObjectWorld 0 .Object
    [(.str "x", .num (Decimal.ofInt 1))] [] rfl oneObjectWorld_rawEntry

/-- Counterexample to the last clause of C11: `shallowReadonly(reactive(o))` is a readonly
wrapper (`isReadonly` holds of it) whose underlying target, as `toRaw` reports it, is the
mutable wrapper `p`, not `o`. -/
theorem C11_counterexample :
    varOf (runScript 30 shallowReadonlyOfReactive) "srIsReadonly" = some (.bool true) ∧
    varOf (runScript 30 shallowReadonlyOfReactive) "srRaw"
      = varOf (runScript 30 shallowReadonlyOfReactive) "p" ∧
    varOf (runScript 30 shallowReadonlyOfReactive) "pIsReactive" = some (.bool true) ∧
    varOf (runScript 30 shallowReadonlyOfReactive) "p"
      ≠ varOf (runScript 30 shallowReadonlyOfReactive) "o" := by
  decide!

/-! ## Running an effect -/

theorem effect?_cell (w : World) (e : Nat) (r : EffectRec) (h : w.effect? e = some r) :
    w.cell? e = some (.effect r) := by
  unfold World.effect? at h
  cases hc : w.cell? e with
  | none => simp [hc] at h
  | some c =>
    cases c <;> simp [hc] at h
    subst h
    rfl

theorem run_inactive (k : Interp) (w : World) (e : Nat) (r : EffectRec) (fn : Value)
    (args : List Value) (hr : w.effect? e = some r) (ha : r.active = false) :
    run k e fn args w = k (.apply fn .undefined args) w := by
  simp [run, bind_apply, getW_apply, Res.bind_ok, hr, ha]

theorem run_on_stack (k : Interp) (w : World) (e : Nat) (r : EffectRec) (fn : Value)
    (args : List Value) (hr : w.effect? e = some r) (ha : r.active = true)
    (hs : e ∈ w.effectStack) : run k e fn args w = .ok .undefined w := by
  simp [run, bind_apply, getW_apply, Res.bind_ok, hr, ha, hs, pure_apply]

theorem run_active (k : Interp) (w : World) (e : Nat) (r : EffectRec) (fn : Value)
    (args : List Value) (hr : w.effect? e = some r) (ha : r.active = true)
    (hs : e ∉ w.effectStack) :
    run k e fn args w =
      (k (.apply fn .undefined args) (runEnter e (cleanup e w))).finally runExit := by
  simp [run, bind_apply, getW_apply, Res.bind_ok, hr, ha, hs, modifyW_apply, tryFinallyM]

theorem apply_effect (k : Interp) (w : World) (e : Nat) (r : EffectRec) (this : Value)
    (args : List Value) (hr : w.effect? e = some r) :
    applyImpl k (.obj e) this args w = run k e r.raw args w := by
  simp [applyImpl, bind_apply, getW_apply, Res.bind_ok, effect?_cell w e r hr]

/-! ## Computed cells (C18) -/

theorem computedTrackReturn_eq (k : Interp) (c : Nat) (w : World) :
    (track k (.obj c) "get" (.str "value") w).bind (fun _ => ((do
      match (← getW).cell? c with
      | some (.computed _ value _ _) => pure value
      | _ => unsupportedM) : M Value)) = computedTrackReturn k c w := by
  simp only [computedTrackReturn, bind_apply]

theorem computedGetValue_clean (k : Interp) (w : World) (c : Nat) (v runner setter : Value)
    (hc : w.cell? c = some (.computed false v runner setter)) :
    computedGetValue k c w = computedTrackReturn k c w := by
  simp only [computedGetValue, bind_apply, getW_apply, Res.bind_ok, hc]
  simp only [Bool.false_eq_true, if_false, pure_apply, Res.bind_ok]
  exact computedTrackReturn_eq k c w

theorem computedGetValue_dirty (k : Interp) (w : World) (c : Nat) (v runner setter : Value)
    (hc : w.cell? c = some (.computed true v runner setter)) :
    computedGetValue k c w =
      (k (.apply runner .undefined []) w).bind fun x w1 =>
        computedTrackReturn k c (computedStore c x w1) := by
  simp only [computedGetValue, bind_apply, getW_apply, Res.bind_ok, hc]
  simp only [if_true, bind_apply]
  cases k (.apply runner .undefined []) w with
  | ok x w1 =>
    simp only [Res.bind_ok, modifyW_apply]
    exact computedTrackReturn_eq k c _
  | throw e w1 => rfl
  | timeout => rfl
  | unsupported => rfl

theorem computedScheduler_dirty (k : Interp) (w : World) (c : Nat) (v runner setter : Value)
    (hc : w.cell? c = some (.computed true v runner setter)) :
    computedScheduler k c w = .ok () w := by
  simp [computedScheduler, bind_apply, getW_apply, Res.bind_ok, hc, pure_apply]

theorem computedScheduler_clean (k : Interp) (w : World) (c : Nat) (v runner setter : Value)
    (hc : w.cell? c = some (.computed false v runner setter)) :
    computedScheduler k c w =
      trigger k (.obj c) "set" (.str "value") .undefined .undefined .undefined
        (w.setCell c (.computed true v runner setter)) := by
  simp [computedScheduler, bind_apply, getW_apply, Res.bind_ok, hc, modifyW_apply]

theorem getImpl_fn (k : Interp) (w : World) (g : Nat) (params : List String) (body : Prog)
    (key recv : Value) (hc : w.cell? g = some (.fn params body)) :
    getImpl k (.obj g) key recv w = .ok .undefined w := by
  simp [getImpl, bind_apply, getW_apply, Res.bind_ok, hc, pure_apply]

theorem cell_heap_append (w : World) (a : Nat) (c : Cell) (l : List Cell)
    (h : w.cell? a = some c) (w1 : World) (hw : w1.heap = w.heap ++ l) : w1.cell? a = some c := by
  unfold World.cell? at *
  have hlt : a < w.heap.length := (List.get?_eq_some.mp h).1
  rw [hw, List.get?_eq_getElem?, List.getElem?_append_left hlt, ← List.get?_eq_getElem?]
  exact h

theorem computed_getter (n : Nat) (w : World) (g : Nat) (params : List String) (body : Prog)
    (hc : w.cell? g = some (.fn params body)) :
    computed (interp (n + 1)) (.obj g) w
      = .ok (.obj (w.heap.length + 1)) (computedCreated w (.obj g)) := by
  have hf : isFunction w (.obj g) = true := by simp [isFunction, hc]
  have hg : interp (n + 1) (.get (.obj g) (.str "_isEffect") (.obj g))
      { w with heap := w.heap ++ [Cell.computedWarnSetter,
          Cell.computed true .undefined .undefined (.obj w.heap.length),
          Cell.computedScheduler (w.heap.length + 1)] }
      = .ok .undefined _ :=
    getImpl_fn (interp n) _ g params body _ _ (cell_heap_append w g _
      [Cell.computedWarnSetter, Cell.computed true .undefined .undefined (.obj w.heap.length),
       Cell.computedScheduler (w.heap.length + 1)] hc _ rfl)
  simp [computed, bind_apply, getW_apply, Res.bind_ok, hf, alloc, pure_apply,
    effect, isEffect, createReactiveEffect, hg, strictEq, truthy, modifyW_apply, World.setCell,
    computedCreated, computedOptions, List.set_append]

theorem computedStore_cell (c : Nat) (x : Value) (w : World) (d : Bool) (v runner setter : Value)
    (hc : w.cell? c = some (.computed d v runner setter)) :
    (computedStore c x w).cell? c = some (.computed false x runner setter) := by
  have hlt := cell_lt w c _ hc
  unfold computedStore
  rw [hc]
  simp [World.setCell, World.cell?, List.get?_eq_getElem?, hlt]

theorem scheduleRun_computed (k : Interp) (w : World) (e sched : Nat) (r : EffectRec)
    (target : Value) (type : String) (key newValue oldValue oldTarget : Value)
    (hr : w.effect? e = some r) (ho : r.options = computedOptions sched) :
    scheduleRun k e target type key newValue oldValue oldTarget w =
      (k (.apply (.obj sched) .undefined [.obj e]) w).bind fun _ w1 => .ok () w1 := by
  simp [scheduleRun, bind_apply, getW_apply, Res.bind_ok, hr, ho, computedOptions, truthy,
    pure_apply]
  rfl

theorem apply_computedScheduler (k : Interp) (w : World) (sched c : Nat) (this : Value)
    (args : List Value) (hs : w.cell? sched = some (.computedScheduler c)) :
    applyImpl k (.obj sched) this args w =
      (computedScheduler k c w).bind fun _ w1 => .ok .undefined w1 := by
  simp [applyImpl, bind_apply, getW_apply, Res.bind_ok, hs, pure_apply]
  rfl

theorem Res.bind_unit (r : Res Unit) : (r.bind fun _ w1 => Res.ok () w1) = r := by
  cases r <;> rfl

theorem Res.bind_assoc {α β γ : Type} (r : Res α) (f : α → World → Res β)
    (g : β → World → Res γ) : (r.bind f).bind g = r.bind fun a w => (f a w).bind g := by
  cases r <;> rfl

/-- C18 (amended): a computed cell is lazy and memoized.  In a state `w` holding a computed
cell `c` whose runner is the active effect `e` (made with the options of `computed`, the
scheduler of `c` included): `computed(getter)` of a function allocates the setter, the cell
with `dirty = true`, the scheduler and the runner and runs no code; a read of `c.value`
with `dirty` false only tracks and returns the cached value; with `dirty` true and the
runner not running it runs the getter once inside `run`, stores the result, clears `dirty`,
tracks and returns; with `dirty` true and the runner already running (a read of `c.value`
from inside the getter of `c`) it does not invoke the getter: it stores `undefined`, clears
`dirty`, tracks and returns; after the store `dirty` is false; and dispatching the runner on
a write to a dependency does nothing when `dirty` is true and otherwise only sets `dirty`
and triggers the subscribers of (`c`, `value`). -/
theorem C18_computed_lazy (n : Nat) (w : World) (c e sched : Nat) (dirty : Bool)
    (v setter : Value) (r : EffectRec)
    (hc : w.cell? c = some (.computed dirty v (.obj e) setter))
    (hr : w.effect? e = some r) (ha : r.active = true) (ho : r.options = computedOptions sched)
    (hs : w.cell? sched = some (.computedScheduler c)) :
    (∀ g params body, w.cell? g = some (.fn params body) →
      computed (interp (n + 1)) (.obj g) w
        = .ok (.obj (w.heap.length + 1)) (computedCreated w (.obj g))) ∧
    (dirty = false →
      computedGetValue (interp (n + 2)) c w = computedTrackReturn (interp (n + 2)) c w) ∧
    (dirty = true → e ∉ w.effectStack →
      computedGetValue (interp (n + 2)) c w =
        ((interp (n + 1) (.apply r.raw .undefined []) (runEnter e (cleanup e w))).finally
            runExit).bind
          fun x w1 => computedTrackReturn (interp (n + 2)) c (computedStore c x w1)) ∧
    (dirty = true → e ∈ w.effectStack →
      computedGetValue (interp (n + 2)) c w
        = computedTrackReturn (interp (n + 2)) c (computedStore c .undefined w)) ∧
    (∀ x w1 d v1 ru se, w1.cell? c = some (.computed d v1 ru se) →
      (computedStore c x w1).cell? c = some (.computed false x ru se)) ∧
    (∀ target type key newValue oldValue oldTarget,
      scheduleRun (interp (n + 2)) e target type key newValue oldValue oldTarget w =
        if dirty then .ok () w
        else trigger (interp (n + 1)) (.obj c) "set" (.str "value") .undefined .undefined
          .undefined (w.setCell c (.computed true v (.obj e) setter))) := by
  have happ : interp (n + 2) (.apply (.obj e) .undefined []) w
      = run (interp (n + 1)) e r.raw [] w :=
    apply_effect (interp (n + 1)) w e r .undefined [] hr
  refine ⟨fun g params body hg => computed_getter n w g params body hg, ?_, ?_, ?_, ?_, ?_⟩
  · intro hd
    subst hd
    exact computedGetValue_clean _ w c v _ setter hc
  · intro hd hst
    subst hd
    rw [computedGetValue_dirty _ w c v _ setter hc, happ, run_active _ w e r _ _ hr ha hst]
  · intro hd hst
    subst hd
    rw [computedGetValue_dirty _ w c v _ setter hc, happ, run_on_stack _ w e r _ _ hr ha hst,
      Res.bind_ok]
  · intro x w1 d v1 ru se h1
    exact computedStore_cell c x w1 d v1 ru se h1
  · intro target type key newValue oldValue oldTarget
    rw [scheduleRun_computed _ w e sched r _ _ _ _ _ _ hr ho]
    have h2 : interp (n + 2) (.apply (.obj sched) .undefined [.obj e]) w
        = (computedScheduler (interp (n + 1)) c w).bind fun _ w1 => .ok .undefined w1 :=
      apply_computedScheduler (interp (n + 1)) w sched c .undefined [.obj e] hs
    rw [h2, Res.bind_assoc]
    cases dirty with
    | true =>
      rw [computedScheduler_dirty _ w c v _ setter hc]
      rfl
    | false =>
      rw [computedScheduler_clean _ w c v _ setter hc]
      simp only [Res.bind_ok, Bool.false_eq_true, if_false]
      exact Res.bind_unit _

/-- Witness for C18: the first read of the cell of `computedWorld` runs the getter
(object `0`) once inside `run` and stores the result. -/
theorem C18_computed_lazy_witness :
    computedGetValue (interp 3) 2 computedWorld =
      ((interp 2 (.apply (.obj 0) .undefined []) (runEnter 4 (cleanup 4 computedWorld))).finally
          runExit).bind
        fun x w1 => computedTrackReturn (interp 3) 2 (computedStore 2 x w1) :=
  (C18_computed_lazy 1 computedWorld 2 4 3 true .undefined (.obj 1)
    { raw := .obj 0, active := true, deps := [], options := computedOptions 3 }
    rfl rfl rfl rfl rfl).2.2.1 rfl (by decide)

/-- Counterexample to C18 as stated: the read of `c.value` from inside the getter of `c`
finds `dirty` set (it is cleared only after the runner returns) and does not invoke the
getter: the getter has run once, and the inner read returned `undefined`. -/
theorem C18_counterexample :
    varOf (runScript 40 selfReadingComputed) "calls" = some (.num (Decimal.ofInt 1)) ∧
    varOf (runScript 40 selfReadingComputed) "inner" = some .undefined ∧
    varOf (runScript 40 selfReadingComputed) "v" = some (.num (Decimal.ofInt 7)) := by
  decide!

/-! ## Relations respected by every state update -/

theorem Res.Rel.trans {R : World → World → Prop} (hR : StableCore R) {α : Type} {w w1 : World}
    {r : Res α} (h1 : R w w1) (h2 : r.Rel R w1) : r.Rel R w := by
  cases r with
  | ok a w2 => exact hR.trans _ _ _ h1 h2
  | throw e w2 => exact hR.trans _ _ _ h1 h2
  | timeout => trivial
  | unsupported => trivial

theorem pres_pure {R : World → World → Prop} (hR : StableCore R) {α : Type} (a : α) :
    Preserves R (pure a : M α) :=
  ⟨fun w => hR.refl w⟩

theorem pres_getW {R : World → World → Prop} (hR : StableCore R) : Preserves R getW :=
  ⟨fun w => hR.refl w⟩

theorem pres_throwE {R : World → World → Prop} (hR : StableCore R) {α : Type} (e : Value) :
    Preserves R (throwE e : M α) :=
  ⟨fun w => hR.refl w⟩

theorem pres_unsupportedM {R : World → World → Prop} {α : Type} :
    Preserves R (unsupportedM : M α) :=
  ⟨fun _ => trivial⟩

theorem pres_modifyW {R : World → World → Prop} (f : World → World)
    (h : ∀ w, R w (f w)) : Preserves R (modifyW f) :=
  ⟨fun w => h w⟩

theorem pres_alloc {R : World → World → Prop} (hR : StableCore R) (c : Cell)
    (hc : ∀ r, c ≠ .effect r) : Preserves R (alloc c) :=
  ⟨fun w => hR.alloc w c hc⟩

theorem pres_warn {R : World → World → Prop} (hR : StableCore R) (msg : String) :
    Preserves R (warn msg) :=
  ⟨fun w => hR.other _ _ rfl rfl rfl rfl⟩

theorem pres_bind {R : World → World → Prop} (hR : StableCore R) {α β : Type} {m : M α}
    {f : α → M β} (hm : Preserves R m) (hf : ∀ a, Preserves R (f a)) :
    Preserves R (m >>= f) := by
  constructor
  intro w
  have h1 := hm.out w
  rw [bind_apply]
  cases h : m w with
  | ok a w1 =>
    rw [h] at h1
    exact Res.Rel.trans hR h1 ((hf a).out w1)
  | throw e w1 =>
    rw [h] at h1
    exact h1
  | timeout => trivial
  | unsupported => trivial

theorem pres_eta {R : World → World → Prop} {α : Type} {m : M α} (h : Preserves R m) :
    Preserves R (fun w0 => m w0) :=
  h

theorem stable_register {R : World → World → Prop} (hR : StableCore R) (w : World) (f : Family)
    (t o : Nat) : R w (w.register f t o) :=
  hR.other _ _ (by cases f <;> rfl) (by cases f <;> rfl) (by cases f <;> rfl)
    (by cases f <;> rfl)

theorem stable_resetTracking {R : World → World → Prop} (hR : StableCore R) (w : World) :
    R w (resetTracking w) :=
  hR.other _ _ (by unfold resetTracking; split <;> rfl)
    (by unfold resetTracking; split <;> rfl) (by unfold resetTracking; split <;> rfl)
    (by unfold resetTracking; split <;> rfl)

theorem stable_computedStore {R : World → World → Prop} (hR : StableCore R) (c : Nat)
    (v : Value) (w : World) : R w (computedStore c v w) := by
  unfold computedStore
  split
  · exact hR.setCell _ _ _ (fun _ h => nomatch h)
  · exact hR.refl w

theorem forEachM_pres {R : World → World → Prop} (hR : StableCore R) {α : Type} (f : α → M Unit)
    (hf : ∀ a, Preserves R (f a)) (l : List α) : Preserves R (forEachM f l) := by
  induction l with
  | nil => exact pres_pure hR ()
  | cons a l ih => exact pres_bind hR (hf a) (fun _ => ih)

theorem track_pres {R : World → World → Prop} (hS : Stable R) {k : Interp}
    (hk : ∀ c, Preserves R (k c)) (target : Value) (type : String) (key : Value) :
    Preserves R (track k target type key) := by
  have hR : StableCore R := hS.toStableCore
  constructor
  intro w
  cases hs : w.shouldTrack with
  | false => rw [track_disabled k target type key w (Or.inl hs)]; exact hR.refl w
  | true =>
    cases ha : w.activeEffect with
    | none => rw [track_disabled k target type key w (Or.inr ha)]; exact hR.refl w
    | some e =>
      cases target with
      | obj t =>
        by_cases hm : e ∈ w.dep t key
        · rw [track_member k type key w e t hs ha hm]
          exact hR.refl w
        · simp only [track, bind_apply, getW_apply, Res.bind_ok]
          rw [hs, ha]
          simp only []
          rw [World.dep_eq, if_neg hm]
          cases hr : w.effect? e with
          | none => trivial
          | some r =>
            simp only [bind_apply, modifyW_apply, Res.bind_ok]
            refine Res.Rel.trans hR (hS.trackAdd w e t key r ha hr hm) (Preserves.out ?_ _)
            split
            · exact pres_bind hR (pres_alloc hR _ (fun _ h => nomatch h)) (fun _ =>
                pres_bind hR (hk _) (fun _ => pres_pure hR ()))
            · exact pres_pure hR ()
      | undefined => simp only [track, bind_apply, getW_apply, Res.bind_ok]; rw [hs, ha]; exact hR.refl w
      | null => simp only [track, bind_apply, getW_apply, Res.bind_ok]; rw [hs, ha]; exact hR.refl w
      | bool b => simp only [track, bind_apply, getW_apply, Res.bind_ok]; rw [hs, ha]; exact hR.refl w
      | num x => simp only [track, bind_apply, getW_apply, Res.bind_ok]; rw [hs, ha]; exact hR.refl w
      | nan => simp only [track, bind_apply, getW_apply, Res.bind_ok]; rw [hs, ha]; exact hR.refl w
      | str s => simp only [track, bind_apply, getW_apply, Res.bind_ok]; rw [hs, ha]; exact hR.refl w
      | sym s => simp only [track, bind_apply, getW_apply, Res.bind_ok]; rw [hs, ha]; exact hR.refl w
      | fn b => simp only [track, bind_apply, getW_apply, Res.bind_ok]; rw [hs, ha]; exact hR.refl w

theorem run_pres {R : World → World → Prop} (hR : StableCore R) {k : Interp}
    (hk : ∀ c, Preserves R (k c)) (e : Nat) (fn : Value) (args : List Value) :
    Preserves R (run k e fn args) := by
  constructor
  intro w
  cases hr : w.effect? e with
  | none =>
    simp only [run, bind_apply, getW_apply, Res.bind_ok, hr]
    trivial
  | some r =>
    cases ha : r.active with
    | false =>
      rw [run_inactive k w e r fn args hr ha]
      exact (hk _).out w
    | true =>
      by_cases hs : e ∈ w.effectStack
      · rw [run_on_stack k w e r fn args hr ha hs]
        exact hR.refl w
      · rw [run_active k w e r fn args hr ha hs]
        have h := (hk (.apply fn .undefined args)).out (runEnter e (cleanup e w))
        cases hb : k (.apply fn .undefined args) (runEnter e (cleanup e w)) with
        | ok v w1 =>
          rw [hb] at h
          exact hR.run w e r w1 hr ha hs h
        | throw x w1 =>
          rw [hb] at h
          exact hR.run w e r w1 hr ha hs h
        | timeout => trivial
        | unsupported => trivial

theorem createReactiveEffect_pres {R : World → World → Prop} (hR : StableCore R) (fn : Value)
    (options : Options) : Preserves R (createReactiveEffect fn options) :=
  ⟨fun w => hR.allocEffect w fn options⟩

theorem isEffect_pres {R : World → World → Prop} (hR : StableCore R) {k : Interp}
    (hk : ∀ c, Preserves R (k c)) (fn : Value) :
    Preserves R (isEffect k fn) := by
  unfold isEffect
  refine pres_eta ?_
  repeat' (first
    | with_reducible exact hk _
    | with_reducible exact pres_pure hR _
    | with_reducible exact pres_getW hR
    | with_reducible exact pres_throwE hR _
    | with_reducible exact pres_unsupportedM
    | with_reducible exact pres_alloc hR _ (fun _ h => nomatch h)
    | with_reducible exact pres_warn hR _
    | with_reducible apply pres_bind hR
    | with_reducible apply pres_modifyW
    | exact hR.other _ _ rfl rfl rfl rfl
    | exact hR.setCell _ _ _ (fun _ h => nomatch h)
    | exact hR.cleaned _ _ | exact hR.stopMark _ _
    | exact stable_register hR .. | exact stable_resetTracking hR ..
    | exact stable_computedStore hR ..
    | intro _ | split | dsimp only)

theorem effect_pres {R : World → World → Prop} (hR : StableCore R) {k : Interp}
    (hk : ∀ c, Preserves R (k c)) (fn : Value) (options : Options) :
    Preserves R (effect k fn options) := by
  unfold effect
  refine pres_eta ?_
  repeat' (first
    | with_reducible exact hk _
    | with_reducible exact pres_pure hR _
    | with_reducible exact pres_getW hR
    | with_reducible exact pres_throwE hR _
    | with_reducible exact pres_unsupportedM
    | with_reducible exact pres_alloc hR _ (fun _ h => nomatch h)
    | with_reducible exact pres_warn hR _
    | with_reducible exact createReactiveEffect_pres hR ..
    | with_reducible exact isEffect_pres hR hk ..
    | with_reducible apply pres_bind hR
    | with_reducible apply pres_modifyW
    | exact hR.other _ _ rfl rfl rfl rfl
    | exact hR.setCell _ _ _ (fun _ h => nomatch h)
    | exact hR.cleaned _ _ | exact hR.stopMark _ _
    | exact stable_register hR .. | exact stable_resetTracking hR ..
    | exact stable_computedStore hR ..
    | intro _ | split | dsimp only)

theorem stop_pres {R : World → World → Prop} (hR : StableCore R) {k : Interp}
    (hk : ∀ c, Preserves R (k c)) (effect : Value) :
    Preserves R (stop k effect) := by
  unfold stop
  refine pres_eta ?_
  repeat' (first
    | with_reducible exact hk _
    | with_reducible exact pres_pure hR _
    | with_reducible exact pres_getW hR
    | with_reducible exact pres_throwE hR _
    | with_reducible exact pres_unsupportedM
    | with_reducible exact pres_alloc hR _ (fun _ h => nomatch h)
    | with_reducible exact pres_warn hR _
    | with_reducible exact effect_pres hR hk ..
    | with_reducible apply pres_bind hR
    | with_reducible apply pres_modifyW
    | exact hR.other _ _ rfl rfl rfl rfl
    | exact hR.setCell _ _ _ (fun _ h => nomatch h)
    | exact hR.cleaned _ _ | exact hR.stopMark _ _
    | exact stable_register hR .. | exact stable_resetTracking hR ..
    | exact stable_computedStore hR ..
    | intro _ | split | dsimp only)

theorem lengthRunners_pres {R : World → World → Prop} (hR : StableCore R) (w : World)
    (newValue : Value) (l : List (Value × List Nat)) (acc : List Nat × List Nat) :
    Preserves R (lengthRunners w newValue l acc) := by
  induction l generalizing acc with
  | nil => exact pres_pure hR acc
  | cons kd l ih =>
    obtain ⟨key, dep⟩ := kd
    unfold lengthRunners
    split
    · exact ih _
    · split
      · exact ih _
      · exact ih _
      · exact pres_throwE hR _
      · exact pres_unsupportedM

theorem resolveRunners_pres {R : World → World → Prop} (hR : StableCore R) (w : World) (depsMap : List (Value × List Nat)) (target : Value) (type : String) (key : Value) (newValue : Value) :
    Preserves R (resolveRunners w depsMap target type key newValue) := by
  unfold resolveRunners
  refine pres_eta ?_
  repeat' (first
    | with_reducible exact hk _
    | with_reducible exact pres_pure hR _
    | with_reducible exact pres_getW hR
    | with_reducible exact pres_throwE hR _
    | with_reducible exact pres_unsupportedM
    | with_reducible exact pres_alloc hR _ (fun _ h => nomatch h)
    | with_reducible exact pres_warn hR _
    | with_reducible exact lengthRunners_pres hR ..
    | with_reducible apply pres_bind hR
    | with_reducible apply pres_modifyW
    | exact hR.other _ _ rfl rfl rfl rfl
    | exact hR.setCell _ _ _ (fun _ h => nomatch h)
    | exact hR.cleaned _ _ | exact hR.stopMark _ _
    | exact stable_register hR .. | exact stable_resetTracking hR ..
    | exact stable_computedStore hR ..
    | intro _ | split | dsimp only)

theorem scheduleRun_pres {R : World → World → Prop} (hR : StableCore R) {k : Interp}
    (hk : ∀ c, Preserves R (k c)) (effect : Nat) (target : Value) (type : String) (key : Value) (newValue : Value) (oldValue : Value) (oldTarget : Value) :
    Preserves R (scheduleRun k effect target type key newValue oldValue oldTarget) := by
  unfold scheduleRun
  refine pres_eta ?_
  repeat' (first
    | with_reducible exact hk _
    | with_reducible exact pres_pure hR _
    | with_reducible exact pres_getW hR
    | with_reducible exact pres_throwE hR _
    | with_reducible exact pres_unsupportedM
    | with_reducible exact pres_alloc hR _ (fun _ h => nomatch h)
    | with_reducible exact pres_warn hR _
    | with_reducible exact effect_pres hR hk ..
    | with_reducible apply pres_bind hR
    | with_reducible apply pres_modifyW
    | exact hR.other _ _ rfl rfl rfl rfl
    | exact hR.setCell _ _ _ (fun _ h => nomatch h)
    | exact hR.cleaned _ _ | exact hR.stopMark _ _
    | exact stable_register hR .. | exact stable_resetTracking hR ..
    | exact stable_computedStore hR ..
    | intro _ | split | dsimp only)

theorem trigger_pres {R : World → World → Prop} (hR : StableCore R) {k : Interp}
    (hk : ∀ c, Preserves R (k c)) (target : Value) (type : String) (key : Value) (newValue : Value) (oldValue : Value) (oldTarget : Value) :
    Preserves R (trigger k target type key newValue oldValue oldTarget) := by
  unfold trigger
  refine pres_eta ?_
  repeat' (first
    | with_reducible exact hk _
    | with_reducible exact pres_pure hR _
    | with_reducible exact pres_getW hR
    | with_reducible exact pres_throwE hR _
    | with_reducible exact pres_unsupportedM
    | with_reducible exact pres_alloc hR _ (fun _ h => nomatch h)
    | with_reducible exact pres_warn hR _
    | with_reducible exact resolveRunners_pres hR ..
    | with_reducible exact scheduleRun_pres hR hk ..
    | with_reducible apply forEachM_pres hR
    | with_reducible apply pres_bind hR
    | with_reducible apply pres_modifyW
    | exact hR.other _ _ rfl rfl rfl rfl
    | exact hR.setCell _ _ _ (fun _ h => nomatch h)
    | exact hR.cleaned _ _ | exact hR.stopMark _ _
    | exact stable_register hR .. | exact stable_resetTracking hR ..
    | exact stable_computedStore hR ..
    | intro _ | split | dsimp only)

theorem markReadonly_pres {R : World → World → Prop} (hR : StableCore R) (value : Value) :
    Preserves R (markReadonly value) := by
  unfold markReadonly
  refine pres_eta ?_
  repeat' (first
    | with_reducible exact hk _
    | with_reducible exact pres_pure hR _
    | with_reducible exact pres_getW hR
    | with_reducible exact pres_throwE hR _
    | with_reducible exact pres_unsupportedM
    | with_reducible exact pres_alloc hR _ (fun _ h => nomatch h)
    | with_reducible exact pres_warn hR _
    | with_reducible apply pres_bind hR
    | with_reducible apply pres_modifyW
    | exact hR.other _ _ rfl rfl rfl rfl
    | exact hR.setCell _ _ _ (fun _ h => nomatch h)
    | exact hR.cleaned _ _ | exact hR.stopMark _ _
    | exact stable_register hR .. | exact stable_resetTracking hR ..
    | exact stable_computedStore hR ..
    | intro _ | split | dsimp only)

theorem markNonReactive_pres {R : World → World → Prop} (hR : StableCore R) (value : Value) :
    Preserves R (markNonReactive value) := by
  unfold markNonReactive
  refine pres_eta ?_
  repeat' (first
    | with_reducible exact hk _
    | with_reducible exact pres_pure hR _
    | with_reducible exact pres_getW hR
    | with_reducible exact pres_throwE hR _
    | with_reducible exact pres_unsupportedM
    | with_reducible exact pres_alloc hR _ (fun _ h => nomatch h)
    | with_reducible exact pres_warn hR _
    | with_reducible apply pres_bind hR
    | with_reducible apply pres_modifyW
    | exact hR.other _ _ rfl rfl rfl rfl
    | exact hR.setCell _ _ _ (fun _ h => nomatch h)
    | exact hR.cleaned _ _ | exact hR.stopMark _ _
    | exact stable_register hR .. | exact stable_resetTracking hR ..
    | exact stable_computedStore hR ..
    | intro _ | split | dsimp only)

theorem canObserve_pres {R : World → World → Prop} (hR : StableCore R) {k : Interp}
    (hk : ∀ c, Preserves R (k c)) (value : Value) :
    Preserves R (canObserve k value) := by
  unfold canObserve
  refine pres_eta ?_
  repeat' (first
    | with_reducible exact hk _
    | with_reducible exact pres_pure hR _
    | with_reducible exact pres_getW hR
    | with_reducible exact pres_throwE hR _
    | with_reducible exact pres_unsupportedM
    | with_reducible exact pres_alloc hR _ (fun _ h => nomatch h)
    | with_reducible exact pres_warn hR _
    | with_reducible apply pres_bind hR
    | with_reducible apply pres_modifyW
    | exact hR.other _ _ rfl rfl rfl rfl
    | exact hR.setCell _ _ _ (fun _ h => nomatch h)
    | exact hR.cleaned _ _ | exact hR.stopMark _ _
    | exact stable_register hR .. | exact stable_resetTracking hR ..
    | exact stable_computedStore hR ..
    | intro _ | split | dsimp only)

theorem createReactiveObject_pres {R : World → World → Prop} (hR : StableCore R) {k : Interp}
    (hk : ∀ c, Preserves R (k c)) (target : Value) (f : Family) (baseHandlers : Handlers) (collectionHandlers : Handlers) :
    Preserves R (createReactiveObject k target f baseHandlers collectionHandlers) := by
  unfold createReactiveObject
  refine pres_eta ?_
  repeat' (first
    | with_reducible exact hk _
    | with_reducible exact pres_pure hR _
    | with_reducible exact pres_getW hR
    | with_reducible exact pres_throwE hR _
    | with_reducible exact pres_unsupportedM
    | with_reducible exact pres_alloc hR _ (fun _ h => nomatch h)
    | with_reducible exact pres_warn hR _
    | with_reducible exact canObserve_pres hR hk ..
    | with_reducible apply pres_bind hR
    | with_reducible apply pres_modifyW
    | exact hR.other _ _ rfl rfl rfl rfl
    | exact hR.setCell _ _ _ (fun _ h => nomatch h)
    | exact hR.cleaned _ _ | exact hR.stopMark _ _
    | exact stable_register hR .. | exact stable_resetTracking hR ..
    | exact stable_computedStore hR ..
    | intro _ | split | dsimp only)

theorem isRef_pres {R : World → World → Prop} (hR : StableCore R) {k : Interp}
    (hk : ∀ c, Preserves R (k c)) (r : Value) :
    Preserves R (isRef k r) := by
  unfold isRef
  refine pres_eta ?_
  repeat' (first
    | with_reducible exact hk _
    | with_reducible exact pres_pure hR _
    | with_reducible exact pres_getW hR
    | with_reducible exact pres_throwE hR _
    | with_reducible exact pres_unsupportedM
    | with_reducible exact pres_alloc hR _ (fun _ h => nomatch h)
    | with_reducible exact pres_warn hR _
    | with_reducible apply pres_bind hR
    | with_reducible apply pres_modifyW
    | exact hR.other _ _ rfl rfl rfl rfl
    | exact hR.setCell _ _ _ (fun _ h => nomatch h)
    | exact hR.cleaned _ _ | exact hR.stopMark _ _
    | exact stable_register hR .. | exact stable_resetTracking hR ..
    | exact stable_computedStore hR ..
    | intro _ | split | dsimp only)

theorem readonly_pres {R : World → World → Prop} (hR : StableCore R) {k : Interp}
    (hk : ∀ c, Preserves R (k c)) (target : Value) :
    Preserves R (readonly k target) := by
  unfold readonly
  refine pres_eta ?_
  repeat' (first
    | with_reducible exact hk _
    | with_reducible exact pres_pure hR _
    | with_reducible exact pres_getW hR
    | with_reducible exact pres_throwE hR _
    | with_reducible exact pres_unsupportedM
    | with_reducible exact pres_alloc hR _ (fun _ h => nomatch h)
    | with_reducible exact pres_warn hR _
    | with_reducible exact createReactiveObject_pres hR hk ..
    | with_reducible apply pres_bind hR
    | with_reducible apply pres_modifyW
    | exact hR.other _ _ rfl rfl rfl rfl
    | exact hR.setCell _ _ _ (fun _ h => nomatch h)
    | exact hR.cleaned _ _ | exact hR.stopMark _ _
    | exact stable_register hR .. | exact stable_resetTracking hR ..
    | exact stable_computedStore hR ..
    | intro _ | split | dsimp only)

theorem reactive_pres {R : World → World → Prop} (hR : StableCore R) {k : Interp}
    (hk : ∀ c, Preserves R (k c)) (target : Value) :
    Preserves R (reactive k target) := by
  unfold reactive
  refine pres_eta ?_
  repeat' (first
    | with_reducible exact hk _
    | with_reducible exact pres_pure hR _
    | with_reducible exact pres_getW hR
    | with_reducible exact pres_throwE hR _
    | with_reducible exact pres_unsupportedM
    | with_reducible exact pres_alloc hR _ (fun _ h => nomatch h)
    | with_reducible exact pres_warn hR _
    | with_reducible exact createReactiveObject_pres hR hk ..
    | with_reducible exact isRef_pres hR hk ..
    | with_reducible exact readonly_pres hR hk ..
    | with_reducible apply pres_bind hR
    | with_reducible apply pres_modifyW
    | exact hR.other _ _ rfl rfl rfl rfl
    | exact hR.setCell _ _ _ (fun _ h => nomatch h)
    | exact hR.cleaned _ _ | exact hR.stopMark _ _
    | exact stable_register hR .. | exact stable_resetTracking hR ..
    | exact stable_computedStore hR ..
    | intro _ | split | dsimp only)

theorem shallowReadonly_pres {R : World → World → Prop} (hR : StableCore R) {k : Interp}
    (hk : ∀ c, Preserves R (k c)) (target : Value) :
    Preserves R (shallowReadonly k target) := by
  unfold shallowReadonly
  refine pres_eta ?_
  repeat' (first
    | with_reducible exact hk _
    | with_reducible exact pres_pure hR _
    | with_reducible exact pres_getW hR
    | with_reducible exact pres_throwE hR _
    | with_reducible exact pres_unsupportedM
    | with_reducible exact pres_alloc hR _ (fun _ h => nomatch h)
    | with_reducible exact pres_warn hR _
    | with_reducible exact createReactiveObject_pres hR hk ..
    | with_reducible apply pres_bind hR
    | with_reducible apply pres_modifyW
    | exact hR.other _ _ rfl rfl rfl rfl
    | exact hR.setCell _ _ _ (fun _ h => nomatch h)
    | exact hR.cleaned _ _ | exact hR.stopMark _ _
    | exact stable_register hR .. | exact stable_resetTracking hR ..
    | exact stable_computedStore hR ..
    | intro _ | split | dsimp only)

theorem shallowReactive_pres {R : World → World → Prop} (hR : StableCore R) {k : Interp}
    (hk : ∀ c, Preserves R (k c)) (target : Value) :
    Preserves R (shallowReactive k target) := by
  unfold shallowReactive
  refine pres_eta ?_
  repeat' (first
    | with_reducible exact hk _
    | with_reducible exact pres_pure hR _
    | with_reducible exact pres_getW hR
    | with_reducible exact pres_throwE hR _
    | with_reducible exact pres_unsupportedM
    | with_reducible exact pres_alloc hR _ (fun _ h => nomatch h)
    | with_reducible exact pres_warn hR _
    | with_reducible exact createReactiveObject_pres hR hk ..
    | with_reducible apply pres_bind hR
    | with_reducible apply pres_modifyW
    | exact hR.other _ _ rfl rfl rfl rfl
    | exact hR.setCell _ _ _ (fun _ h => nomatch h)
    | exact hR.cleaned _ _ | exact hR.stopMark _ _
    | exact stable_register hR .. | exact stable_resetTracking hR ..
    | exact stable_computedStore hR ..
    | intro _ | split | dsimp only)

theorem convert_pres {R : World → World → Prop} (hR : StableCore R) {k : Interp}
    (hk : ∀ c, Preserves R (k c)) (val : Value) :
    Preserves R (convert k val) := by
  unfold convert
  refine pres_eta ?_
  repeat' (first
    | with_reducible exact hk _
    | with_reducible exact pres_pure hR _
    | with_reducible exact pres_getW hR
    | with_reducible exact pres_throwE hR _
    | with_reducible exact pres_unsupportedM
    | with_reducible exact pres_alloc hR _ (fun _ h => nomatch h)
    | with_reducible exact pres_warn hR _
    | with_reducible exact reactive_pres hR hk ..
    | with_reducible apply pres_bind hR
    | with_reducible apply pres_modifyW
    | exact hR.other _ _ rfl rfl rfl rfl
    | exact hR.setCell _ _ _ (fun _ h => nomatch h)
    | exact hR.cleaned _ _ | exact hR.stopMark _ _
    | exact stable_register hR .. | exact stable_resetTracking hR ..
    | exact stable_computedStore hR ..
    | intro _ | split | dsimp only)

theorem createRef_pres {R : World → World → Prop} (hR : StableCore R) {k : Interp}
    (hk : ∀ c, Preserves R (k c)) (value : Value) (shallow : Bool) :
    Preserves R (createRef k value shallow) := by
  unfold createRef
  refine pres_eta ?_
  repeat' (first
    | with_reducible exact hk _
    | with_reducible exact pres_pure hR _
    | with_reducible exact pres_getW hR
    | with_reducible exact pres_throwE hR _
    | with_reducible exact pres_unsupportedM
    | with_reducible exact pres_alloc hR _ (fun _ h => nomatch h)
    | with_reducible exact pres_warn hR _
    | with_reducible exact isRef_pres hR hk ..
    | with_reducible exact convert_pres hR hk ..
    | with_reducible apply pres_bind hR
    | with_reducible apply pres_modifyW
    | exact hR.other _ _ rfl rfl rfl rfl
    | exact hR.setCell _ _ _ (fun _ h => nomatch h)
    | exact hR.cleaned _ _ | exact hR.stopMark _ _
    | exact stable_register hR .. | exact stable_resetTracking hR ..
    | exact stable_computedStore hR ..
    | intro _ | split | dsimp only)

theorem ref_pres {R : World → World → Prop} (hR : StableCore R) {k : Interp}
    (hk : ∀ c, Preserves R (k c)) (value : Value) :
    Preserves R (ref k value) := by
  unfold ref
  refine pres_eta ?_
  repeat' (first
    | with_reducible exact hk _
    | with_reducible exact pres_pure hR _
    | with_reducible exact pres_getW hR
    | with_reducible exact pres_throwE hR _
    | with_reducible exact pres_unsupportedM
    | with_reducible exact pres_alloc hR _ (fun _ h => nomatch h)
    | with_reducible exact pres_warn hR _
    | with_reducible exact createRef_pres hR hk ..
    | with_reducible apply pres_bind hR
    | with_reducible apply pres_modifyW
    | exact hR.other _ _ rfl rfl rfl rfl
    | exact hR.setCell _ _ _ (fun _ h => nomatch h)
    | exact hR.cleaned _ _ | exact hR.stopMark _ _
    | exact stable_register hR .. | exact stable_resetTracking hR ..
    | exact stable_computedStore hR ..
    | intro _ | split | dsimp only)

theorem shallowRef_pres {R : World → World → Prop} (hR : StableCore R) {k : Interp}
    (hk : ∀ c, Preserves R (k c)) (value : Value) :
    Preserves R (shallowRef k value) := by
  unfold shallowRef
  refine pres_eta ?_
  repeat' (first
    | with_reducible exact hk _
    | with_reducible exact pres_pure hR _
    | with_reducible exact pres_getW hR
    | with_reducible exact pres_throwE hR _
    | with_reducible exact pres_unsupportedM
    | with_reducible exact pres_alloc hR _ (fun _ h => nomatch h)
    | with_reducible exact pres_warn hR _
    | with_reducible exact createRef_pres hR hk ..
    | with_reducible apply pres_bind hR
    | with_reducible apply pres_modifyW
    | exact hR.other _ _ rfl rfl rfl rfl
    | exact hR.setCell _ _ _ (fun _ h => nomatch h)
    | exact hR.cleaned _ _ | exact hR.stopMark _ _
    | exact stable_register hR .. | exact stable_resetTracking hR ..
    | exact stable_computedStore hR ..
    | intro _ | split | dsimp only)

theorem refGetValue_pres {R : World → World → Prop} (hS : Stable R) {k : Interp}
    (hk : ∀ c, Preserves R (k c)) (r : Nat) :
    Preserves R (refGetValue k r) := by
  have hR : StableCore R := hS.toStableCore
  unfold refGetValue
  refine pres_eta ?_
  repeat' (first
    | with_reducible exact hk _
    | with_reducible exact pres_pure hR _
    | with_reducible exact pres_getW hR
    | with_reducible exact pres_throwE hR _
    | with_reducible exact pres_unsupportedM
    | with_reducible exact pres_alloc hR _ (fun _ h => nomatch h)
    | with_reducible exact pres_warn hR _
    | with_reducible exact track_pres hS hk ..
    | with_reducible apply pres_bind hR
    | with_reducible apply pres_modifyW
    | exact hR.other _ _ rfl rfl rfl rfl
    | exact hR.setCell _ _ _ (fun _ h => nomatch h)
    | exact hR.cleaned _ _ | exact hR.stopMark _ _
    | exact stable_register hR .. | exact stable_resetTracking hR ..
    | exact stable_computedStore hR ..
    | intro _ | split | dsimp only)

theorem refSetValue_pres {R : World → World → Prop} (hR : StableCore R) {k : Interp}
    (hk : ∀ c, Preserves R (k c)) (r : Nat) (newVal : Value) :
    Preserves R (refSetValue k r newVal) := by
  unfold refSetValue
  refine pres_eta ?_
  repeat' (first
    | with_reducible exact hk _
    | with_reducible exact pres_pure hR _
    | with_reducible exact pres_getW hR
    | with_reducible exact pres_throwE hR _
    | with_reducible exact pres_unsupportedM
    | with_reducible exact pres_alloc hR _ (fun _ h => nomatch h)
    | with_reducible exact pres_warn hR _
    | with_reducible exact trigger_pres hR hk ..
    | with_reducible exact convert_pres hR hk ..
    | with_reducible apply pres_bind hR
    | with_reducible apply pres_modifyW
    | exact hR.other _ _ rfl rfl rfl rfl
    | exact hR.setCell _ _ _ (fun _ h => nomatch h)
    | exact hR.cleaned _ _ | exact hR.stopMark _ _
    | exact stable_register hR .. | exact stable_resetTracking hR ..
    | exact stable_computedStore hR ..
    | intro _ | split | dsimp only)

theorem unref_pres {R : World → World → Prop} (hR : StableCore R) {k : Interp}
    (hk : ∀ c, Preserves R (k c)) (r : Value) :
    Preserves R (unref k r) := by
  unfold unref
  refine pres_eta ?_
  repeat' (first
    | with_reducible exact hk _
    | with_reducible exact pres_pure hR _
    | with_reducible exact pres_getW hR
    | with_reducible exact pres_throwE hR _
    | with_reducible exact pres_unsupportedM
    | with_reducible exact pres_alloc hR _ (fun _ h => nomatch h)
    | with_reducible exact pres_warn hR _
    | with_reducible exact isRef_pres hR hk ..
    | with_reducible apply pres_bind hR
    | with_reducible apply pres_modifyW
    | exact hR.other _ _ rfl rfl rfl rfl
    | exact hR.setCell _ _ _ (fun _ h => nomatch h)
    | exact hR.cleaned _ _ | exact hR.stopMark _ _
    | exact stable_register hR .. | exact stable_resetTracking hR ..
    | exact stable_computedStore hR ..
    | intro _ | split | dsimp only)

theorem computed_pres {R : World → World → Prop} (hR : StableCore R) {k : Interp}
    (hk : ∀ c, Preserves R (k c)) (getterOrOptions : Value) :
    Preserves R (computed k getterOrOptions) := by
  unfold computed
  refine pres_eta ?_
  repeat' (first
    | with_reducible exact hk _
    | with_reducible exact pres_pure hR _
    | with_reducible exact pres_getW hR
    | with_reducible exact pres_throwE hR _
    | with_reducible exact pres_unsupportedM
    | with_reducible exact pres_alloc hR _ (fun _ h => nomatch h)
    | with_reducible exact pres_warn hR _
    | with_reducible exact effect_pres hR hk ..
    | with_reducible apply pres_bind hR
    | with_reducible apply pres_modifyW
    | exact hR.other _ _ rfl rfl rfl rfl
    | exact hR.setCell _ _ _ (fun _ h => nomatch h)
    | exact hR.cleaned _ _ | exact hR.stopMark _ _
    | exact stable_register hR .. | exact stable_resetTracking hR ..
    | exact stable_computedStore hR ..
    | intro _ | split | dsimp only)

theorem computedScheduler_pres {R : World → World → Prop} (hR : StableCore R) {k : Interp}
    (hk : ∀ c, Preserves R (k c)) (c : Nat) :
    Preserves R (computedScheduler k c) := by
  unfold computedScheduler
  refine pres_eta ?_
  repeat' (first
    | with_reducible exact hk _
    | with_reducible exact pres_pure hR _
    | with_reducible exact pres_getW hR
    | with_reducible exact pres_throwE hR _
    | with_reducible exact pres_unsupportedM
    | with_reducible exact pres_alloc hR _ (fun _ h => nomatch h)
    | with_reducible exact pres_warn hR _
    | with_reducible exact trigger_pres hR hk ..
    | with_reducible apply pres_bind hR
    | with_reducible apply pres_modifyW
    | exact hR.other _ _ rfl rfl rfl rfl
    | exact hR.setCell _ _ _ (fun _ h => nomatch h)
    | exact hR.cleaned _ _ | exact hR.stopMark _ _
    | exact stable_register hR .. | exact stable_resetTracking hR ..
    | exact stable_computedStore hR ..
    | intro _ | split | dsimp only)

theorem computedGetValue_pres {R : World → World → Prop} (hS : Stable R) {k : Interp}
    (hk : ∀ c, Preserves R (k c)) (c : Nat) :
    Preserves R (computedGetValue k c) := by
  have hR : StableCore R := hS.toStableCore
  unfold computedGetValue
  refine pres_eta ?_
  repeat' (first
    | with_reducible exact hk _
    | with_reducible exact pres_pure hR _
    | with_reducible exact pres_getW hR
    | with_reducible exact pres_throwE hR _
    | with_reducible exact pres_unsupportedM
    | with_reducible exact pres_alloc hR _ (fun _ h => nomatch h)
    | with_reducible exact pres_warn hR _
    | with_reducible exact track_pres hS hk ..
    | with_reducible apply pres_bind hR
    | with_reducible apply pres_modifyW
    | exact hR.other _ _ rfl rfl rfl rfl
    | exact hR.setCell _ _ _ (fun _ h => nomatch h)
    | exact hR.cleaned _ _ | exact hR.stopMark _ _
    | exact stable_register hR .. | exact stable_resetTracking hR ..
    | exact stable_computedStore hR ..
    | intro _ | split | dsimp only)

theorem computedSetValue_pres {R : World → World → Prop} (hR : StableCore R) {k : Interp}
    (hk : ∀ c, Preserves R (k c)) (c : Nat) (newValue : Value) :
    Preserves R (computedSetValue k c newValue) := by
  unfold computedSetValue
  refine pres_eta ?_
  repeat' (first
    | with_reducible exact hk _
    | with_reducible exact pres_pure hR _
    | with_reducible exact pres_getW hR
    | with_reducible exact pres_throwE hR _
    | with_reducible exact pres_unsupportedM
    | with_reducible exact pres_alloc hR _ (fun _ h => nomatch h)
    | with_reducible exact pres_warn hR _
    | with_reducible apply pres_bind hR
    | with_reducible apply pres_modifyW
    | exact hR.other _ _ rfl rfl rfl rfl
    | exact hR.setCell _ _ _ (fun _ h => nomatch h)
    | exact hR.cleaned _ _ | exact hR.stopMark _ _
    | exact stable_register hR .. | exact stable_resetTracking hR ..
    | exact stable_computedStore hR ..
    | intro _ | split | dsimp only)

theorem createGetter_pres {R : World → World → Prop} (hS : Stable R) {k : Interp}
    (hk : ∀ c, Preserves R (k c)) (isReadonly : Bool) (shallow : Bool) (target : Value) (key : Value) (receiver : Value) :
    Preserves R (createGetter isReadonly shallow k target key receiver) := by
  have hR : StableCore R := hS.toStableCore
  unfold createGetter
  refine pres_eta ?_
  repeat' (first
    | with_reducible exact hk _
    | with_reducible exact pres_pure hR _
    | with_reducible exact pres_getW hR
    | with_reducible exact pres_throwE hR _
    | with_reducible exact pres_unsupportedM
    | with_reducible exact pres_alloc hR _ (fun _ h => nomatch h)
    | with_reducible exact pres_warn hR _
    | with_reducible exact track_pres hS hk ..
    | with_reducible exact isRef_pres hR hk ..
    | with_reducible exact readonly_pres hR hk ..
    | with_reducible exact reactive_pres hR hk ..
    | with_reducible apply pres_bind hR
    | with_reducible apply pres_modifyW
    | exact hR.other _ _ rfl rfl rfl rfl
    | exact hR.setCell _ _ _ (fun _ h => nomatch h)
    | exact hR.cleaned _ _ | exact hR.stopMark _ _
    | exact stable_register hR .. | exact stable_resetTracking hR ..
    | exact stable_computedStore hR ..
    | intro _ | split | dsimp only)

theorem createSetter_pres {R : World → World → Prop} (hR : StableCore R) {k : Interp}
    (hk : ∀ c, Preserves R (k c)) (isReadonly : Bool) (shallow : Bool) (target : Value) (key : Value) (value : Value) (receiver : Value) :
    Preserves R (createSetter isReadonly shallow k target key value receiver) := by
  unfold createSetter
  refine pres_eta ?_
  repeat' (first
    | with_reducible exact hk _
    | with_reducible exact pres_pure hR _
    | with_reducible exact pres_getW hR
    | with_reducible exact pres_throwE hR _
    | with_reducible exact pres_unsupportedM
    | with_reducible exact pres_alloc hR _ (fun _ h => nomatch h)
    | with_reducible exact pres_warn hR _
    | with_reducible exact trigger_pres hR hk ..
    | with_reducible exact isRef_pres hR hk ..
    | with_reducible apply pres_bind hR
    | with_reducible apply pres_modifyW
    | exact hR.other _ _ rfl rfl rfl rfl
    | exact hR.setCell _ _ _ (fun _ h => nomatch h)
    | exact hR.cleaned _ _ | exact hR.stopMark _ _
    | exact stable_register hR .. | exact stable_resetTracking hR ..
    | exact stable_computedStore hR ..
    | intro _ | split | dsimp only)

theorem deleteProperty_pres {R : World → World → Prop} (hR : StableCore R) {k : Interp}
    (hk : ∀ c, Preserves R (k c)) (target : Value) (key : Value) :
    Preserves R (deleteProperty k target key) := by
  unfold deleteProperty
  refine pres_eta ?_
  repeat' (first
    | with_reducible exact hk _
    | with_reducible exact pres_pure hR _
    | with_reducible exact pres_getW hR
    | with_reducible exact pres_throwE hR _
    | with_reducible exact pres_unsupportedM
    | with_reducible exact pres_alloc hR _ (fun _ h => nomatch h)
    | with_reducible exact pres_warn hR _
    | with_reducible exact trigger_pres hR hk ..
    | with_reducible apply pres_bind hR
    | with_reducible apply pres_modifyW
    | exact hR.other _ _ rfl rfl rfl rfl
    | exact hR.setCell _ _ _ (fun _ h => nomatch h)
    | exact hR.cleaned _ _ | exact hR.stopMark _ _
    | exact stable_register hR .. | exact stable_resetTracking hR ..
    | exact stable_computedStore hR ..
    | intro _ | split | dsimp only)

theorem has_pres {R : World → World → Prop} (hS : Stable R) {k : Interp}
    (hk : ∀ c, Preserves R (k c)) (target : Value) (key : Value) :
    Preserves R (has k target key) := by
  have hR : StableCore R := hS.toStableCore
  unfold has
  refine pres_eta ?_
  repeat' (first
    | with_reducible exact hk _
    | with_reducible exact pres_pure hR _
    | with_reducible exact pres_getW hR
    | with_reducible exact pres_throwE hR _
    | with_reducible exact pres_unsupportedM
    | with_reducible exact pres_alloc hR _ (fun _ h => nomatch h)
    | with_reducible exact pres_warn hR _
    | with_reducible exact track_pres hS hk ..
    | with_reducible apply pres_bind hR
    | with_reducible apply pres_modifyW
    | exact hR.other _ _ rfl rfl rfl rfl
    | exact hR.setCell _ _ _ (fun _ h => nomatch h)
    | exact hR.cleaned _ _ | exact hR.stopMark _ _
    | exact stable_register hR .. | exact stable_resetTracking hR ..
    | exact stable_computedStore hR ..
    | intro _ | split | dsimp only)

theorem ownKeys_pres {R : World → World → Prop} (hS : Stable R) {k : Interp}
    (hk : ∀ c, Preserves R (k c)) (target : Value) :
    Preserves R (ownKeys k target) := by
  have hR : StableCore R := hS.toStableCore
  unfold ownKeys
  refine pres_eta ?_
  repeat' (first
    | with_reducible exact hk _
    | with_reducible exact pres_pure hR _
    | with_reducible exact pres_getW hR
    | with_reducible exact pres_throwE hR _
    | with_reducible exact pres_unsupportedM
    | with_reducible exact pres_alloc hR _ (fun _ h => nomatch h)
    | with_reducible exact pres_warn hR _
    | with_reducible exact track_pres hS hk ..
    | with_reducible apply pres_bind hR
    | with_reducible apply pres_modifyW
    | exact hR.other _ _ rfl rfl rfl rfl
    | exact hR.setCell _ _ _ (fun _ h => nomatch h)
    | exact hR.cleaned _ _ | exact hR.stopMark _ _
    | exact stable_register hR .. | exact stable_resetTracking hR ..
    | exact stable_computedStore hR ..
    | intro _ | split | dsimp only)

theorem readonlyDeleteProperty_pres {R : World → World → Prop} (hR : StableCore R) {k : Interp}
    (hk : ∀ c, Preserves R (k c)) (target : Value) (key : Value) :
    Preserves R (readonlyDeleteProperty k target key) := by
  unfold readonlyDeleteProperty
  refine pres_eta ?_
  repeat' (first
    | with_reducible exact hk _
    | with_reducible exact pres_pure hR _
    | with_reducible exact pres_getW hR
    | with_reducible exact pres_throwE hR _
    | with_reducible exact pres_unsupportedM
    | with_reducible exact pres_alloc hR _ (fun _ h => nomatch h)
    | with_reducible exact pres_warn hR _
    | with_reducible exact deleteProperty_pres hR hk ..
    | with_reducible apply pres_bind hR
    | with_reducible apply pres_modifyW
    | exact hR.other _ _ rfl rfl rfl rfl
    | exact hR.setCell _ _ _ (fun _ h => nomatch h)
    | exact hR.cleaned _ _ | exact hR.stopMark _ _
    | exact stable_register hR .. | exact stable_resetTracking hR ..
    | exact stable_computedStore hR ..
    | intro _ | split | dsimp only)

theorem toReactive_pres {R : World → World → Prop} (hR : StableCore R) {k : Interp}
    (hk : ∀ c, Preserves R (k c)) (value : Value) :
    Preserves R (toReactive k value) := by
  unfold toReactive
  refine pres_eta ?_
  repeat' (first
    | with_reducible exact hk _
    | with_reducible exact pres_pure hR _
    | with_reducible exact pres_getW hR
    | with_reducible exact pres_throwE hR _
    | with_reducible exact pres_unsupportedM
    | with_reducible exact pres_alloc hR _ (fun _ h => nomatch h)
    | with_reducible exact pres_warn hR _
    | with_reducible exact reactive_pres hR hk ..
    | with_reducible apply pres_bind hR
    | with_reducible apply pres_modifyW
    | exact hR.other _ _ rfl rfl rfl rfl
    | exact hR.setCell _ _ _ (fun _ h => nomatch h)
    | exact hR.cleaned _ _ | exact hR.stopMark _ _
    | exact stable_register hR .. | exact stable_resetTracking hR ..
    | exact stable_computedStore hR ..
    | intro _ | split | dsimp only)

theorem toReadonly_pres {R : World → World → Prop} (hR : StableCore R) {k : Interp}
    (hk : ∀ c, Preserves R (k c)) (value : Value) :
    Preserves R (toReadonly k value) := by
  unfold toReadonly
  refine pres_eta ?_
  repeat' (first
    | with_reducible exact hk _
    | with_reducible exact pres_pure hR _
    | with_reducible exact pres_getW hR
    | with_reducible exact pres_throwE hR _
    | with_reducible exact pres_unsupportedM
    | with_reducible exact pres_alloc hR _ (fun _ h => nomatch h)
    | with_reducible exact pres_warn hR _
    | with_reducible exact readonly_pres hR hk ..
    | with_reducible apply pres_bind hR
    | with_reducible apply pres_modifyW
    | exact hR.other _ _ rfl rfl rfl rfl
    | exact hR.setCell _ _ _ (fun _ h => nomatch h)
    | exact hR.cleaned _ _ | exact hR.stopMark _ _
    | exact stable_register hR .. | exact stable_resetTracking hR ..
    | exact stable_computedStore hR ..
    | intro _ | split | dsimp only)

theorem wrapWith_pres {R : World → World → Prop} (hR : StableCore R) {k : Interp}
    (hk : ∀ c, Preserves R (k c)) (isReadonly : Bool) (value : Value) :
    Preserves R (wrapWith isReadonly k value) := by
  unfold wrapWith
  refine pres_eta ?_
  repeat' (first
    | with_reducible exact hk _
    | with_reducible exact pres_pure hR _
    | with_reducible exact pres_getW hR
    | with_reducible exact pres_throwE hR _
    | with_reducible exact pres_unsupportedM
    | with_reducible exact pres_alloc hR _ (fun _ h => nomatch h)
    | with_reducible exact pres_warn hR _
    | with_reducible exact toReactive_pres hR hk ..
    | with_reducible exact toReadonly_pres hR hk ..
    | with_reducible apply pres_bind hR
    | with_reducible apply pres_modifyW
    | exact hR.other _ _ rfl rfl rfl rfl
    | exact hR.setCell _ _ _ (fun _ h => nomatch h)
    | exact hR.cleaned _ _ | exact hR.stopMark _ _
    | exact stable_register hR .. | exact stable_resetTracking hR ..
    | exact stable_computedStore hR ..
    | intro _ | split | dsimp only)

theorem protoCall_pres {R : World → World → Prop} (hR : StableCore R) (name : String) (target : Value) (args : List Value) :
    Preserves R (protoCall name target args) := by
  unfold protoCall
  refine pres_eta ?_
  repeat' (first
    | with_reducible exact hk _
    | with_reducible exact pres_pure hR _
    | with_reducible exact pres_getW hR
    | with_reducible exact pres_throwE hR _
    | with_reducible exact pres_unsupportedM
    | with_reducible exact pres_alloc hR _ (fun _ h => nomatch h)
    | with_reducible exact pres_warn hR _
    | with_reducible apply pres_bind hR
    | with_reducible apply pres_modifyW
    | exact hR.other _ _ rfl rfl rfl rfl
    | exact hR.setCell _ _ _ (fun _ h => nomatch h)
    | exact hR.cleaned _ _ | exact hR.stopMark _ _
    | exact stable_register hR .. | exact stable_resetTracking hR ..
    | exact stable_computedStore hR ..
    | intro _ | split | dsimp only)

theorem protoSize_pres {R : World → World → Prop} (hR : StableCore R) (target : Value) :
    Preserves R (protoSize target) := by
  unfold protoSize
  refine pres_eta ?_
  repeat' (first
    | with_reducible exact hk _
    | with_reducible exact pres_pure hR _
    | with_reducible exact pres_getW hR
    | with_reducible exact pres_throwE hR _
    | with_reducible exact pres_unsupportedM
    | with_reducible exact pres_alloc hR _ (fun _ h => nomatch h)
    | with_reducible exact pres_warn hR _
    | with_reducible apply pres_bind hR
    | with_reducible apply pres_modifyW
    | exact hR.other _ _ rfl rfl rfl rfl
    | exact hR.setCell _ _ _ (fun _ h => nomatch h)
    | exact hR.cleaned _ _ | exact hR.stopMark _ _
    | exact stable_register hR .. | exact stable_resetTracking hR ..
    | exact stable_computedStore hR ..
    | intro _ | split | dsimp only)

theorem get_1_pres {R : World → World → Prop} (hS : Stable R) {k : Interp}
    (hk : ∀ c, Preserves R (k c)) (target : Value) (key : Value) (isReadonly : Bool) :
    Preserves R (get_1 k target key isReadonly) := by
  have hR : StableCore R := hS.toStableCore
  unfold get_1
  refine pres_eta ?_
  repeat' (first
    | with_reducible exact hk _
    | with_reducible exact pres_pure hR _
    | with_reducible exact pres_getW hR
    | with_reducible exact pres_throwE hR _
    | with_reducible exact pres_unsupportedM
    | with_reducible exact pres_alloc hR _ (fun _ h => nomatch h)
    | with_reducible exact pres_warn hR _
    | with_reducible exact track_pres hS hk ..
    | with_reducible exact wrapWith_pres hR hk ..
    | with_reducible exact protoCall_pres hR ..
    | with_reducible apply pres_bind hR
    | with_reducible apply pres_modifyW
    | exact hR.other _ _ rfl rfl rfl rfl
    | exact hR.setCell _ _ _ (fun _ h => nomatch h)
    | exact hR.cleaned _ _ | exact hR.stopMark _ _
    | exact stable_register hR .. | exact stable_resetTracking hR ..
    | exact stable_computedStore hR ..
    | intro _ | split | dsimp only)

theorem has_1_pres {R : World → World → Prop} (hS : Stable R) {k : Interp}
    (hk : ∀ c, Preserves R (k c)) (this : Value) (key : Value) :
    Preserves R (has_1 k this key) := by
  have hR : StableCore R := hS.toStableCore
  unfold has_1
  refine pres_eta ?_
  repeat' (first
    | with_reducible exact hk _
    | with_reducible exact pres_pure hR _
    | with_reducible exact pres_getW hR
    | with_reducible exact pres_throwE hR _
    | with_reducible exact pres_unsupportedM
    | with_reducible exact pres_alloc hR _ (fun _ h => nomatch h)
    | with_reducible exact pres_warn hR _
    | with_reducible exact track_pres hS hk ..
    | with_reducible exact protoCall_pres hR ..
    | with_reducible apply pres_bind hR
    | with_reducible apply pres_modifyW
    | exact hR.other _ _ rfl rfl rfl rfl
    | exact hR.setCell _ _ _ (fun _ h => nomatch h)
    | exact hR.cleaned _ _ | exact hR.stopMark _ _
    | exact stable_register hR .. | exact stable_resetTracking hR ..
    | exact stable_computedStore hR ..
    | intro _ | split | dsimp only)

theorem size_pres {R : World → World → Prop} (hS : Stable R) {k : Interp}
    (hk : ∀ c, Preserves R (k c)) (target : Value) :
    Preserves R (size k target) := by
  have hR : StableCore R := hS.toStableCore
  unfold size
  refine pres_eta ?_
  repeat' (first
    | with_reducible exact hk _
    | with_reducible exact pres_pure hR _
    | with_reducible exact pres_getW hR
    | with_reducible exact pres_throwE hR _
    | with_reducible exact pres_unsupportedM
    | with_reducible exact pres_alloc hR _ (fun _ h => nomatch h)
    | with_reducible exact pres_warn hR _
    | with_reducible exact track_pres hS hk ..
    | with_reducible exact protoSize_pres hR ..
    | with_reducible apply pres_bind hR
    | with_reducible apply pres_modifyW
    | exact hR.other _ _ rfl rfl rfl rfl
    | exact hR.setCell _ _ _ (fun _ h => nomatch h)
    | exact hR.cleaned _ _ | exact hR.stopMark _ _
    | exact stable_register hR .. | exact stable_resetTracking hR ..
    | exact stable_computedStore hR ..
    | intro _ | split | dsimp only)

theorem add_pres {R : World → World → Prop} (hR : StableCore R) {k : Interp}
    (hk : ∀ c, Preserves R (k c)) (this : Value) (value : Value) :
    Preserves R (add k this value) := by
  unfold add
  refine pres_eta ?_
  repeat' (first
    | with_reducible exact hk _
    | with_reducible exact pres_pure hR _
    | with_reducible exact pres_getW hR
    | with_reducible exact pres_throwE hR _
    | with_reducible exact pres_unsupportedM
    | with_reducible exact pres_alloc hR _ (fun _ h => nomatch h)
    | with_reducible exact pres_warn hR _
    | with_reducible exact trigger_pres hR hk ..
    | with_reducible exact protoCall_pres hR ..
    | with_reducible apply pres_bind hR
    | with_reducible apply pres_modifyW
    | exact hR.other _ _ rfl rfl rfl rfl
    | exact hR.setCell _ _ _ (fun _ h => nomatch h)
    | exact hR.cleaned _ _ | exact hR.stopMark _ _
    | exact stable_register hR .. | exact stable_resetTracking hR ..
    | exact stable_computedStore hR ..
    | intro _ | split | dsimp only)

theorem set_1_pres {R : World → World → Prop} (hR : StableCore R) {k : Interp}
    (hk : ∀ c, Preserves R (k c)) (this : Value) (key : Value) (value : Value) :
    Preserves R (set_1 k this key value) := by
  unfold set_1
  refine pres_eta ?_
  repeat' (first
    | with_reducible exact hk _
    | with_reducible exact pres_pure hR _
    | with_reducible exact pres_getW hR
    | with_reducible exact pres_throwE hR _
    | with_reducible exact pres_unsupportedM
    | with_reducible exact pres_alloc hR _ (fun _ h => nomatch h)
    | with_reducible exact pres_warn hR _
    | with_reducible exact trigger_pres hR hk ..
    | with_reducible exact protoCall_pres hR ..
    | with_reducible apply pres_bind hR
    | with_reducible apply pres_modifyW
    | exact hR.other _ _ rfl rfl rfl rfl
    | exact hR.setCell _ _ _ (fun _ h => nomatch h)
    | exact hR.cleaned _ _ | exact hR.stopMark _ _
    | exact stable_register hR .. | exact stable_resetTracking hR ..
    | exact stable_computedStore hR ..
    | intro _ | split | dsimp only)

theorem deleteEntry_pres {R : World → World → Prop} (hR : StableCore R) {k : Interp}
    (hk : ∀ c, Preserves R (k c)) (this : Value) (key : Value) :
    Preserves R (deleteEntry k this key) := by
  unfold deleteEntry
  refine pres_eta ?_
  repeat' (first
    | with_reducible exact hk _
    | with_reducible exact pres_pure hR _
    | with_reducible exact pres_getW hR
    | with_reducible exact pres_throwE hR _
    | with_reducible exact pres_unsupportedM
    | with_reducible exact pres_alloc hR _ (fun _ h => nomatch h)
    | with_reducible exact pres_warn hR _
    | with_reducible exact trigger_pres hR hk ..
    | with_reducible exact protoCall_pres hR ..
    | with_reducible apply pres_bind hR
    | with_reducible apply pres_modifyW
    | exact hR.other _ _ rfl rfl rfl rfl
    | exact hR.setCell _ _ _ (fun _ h => nomatch h)
    | exact hR.cleaned _ _ | exact hR.stopMark _ _
    | exact stable_register hR .. | exact stable_resetTracking hR ..
    | exact stable_computedStore hR ..
    | intro _ | split | dsimp only)

theorem clear_pres {R : World → World → Prop} (hR : StableCore R) {k : Interp}
    (hk : ∀ c, Preserves R (k c)) (this : Value) :
    Preserves R (clear k this) := by
  unfold clear
  refine pres_eta ?_
  repeat' (first
    | with_reducible exact hk _
    | with_reducible exact pres_pure hR _
    | with_reducible exact pres_getW hR
    | with_reducible exact pres_throwE hR _
    | with_reducible exact pres_unsupportedM
    | with_reducible exact pres_alloc hR _ (fun _ h => nomatch h)
    | with_reducible exact pres_warn hR _
    | with_reducible exact trigger_pres hR hk ..
    | with_reducible exact protoCall_pres hR ..
    | with_reducible apply pres_bind hR
    | with_reducible apply pres_modifyW
    | exact hR.other _ _ rfl rfl rfl rfl
    | exact hR.setCell _ _ _ (fun _ h => nomatch h)
    | exact hR.cleaned _ _ | exact hR.stopMark _ _
    | exact stable_register hR .. | exact stable_resetTracking hR ..
    | exact stable_computedStore hR ..
    | intro _ | split | dsimp only)

theorem createReadonlyMethod_pres {R : World → World → Prop} (hR : StableCore R)
    (method : M Value) (hm : Preserves R method) (type : String) (this : Value) :
    Preserves R (createReadonlyMethod method type this) := by
  unfold createReadonlyMethod
  refine pres_eta ?_
  repeat' (first
    | exact hm
    | exact pres_pure hR _ | exact pres_getW hR | exact pres_warn hR _
    | with_reducible apply pres_bind hR | intro _ | split)

theorem createInstrumentationGetter_pres {R : World → World → Prop} (hS : Stable R) {k : Interp}
    (hk : ∀ c, Preserves R (k c)) (isReadonly : Bool) (target : Value) (key : Value) (receiver : Value) :
    Preserves R (createInstrumentationGetter isReadonly k target key receiver) := by
  have hR : StableCore R := hS.toStableCore
  unfold createInstrumentationGetter
  refine pres_eta ?_
  repeat' (first
    | with_reducible exact hk _
    | with_reducible exact pres_pure hR _
    | with_reducible exact pres_getW hR
    | with_reducible exact pres_throwE hR _
    | with_reducible exact pres_unsupportedM
    | with_reducible exact pres_alloc hR _ (fun _ h => nomatch h)
    | with_reducible exact pres_warn hR _
    | with_reducible exact size_pres hS hk ..
    | with_reducible apply pres_bind hR
    | with_reducible apply pres_modifyW
    | exact hR.other _ _ rfl rfl rfl rfl
    | exact hR.setCell _ _ _ (fun _ h => nomatch h)
    | exact hR.cleaned _ _ | exact hR.stopMark _ _
    | exact stable_register hR .. | exact stable_resetTracking hR ..
    | exact stable_computedStore hR ..
    | intro _ | split | dsimp only)

theorem callInstrumentation_pres {R : World → World → Prop} (hS : Stable R) {k : Interp}
    (hk : ∀ c, Preserves R (k c)) (isReadonly : Bool) (name : String) (this : Value) (args : List Value) :
    Preserves R (callInstrumentation isReadonly name k this args) := by
  have hR : StableCore R := hS.toStableCore
  unfold callInstrumentation
  refine pres_eta ?_
  repeat' (first
    | with_reducible exact hk _
    | with_reducible exact pres_pure hR _
    | with_reducible exact pres_getW hR
    | with_reducible exact pres_throwE hR _
    | with_reducible exact pres_unsupportedM
    | with_reducible exact pres_alloc hR _ (fun _ h => nomatch h)
    | with_reducible exact pres_warn hR _
    | with_reducible exact get_1_pres hS hk ..
    | with_reducible exact has_1_pres hS hk ..
    | with_reducible exact add_pres hR hk ..
    | with_reducible exact set_1_pres hR hk ..
    | with_reducible exact deleteEntry_pres hR hk ..
    | with_reducible exact clear_pres hR hk ..
    | with_reducible apply createReadonlyMethod_pres hR
    | with_reducible apply pres_bind hR
    | with_reducible apply pres_modifyW
    | exact hR.other _ _ rfl rfl rfl rfl
    | exact hR.setCell _ _ _ (fun _ h => nomatch h)
    | exact hR.cleaned _ _ | exact hR.stopMark _ _
    | exact stable_register hR .. | exact stable_resetTracking hR ..
    | exact stable_computedStore hR ..
    | intro _ | split | dsimp only)

theorem arraySearch_pres {R : World → World → Prop} (hR : StableCore R) (name : String) (props : List (Value × Value)) (x : Value) :
    Preserves R (arraySearch name props x) := by
  unfold arraySearch
  refine pres_eta ?_
  repeat' (first
    | with_reducible exact hk _
    | with_reducible exact pres_pure hR _
    | with_reducible exact pres_getW hR
    | with_reducible exact pres_throwE hR _
    | with_reducible exact pres_unsupportedM
    | with_reducible exact pres_alloc hR _ (fun _ h => nomatch h)
    | with_reducible exact pres_warn hR _
    | with_reducible apply pres_bind hR
    | with_reducible apply pres_modifyW
    | exact hR.other _ _ rfl rfl rfl rfl
    | exact hR.setCell _ _ _ (fun _ h => nomatch h)
    | exact hR.cleaned _ _ | exact hR.stopMark _ _
    | exact stable_register hR .. | exact stable_resetTracking hR ..
    | exact stable_computedStore hR ..
    | intro _ | split | dsimp only)

theorem arrayInstrumentation_pres {R : World → World → Prop} (hS : Stable R) {k : Interp}
    (hk : ∀ c, Preserves R (k c)) (name : String) (this : Value) (args : List Value) :
    Preserves R (arrayInstrumentation name k this args) := by
  have hR : StableCore R := hS.toStableCore
  unfold arrayInstrumentation
  refine pres_eta ?_
  repeat' (first
    | with_reducible exact hk _
    | with_reducible exact pres_pure hR _
    | with_reducible exact pres_getW hR
    | with_reducible exact pres_throwE hR _
    | with_reducible exact pres_unsupportedM
    | with_reducible exact pres_alloc hR _ (fun _ h => nomatch h)
    | with_reducible exact pres_warn hR _
    | with_reducible exact track_pres hS hk ..
    | with_reducible exact arraySearch_pres hR ..
    | with_reducible apply forEachM_pres hR
    | with_reducible apply pres_bind hR
    | with_reducible apply pres_modifyW
    | exact hR.other _ _ rfl rfl rfl rfl
    | exact hR.setCell _ _ _ (fun _ h => nomatch h)
    | exact hR.cleaned _ _ | exact hR.stopMark _ _
    | exact stable_register hR .. | exact stable_resetTracking hR ..
    | exact stable_computedStore hR ..
    | intro _ | split | dsimp only)

theorem getImpl_pres {R : World → World → Prop} (hS : Stable R) {k : Interp}
    (hk : ∀ c, Preserves R (k c)) (target : Value) (key : Value) (receiver : Value) :
    Preserves R (getImpl k target key receiver) := by
  have hR : StableCore R := hS.toStableCore
  unfold getImpl
  refine pres_eta ?_
  repeat' (first
    | with_reducible exact hk _
    | with_reducible exact pres_pure hR _
    | with_reducible exact pres_getW hR
    | with_reducible exact pres_throwE hR _
    | with_reducible exact pres_unsupportedM
    | with_reducible exact pres_alloc hR _ (fun _ h => nomatch h)
    | with_reducible exact pres_warn hR _
    | with_reducible exact refGetValue_pres hS hk ..
    | with_reducible exact computedGetValue_pres hS hk ..
    | with_reducible exact createGetter_pres hS hk ..
    | with_reducible exact protoSize_pres hR ..
    | with_reducible exact createInstrumentationGetter_pres hS hk ..
    | with_reducible apply pres_bind hR
    | with_reducible apply pres_modifyW
    | exact hR.other _ _ rfl rfl rfl rfl
    | exact hR.setCell _ _ _ (fun _ h => nomatch h)
    | exact hR.cleaned _ _ | exact hR.stopMark _ _
    | exact stable_register hR .. | exact stable_resetTracking hR ..
    | exact stable_computedStore hR ..
    | intro _ | split | dsimp only)

theorem setImpl_pres {R : World → World → Prop} (hR : StableCore R) {k : Interp}
    (hk : ∀ c, Preserves R (k c)) (target : Value) (key : Value) (value : Value) (receiver : Value) :
    Preserves R (setImpl k target key value receiver) := by
  unfold setImpl
  refine pres_eta ?_
  repeat' (first
    | with_reducible exact hk _
    | with_reducible exact pres_pure hR _
    | with_reducible exact pres_getW hR
    | with_reducible exact pres_throwE hR _
    | with_reducible exact pres_unsupportedM
    | with_reducible exact pres_alloc hR _ (fun _ h => nomatch h)
    | with_reducible exact pres_warn hR _
    | with_reducible exact refSetValue_pres hR hk ..
    | with_reducible exact computedSetValue_pres hR hk ..
    | with_reducible exact createSetter_pres hR hk ..
    | with_reducible apply pres_bind hR
    | with_reducible apply pres_modifyW
    | exact hR.other _ _ rfl rfl rfl rfl
    | exact hR.setCell _ _ _ (fun _ h => nomatch h)
    | exact hR.cleaned _ _ | exact hR.stopMark _ _
    | exact stable_register hR .. | exact stable_resetTracking hR ..
    | exact stable_computedStore hR ..
    | intro _ | split | dsimp only)

theorem hasImpl_pres {R : World → World → Prop} (hS : Stable R) {k : Interp}
    (hk : ∀ c, Preserves R (k c)) (target : Value) (key : Value) :
    Preserves R (hasImpl k target key) := by
  have hR : StableCore R := hS.toStableCore
  unfold hasImpl
  refine pres_eta ?_
  repeat' (first
    | with_reducible exact hk _
    | with_reducible exact pres_pure hR _
    | with_reducible exact pres_getW hR
    | with_reducible exact pres_throwE hR _
    | with_reducible exact pres_unsupportedM
    | with_reducible exact pres_alloc hR _ (fun _ h => nomatch h)
    | with_reducible exact pres_warn hR _
    | with_reducible exact has_pres hS hk ..
    | with_reducible apply pres_bind hR
    | with_reducible apply pres_modifyW
    | exact hR.other _ _ rfl rfl rfl rfl
    | exact hR.setCell _ _ _ (fun _ h => nomatch h)
    | exact hR.cleaned _ _ | exact hR.stopMark _ _
    | exact stable_register hR .. | exact stable_resetTracking hR ..
    | exact stable_computedStore hR ..
    | intro _ | split | dsimp only)

theorem deleteImpl_pres {R : World → World → Prop} (hR : StableCore R) {k : Interp}
    (hk : ∀ c, Preserves R (k c)) (target : Value) (key : Value) :
    Preserves R (deleteImpl k target key) := by
  unfold deleteImpl
  refine pres_eta ?_
  repeat' (first
    | with_reducible exact hk _
    | with_reducible exact pres_pure hR _
    | with_reducible exact pres_getW hR
    | with_reducible exact pres_throwE hR _
    | with_reducible exact pres_unsupportedM
    | with_reducible exact pres_alloc hR _ (fun _ h => nomatch h)
    | with_reducible exact pres_warn hR _
    | with_reducible exact deleteProperty_pres hR hk ..
    | with_reducible exact readonlyDeleteProperty_pres hR hk ..
    | with_reducible apply pres_bind hR
    | with_reducible apply pres_modifyW
    | exact hR.other _ _ rfl rfl rfl rfl
    | exact hR.setCell _ _ _ (fun _ h => nomatch h)
    | exact hR.cleaned _ _ | exact hR.stopMark _ _
    | exact stable_register hR .. | exact stable_resetTracking hR ..
    | exact stable_computedStore hR ..
    | intro _ | split | dsimp only)

theorem ownKeysImpl_pres {R : World → World → Prop} (hS : Stable R) {k : Interp}
    (hk : ∀ c, Preserves R (k c)) (target : Value) :
    Preserves R (ownKeysImpl k target) := by
  have hR : StableCore R := hS.toStableCore
  unfold ownKeysImpl
  refine pres_eta ?_
  repeat' (first
    | with_reducible exact hk _
    | with_reducible exact pres_pure hR _
    | with_reducible exact pres_getW hR
    | with_reducible exact pres_throwE hR _
    | with_reducible exact pres_unsupportedM
    | with_reducible exact pres_alloc hR _ (fun _ h => nomatch h)
    | with_reducible exact pres_warn hR _
    | with_reducible exact ownKeys_pres hS hk ..
    | with_reducible apply pres_bind hR
    | with_reducible apply pres_modifyW
    | exact hR.other _ _ rfl rfl rfl rfl
    | exact hR.setCell _ _ _ (fun _ h => nomatch h)
    | exact hR.cleaned _ _ | exact hR.stopMark _ _
    | exact stable_register hR .. | exact stable_resetTracking hR ..
    | exact stable_computedStore hR ..
    | intro _ | split | dsimp only)

theorem applyImpl_pres {R : World → World → Prop} (hS : Stable R) {k : Interp}
    (hk : ∀ c, Preserves R (k c)) (f : Value) (this : Value) (args : List Value) :
    Preserves R (applyImpl k f this args) := by
  have hR : StableCore R := hS.toStableCore
  unfold applyImpl
  refine pres_eta ?_
  repeat' (first
    | with_reducible exact hk _
    | with_reducible exact pres_pure hR _
    | with_reducible exact pres_getW hR
    | with_reducible exact pres_throwE hR _
    | with_reducible exact pres_unsupportedM
    | with_reducible exact pres_alloc hR _ (fun _ h => nomatch h)
    | with_reducible exact pres_warn hR _
    | with_reducible exact run_pres hR hk ..
    | with_reducible exact computedScheduler_pres hR hk ..
    | with_reducible exact protoCall_pres hR ..
    | with_reducible exact callInstrumentation_pres hS hk ..
    | with_reducible exact arraySearch_pres hR ..
    | with_reducible exact arrayInstrumentation_pres hS hk ..
    | with_reducible apply pres_bind hR
    | with_reducible apply pres_modifyW
    | exact hR.other _ _ rfl rfl rfl rfl
    | exact hR.setCell _ _ _ (fun _ h => nomatch h)
    | exact hR.cleaned _ _ | exact hR.stopMark _ _
    | exact stable_register hR .. | exact stable_resetTracking hR ..
    | exact stable_computedStore hR ..
    | intro _ | split | dsimp only)

theorem evalList_pres {R : World → World → Prop} (hR : StableCore R) {k : Interp}
    (hk : ∀ c, Preserves R (k c)) (ps : List Prog) : Preserves R (evalList k ps) := by
  induction ps with
  | nil => exact pres_pure hR _
  | cons p ps ih =>
    exact pres_bind hR (hk _) (fun _ => pres_bind hR ih (fun _ => pres_pure hR _))

theorem evalProps_pres {R : World → World → Prop} (hR : StableCore R) {k : Interp}
    (hk : ∀ c, Preserves R (k c)) (ps : List (String × Prog)) :
    Preserves R (evalProps k ps) := by
  induction ps with
  | nil => exact pres_pure hR _
  | cons p ps ih =>
    obtain ⟨x, p⟩ := p
    exact pres_bind hR (hk _) (fun _ => pres_bind hR ih (fun _ => pres_pure hR _))

theorem evalEntries_pres {R : World → World → Prop} (hR : StableCore R) {k : Interp}
    (hk : ∀ c, Preserves R (k c)) (ps : List (Prog × Prog)) :
    Preserves R (evalEntries k ps) := by
  induction ps with
  | nil => exact pres_pure hR _
  | cons p ps ih =>
    obtain ⟨p, q⟩ := p
    exact pres_bind hR (hk _) (fun _ => pres_bind hR (hk _) (fun _ =>
      pres_bind hR ih (fun _ => pres_pure hR _)))

theorem evalBinOp_pres {R : World → World → Prop} (hR : StableCore R) (op : BinOp) (a : Value) (b : Value) :
    Preserves R (evalBinOp op a b) := by
  unfold evalBinOp
  refine pres_eta ?_
  repeat' (first
    | with_reducible exact hk _
    | with_reducible exact pres_pure hR _
    | with_reducible exact pres_getW hR
    | with_reducible exact pres_throwE hR _
    | with_reducible exact pres_unsupportedM
    | with_reducible exact pres_alloc hR _ (fun _ h => nomatch h)
    | with_reducible exact pres_warn hR _
    | with_reducible apply pres_bind hR
    | with_reducible apply pres_modifyW
    | exact hR.other _ _ rfl rfl rfl rfl
    | exact hR.setCell _ _ _ (fun _ h => nomatch h)
    | exact hR.cleaned _ _ | exact hR.stopMark _ _
    | exact stable_register hR .. | exact stable_resetTracking hR ..
    | exact stable_computedStore hR ..
    | intro _ | split | dsimp only)

theorem toProxyRef_pres {R : World → World → Prop} (hR : StableCore R) (object : Value) (key : Value) :
    Preserves R (toProxyRef object key) := by
  unfold toProxyRef
  refine pres_eta ?_
  repeat' (first
    | with_reducible exact hk _
    | with_reducible exact pres_pure hR _
    | with_reducible exact pres_getW hR
    | with_reducible exact pres_throwE hR _
    | with_reducible exact pres_unsupportedM
    | with_reducible exact pres_alloc hR _ (fun _ h => nomatch h)
    | with_reducible exact pres_warn hR _
    | with_reducible apply pres_bind hR
    | with_reducible apply pres_modifyW
    | exact hR.other _ _ rfl rfl rfl rfl
    | exact hR.setCell _ _ _ (fun _ h => nomatch h)
    | exact hR.cleaned _ _ | exact hR.stopMark _ _
    | exact stable_register hR .. | exact stable_resetTracking hR ..
    | exact stable_computedStore hR ..
    | intro _ | split | dsimp only)

theorem toRefsLoop_pres {R : World → World → Prop} (hR : StableCore R) (object : Value)
    (keys : List Value) : Preserves R (toRefsLoop object keys) := by
  induction keys with
  | nil => exact pres_pure hR _
  | cons key keys ih =>
    exact pres_bind hR (toProxyRef_pres hR object key) (fun _ =>
      pres_bind hR ih (fun _ => pres_pure hR _))

theorem toRefs_pres {R : World → World → Prop} (hR : StableCore R) {k : Interp}
    (hk : ∀ c, Preserves R (k c)) (object : Value) :
    Preserves R (toRefs k object) := by
  unfold toRefs
  refine pres_eta ?_
  repeat' (first
    | with_reducible exact hk _
    | with_reducible exact pres_pure hR _
    | with_reducible exact pres_getW hR
    | with_reducible exact pres_throwE hR _
    | with_reducible exact pres_unsupportedM
    | with_reducible exact pres_alloc hR _ (fun _ h => nomatch h)
    | with_reducible exact pres_warn hR _
    | with_reducible exact toRefsLoop_pres hR ..
    | with_reducible apply pres_bind hR
    | with_reducible apply pres_modifyW
    | exact hR.other _ _ rfl rfl rfl rfl
    | exact hR.setCell _ _ _ (fun _ h => nomatch h)
    | exact hR.cleaned _ _ | exact hR.stopMark _ _
    | exact stable_register hR .. | exact stable_resetTracking hR ..
    | exact stable_computedStore hR ..
    | intro _ | split | dsimp only)

theorem callApi_pres {R : World → World → Prop} (hS : Stable R) {k : Interp}
    (hk : ∀ c, Preserves R (k c)) (f : Api) (args : List Value) :
    Preserves R (callApi k f args) := by
  have hR : StableCore R := hS.toStableCore
  unfold callApi
  refine pres_eta ?_
  repeat' (first
    | with_reducible exact hk _
    | with_reducible exact pres_pure hR _
    | with_reducible exact pres_getW hR
    | with_reducible exact pres_throwE hR _
    | with_reducible exact pres_unsupportedM
    | with_reducible exact pres_alloc hR _ (fun _ h => nomatch h)
    | with_reducible exact pres_warn hR _
    | with_reducible exact track_pres hS hk ..
    | with_reducible exact effect_pres hR hk ..
    | with_reducible exact stop_pres hR hk ..
    | with_reducible exact trigger_pres hR hk ..
    | with_reducible exact markReadonly_pres hR ..
    | with_reducible exact markNonReactive_pres hR ..
    | with_reducible exact isRef_pres hR hk ..
    | with_reducible exact readonly_pres hR hk ..
    | with_reducible exact reactive_pres hR hk ..
    | with_reducible exact shallowReadonly_pres hR hk ..
    | with_reducible exact shallowReactive_pres hR hk ..
    | with_reducible exact ref_pres hR hk ..
    | with_reducible exact shallowRef_pres hR hk ..
    | with_reducible exact unref_pres hR hk ..
    | with_reducible exact computed_pres hR hk ..
    | with_reducible exact toRefs_pres hR hk ..
    | with_reducible apply pres_bind hR
    | with_reducible apply pres_modifyW
    | exact hR.other _ _ rfl rfl rfl rfl
    | exact hR.setCell _ _ _ (fun _ h => nomatch h)
    | exact hR.cleaned _ _ | exact hR.stopMark _ _
    | exact stable_register hR .. | exact stable_resetTracking hR ..
    | exact stable_computedStore hR ..
    | intro _ | split | dsimp only)

theorem evalProg_pres {R : World → World → Prop} (hS : Stable R) {k : Interp}
    (hk : ∀ c, Preserves R (k c)) (p : Prog) : Preserves R (evalProg k p) := by
  have hR : StableCore R := hS.toStableCore
  cases p <;> simp only [evalProg] <;>
  repeat' (first
    | with_reducible exact hk _
    | with_reducible exact pres_pure hR _
    | with_reducible exact pres_getW hR
    | with_reducible exact pres_throwE hR _
    | with_reducible exact pres_unsupportedM
    | with_reducible exact pres_alloc hR _ (fun _ h => nomatch h)
    | with_reducible exact pres_warn hR _
    | with_reducible exact evalList_pres hR hk ..
    | with_reducible exact evalProps_pres hR hk ..
    | with_reducible exact evalEntries_pres hR hk ..
    | with_reducible exact evalBinOp_pres hR ..
    | with_reducible exact callApi_pres hS hk ..
    | with_reducible apply pres_bind hR
    | with_reducible apply pres_modifyW
    | exact hR.other _ _ rfl rfl rfl rfl
    | exact hR.setCell _ _ _ (fun _ h => nomatch h)
    | exact hR.cleaned _ _ | exact hR.stopMark _ _
    | exact stable_register hR .. | exact stable_resetTracking hR ..
    | exact stable_computedStore hR ..
    | intro _ | split | dsimp only)

theorem step_pres {R : World → World → Prop} (hS : Stable R) {k : Interp}
    (hk : ∀ c, Preserves R (k c)) (c : Call) : Preserves R (step k c) := by
  cases c with
  | eval p => exact evalProg_pres hS hk p
  | get target key receiver => exact getImpl_pres hS hk ..
  | set target key value receiver => exact setImpl_pres hS.toStableCore hk ..
  | has target key => exact hasImpl_pres hS hk ..
  | deleteProperty target key => exact deleteImpl_pres hS.toStableCore hk ..
  | ownKeys target => exact ownKeysImpl_pres hS hk ..
  | apply f this args => exact applyImpl_pres hS hk ..

/-- Every call the interpreter completes, whatever the nesting bound, ends in a state
related to the state it started in, for every relation the state updates respect. -/
theorem interp_pres {R : World → World → Prop} (hS : Stable R) (n : Nat) (c : Call) :
    Preserves R (interp n c) := by
  induction n generalizing c with
  | zero => exact ⟨fun _ => trivial⟩
  | succ n ih => exact step_pres hS ih c

/-! ## The effect stack is restored (C15, C16) -/

theorem cleanup_effectStack (e : Nat) (w : World) :
    (cleanup e w).effectStack = w.effectStack ∧ (cleanup e w).activeEffect = w.activeEffect ∧
    (cleanup e w).shouldTrack = w.shouldTrack ∧ (cleanup e w).trackStack = w.trackStack := by
  unfold cleanup
  split <;> exact ⟨rfl, rfl, rfl, rfl⟩

theorem markStopped_effectStack (e : Nat) (w : World) :
    (markStopped e w).effectStack = w.effectStack ∧
    (markStopped e w).activeEffect = w.activeEffect := by
  unfold markStopped
  split <;> exact ⟨rfl, rfl⟩

theorem runExit_effectStack (w : World) :
    (runExit w).effectStack = w.effectStack.tail ∧
    (runExit w).activeEffect = w.effectStack.tail.head? := by
  cases h : w.trackStack <;> simp [runExit, resetTracking, h]

theorem frame_stable : Stable Frame where
  refl := fun _ => ⟨rfl, fun _ => rfl⟩
  trans := by
    intro a b c h1 h2
    refine ⟨h2.1.trans h1.1, fun h => ?_⟩
    have hb : b.activeEffect = b.effectStack.head? := by rw [h1.2 h, h1.1, h]
    rw [h2.2 hb, h1.2 h]
  alloc := fun _ _ _ => ⟨rfl, fun _ => rfl⟩
  allocEffect := fun _ _ _ => ⟨rfl, fun _ => rfl⟩
  setCell := fun _ _ _ _ => ⟨rfl, fun _ => rfl⟩
  other := fun _ _ _ _ h3 h4 => ⟨h3, fun _ => h4⟩
  trackAdd := fun _ _ _ _ _ _ _ _ => ⟨rfl, fun _ => rfl⟩
  cleaned := fun w e => ⟨(cleanup_effectStack e w).1, fun _ => (cleanup_effectStack e w).2.1⟩
  stopMark := fun w a =>
    ⟨(markStopped_effectStack a w).1, fun _ => (markStopped_effectStack a w).2⟩
  run := by
    intro w e r w1 _ _ _ h
    have hs : w1.effectStack = e :: w.effectStack := by
      rw [h.1]
      show e :: (cleanup e w).effectStack = _
      rw [(cleanup_effectStack e w).1]
    refine ⟨?_, fun hi => ?_⟩
    · rw [(runExit_effectStack w1).1, hs]
      rfl
    · rw [(runExit_effectStack w1).2, hs, hi]
      rfl

/-- Every call the interpreter completes, normally or by an exception, leaves the effect
stack as it found it, and the active effect too when it was the top of the stack. -/
theorem interp_frame (n : Nat) (c : Call) (w w1 : World)
    (h : (interp n c w).world? = some w1) : Frame w w1 := by
  have hp := (interp_pres frame_stable n c).out w
  cases hr : interp n c w with
  | ok v w2 =>
    rw [hr] at hp h
    cases h
    exact hp
  | throw x w2 =>
    rw [hr] at hp h
    cases h
    exact hp
  | timeout => rw [hr] at h; cases h
  | unsupported => rw [hr] at h; cases h

theorem Res.finally_world {α : Type} (r : Res α) (fin : World → World) :
    (r.finally fin).world? = r.world?.map fin := by
  cases r <;> rfl

/-- C16 (amended): a run of an active effect `e` that is not running, from a state whose
active effect is the top of the effect stack, is the body followed by the `finally`
block; the body starts with `e` pushed, `e` active and tracking enabled; every call
completed meanwhile (a nested effect included) leaves the stack and the active effect as
it found them, so when the body ends, by return or by exception, `e` is again the active
effect; after the `finally` block the effect stack and the active effect are those from
before the run; and the tracking flag and the tracking-flag stack are those from before
the run provided the body left the tracking-flag stack as it found it. -/
theorem C16_run_restores_context (n : Nat) (w : World) (e : Nat) (r : EffectRec)
    (this : Value) (args : List Value)
    (hr : w.effect? e = some r) (ha : r.active = true) (hs : e ∉ w.effectStack)
    (hi : w.activeEffect = w.effectStack.head?) :
    interp (n + 1) (.apply (.obj e) this args) w
      = (interp n (.apply r.raw .undefined args) (runEnter e (cleanup e w))).finally runExit ∧
    (runEnter e (cleanup e w)).activeEffect = some e ∧
    (runEnter e (cleanup e w)).effectStack = e :: w.effectStack ∧
    (runEnter e (cleanup e w)).shouldTrack = true ∧
    (∀ m c w0 w1, (interp m c w0).world? = some w1 →
      w0.activeEffect = w0.effectStack.head? →
      w1.effectStack = w0.effectStack ∧ w1.activeEffect = w0.activeEffect) ∧
    (∀ wb, (interp n (.apply r.raw .undefined args) (runEnter e (cleanup e w))).world? = some wb →
      wb.activeEffect = some e ∧ wb.effectStack = e :: w.effectStack ∧
      (interp (n + 1) (.apply (.obj e) this args) w).world? = some (runExit wb) ∧
      (runExit wb).effectStack = w.effectStack ∧
      (runExit wb).activeEffect = w.activeEffect ∧
      (wb.trackStack = w.shouldTrack :: w.trackStack →
        (runExit wb).trackStack = w.trackStack ∧ (runExit wb).shouldTrack = w.shouldTrack)) := by
  have heq : interp (n + 1) (.apply (.obj e) this args) w
      = (interp n (.apply r.raw .undefined args) (runEnter e (cleanup e w))).finally runExit := by
    show applyImpl (interp n) (.obj e) this args w = _
    rw [apply_effect (interp n) w e r this args hr, run_active (interp n) w e r _ _ hr ha hs]
  have hst : (runEnter e (cleanup e w)).effectStack = e :: w.effectStack := by
    show e :: (cleanup e w).effectStack = _
    rw [(cleanup_effectStack e w).1]
  refine ⟨heq, rfl, hst, rfl, ?_, ?_⟩
  · intro m c w0 w1 h h0
    have hf := interp_frame m c w0 w1 h
    exact ⟨hf.1, hf.2 h0⟩
  · intro wb hb
    have hf := interp_frame n _ _ wb hb
    have h1 : wb.effectStack = e :: w.effectStack := hf.1.trans hst
    have h2 : wb.activeEffect = some e := hf.2 (by rw [hst]; rfl)
    refine ⟨h2, h1, ?_, ?_, ?_, ?_⟩
    · rw [heq, Res.finally_world, hb]
      rfl
    · rw [(runExit_effectStack wb).1, h1]
      rfl
    · rw [(runExit_effectStack wb).2, h1, hi]
      rfl
    · intro ht
      simp [runExit, resetTracking, ht]

/-- Witness for C16: the body of the effect of `unbalancedWorld` completes, and after the
`finally` block the effect stack is empty and no effect is active, as before the run. -/
theorem C16_run_restores_context_witness :
    ∃ wb, (interp 4 (.apply (.obj 0) .undefined [])
        (runEnter 1 (cleanup 1 unbalancedWorld))).world? = some wb ∧
      (runExit wb).effectStack = [] ∧ (runExit wb).activeEffect = none := by
  obtain ⟨wb, h⟩ := Option.isSome_iff_exists.mp
    (by decide! : ((interp 4 (.apply (.obj 0) .undefined [])
      (runEnter 1 (cleanup 1 unbalancedWorld))).world?).isSome = true)
  exact ⟨wb, h,
    ((C16_run_restores_context 4 unbalancedWorld 1
        { raw := .obj 0, active := true, deps := [], options := {} } .undefined [] rfl rfl
        (by decide) rfl).2.2.2.2.2 wb h).2.2.2.1,
    ((C16_run_restores_context 4 unbalancedWorld 1
        { raw := .obj 0, active := true, deps := [], options := {} } .undefined [] rfl rfl
        (by decide) rfl).2.2.2.2.2 wb h).2.2.2.2.1⟩

/-- Counterexample to C16 as stated: the body `() => pauseTracking()` leaves an entry on
the tracking-flag stack, so after the run the stack is `[true]`, not `[]`; and run from a
state where tracking is paused (flag `false`, stack `[true]`) the same effect ends with
the flag `true` and the stack `[false, true]`. -/
theorem C16_counterexample :
    unbalancedWorld.tracking = (true, []) ∧
    (interp 5 (.apply (.obj 1) .undefined []) unbalancedWorld).world?.map World.tracking
      = some (true, [true]) ∧
    (pauseTracking unbalancedWorld).tracking = (false, [true]) ∧
    (interp 5 (.apply (.obj 1) .undefined []) (pauseTracking unbalancedWorld)).world?.map
      World.tracking = some (true, [false, true]) := by
  decide!

/-- C15 (amended): no effect is re-entered while it is active.  For an active effect `e`:
invoked while it is on the effect stack, it returns `undefined` and leaves the state as it
is, so its body is not started; invoked while it is not on the stack, it runs its body in
a state where `e` is on the stack; every call the interpreter completes leaves the effect
stack as it found it, so `e` stays on the stack until its body ends; and the subscribers a
trigger resolves never include the active effect.  The script `selfWritingEffect`, whose
effect reads and writes the same key, runs the body once at creation and once for the
later write. -/
theorem C15_no_reentry (n : Nat) (w : World) (e : Nat) (r : EffectRec) (this : Value)
    (args : List Value) (hr : w.effect? e = some r) (ha : r.active = true) :
    (e ∈ w.effectStack →
      interp (n + 1) (.apply (.obj e) this args) w = .ok .undefined w) ∧
    (e ∉ w.effectStack →
      interp (n + 1) (.apply (.obj e) this args) w
        = (interp n (.apply r.raw .undefined args) (runEnter e (cleanup e w))).finally runExit ∧
      e ∈ (runEnter e (cleanup e w)).effectStack) ∧
    (∀ m c w0 w1, (interp m c w0).world? = some w1 → w1.effectStack = w0.effectStack) ∧
    (∀ sets : List (List Nat), w.activeEffect = some e →
      e ∉ (addAll w sets ([], [])).2 ++ (addAll w sets ([], [])).1) ∧
    varOf (runScript 30 selfWritingEffect) "runsAfterCreation" = some (.num (Decimal.ofInt 1)) ∧
    varOf (runScript 30 selfWritingEffect) "runs" = some (.num (Decimal.ofInt 2)) ∧
    varOf (runScript 30 selfWritingEffect) "x" = some (.num (Decimal.ofInt 11)) := by
  have happ : interp (n + 1) (.apply (.obj e) this args) w = run (interp n) e r.raw args w :=
    apply_effect (interp n) w e r this args hr
  refine ⟨fun hs => ?_, fun hs => ⟨?_, ?_⟩, ?_, ?_, ?_⟩
  · rw [happ, run_on_stack (interp n) w e r _ _ hr ha hs]
  · rw [happ, run_active (interp n) w e r _ _ hr ha hs]
  · exact List.mem_cons_self _ _
  · intro m c w0 w1 h
    exact (interp_frame m c w0 w1 h).1
  · intro sets hact hmem
    have h1 := (addAll_mem w sets ([], []) e).mp
      (by rcases List.mem_append.mp hmem with h | h
          · exact Or.inr h
          · exact Or.inl h)
    rcases h1 with h1 | ⟨_, h1⟩
    · rcases h1 with h1 | h1 <;> cases h1
    · exact h1 hact.symm
  · decide!

/-- Witness for C15: in `trackWorld` effect `1` is running; invoking it again returns
`undefined` and changes nothing. -/
theorem C15_no_reentry_witness :
    interp 1 (.apply (.obj 1) .undefined []) trackWorld = .ok .undefined trackWorld :=
  (C15_no_reentry 0 trackWorld 1 _ .undefined [] rfl rfl).1 (by decide)

/-- Counterexample to C15 as stated: the effect `e` of `selfStoppingEffect` stops itself
during its second run, reads `a.x` (which subscribes it again, it still being the active
effect) and writes `a.y`; the effect `f` this causes to run writes `a.x`, which dispatches
`e`; being inactive, `e` is not guarded by the effect stack and its body starts again
while its second run has not finished. -/
theorem C15_counterexample :
    varOf (runScript 40 selfStoppingEffect) "reentered" = some (.bool true) ∧
    varOf (runScript 40 selfStoppingEffect) "runs" = some (.num (Decimal.ofInt 3)) := by
  decide!

/-! ## The registry as a list of entries -/

theorem mem_ainsert {κ β : Type} [DecidableEq κ] (k : κ) (v : β) (l : List (κ × β))
    (p : κ × β) (h : p ∈ ainsert k v l) : p = (k, v) ∨ p ∈ l := by
  induction l with
  | nil =>
    simp only [ainsert, List.mem_singleton] at h
    exact Or.inl h
  | cons q l ih =>
    obtain ⟨k1, v1⟩ := q
    by_cases hk : k1 = k
    · simp only [ainsert, hk, if_true, List.mem_cons] at h
      rcases h with h | h
      · exact Or.inl h
      · exact Or.inr (List.mem_cons_of_mem _ h)
    · simp only [ainsert, hk, if_false, List.mem_cons] at h
      rcases h with h | h
      · exact Or.inr (h ▸ List.mem_cons_self _ _)
      · rcases ih h with h | h
        · exact Or.inl h
        · exact Or.inr (List.mem_cons_of_mem _ h)

theorem alookup_mem {κ β : Type} [DecidableEq κ] (k : κ) (v : β) (l : List (κ × β))
    (h : alookup k l = some v) : (k, v) ∈ l := by
  induction l with
  | nil => simp [alookup] at h
  | cons q l ih =>
    obtain ⟨k1, v1⟩ := q
    by_cases hk : k1 = k
    · simp only [alookup, hk, if_true, Option.some.injEq] at h
      subst hk h
      exact List.mem_cons_self _ _
    · simp only [alookup, hk, if_false] at h
      exact List.mem_cons_of_mem _ (ih h)

theorem mem_alookup {κ β : Type} [DecidableEq κ] (k : κ) (v : β) (l : List (κ × β))
    (hn : (l.map Prod.fst).Nodup) (h : (k, v) ∈ l) : alookup k l = some v := by
  induction l with
  | nil => cases h
  | cons q l ih =>
    obtain ⟨k1, v1⟩ := q
    simp only [List.map_cons, List.nodup_cons] at hn
    rcases List.mem_cons.mp h with h | h
    · cases h
      simp [alookup]
    · have hne : k1 ≠ k := by
        intro hk
        subst hk
        exact hn.1 (List.mem_map.mpr ⟨(k1, v), h, rfl⟩)
      simp only [alookup, hne, if_false]
      exact ih hn.2 h

theorem keys_ainsert {κ β : Type} [DecidableEq κ] (k : κ) (v : β) (l : List (κ × β)) (x : κ)
    (h : x ∈ (ainsert k v l).map Prod.fst) : x = k ∨ x ∈ l.map Prod.fst := by
  obtain ⟨p, hp, rfl⟩ := List.mem_map.mp h
  rcases mem_ainsert k v l p hp with h1 | h1
  · exact Or.inl (by rw [h1])
  · exact Or.inr (List.mem_map.mpr ⟨p, h1, rfl⟩)

theorem nodup_keys_ainsert {κ β : Type} [DecidableEq κ] (k : κ) (v : β) (l : List (κ × β))
    (hn : (l.map Prod.fst).Nodup) : ((ainsert k v l).map Prod.fst).Nodup := by
  induction l with
  | nil => simp [ainsert]
  | cons q l ih =>
    obtain ⟨k1, v1⟩ := q
    simp only [List.map_cons, List.nodup_cons] at hn
    by_cases hk : k1 = k
    · subst hk
      simp only [ainsert, if_true, List.map_cons, List.nodup_cons]
      exact hn
    · simp only [ainsert, hk, if_false, List.map_cons, List.nodup_cons]
      refine ⟨fun hm => ?_, ih hn.2⟩
      rcases keys_ainsert k v l k1 hm with h1 | h1
      · exact hk h1
      · exact hn.1 h1

theorem World.dep_depIn (w : World) (t : Nat) (key : Value) :
    w.dep t key = depIn w.targetMap t key := rfl

theorem depIn_setDep (tm : List (Nat × List (Value × List Nat))) (t : Nat) (key : Value)
    (d : List Nat) (t2 : Nat) (k2 : Value) :
    depIn (setDep tm t key d) t2 k2 = if t2 = t ∧ k2 = key then d else depIn tm t2 k2 := by
  unfold depIn setDep
  by_cases ht : t2 = t
  · subst ht
    rw [alookup_ainsert_self]
    by_cases hk : k2 = key
    · subst hk
      simp [alookup_ainsert_self]
    · simp only [hk, and_false, if_false]
      rw [alookup_ainsert_ne _ _ _ _ hk]
      cases alookup t2 tm <;> simp [alookup]
  · simp only [ht, false_and, if_false]
    rw [alookup_ainsert_ne _ _ _ _ ht]

theorem depDelete_none (e : Nat) (tk : Nat × Value) (tm : List (Nat × List (Value × List Nat)))
    (h : alookup tk.1 tm = none) : depDelete e tk tm = tm := by
  unfold depDelete
  rw [h]

theorem depDelete_none2 (e : Nat) (tk : Nat × Value) (tm : List (Nat × List (Value × List Nat)))
    (depsMap : List (Value × List Nat)) (h1 : alookup tk.1 tm = some depsMap)
    (h2 : alookup tk.2 depsMap = none) : depDelete e tk tm = tm := by
  unfold depDelete
  rw [h1]
  simp only []
  rw [h2]

theorem depDelete_some (e : Nat) (tk : Nat × Value) (tm : List (Nat × List (Value × List Nat)))
    (depsMap : List (Value × List Nat)) (dep : List Nat) (h1 : alookup tk.1 tm = some depsMap)
    (h2 : alookup tk.2 depsMap = some dep) :
    depDelete e tk tm = setDep tm tk.1 tk.2 (sdelete e (depIn tm tk.1 tk.2)) := by
  unfold depDelete
  rw [h1]
  simp only []
  rw [h2]
  simp [setDep, depIn, h1, h2]

theorem depDelete_eq (e : Nat) (tk : Nat × Value) (tm : List (Nat × List (Value × List Nat))) :
    depDelete e tk tm = tm ∨
      depDelete e tk tm = setDep tm tk.1 tk.2 (sdelete e (depIn tm tk.1 tk.2)) := by
  cases h1 : alookup tk.1 tm with
  | none => exact Or.inl (depDelete_none e tk tm h1)
  | some depsMap =>
    cases h2 : alookup tk.2 depsMap with
    | none => exact Or.inl (depDelete_none2 e tk tm depsMap h1 h2)
    | some dep => exact Or.inr (depDelete_some e tk tm depsMap dep h1 h2)

theorem depIn_depDelete (e : Nat) (tk : Nat × Value) (tm : List (Nat × List (Value × List Nat)))
    (t : Nat) (key : Value) :
    depIn (depDelete e tk tm) t key
      = if t = tk.1 ∧ key = tk.2 then sdelete e (depIn tm t key) else depIn tm t key := by
  cases h1 : alookup tk.1 tm with
  | none =>
    rw [depDelete_none e tk tm h1]
    split
    · rename_i h
      rw [h.1, h.2]
      simp [depIn, h1, sdelete]
    · rfl
  | some depsMap =>
    cases h2 : alookup tk.2 depsMap with
    | none =>
      rw [depDelete_none2 e tk tm depsMap h1 h2]
      split
      · rename_i h
        rw [h.1, h.2]
        simp [depIn, h1, h2, sdelete]
      · rfl
    | some dep =>
      rw [depDelete_some e tk tm depsMap dep h1 h2, depIn_setDep]
      split
      · rename_i h
        rw [h.1, h.2]
      · rfl

theorem mem_sdelete {κ : Type} [DecidableEq κ] (x y : κ) (s : List κ) :
    y ∈ sdelete x s ↔ y ∈ s ∧ y ≠ x := by
  simp [sdelete]

theorem keysUnique_setDep (tm : List (Nat × List (Value × List Nat))) (t : Nat) (key : Value)
    (d : List Nat) (h : KeysUnique tm) : KeysUnique (setDep tm t key d) := by
  refine ⟨nodup_keys_ainsert _ _ _ h.1, fun p hp => ?_⟩
  rcases mem_ainsert _ _ _ p hp with h1 | h1
  · rw [h1]
    apply nodup_keys_ainsert
    cases h2 : alookup t tm with
    | none => simp
    | some depsMap => exact h.2 _ (alookup_mem _ _ _ h2)
  · exact h.2 p h1

theorem keysUnique_depDelete (e : Nat) (tk : Nat × Value)
    (tm : List (Nat × List (Value × List Nat))) (h : KeysUnique tm) :
    KeysUnique (depDelete e tk tm) := by
  rcases depDelete_eq e tk tm with h1 | h1
  · rw [h1]; exact h
  · rw [h1]; exact keysUnique_setDep _ _ _ _ h

/-- With unique keys every entry of the registry is the set found by lookup. -/
theorem entry_depIn (tm : List (Nat × List (Value × List Nat))) (h : KeysUnique tm)
    (p : Nat × List (Value × List Nat)) (hp : p ∈ tm) (q : Value × List Nat) (hq : q ∈ p.2) :
    q.2 = depIn tm p.1 q.1 := by
  unfold depIn
  rw [mem_alookup p.1 p.2 tm h.1 hp]
  simp only []
  rw [mem_alookup q.1 q.2 p.2 (h.2 p hp) hq]
  rfl

/-! ## Effects in the heap -/

theorem effect?_heap (w1 w2 : World) (h : w1.heap = w2.heap) (e : Nat) :
    w1.effect? e = w2.effect? e := by
  unfold World.effect? World.cell?
  rw [h]

theorem effect?_lt (w : World) (e : Nat) (r : EffectRec) (h : w.effect? e = some r) :
    e < w.heap.length :=
  cell_lt w e _ (effect?_cell w e r h)

theorem effect?_setCell_ne (w : World) (a : Nat) (c : Cell) (e : Nat) (h : e ≠ a) :
    (w.setCell a c).effect? e = w.effect? e := by
  unfold World.effect? World.cell? World.setCell
  simp only [List.get?_eq_getElem?]
  rw [List.getElem?_set_ne (Ne.symm h)]

theorem cell?_setCell_self (w : World) (a : Nat) (c : Cell) (h : a < w.heap.length) :
    (w.setCell a c).cell? a = some c := by
  unfold World.cell? World.setCell
  simp [List.get?_eq_getElem?, h]

theorem effect?_setCell_self (w : World) (a : Nat) (r : EffectRec) (h : a < w.heap.length) :
    (w.setCell a (.effect r)).effect? a = some r := by
  unfold World.effect?
  rw [cell?_setCell_self w a _ h]

theorem effect?_setCell_other (w : World) (a : Nat) (c : Cell) (hc : ∀ r, c ≠ .effect r)
    (e : Nat) (r : EffectRec) (h : (w.setCell a c).effect? e = some r) :
    w.effect? e = some r := by
  by_cases he : e = a
  · subst he
    have hl : e < w.heap.length := by
      have := effect?_lt _ _ _ h
      simpa [World.setCell] using this
    have hcell := cell?_setCell_self w e c hl
    unfold World.effect? at h
    rw [hcell] at h
    cases c <;> simp at h
    exact absurd rfl (hc _)
  · rwa [effect?_setCell_ne w a c e he] at h

theorem effect?_append (w : World) (c : Cell) (e : Nat) (r : EffectRec)
    (h : ({ w with heap := w.heap ++ [c] } : World).effect? e = some r) :
    w.effect? e = some r ∨ (e = w.heap.length ∧ c = .effect r) := by
  have hl := effect?_lt _ _ _ h
  simp only [List.length_append, List.length_singleton] at hl
  by_cases he : e < w.heap.length
  · left
    unfold World.effect? World.cell? at *
    simp only [List.get?_eq_getElem?] at *
    rwa [List.getElem?_append_left he] at h
  · right
    have heq : e = w.heap.length := by omega
    subst heq
    refine ⟨rfl, ?_⟩
    unfold World.effect? at h
    rw [cell_append_self] at h
    cases c <;> simp at h
    rw [h]

theorem runExit_heap (w : World) :
    (runExit w).heap = w.heap ∧ (runExit w).targetMap = w.targetMap := by
  cases h : w.trackStack <;> simp [runExit, resetTracking, h]

/-! ## The registry stays consistent (C26) -/

theorem consistent_congr {w w1 : World} (h : Consistent w) (hh : w1.heap = w.heap)
    (ht : w1.targetMap = w.targetMap) : Consistent w1 := by
  have hd : ∀ t key, w1.dep t key = w.dep t key := by
    intro t key
    rw [World.dep_depIn, World.dep_depIn, ht]
  refine ⟨by rw [ht]; exact h.keys, ?_, ?_, ?_⟩
  · intro e r he t key
    rw [effect?_heap w1 w hh] at he
    rw [hd]
    exact h.index e r he t key
  · intro e r he
    rw [effect?_heap w1 w hh] at he
    exact h.nodup e r he
  · intro t key x hx
    rw [hd] at hx
    rw [hh]
    exact h.valid t key x hx

theorem sdelete_idem {κ : Type} [DecidableEq κ] (x : κ) (s : List κ) :
    sdelete x (sdelete x s) = sdelete x s := by
  simp [sdelete, List.filter_filter]

theorem depIn_fold_depDelete (e : Nat) (deps : List (Nat × Value))
    (tm : List (Nat × List (Value × List Nat))) (t : Nat) (key : Value) :
    depIn (deps.foldl (fun tm tk => depDelete e tk tm) tm) t key
      = if (t, key) ∈ deps then sdelete e (depIn tm t key) else depIn tm t key := by
  induction deps generalizing tm with
  | nil => simp
  | cons tk deps ih =>
    simp only [List.foldl_cons]
    rw [ih, depIn_depDelete]
    obtain ⟨t1, k1⟩ := tk
    by_cases h1 : t = t1 ∧ key = k1
    · obtain ⟨rfl, rfl⟩ := h1
      simp [sdelete_idem]
    · have hne : (t, key) ≠ (t1, k1) := by
        intro h
        cases h
        exact h1 ⟨rfl, rfl⟩
      simp [h1, hne]

theorem keysUnique_fold_depDelete (e : Nat) (deps : List (Nat × Value))
    (tm : List (Nat × List (Value × List Nat))) (h : KeysUnique tm) :
    KeysUnique (deps.foldl (fun tm tk => depDelete e tk tm) tm) := by
  induction deps generalizing tm with
  | nil => exact h
  | cons tk deps ih => exact ih _ (keysUnique_depDelete e tk tm h)

theorem cleanup_some (e : Nat) (w : World) (r : EffectRec) (h : w.effect? e = some r) :
    cleanup e w = { (w.setCell e (.effect { r with deps := [] })) with
      targetMap := r.deps.foldl (fun tm tk => depDelete e tk tm) w.targetMap } := by
  unfold cleanup
  rw [h]

theorem cleanup_none (e : Nat) (w : World) (h : w.effect? e = none) : cleanup e w = w := by
  unfold cleanup
  rw [h]

theorem cleanup_dep (e : Nat) (w : World) (r : EffectRec) (h : w.effect? e = some r)
    (t : Nat) (key : Value) :
    (cleanup e w).dep t key
      = if (t, key) ∈ r.deps then sdelete e (w.dep t key) else w.dep t key := by
  rw [cleanup_some e w r h, World.dep_depIn, World.dep_depIn]
  exact depIn_fold_depDelete e r.deps w.targetMap t key

theorem consistent_cleanup (e : Nat) (w : World) (h : Consistent w) :
    Consistent (cleanup e w) := by
  cases hr : w.effect? e with
  | none => rw [cleanup_none e w hr]; exact h
  | some r =>
    have hl := effect?_lt w e r hr
    have hd := cleanup_dep e w r hr
    have heff : ∀ e2 r2, (cleanup e w).effect? e2 = some r2 →
        (e2 = e ∧ r2 = { r with deps := [] }) ∨ (e2 ≠ e ∧ w.effect? e2 = some r2) := by
      intro e2 r2 h2
      rw [cleanup_some e w r hr] at h2
      have h3 : (w.setCell e (.effect { r with deps := [] })).effect? e2 = some r2 := by
        rw [← h2]
        exact effect?_heap _ _ rfl e2
      by_cases he : e2 = e
      · subst he
        rw [effect?_setCell_self w e2 _ hl] at h3
        exact Or.inl ⟨rfl, (Option.some.inj h3).symm⟩
      · rw [effect?_setCell_ne w e _ e2 he] at h3
        exact Or.inr ⟨he, h3⟩
    refine ⟨?_, ?_, ?_, ?_⟩
    · rw [cleanup_some e w r hr]
      exact keysUnique_fold_depDelete e r.deps _ h.keys
    · intro e2 r2 h2 t key
      rw [hd]
      rcases heff e2 r2 h2 with ⟨rfl, rfl⟩ | ⟨hne, h3⟩
      · simp only [List.not_mem_nil, iff_false]
        by_cases hm : (t, key) ∈ r.deps
        · rw [if_pos hm, mem_sdelete]
          exact fun hx => hx.2 rfl
        · rw [if_neg hm]
          exact fun hx => hm ((h.index e2 r hr t key).mp hx)
      · rw [← h.index e2 r2 h3 t key]
        by_cases hm : (t, key) ∈ r.deps
        · rw [if_pos hm, mem_sdelete]
          exact ⟨fun hx => hx.1, fun hx => ⟨hx, hne⟩⟩
        · rw [if_neg hm]
    · intro e2 r2 h2
      rcases heff e2 r2 h2 with ⟨rfl, rfl⟩ | ⟨_, h3⟩
      · exact List.nodup_nil
      · exact h.nodup e2 r2 h3
    · intro t key x hx
      rw [hd] at hx
      have hx2 : x ∈ w.dep t key := by
        by_cases hm : (t, key) ∈ r.deps
        · rw [if_pos hm, mem_sdelete] at hx
          exact hx.1
        · rwa [if_neg hm] at hx
      have := h.valid t key x hx2
      rw [cleanup_some e w r hr]
      simpa [World.setCell] using this

theorem markStopped_some (a : Nat) (w : World) (r : EffectRec) (h : w.effect? a = some r) :
    markStopped a w = w.setCell a (.effect { r with active := false }) := by
  unfold markStopped
  rw [h]

theorem markStopped_none (a : Nat) (w : World) (h : w.effect? a = none) :
    markStopped a w = w := by
  unfold markStopped
  rw [h]

theorem consistent_markStopped (a : Nat) (w : World) (h : Consistent w) :
    Consistent (markStopped a w) := by
  cases hr : w.effect? a with
  | none => rw [markStopped_none a w hr]; exact h
  | some r =>
    rw [markStopped_some a w r hr]
    have hl := effect?_lt w a r hr
    have heff : ∀ e2 r2, (w.setCell a (.effect { r with active := false })).effect? e2 = some r2 →
        ∃ r3, w.effect? e2 = some r3 ∧ r3.deps = r2.deps := by
      intro e2 r2 h2
      by_cases he : e2 = a
      · subst he
        rw [effect?_setCell_self w e2 _ hl] at h2
        exact ⟨r, hr, by rw [← Option.some.inj h2]⟩
      · rw [effect?_setCell_ne w a _ e2 he] at h2
        exact ⟨r2, h2, rfl⟩
    refine ⟨h.keys, ?_, ?_, ?_⟩
    · intro e2 r2 h2 t key
      obtain ⟨r3, h3, hd⟩ := heff e2 r2 h2
      rw [← hd]
      exact h.index e2 r3 h3 t key
    · intro e2 r2 h2
      obtain ⟨r3, h3, hd⟩ := heff e2 r2 h2
      rw [← hd]
      exact h.nodup e2 r3 h3
    · intro t key x hx
      have := h.valid t key x hx
      simpa [World.setCell] using this

theorem trackAdded_targetMap (w : World) (e t : Nat) (key : Value) (r : EffectRec) :
    (trackAdded w e t key r).targetMap = setDep w.targetMap t key (w.dep t key ++ [e]) := rfl

theorem trackAdded_dep_eq (w : World) (e t : Nat) (key : Value) (r : EffectRec) (t2 : Nat)
    (k2 : Value) :
    (trackAdded w e t key r).dep t2 k2
      = if t2 = t ∧ k2 = key then w.dep t key ++ [e] else w.dep t2 k2 := by
  rw [World.dep_depIn, trackAdded_targetMap, depIn_setDep]
  rfl

theorem consistent_trackAdded (w : World) (e t : Nat) (key : Value) (r : EffectRec)
    (hr : w.effect? e = some r) (hm : e ∉ w.dep t key) (h : Consistent w) :
    Consistent (trackAdded w e t key r) := by
  have hl := effect?_lt w e r hr
  have hd := trackAdded_dep_eq w e t key r
  have heff : ∀ e2 r2, (trackAdded w e t key r).effect? e2 = some r2 →
      (e2 = e ∧ r2 = { r with deps := r.deps ++ [(t, key)] }) ∨
        (e2 ≠ e ∧ w.effect? e2 = some r2) := by
    intro e2 r2 h2
    have h3 : (w.setCell e (.effect { r with deps := r.deps ++ [(t, key)] })).effect? e2
        = some r2 := by
      rw [← h2]
      exact effect?_heap _ _ rfl e2
    by_cases he : e2 = e
    · subst he
      rw [effect?_setCell_self w e2 _ hl] at h3
      exact Or.inl ⟨rfl, (Option.some.inj h3).symm⟩
    · rw [effect?_setCell_ne w e _ e2 he] at h3
      exact Or.inr ⟨he, h3⟩
  refine ⟨?_, ?_, ?_, ?_⟩
  · rw [trackAdded_targetMap]
    exact keysUnique_setDep _ _ _ _ h.keys
  · intro e2 r2 h2 t2 k2
    rw [hd]
    rcases heff e2 r2 h2 with ⟨rfl, rfl⟩ | ⟨hne, h3⟩
    · by_cases hk : t2 = t ∧ k2 = key
      · obtain ⟨rfl, rfl⟩ := hk
        simp
      · rw [if_neg hk]
        have hne : (t2, k2) ≠ (t, key) := by
          intro hx
          cases hx
          exact hk ⟨rfl, rfl⟩
        rw [h.index e2 r hr t2 k2]
        simp [hne]
    · rw [← h.index e2 r2 h3 t2 k2]
      by_cases hk : t2 = t ∧ k2 = key
      · obtain ⟨rfl, rfl⟩ := hk
        simp [hne]
      · rw [if_neg hk]
  · intro e2 r2 h2
    rcases heff e2 r2 h2 with ⟨rfl, rfl⟩ | ⟨_, h3⟩
    · refine List.nodup_append.mpr ⟨h.nodup e2 r hr, List.nodup_singleton _, ?_⟩
      intro a ha hb
      rw [List.mem_singleton] at hb
      subst hb
      exact hm ((h.index e2 r hr t key).mpr ha)
    · exact h.nodup e2 r2 h3
  · intro t2 k2 x hx
    rw [hd] at hx
    have hx2 : x < w.heap.length := by
      by_cases hk : t2 = t ∧ k2 = key
      · rw [if_pos hk] at hx
        rcases List.mem_append.mp hx with hx | hx
        · exact h.valid t key x hx
        · rw [List.mem_singleton] at hx
          rw [hx]
          exact hl
      · rw [if_neg hk] at hx
        exact h.valid t2 k2 x hx
    simpa [trackAdded, World.setCell] using hx2

theorem staysConsistent_stable : Stable StaysConsistent where
  refl := fun _ h => h
  trans := fun _ _ _ h1 h2 h => h2 (h1 h)
  alloc := by
    intro w c hc h
    refine ⟨h.keys, ?_, ?_, ?_⟩
    · intro e r he t key
      rcases effect?_append w c e r he with h1 | ⟨_, h1⟩
      · exact h.index e r h1 t key
      · exact absurd h1 (hc r)
    · intro e r he
      rcases effect?_append w c e r he with h1 | ⟨_, h1⟩
      · exact h.nodup e r h1
      · exact absurd h1 (hc r)
    · intro t key x hx
      have := h.valid t key x hx
      simp only [List.length_append, List.length_singleton]
      omega
  allocEffect := by
    intro w fn options h
    refine ⟨h.keys, ?_, ?_, ?_⟩
    · intro e r he t key
      rcases effect?_append w _ e r he with h1 | ⟨h1, h2⟩
      · exact h.index e r h1 t key
      · cases h2
        subst h1
        simp only [List.not_mem_nil, iff_false]
        intro hx
        exact absurd (h.valid t key _ hx) (Nat.lt_irrefl _)
    · intro e r he
      rcases effect?_append w _ e r he with h1 | ⟨_, h2⟩
      · exact h.nodup e r h1
      · cases h2
        exact List.nodup_nil
    · intro t key x hx
      have := h.valid t key x hx
      simp only [List.length_append, List.length_singleton]
      omega
  setCell := by
    intro w a c hc h
    refine ⟨h.keys, ?_, ?_, ?_⟩
    · intro e r he t key
      exact h.index e r (effect?_setCell_other w a c hc e r he) t key
    · intro e r he
      exact h.nodup e r (effect?_setCell_other w a c hc e r he)
    · intro t key x hx
      have := h.valid t key x hx
      simpa [World.setCell] using this
  other := fun _ _ hh ht _ _ h => consistent_congr h hh ht
  trackAdd := fun w e t key r _ hr hm h => consistent_trackAdded w e t key r hr hm h
  cleaned := fun w e h => consistent_cleanup e w h
  stopMark := fun w a h => consistent_markStopped a w h
  run := by
    intro w e r w1 _ _ _ h1 h
    have h2 : Consistent (runEnter e (cleanup e w)) :=
      consistent_congr (consistent_cleanup e w h) rfl rfl
    exact consistent_congr (h1 h2) (runExit_heap w1).1 (runExit_heap w1).2

theorem consistent_init : Consistent World.init :=
  ⟨⟨List.nodup_nil, fun _ h => (nomatch h)⟩, fun _ _ h => (nomatch h),
    fun _ _ h => (nomatch h), fun _ _ _ h => (nomatch h)⟩

/-- The registry is consistent after every call that starts from a consistent state. -/
theorem interp_consistent (n : Nat) (c : Call) (w w1 : World) (hw : Consistent w)
    (h : (interp n c w).world? = some w1) : Consistent w1 := by
  have hp := (interp_pres staysConsistent_stable n c).out w
  cases hr : interp n c w with
  | ok v w2 =>
    rw [hr] at hp h
    cases h
    exact hp hw
  | throw x w2 =>
    rw [hr] at hp h
    cases h
    exact hp hw
  | timeout => rw [hr] at h; cases h
  | unsupported => rw [hr] at h; cases h

/-- C26: the registry and the reverse index stay mutually consistent.  The freshly loaded
module is consistent, and every call the interpreter completes from a consistent state
(creating and running effects, `track`, `trigger`, `stop` and everything else a script
can do) ends in a state where, for every effect `e` with reverse index `deps`, `e` is a
member of the subscriber set of (t, key) if and only if (t, key) occurs in `deps`, and
no set occurs twice in `deps`. -/
theorem C26_registry_consistent (n : Nat) (c : Call) (w w1 : World) (hw : Consistent w)
    (h : (interp n c w).world? = some w1) :
    Consistent World.init ∧
    ∀ e r, w1.effect? e = some r →
      (∀ t key, e ∈ w1.dep t key ↔ (t, key) ∈ r.deps) ∧ r.deps.Nodup := by
  have h1 := interp_consistent n c w w1 hw h
  exact ⟨consistent_init, fun e r he => ⟨h1.index e r he, h1.nodup e r he⟩⟩

/-- Witness for C26: the state in which the script `conditionalRead` ends. -/
theorem C26_registry_consistent_witness :
    ∃ w1, (runScript 30 conditionalRead).world? = some w1 ∧
      ∀ e r, w1.effect? e = some r →
        (∀ t key, e ∈ w1.dep t key ↔ (t, key) ∈ r.deps) ∧ r.deps.Nodup := by
  obtain ⟨w1, h⟩ := Option.isSome_iff_exists.mp
    (by decide! : ((runScript 30 conditionalRead).world?).isSome = true)
  exact ⟨w1, h, (C26_registry_consistent 30 (.eval conditionalRead) World.init w1
    consistent_init h).2⟩

/-! ## A stopped effect stays out of the registry (C17) -/

theorem unsub_depIn (e : Nat) (tm : List (Nat × List (Value × List Nat)))
    (h : ∀ p ∈ tm, ∀ q ∈ p.2, e ∉ q.2) (t : Nat) (key : Value) : e ∉ depIn tm t key := by
  unfold depIn
  cases h1 : alookup t tm with
  | none => simp
  | some depsMap =>
    simp only []
    cases h2 : alookup key depsMap with
    | none => simp
    | some d =>
      exact h _ (alookup_mem _ _ _ h1) _ (alookup_mem _ _ _ h2)

theorem unsub_setDep (e : Nat) (tm : List (Nat × List (Value × List Nat)))
    (h : ∀ p ∈ tm, ∀ q ∈ p.2, e ∉ q.2) (t : Nat) (key : Value) (d : List Nat) (hd : e ∉ d) :
    ∀ p ∈ setDep tm t key d, ∀ q ∈ p.2, e ∉ q.2 := by
  intro p hp q hq
  rcases mem_ainsert _ _ _ p hp with h1 | h1
  · rw [h1] at hq
    rcases mem_ainsert _ _ _ q hq with h2 | h2
    · rw [h2]
      exact hd
    · cases h3 : alookup t tm with
      | none => rw [h3] at h2; cases h2
      | some depsMap =>
        rw [h3] at h2
        exact h _ (alookup_mem _ _ _ h3) q h2
  · exact h p h1 q hq

theorem unsub_depDelete (e x : Nat) (tk : Nat × Value)
    (tm : List (Nat × List (Value × List Nat))) (h : ∀ p ∈ tm, ∀ q ∈ p.2, e ∉ q.2) :
    ∀ p ∈ depDelete x tk tm, ∀ q ∈ p.2, e ∉ q.2 := by
  rcases depDelete_eq x tk tm with h1 | h1
  · rw [h1]; exact h
  · rw [h1]
    refine unsub_setDep e tm h _ _ _ ?_
    rw [mem_sdelete]
    exact fun hx => unsub_depIn e tm h _ _ hx.1

theorem unsub_fold_depDelete (e x : Nat) (deps : List (Nat × Value))
    (tm : List (Nat × List (Value × List Nat))) (h : ∀ p ∈ tm, ∀ q ∈ p.2, e ∉ q.2) :
    ∀ p ∈ deps.foldl (fun tm tk => depDelete x tk tm) tm, ∀ q ∈ p.2, e ∉ q.2 := by
  induction deps generalizing tm with
  | nil => exact h
  | cons tk deps ih => exact ih _ (unsub_depDelete e x tk tm h)

theorem detached_congr {e : Nat} {w w1 : World} (h : Detached e w) (hh : w1.heap = w.heap)
    (ht : w1.targetMap = w.targetMap) (hs : w1.effectStack = w.effectStack)
    (ha : w1.activeEffect = w.activeEffect) : Detached e w1 := by
  refine ⟨by rw [hh]; exact h.valid, ?_, by rw [hs]; exact h.notRunning,
    by rw [ha]; exact h.notActive, by rw [ht]; exact h.unsubscribed⟩
  intro r hr
  rw [effect?_heap w1 w hh] at hr
  exact h.inactive r hr

theorem detached_cleanup (e x : Nat) (w : World) (h : Detached e w) :
    Detached e (cleanup x w) := by
  cases hr : w.effect? x with
  | none => rw [cleanup_none x w hr]; exact h
  | some r =>
    have hl := effect?_lt w x r hr
    rw [cleanup_some x w r hr]
    refine ⟨by simpa [World.setCell] using h.valid, ?_, h.notRunning, h.notActive,
      unsub_fold_depDelete e x r.deps _ h.unsubscribed⟩
    intro r2 h2
    have h3 : (w.setCell x (.effect { r with deps := [] })).effect? e = some r2 := by
      rw [← h2]
      exact effect?_heap _ _ rfl e
    by_cases he : e = x
    · subst he
      rw [effect?_setCell_self w e _ hl] at h3
      rw [← Option.some.inj h3]
      exact ⟨(h.inactive r hr).1, rfl⟩
    · rw [effect?_setCell_ne w x _ e he] at h3
      exact h.inactive r2 h3

theorem detached_markStopped (e a : Nat) (w : World) (h : Detached e w) :
    Detached e (markStopped a w) := by
  cases hr : w.effect? a with
  | none => rw [markStopped_none a w hr]; exact h
  | some r =>
    have hl := effect?_lt w a r hr
    rw [markStopped_some a w r hr]
    refine ⟨by simpa [World.setCell] using h.valid, ?_, h.notRunning, h.notActive,
      h.unsubscribed⟩
    intro r2 h2
    by_cases he : e = a
    · subst he
      rw [effect?_setCell_self w e _ hl] at h2
      rw [← Option.some.inj h2]
      exact ⟨rfl, (h.inactive r hr).2⟩
    · rw [effect?_setCell_ne w a _ e he] at h2
      exact h.inactive r2 h2

theorem detached_append (e : Nat) (w : World) (c : Cell) (h : Detached e w) :
    Detached e { w with heap := w.heap ++ [c] } := by
  refine ⟨?_, ?_, h.notRunning, h.notActive, h.unsubscribed⟩
  · have := h.valid
    simp only [List.length_append, List.length_singleton]
    omega
  · intro r hr
    rcases effect?_append w c e r hr with h1 | ⟨h1, _⟩
    · exact h.inactive r h1
    · exact absurd h.valid (by rw [h1]; exact Nat.lt_irrefl _)

theorem staysDetached_stable (e : Nat) : Stable (StaysDetached e) where
  refl := fun _ h => h
  trans := fun _ _ _ h1 h2 h => h2 (h1 h)
  alloc := fun w c _ h => detached_append e w c h
  allocEffect := fun w _ _ h => detached_append e w _ h
  setCell := by
    intro w a c hc h
    refine ⟨by simpa [World.setCell] using h.valid, ?_, h.notRunning, h.notActive,
      h.unsubscribed⟩
    intro r hr
    exact h.inactive r (effect?_setCell_other w a c hc e r hr)
  other := fun _ _ hh ht hs ha h => detached_congr h hh ht hs ha
  trackAdd := by
    intro w x t key r hact hr _ h
    have hne : e ≠ x := fun he => h.notActive (by rw [hact, he])
    refine ⟨by simpa [trackAdded, World.setCell] using h.valid, ?_, h.notRunning,
      h.notActive, ?_⟩
    · intro r2 h2
      have h3 : (w.setCell x (.effect { r with deps := r.deps ++ [(t, key)] })).effect? e
          = some r2 := by
        rw [← h2]
        exact effect?_heap _ _ rfl e
      rw [effect?_setCell_ne w x _ e hne] at h3
      exact h.inactive r2 h3
    · rw [trackAdded_targetMap]
      refine unsub_setDep e _ h.unsubscribed _ _ _ ?_
      intro hm
      rcases List.mem_append.mp hm with hm | hm
      · exact unsub_depIn e _ h.unsubscribed t key hm
      · exact hne (List.mem_singleton.mp hm)
  cleaned := fun w x h => detached_cleanup e x w h
  stopMark := fun w a h => detached_markStopped e a w h
  run := by
    intro w x r w1 hr ha _ h1 h
    have hne : e ≠ x := by
      intro he
      subst he
      have := (h.inactive r hr).1
      rw [ha] at this
      exact Bool.noConfusion this
    have h2 := detached_cleanup e x w h
    have h3 : Detached e (runEnter x (cleanup x w)) :=
      ⟨h2.valid, h2.inactive, by
        show e ∉ x :: (cleanup x w).effectStack
        rw [List.mem_cons]
        exact fun hm => hm.elim hne h2.notRunning,
       by
        show some x ≠ some e
        exact fun hx => hne (Option.some.inj hx).symm,
       h2.unsubscribed⟩
    have h4 := h1 h3
    have hs := runExit_effectStack w1
    have hnt : e ∉ w1.effectStack.tail := fun hm => h4.notRunning (List.mem_of_mem_tail hm)
    refine ⟨by rw [(runExit_heap w1).1]; exact h4.valid, ?_, by rw [hs.1]; exact hnt, ?_,
      by rw [(runExit_heap w1).2]; exact h4.unsubscribed⟩
    · intro r2 h5
      rw [effect?_heap _ w1 (runExit_heap w1).1] at h5
      exact h4.inactive r2 h5
    · rw [hs.2]
      intro hx
      exact hnt (List.mem_of_mem_head? hx)

theorem interp_detached (e : Nat) (n : Nat) (c : Call) (w w1 : World) (hw : Detached e w)
    (h : (interp n c w).world? = some w1) : Detached e w1 := by
  have hp := (interp_pres (staysDetached_stable e) n c).out w
  cases hr : interp n c w with
  | ok v w2 =>
    rw [hr] at hp h
    cases h
    exact hp hw
  | throw x w2 =>
    rw [hr] at hp h
    cases h
    exact hp hw
  | timeout => rw [hr] at h; cases h
  | unsupported => rw [hr] at h; cases h

theorem lengthSets_entries (newValue : Value) (l : List (Value × List Nat)) (w : World)
    (sets : List (List Nat)) (w1 : World) (h : lengthSets newValue l w = .ok sets w1) :
    ∀ d ∈ sets, ∃ key, (key, d) ∈ l := by
  induction l generalizing sets with
  | nil =>
    cases h
    exact fun _ hd => nomatch hd
  | cons kd l ih =>
    obtain ⟨key, dep⟩ := kd
    unfold lengthSets at h
    have hstep : ∀ sets0, (do
        let sets ← lengthSets newValue l
        pure (dep :: sets) : M (List (List Nat))) w = .ok sets0 w1 →
        ∀ d ∈ sets0, ∃ key1, (key1, d) ∈ (key, dep) :: l := by
      intro sets0 h0
      rw [bind_apply] at h0
      cases hl : lengthSets newValue l w with
      | ok s2 w2 =>
        rw [hl] at h0
        simp only [Res.bind_ok, pure_apply, Res.ok.injEq] at h0
        obtain ⟨rfl, rfl⟩ := h0
        intro d hd
        rcases List.mem_cons.mp hd with hd | hd
        · exact ⟨key, hd ▸ List.mem_cons_self _ _⟩
        · obtain ⟨k1, hk1⟩ := ih s2 hl d hd
          exact ⟨k1, List.mem_cons_of_mem _ hk1⟩
      | throw x w2 => rw [hl] at h0; cases h0
      | timeout => rw [hl] at h0; cases h0
      | unsupported => rw [hl] at h0; cases h0
    by_cases hk : key = .str "length"
    · rw [if_pos hk] at h
      exact hstep sets h
    · rw [if_neg hk] at h
      cases hg : geJS key newValue with
      | res b =>
        rw [hg] at h
        cases b with
        | true => exact hstep sets h
        | false =>
          intro d hd
          obtain ⟨k1, hk1⟩ := ih sets h d hd
          exact ⟨k1, List.mem_cons_of_mem _ hk1⟩
      | typeError => rw [hg] at h; cases h
      | unsupported => rw [hg] at h; cases h

theorem resolvedSets_entries (w : World) (depsMap : List (Value × List Nat)) (target : Value)
    (type : String) (key newValue : Value) (w0 : World) (sets : List (List Nat)) (w1 : World)
    (h : resolvedSets w depsMap target type key newValue w0 = .ok sets w1) :
    ∀ d ∈ sets, ∃ key1, (key1, d) ∈ depsMap := by
  unfold resolvedSets at h
  split at h
  · cases h
    intro d hd
    obtain ⟨p, hp, rfl⟩ := List.mem_map.mp hd
    exact ⟨p.1, hp⟩
  · split at h
    · exact lengthSets_entries newValue depsMap w0 sets w1 h
    · cases h
      intro d hd
      rcases List.mem_append.mp hd with hd | hd
      · split at hd
        · exact ⟨key, alookup_mem _ _ _ (Option.mem_toList.mp hd)⟩
        · cases hd
      · split at hd
        · exact ⟨_, alookup_mem _ _ _ (Option.mem_toList.mp hd)⟩
        · cases hd

theorem stop_active (k : Interp) (w : World) (e : Nat) (r : EffectRec)
    (hr : w.effect? e = some r) (ha : r.active = true)
    (ho : truthy r.options.onStop = false) :
    stop k (.obj e) w = .ok () (markStopped e (cleanup e w)) := by
  simp [stop, bind_apply, getW_apply, Res.bind_ok, hr, ha, ho, modifyW_apply, pure_apply]
  rfl

theorem stop_inactive (k : Interp) (w : World) (e : Nat) (r : EffectRec)
    (hr : w.effect? e = some r) (ha : r.active = false) :
    stop k (.obj e) w = .ok () w := by
  simp [stop, bind_apply, getW_apply, Res.bind_ok, hr, ha, pure_apply]

theorem detached_stopped (w : World) (e : Nat) (r : EffectRec)
    (hr : w.effect? e = some r) (hc : Consistent w) (hs : e ∉ w.effectStack)
    (hact : w.activeEffect ≠ some e) : Detached e (markStopped e (cleanup e w)) := by
  have hl := effect?_lt w e r hr
  have hc1 := consistent_cleanup e w hc
  have hl1 : e < (cleanup e w).heap.length := by
    rw [cleanup_some e w r hr]
    simpa [World.setCell] using hl
  have he1 : (cleanup e w).effect? e = some { r with deps := [] } := by
    rw [cleanup_some e w r hr]
    exact (effect?_heap _ (w.setCell e (.effect { r with deps := [] })) rfl e).trans
      (effect?_setCell_self w e _ hl)
  rw [markStopped_some e _ _ he1]
  refine ⟨by simpa [World.setCell] using hl1, ?_, ?_, ?_, ?_⟩
  · intro r2 h2
    rw [effect?_setCell_self _ e _ hl1] at h2
    rw [← Option.some.inj h2]
    exact ⟨rfl, rfl⟩
  · show e ∉ (cleanup e w).effectStack
    rw [(cleanup_effectStack e w).1]
    exact hs
  · show (cleanup e w).activeEffect ≠ some e
    rw [(cleanup_effectStack e w).2.1]
    exact hact
  · show ∀ p ∈ (cleanup e w).targetMap, ∀ q ∈ p.2, e ∉ q.2
    intro p hp q hq hm
    rw [entry_depIn _ hc1.keys p hp q hq, ← World.dep_depIn] at hm
    exact absurd ((hc1.index e _ he1 p.1 q.1).mp hm) (List.not_mem_nil _)

/-- C17 (amended): `stop(e)` for an active effect `e` without an `onStop` hook that is not
running, in a state where the registry is consistent, ends in the state
`markStopped e (cleanup e w)`, in which `e` is out of use: inactive, with an empty reverse
index and a member of no subscriber set.  From every state in which `e` is out of use:
every call the interpreter completes leaves `e` out of use, so nothing subscribes it
again; no `trigger` resolves `e` among the effects it dispatches; invoking `e` is the call
of its raw function in the same state; and `stop(e)` changes nothing. -/
theorem C17_stop_detaches (n : Nat) (w : World) (e : Nat) (r : EffectRec)
    (hr : w.effect? e = some r) (ha : r.active = true)
    (ho : truthy r.options.onStop = false) (hc : Consistent w) (hs : e ∉ w.effectStack)
    (hact : w.activeEffect ≠ some e) :
    stop (interp n) (.obj e) w = .ok () (markStopped e (cleanup e w)) ∧
    Detached e (markStopped e (cleanup e w)) ∧
    ∀ w0, Detached e w0 →
      (∀ m c w1, (interp m c w0).world? = some w1 → Detached e w1) ∧
      (∀ t depsMap target type key newValue sets w1,
        alookup t w0.targetMap = some depsMap →
        resolvedSets w0 depsMap target type key newValue w0 = .ok sets w1 →
        e ∉ (addAll w0 sets ([], [])).2 ++ (addAll w0 sets ([], [])).1) ∧
      (∀ r0 m this args, w0.effect? e = some r0 →
        interp (m + 1) (.apply (.obj e) this args) w0
          = interp m (.apply r0.raw .undefined args) w0) ∧
      (∀ r0 m, w0.effect? e = some r0 → stop (interp m) (.obj e) w0 = .ok () w0) := by
  refine ⟨stop_active _ w e r hr ha ho, detached_stopped w e r hr hc hs hact, ?_⟩
  intro w0 hd
  refine ⟨fun m c w1 h => interp_detached e m c w0 w1 hd h, ?_, ?_, ?_⟩
  · intro t depsMap target type key newValue sets w1 ht hres hmem
    have h1 := (addAll_mem w0 sets ([], []) e).mp
      (by rcases List.mem_append.mp hmem with h | h
          · exact Or.inr h
          · exact Or.inl h)
    rcases h1 with h1 | ⟨⟨d, hd1, hd2⟩, _⟩
    · rcases h1 with h1 | h1 <;> cases h1
    · obtain ⟨k1, hk1⟩ := resolvedSets_entries w0 depsMap target type key newValue w0 sets w1
        hres d hd1
      exact hd.unsubscribed _ (alookup_mem _ _ _ ht) _ hk1 hd2
  · intro r0 m this args h0
    show applyImpl (interp m) (.obj e) this args w0 = _
    rw [apply_effect (interp m) w0 e r0 this args h0,
      run_inactive (interp m) w0 e r0 _ _ h0 (hd.inactive r0 h0).1]
  · intro r0 m h0
    exact stop_inactive _ w0 e r0 h0 (hd.inactive r0 h0).1

theorem subscribedWorld_consistent : Consistent subscribedWorld := by
  have hd : ∀ t key, subscribedWorld.dep t key
      = if t = 0 ∧ key = .str "x" then [1] else [] := by
    intro t key
    by_cases ht : t = 0
    · subst ht
      by_cases hk : key = .str "x"
      · subst hk
        rfl
      · have hk2 : ¬ (Value.str "x" = key) := fun h => hk h.symm
        simp [World.dep, subscribedWorld, alookup, hk, hk2]
    · have ht2 : ¬ (0 = t) := fun h => ht h.symm
      simp [World.dep, subscribedWorld, alookup, ht, ht2]
  have he : ∀ e r, subscribedWorld.effect? e = some r →
      e = 1 ∧ r.deps = [(0, .str "x")] := by
    intro e r h
    match e, h with
    | 0, h => cases h
    | 1, h =>
      cases h
      exact ⟨rfl, rfl⟩
    | n + 2, h => cases h
  refine ⟨⟨by decide, ?_⟩, ?_, ?_, ?_⟩
  · intro p hp
    simp only [subscribedWorld, List.mem_singleton] at hp
    subst hp
    decide
  · intro e r h t key
    obtain ⟨rfl, hr⟩ := he e r h
    rw [hd, hr]
    by_cases hk : t = 0 ∧ key = .str "x"
    · obtain ⟨rfl, rfl⟩ := hk
      simp
    · rw [if_neg hk]
      simp only [List.not_mem_nil, List.mem_singleton, Prod.mk.injEq, false_iff]
      exact hk
  · intro e r h
    rw [(he e r h).2]
    exact List.nodup_singleton _
  · intro t key x hx
    rw [hd] at hx
    split at hx
    · rw [List.mem_singleton.mp hx]
      decide
    · cases hx

/-- Witness for C17: stopping the effect of `subscribedWorld`. -/
theorem C17_stop_detaches_witness :
    stop (interp 0) (.obj 1) subscribedWorld
      = .ok () (markStopped 1 (cleanup 1 subscribedWorld)) ∧
    Detached 1 (markStopped 1 (cleanup 1 subscribedWorld)) :=
  ⟨(C17_stop_detaches 0 subscribedWorld 1 _ rfl rfl rfl subscribedWorld_consistent
      (by decide) (by decide)).1,
   (C17_stop_detaches 0 subscribedWorld 1 _ rfl rfl rfl subscribedWorld_consistent
      (by decide) (by decide)).2.1⟩

/-- Counterexample to C17 as stated: the effect of `stoppedWhileRunning` calls `stop` on
itself during its second run and then reads `a.x`; being still the active effect, it is
added to the subscriber set of (`a`, `x`) after `stop` has returned, and the next write of
`a.x` dispatches it: the body runs a third time. -/
theorem C17_counterexample :
    varOf (runScript 40 stoppedWhileRunning) "runsAfterStop" = some (.num (Decimal.ofInt 2)) ∧
    varOf (runScript 40 stoppedWhileRunning) "runs" = some (.num (Decimal.ofInt 3)) := by
  decide!

/-! ## Invoking a running effect (C21) -/

theorem cleanup_effect? (e : Nat) (w : World) (r : EffectRec) (hr : w.effect? e = some r) :
    (cleanup e w).effect? e = some { r with deps := [] } := by
  rw [cleanup_some e w r hr]
  exact (effect?_heap _ (w.setCell e (.effect { r with deps := [] })) rfl e).trans
    (effect?_setCell_self w e _ (effect?_lt w e r hr))

/-- C21 (amended): invoking an active effect that is already on the effect stack does
nothing at all: it returns `undefined` and the state, with the registry and the reverse
index of the effect, is unchanged.  `cleanup` belongs to the invocations that start the
body: when the effect is not on the stack, the body starts in the state after
`cleanup(effect)`, in which the reverse index is empty and the effect is in none of the
sets the reverse index listed. -/
theorem C21_cleanup_only_when_run (n : Nat) (w : World) (e : Nat) (r : EffectRec)
    (this : Value) (args : List Value) (hr : w.effect? e = some r) (ha : r.active = true) :
    (e ∈ w.effectStack →
      interp (n + 1) (.apply (.obj e) this args) w = .ok .undefined w) ∧
    (e ∉ w.effectStack →
      interp (n + 1) (.apply (.obj e) this args) w
        = (interp n (.apply r.raw .undefined args) (runEnter e (cleanup e w))).finally runExit ∧
      (cleanup e w).effect? e = some { r with deps := [] } ∧
      ∀ t key, (t, key) ∈ r.deps → e ∉ (cleanup e w).dep t key) := by
  have happ : interp (n + 1) (.apply (.obj e) this args) w = run (interp n) e r.raw args w :=
    apply_effect (interp n) w e r this args hr
  refine ⟨fun hs => ?_, fun hs => ⟨?_, cleanup_effect? e w r hr, ?_⟩⟩
  · rw [happ, run_on_stack (interp n) w e r _ _ hr ha hs]
  · rw [happ, run_active (interp n) w e r _ _ hr ha hs]
  · intro t key hm
    rw [cleanup_dep e w r hr, if_pos hm, mem_sdelete]
    exact fun hx => hx.2 rfl

/-- Witness for C21: in `runningWorld` the running effect `1` is invoked again; the state
is returned as it was. -/
theorem C21_cleanup_only_when_run_witness :
    interp 1 (.apply (.obj 1) .undefined []) runningWorld = .ok .undefined runningWorld :=
  (C21_cleanup_only_when_run 0 runningWorld 1 _ .undefined [] rfl rfl).1 (by decide)

/-- Counterexample to C21 as stated: in `runningWorld` the running effect `1` is in the
subscriber set of (`0`, `x`) and lists it in its reverse index; after it has been invoked
both are as before.  In the script `selfInvokingEffect` the effect invokes itself during
its second run, after reading `a.x`; the later write of `a.x` still re-runs it. -/
theorem C21_counterexample :
    (interp 1 (.apply (.obj 1) .undefined []) runningWorld).world?.map
        (fun w => (w.dep 0 (.str "x"), (w.effect? 1).map (fun r => r.deps)))
      = some ([1], some [(0, .str "x")]) ∧
    varOf (runScript 40 selfInvokingEffect) "inner" = some .undefined ∧
    varOf (runScript 40 selfInvokingEffect) "runsBefore" = some (.num (Decimal.ofInt 2)) ∧
    varOf (runScript 40 selfInvokingEffect) "runs" = some (.num (Decimal.ofInt 3)) := by
  decide!

/-! ## Reading a slot that holds a Ref (C22) -/

/-- C22 at its failing input: the effect reads `o.a` while the slot holds a Ref; the slot
is then replaced by a different Ref; the effect is not re-run (`runs` stays 1) and keeps
the old value, while a read of `o.a` now gives 2. -/
theorem C22_ref_slot_read_not_tracked :
    varOf (runScript 40 refSlotReplaced) "runs" = some (.num (Decimal.ofInt 1)) ∧
    varOf (runScript 40 refSlotReplaced) "seen" = some (.num (Decimal.ofInt 1)) ∧
    varOf (runScript 40 refSlotReplaced) "now" = some (.num (Decimal.ofInt 2)) := by
  decide!

/-- The path of the trap `get` behind C22: in deep mode, when the value read from a
target that is not an array is a Ref, the trap returns `res.value` and `track` is not
called for (target, key). -/
theorem createGetter_ref_slot (isReadonly : Bool) (k : Interp) (t : Nat)
    (key receiver res : Value) (w w1 w2 : World)
    (harr : isArray w (.obj t) = false) (harr2 : isArray w2 (.obj t) = false)
    (hkey : (isSymbol key && isBuiltInSymbol key) = false)
    (hget : k (.get (.obj t) key receiver) w = .ok res w1)
    (href : isRef k res w1 = .ok true w2) :
    createGetter isReadonly false k (.obj t) key receiver w
      = k (.get res (.str "value") res) w2 := by
  simp [createGetter, bind_apply, getW_apply, Res.bind_ok, harr, hget, hkey, href, harr2]

/-! ## Key enumeration of an array (C23) -/

/-- C23 at its failing input: an effect whose only tracked read is the key enumeration of
a reactive array is re-run neither by the addition of an element nor by the deletion of
one (`runs` stays 1); the same script on a plain object re-runs it both times. -/
theorem C23_array_keys_not_retriggered :
    varOf (runScript 40 arrayKeysThenAdd) "runsAfterAdd" = some (.num (Decimal.ofInt 1)) ∧
    varOf (runScript 40 arrayKeysThenAdd) "runs" = some (.num (Decimal.ofInt 1)) ∧
    varOf (runScript 40 objectKeysThenAdd) "runsAfterAdd" = some (.num (Decimal.ofInt 2)) ∧
    varOf (runScript 40 objectKeysThenAdd) "runs" = some (.num (Decimal.ofInt 3)) := by
  decide!

/-! ## Array length change with a symbol key tracked (C24) -/

/-- C24 at its failing inputs: whenever the first key tracked on the array is a symbol
(the iterate marker or any other), the selection of subscribers for a numeric new length
throws a `TypeError`; so does the script `lengthAfterSymbolRead`, in which an effect has
read a symbol-keyed property of the array before the length is assigned. -/
theorem C24_length_trigger_throws_on_symbol :
    (∀ (w w0 : World) (s : Sym) (dep : List Nat) (rest : List (Value × List Nat))
        (acc : List Nat × List Nat) (q : Decimal),
      lengthRunners w (.num q) ((.sym s, dep) :: rest) acc w0 = .throw TypeError w0) ∧
    thrownBy (runScript 40 lengthAfterSymbolRead) = some TypeError ∧
    varOf (runScript 40 lengthAfterSymbolRead) "runs" = some (.num (Decimal.ofInt 1)) := by
  refine ⟨?_, by decide!⟩
  intro w w0 s dep rest acc q
  unfold lengthRunners
  simp [geJS, throwE]

/-! ## Deep and shallow wrappers share their map (C27) -/

theorem wrapRaw_cell (w : World) (o : Nat) (kind : Kind) (props entries : List (Value × Value))
    (f : Family) (bh ch : Handlers) (hc : w.cell? o = some (.raw kind props entries)) :
    (wrapRaw w o kind props f bh ch).2.cell? o = some (.raw kind props entries) := by
  unfold wrapRaw
  cases alookup o (w.toProxy f) with
  | some p => exact hc
  | none =>
    simp only []
    split
    · exact hc
    · split
      · have := cell_append w o _ (Cell.proxy o (handlersFor kind props bh ch)) hc
        cases f <;> exact this
      · exact hc

theorem wrapRaw_again (w : World) (o : Nat) (kind : Kind) (props entries : List (Value × Value))
    (f : Family) (bh ch bh2 ch2 : Handlers) (hc : w.cell? o = some (.raw kind props entries)) :
    wrapRaw (wrapRaw w o kind props f bh ch).2 o kind props f bh2 ch2
      = wrapRaw w o kind props f bh ch := by
  have ho := cell_lt w o _ hc
  cases h1 : alookup o (w.toProxy f) with
  | some p => simp [wrapRaw, h1]
  | none =>
    cases h2 : wmHas (w.toRawMap f) (.obj o) with
    | true => simp [wrapRaw, h1, h2]
    | false =>
      cases h3 : observableRaw w o kind props with
      | false => simp [wrapRaw, h1, h2, h3]
      | true =>
        have hw : wrapRaw w o kind props f bh ch = (.obj w.heap.length,
            ({ w with heap := w.heap ++ [Cell.proxy o (handlersFor kind props bh ch)] }
              : World).register f o w.heap.length) := by
          simp [wrapRaw, h1, h2, h3]
        rw [hw]
        have h4 : alookup o ((({ w with heap := w.heap ++
            [Cell.proxy o (handlersFor kind props bh ch)] } : World).register f o
              w.heap.length).toProxy f) = some w.heap.length := by
          cases f <;> simp [World.register, World.toProxy, alookup_ainsert_self]
        simp only [wrapRaw, h4]

theorem wrapRaw_frame (w : World) (o : Nat) (kind : Kind) (props : List (Value × Value))
    (f : Family) (bh ch : Handlers) :
    (wrapRaw w o kind props f bh ch).2.readonlyValues = w.readonlyValues ∧
    (f = .reactive → (wrapRaw w o kind props f bh ch).2.readonlyToRaw = w.readonlyToRaw) ∧
    (f = .readonly → (wrapRaw w o kind props f bh ch).2.reactiveToRaw = w.reactiveToRaw) := by
  unfold wrapRaw
  cases alookup o (w.toProxy f) with
  | some p => exact ⟨rfl, fun _ => rfl, fun _ => rfl⟩
  | none =>
    simp only []
    split
    · exact ⟨rfl, fun _ => rfl, fun _ => rfl⟩
    · split
      · cases f
        · exact ⟨rfl, fun _ => rfl, fun h => (nomatch h)⟩
        · exact ⟨rfl, fun h => (nomatch h), fun _ => rfl⟩
      · exact ⟨rfl, fun _ => rfl, fun _ => rfl⟩

theorem wrapRaw_fresh (w : World) (o : Nat) (kind : Kind) (props : List (Value × Value))
    (f : Family) (bh ch : Handlers) (h1 : alookup o (w.toProxy f) = none)
    (h2 : wmHas (w.toRawMap f) (.obj o) = false) (h3 : observableRaw w o kind props = true) :
    (wrapRaw w o kind props f bh ch).1 = .obj w.heap.length ∧
    (wrapRaw w o kind props f bh ch).2.cell? w.heap.length
      = some (.proxy o (handlersFor kind props bh ch)) := by
  have hw : wrapRaw w o kind props f bh ch = (.obj w.heap.length,
      ({ w with heap := w.heap ++ [Cell.proxy o (handlersFor kind props bh ch)] }
        : World).register f o w.heap.length) := by
    simp [wrapRaw, h1, h2, h3]
  rw [hw]
  refine ⟨rfl, ?_⟩
  have := cell_append_self w (Cell.proxy o (handlersFor kind props bh ch))
  cases f <;> exact this

theorem shallowReactive_raw (k : Interp) (hk : ReadsRaw k) (w : World) (o : Nat) (kind : Kind)
    (props entries : List (Value × Value)) (hc : w.cell? o = some (.raw kind props entries)) :
    shallowReactive k (.obj o) w =
      .ok (wrapRaw w o kind props .reactive .shallowReactiveHandlers .mutableCollectionHandlers).1
        (wrapRaw w o kind props .reactive .shallowReactiveHandlers .mutableCollectionHandlers).2 := by
  simp only [shallowReactive]
  exact createReactiveObject_raw k hk w o kind props entries _ _ _ hc

theorem shallowReadonly_raw (k : Interp) (hk : ReadsRaw k) (w : World) (o : Nat) (kind : Kind)
    (props entries : List (Value × Value)) (hc : w.cell? o = some (.raw kind props entries)) :
    shallowReadonly k (.obj o) w =
      .ok (wrapRaw w o kind props .readonly .shallowReadonlyHandlers .readonlyCollectionHandlers).1
        (wrapRaw w o kind props .readonly .shallowReadonlyHandlers
          .readonlyCollectionHandlers).2 := by
  simp only [shallowReadonly]
  exact createReactiveObject_raw k hk w o kind props entries _ _ _ hc

theorem reactive_plain (k : Interp) (hk : ReadsRaw k) (w : World) (o : Nat) (kind : Kind)
    (props entries : List (Value × Value)) (hc : w.cell? o = some (.raw kind props entries))
    (h2 : alookup o w.readonlyToRaw = none) (h3 : wsHas w.readonlyValues (.obj o) = false)
    (h4 : strictEq (rawProp kind props (.str "_isRef")) (.bool true) = false) :
    reactive k (.obj o) w =
      .ok (wrapRaw w o kind props .reactive .mutableHandlers .mutableCollectionHandlers).1
        (wrapRaw w o kind props .reactive .mutableHandlers .mutableCollectionHandlers).2 := by
  rw [reactive_raw k hk w o kind props entries hc h2, h3, h4]
  simp

/-- C27 (amended): for every raw object `o` that is not itself a wrapper, has not been
marked readonly and is not a Ref: `reactive(o)` followed by `shallowReactive(o)`, and
`shallowReactive(o)` followed by `reactive(o)`, return the identical value, the second call
leaving the state as it is; likewise `readonly(o)` and `shallowReadonly(o)` in either
order; and when `o` is observable and has no wrapper of the family yet, the wrapper is the
new proxy with the handlers of the call that made it, so its deep or shallow behaviour is
that of the first call. -/
theorem C27_shared_wrapper_map (k : Interp) (hk : ReadsRaw k) (w : World) (o : Nat)
    (kind : Kind) (props entries : List (Value × Value))
    (hc : w.cell? o = some (.raw kind props entries))
    (h1 : alookup o w.reactiveToRaw = none) (h2 : alookup o w.readonlyToRaw = none)
    (h3 : wsHas w.readonlyValues (.obj o) = false)
    (h4 : strictEq (rawProp kind props (.str "_isRef")) (.bool true) = false) :
    (∃ x w1, reactive k (.obj o) w = .ok x w1 ∧ shallowReactive k (.obj o) w1 = .ok x w1) ∧
    (∃ x w1, shallowReactive k (.obj o) w = .ok x w1 ∧ reactive k (.obj o) w1 = .ok x w1) ∧
    (∃ x w1, readonly k (.obj o) w = .ok x w1 ∧ shallowReadonly k (.obj o) w1 = .ok x w1) ∧
    (∃ x w1, shallowReadonly k (.obj o) w = .ok x w1 ∧ readonly k (.obj o) w1 = .ok x w1) ∧
    (∀ (f : Family) (bh ch : Handlers), alookup o (w.toProxy f) = none →
      observableRaw w o kind props = true →
      (wrapRaw w o kind props f bh ch).1 = .obj w.heap.length ∧
      (wrapRaw w o kind props f bh ch).2.cell? w.heap.length
        = some (.proxy o (handlersFor kind props bh ch))) := by
  refine ⟨?_, ?_, ?_, ?_, ?_⟩
  · refine ⟨_, _, reactive_plain k hk w o kind props entries hc h2 h3 h4, ?_⟩
    rw [shallowReactive_raw k hk _ o kind props entries (wrapRaw_cell w o kind props entries _ _ _ hc),
      wrapRaw_again w o kind props entries _ _ _ _ _ hc]
  · refine ⟨_, _, shallowReactive_raw k hk w o kind props entries hc, ?_⟩
    have hf := wrapRaw_frame w o kind props .reactive .shallowReactiveHandlers
      .mutableCollectionHandlers
    rw [reactive_plain k hk _ o kind props entries (wrapRaw_cell w o kind props entries _ _ _ hc)
        (by rw [hf.2.1 rfl]; exact h2) (by rw [hf.1]; exact h3) h4,
      wrapRaw_again w o kind props entries _ _ _ _ _ hc]
  · refine ⟨_, _, readonly_raw k hk w o kind props entries hc h1, ?_⟩
    rw [shallowReadonly_raw k hk _ o kind props entries (wrapRaw_cell w o kind props entries _ _ _ hc),
      wrapRaw_again w o kind props entries _ _ _ _ _ hc]
  · refine ⟨_, _, shallowReadonly_raw k hk w o kind props entries hc, ?_⟩
    have hf := wrapRaw_frame w o kind props .readonly .shallowReadonlyHandlers
      .readonlyCollectionHandlers
    rw [readonly_raw k hk _ o kind props entries (wrapRaw_cell w o kind props entries _ _ _ hc)
        (by rw [hf.2.2 rfl]; exact h1),
      wrapRaw_again w o kind props entries _ _ _ _ _ hc]
  · intro f bh ch hp hobs
    refine wrapRaw_fresh w o kind props f bh ch hp ?_ hobs
    cases f
    · simp [wmHas, World.toRawMap, h1]
    · simp [wmHas, World.toRawMap, h2]

/-- Witness for C27: the object of `oneObjectWorld`. -/
theorem C27_shared_wrapper_map_witness :
    ∃ x w1, reactive (interp 1) (.obj 0) oneObjectWorld = .ok x w1 ∧
      shallowReactive (interp 1) (.obj 0) w1 = .ok x w1 :=
  (C27_shared_wrapper_map (interp 1) (interp_readsRaw 0) oneObjectWorld 0 .Object
    [(.str "x", .num (Decimal.ofInt 1))] [] rfl rfl rfl rfl rfl).1

/-- Counterexample to C27 as stated: for a raw object marked readonly, `reactive(o)` is
the readonly wrapper of `o` while `shallowReactive(o)` is a mutable wrapper: the two calls
return different wrappers. -/
theorem C27_counterexample :
    varOf (runScript 30 markedReadonlyRaw) "same" = some (.bool false) ∧
    varOf (runScript 30 markedReadonlyRaw) "pIsReadonly" = some (.bool true) ∧
    varOf (runScript 30 markedReadonlyRaw) "sIsReadonly" = some (.bool false) := by
  decide!

/-! ## Canonical wrapping (C1) -/

theorem wrapRaw_readonly_notWrapper (w : World) (o : Nat) (kind : Kind)
    (props entries : List (Value × Value)) (bh ch : Handlers)
    (hc : w.cell? o = some (.raw kind props entries)) (h2 : alookup o w.readonlyToRaw = none) :
    alookup o (wrapRaw w o kind props .readonly bh ch).2.readonlyToRaw = none := by
  have hne : o ≠ w.heap.length := Nat.ne_of_lt (cell_lt w o _ hc)
  unfold wrapRaw
  cases alookup o (w.toProxy .readonly) with
  | some p => exact h2
  | none =>
    simp only []
    split
    · exact h2
    · split
      · simp [World.register, alookup_ainsert_ne _ _ _ _ hne, h2]
      · exact h2

/-- `isRef` of a mutable wrapper of a plain object or array without a property `_isRef`:
the read goes through the trap `get`, which records it. -/
theorem isRef_mutable_wrapper (n : Nat) (w w2 : World) (p o : Nat) (kind : Kind)
    (props entries : List (Value × Value))
    (hp : w.cell? p = some (.proxy o .mutableHandlers))
    (hc : w.cell? o = some (.raw kind props entries))
    (hr : rawProp kind props (.str "_isRef") = .undefined)
    (ht : track (interp (n + 1)) (.obj o) "get" (.str "_isRef") w = .ok () w2) :
    isRef (interp (n + 2)) (.obj p) w = .ok false w2 := by
  have hget : interp (n + 1) (.get (.obj o) (.str "_isRef") (.obj p)) w = .ok .undefined w := by
    rw [← hr]
    exact getImpl_raw (interp n) w o kind props entries _ _ hc (by decide)
  have h1 : interp (n + 2) (.get (.obj p) (.str "_isRef") (.obj p)) w
      = createGetter false false (interp (n + 1)) (.obj o) (.str "_isRef") (.obj p) w := by
    show getImpl (interp (n + 1)) (.obj p) (.str "_isRef") (.obj p) w = _
    simp [getImpl, bind_apply, getW_apply, Res.bind_ok, hp]
  have h2 : createGetter false false (interp (n + 1)) (.obj o) (.str "_isRef") (.obj p) w
      = .ok .undefined w2 := by
    simp [createGetter, bind_apply, getW_apply, Res.bind_ok, isArrayInstrumentation, hget,
      isSymbol, isRef, pure_apply, ht, isObject]
  simp only [isRef, bind_apply, h1, h2, Res.bind_ok, pure_apply]
  rfl

/-- `isRef` of a wrapper of a collection without a property `_isRef`. -/
theorem isRef_collection_wrapper (n : Nat) (w : World) (p o : Nat) (kind : Kind)
    (props entries : List (Value × Value))
    (hp : w.cell? p = some (.proxy o .mutableCollectionHandlers))
    (hc : w.cell? o = some (.raw kind props entries))
    (hr : rawProp kind props (.str "_isRef") = .undefined) :
    isRef (interp (n + 2)) (.obj p) w = .ok false w := by
  have hget : interp (n + 1) (.get (.obj o) (.str "_isRef") (.obj p)) w = .ok .undefined w := by
    rw [← hr]
    exact getImpl_raw (interp n) w o kind props entries _ _ hc (by decide)
  have h1 : interp (n + 2) (.get (.obj p) (.str "_isRef") (.obj p)) w = .ok .undefined w := by
    show getImpl (interp (n + 1)) (.obj p) (.str "_isRef") (.obj p) w = _
    simp [getImpl, bind_apply, getW_apply, Res.bind_ok, hp, createInstrumentationGetter,
      isInstrumentation, hget]
  simp only [isRef, bind_apply, h1, Res.bind_ok, pure_apply]
  rfl

/-- `reactive` of a mutable wrapper that is not marked readonly, given the outcome of
`isRef` on it. -/
theorem reactive_wrapper (k : Interp) (w w2 : World) (p : Nat)
    (h1 : alookup p w.readonlyToRaw = none) (h2 : wsHas w.readonlyValues (.obj p) = false)
    (hi : isRef k (.obj p) w = .ok false w2) (ho : isObject w2 (.obj p) = true)
    (h3 : alookup p w2.rawToReactive = none) (h4 : wmHas w2.reactiveToRaw (.obj p) = true) :
    reactive k (.obj p) w = .ok (.obj p) w2 := by
  simp only [reactive, bind_apply, getW_apply, Res.bind_ok, wmHas, h1, h2, hi,
    Option.isSome_none, Bool.false_eq_true, if_false]
  exact createReactiveObject_wrapper k w2 p .reactive _ _ ho h3 h4

/-- C1 (amended): for every raw object `o`, a second `reactive(o)` returns the identical
value as the first and leaves the state as it is; and `reactive` of a mutable wrapper `p`
that has not been marked readonly returns `p` itself: the call reads `p._isRef`, which for
a wrapper of a plain object or array is recorded by `track`, and then finds `p` registered
as a wrapper. -/
theorem C1_reactive_canonical (n : Nat) (w : World) (o : Nat) (kind : Kind)
    (props entries : List (Value × Value))
    (hc : w.cell? o = some (.raw kind props entries))
    (h1 : alookup o w.reactiveToRaw = none) (h2 : alookup o w.readonlyToRaw = none) :
    (∃ x w1, reactive (interp (n + 1)) (.obj o) w = .ok x w1 ∧
      reactive (interp (n + 1)) (.obj o) w1 = .ok x w1) ∧
    (∀ (p : Nat) (w2 : World), w.cell? p = some (.proxy o .mutableHandlers) →
      rawProp kind props (.str "_isRef") = .undefined →
      alookup p w.readonlyToRaw = none → wsHas w.readonlyValues (.obj p) = false →
      track (interp (n + 1)) (.obj o) "get" (.str "_isRef") w = .ok () w2 →
      isObject w2 (.obj p) = true → alookup p w2.rawToReactive = none →
      wmHas w2.reactiveToRaw (.obj p) = true →
      reactive (interp (n + 2)) (.obj p) w = .ok (.obj p) w2) ∧
    (∀ (p : Nat), w.cell? p = some (.proxy o .mutableCollectionHandlers) →
      rawProp kind props (.str "_isRef") = .undefined →
      alookup p w.readonlyToRaw = none → wsHas w.readonlyValues (.obj p) = false →
      alookup p w.rawToReactive = none → wmHas w.reactiveToRaw (.obj p) = true →
      reactive (interp (n + 2)) (.obj p) w = .ok (.obj p) w) := by
  have hk := interp_readsRaw n
  refine ⟨?_, ?_, ?_⟩
  · rw [reactive_raw _ hk w o kind props entries hc h2]
    by_cases h3 : wsHas w.readonlyValues (.obj o) = true
    · rw [if_pos h3, readonly_raw _ hk w o kind props entries hc h1]
      refine ⟨_, _, rfl, ?_⟩
      have hf := wrapRaw_frame w o kind props .readonly .readonlyHandlers
        .readonlyCollectionHandlers
      have hc1 := wrapRaw_cell w o kind props entries .readonly .readonlyHandlers
        .readonlyCollectionHandlers hc
      rw [reactive_raw _ hk _ o kind props entries hc1
          (wrapRaw_readonly_notWrapper w o kind props entries _ _ hc h2),
        hf.1, if_pos h3,
        readonly_raw _ hk _ o kind props entries hc1 (by rw [hf.2.2 rfl]; exact h1),
        wrapRaw_again w o kind props entries _ _ _ _ _ hc]
    · rw [if_neg h3]
      by_cases h4 : strictEq (rawProp kind props (.str "_isRef")) (.bool true) = true
      · rw [if_pos h4]
        refine ⟨_, _, rfl, ?_⟩
        rw [reactive_raw _ hk w o kind props entries hc h2, if_neg h3, if_pos h4]
      · rw [if_neg h4]
        refine ⟨_, _, rfl, ?_⟩
        have hf := wrapRaw_frame w o kind props .reactive .mutableHandlers
          .mutableCollectionHandlers
        have hc1 := wrapRaw_cell w o kind props entries .reactive .mutableHandlers
          .mutableCollectionHandlers hc
        rw [reactive_raw _ hk _ o kind props entries hc1 (by rw [hf.2.1 rfl]; exact h2),
          hf.1, if_neg h3, if_neg h4, wrapRaw_again w o kind props entries _ _ _ _ _ hc]
  · intro p w2 hp hr hp1 hp2 ht ho hp3 hp4
    exact reactive_wrapper _ w w2 p hp1 hp2
      (isRef_mutable_wrapper n w w2 p o kind props entries hp hc hr ht) ho hp3 hp4
  · intro p hp hr hp1 hp2 hp3 hp4
    refine reactive_wrapper _ w w p hp1 hp2
      (isRef_collection_wrapper n w p o kind props entries hp hc hr) ?_ hp3 hp4
    simp [isObject, isFunction, hp]

/-- Witness for C1: the object of `oneObjectWorld`. -/
theorem C1_reactive_canonical_witness :
    ∃ x w1, reactive (interp 1) (.obj 0) oneObjectWorld = .ok x w1 ∧
      reactive (interp 1) (.obj 0) w1 = .ok x w1 :=
  (C1_reactive_canonical 0 oneObjectWorld 0 .Object [(.str "x", .num (Decimal.ofInt 1))] []
    rfl rfl rfl).1

/-- Counterexample to C1 as stated: once the wrapper `p = reactive(o)` has been marked
readonly, `reactive(p)` is the readonly wrapper of `o`, not `p`; a second `reactive(o)`
still returns `p`. -/
theorem C1_counterexample :
    varOf (runScript 30 markedReadonlyWrapper) "same" = some (.bool false) ∧
    varOf (runScript 30 markedReadonlyWrapper) "ppIsReadonly" = some (.bool true) ∧
    varOf (runScript 30 markedReadonlyWrapper) "again" = some (.bool true) := by
  decide!

/-! ## What a deep ref stores (C25) -/

theorem wrapRaw_isReactive (w : World) (o : Nat) (kind : Kind) (props : List (Value × Value))
    (f : Family) (bh ch : Handlers) (h : RawEntry w o)
    (hobs : observableRaw w o kind props = true) :
    isReactive (wrapRaw w o kind props f bh ch).2 (wrapRaw w o kind props f bh ch).1 = true := by
  cases h1 : alookup o (w.toProxy f) with
  | some p =>
    have hw : wrapRaw w o kind props f bh ch = (.obj p, w) := by simp [wrapRaw, h1]
    rw [hw]
    cases f
    · have := h.reactiveInv p h1
      simp [isReactive, wmHas, this]
    · have := (h.readonlyInv p h1).1
      simp [isReactive, wmHas, this]
  | none =>
    have h2 : wmHas (w.toRawMap f) (.obj o) = false := by
      cases f
      · simp [wmHas, World.toRawMap, h.notWrapper1]
      · simp [wmHas, World.toRawMap, h.notWrapper2]
    have hw : wrapRaw w o kind props f bh ch = (.obj w.heap.length,
        ({ w with heap := w.heap ++ [Cell.proxy o (handlersFor kind props bh ch)] }
          : World).register f o w.heap.length) := by
      simp [wrapRaw, h1, h2, hobs]
    rw [hw]
    cases f <;> simp [isReactive, wmHas, World.register, alookup_ainsert_self]

theorem reactive_observable (k : Interp) (hk : ReadsRaw k) (w : World) (o : Nat) (kind : Kind)
    (props entries : List (Value × Value)) (hc : w.cell? o = some (.raw kind props entries))
    (h : RawEntry w o) (hobs : observableRaw w o kind props = true)
    (h4 : strictEq (rawProp kind props (.str "_isRef")) (.bool true) = false) :
    ∃ x w1, reactive k (.obj o) w = .ok x w1 ∧ isReactive w1 x = true := by
  rw [reactive_raw k hk w o kind props entries hc h.notWrapper2]
  by_cases h3 : wsHas w.readonlyValues (.obj o) = true
  · rw [if_pos h3, readonly_raw k hk w o kind props entries hc h.notWrapper1]
    exact ⟨_, _, rfl, wrapRaw_isReactive w o kind props _ _ _ h hobs⟩
  · rw [if_neg h3, h4]
    exact ⟨_, _, rfl, wrapRaw_isReactive w o kind props _ _ _ h hobs⟩

theorem createRef_object (k : Interp) (w w1 : World) (v x : Value)
    (hi : isRef k v w = .ok false w) (ho : isObject w v = true)
    (hr : reactive k v w = .ok x w1) :
    createRef k v false w
      = .ok (.obj w1.heap.length) { w1 with heap := w1.heap ++ [.ref x false] } := by
  simp [createRef, bind_apply, Res.bind_ok, hi, convert, getW_apply, ho, hr, alloc,
    pure_apply]

theorem refSetValue_object (k : Interp) (w w1 : World) (r : Nat) (old v x : Value)
    (hc : w.cell? r = some (.ref old false)) (ho : isObject w v = true)
    (hr : reactive k v w = .ok x w1) :
    refSetValue k r v w
      = trigger k (.obj r) "set" (.str "value") (.obj (refStored w1 r x v).heap.length.pred)
          .undefined .undefined (refStored w1 r x v) := by
  simp [refSetValue, bind_apply, Res.bind_ok, getW_apply, hc, convert, ho, hr, alloc,
    modifyW_apply, refStored, World.setCell]

theorem refStored_cell (w1 : World) (r : Nat) (x v : Value) (h : r < w1.heap.length) :
    (refStored w1 r x v).cell? r = some (.ref x false) := by
  have h1 := cell?_setCell_self w1 r (.ref x false) h
  exact cell_append (w1.setCell r (.ref x false)) r _ _ h1

theorem refStored_isReactive (w1 : World) (r : Nat) (x v y : Value) :
    isReactive (refStored w1 r x v) y = isReactive w1 y := rfl

/-- C25 (amended): a deep ref stores `convert(v)`.  For every raw object `o` that is
observable and not a Ref: `reactive(o)` returns a value `x` of which `isReactive` holds;
`ref(o)` is a new ref holding `x`; and the setter of a deep ref `r`, given `o`, stores `x`
in `r` before it triggers, so the value stored at creation and at every assignment is a
wrapper. -/
theorem C25_deep_ref_stores_wrapper (k : Interp) (hk : ReadsRaw k) (w : World) (o : Nat)
    (kind : Kind) (props entries : List (Value × Value))
    (hc : w.cell? o = some (.raw kind props entries)) (h : RawEntry w o)
    (hobs : observableRaw w o kind props = true)
    (h4 : strictEq (rawProp kind props (.str "_isRef")) (.bool true) = false) :
    ∃ x w1, reactive k (.obj o) w = .ok x w1 ∧ isReactive w1 x = true ∧
      createRef k (.obj o) false w
        = .ok (.obj w1.heap.length) { w1 with heap := w1.heap ++ [.ref x false] } ∧
      ∀ r old, w.cell? r = some (.ref old false) → r < w1.heap.length →
        refSetValue k r (.obj o) w
          = trigger k (.obj r) "set" (.str "value")
              (.obj (refStored w1 r x (.obj o)).heap.length.pred) .undefined .undefined
              (refStored w1 r x (.obj o)) ∧
        (refStored w1 r x (.obj o)).cell? r = some (.ref x false) ∧
        isReactive (refStored w1 r x (.obj o)) x = true := by
  obtain ⟨x, w1, hr, hx⟩ := reactive_observable k hk w o kind props entries hc h hobs h4
  have ho := isObject_raw w o kind props entries hc
  have hi : isRef k (.obj o) w = .ok false w := by
    rw [isRef_raw k hk w o kind props entries hc, h4]
  refine ⟨x, w1, hr, hx, createRef_object k w w1 _ x hi ho hr, ?_⟩
  intro r old hcr hlt
  exact ⟨refSetValue_object k w w1 r old _ x hcr ho hr, refStored_cell w1 r x _ hlt, hx⟩

/-- Witness for C25: `ref(o)` for the object of `oneObjectWorld`. -/
theorem C25_deep_ref_stores_wrapper_witness :
    ∃ x w1, reactive (interp 1) (.obj 0) oneObjectWorld = .ok x w1 ∧ isReactive w1 x = true ∧
      createRef (interp 1) (.obj 0) false oneObjectWorld
        = .ok (.obj w1.heap.length) { w1 with heap := w1.heap ++ [.ref x false] } := by
  obtain ⟨x, w1, h1, h2, h3, _⟩ := C25_deep_ref_stores_wrapper (interp 1) (interp_readsRaw 0)
    oneObjectWorld 0 .Object [(.str "x", .num (Decimal.ofInt 1))] [] rfl
    oneObjectWorld_rawEntry (by decide) rfl
  exact ⟨x, w1, h1, h2, h3⟩

/-- Counterexample to C25 as stated: a deep ref made from an object marked non-reactive
holds that raw object (`isReactive` is false of it), and a deep ref assigned a Ref holds
the Ref, a raw object of which `isReactive` is false. -/
theorem C25_counterexample :
    varOf (runScript 30 refOfUnobservable) "vIsReactive" = some (.bool false) ∧
    varOf (runScript 30 refOfUnobservable) "vIsO" = some (.bool true) ∧
    varOf (runScript 30 refOfUnobservable) "v2IsReactive" = some (.bool false) ∧
    varOf (runScript 30 refOfUnobservable) "v2IsRef" = some (.bool true) := by
  decide!

/-! ## The deep mutable trap `set` on a plain object or array (C8, C10, C28) -/

theorem kindOf_raw (w : World) (t : Nat) (kind : Kind) (props entries : List (Value × Value))
    (hc : w.cell? t = some (.raw kind props entries)) (m : Nat) :
    kindOf w (m + 1) (.obj t) = some kind := by
  simp [kindOf, hc]

theorem isArray_raw (w : World) (t : Nat) (kind : Kind) (props entries : List (Value × Value))
    (hc : w.cell? t = some (.raw kind props entries)) :
    isArray w (.obj t) = (kind == .Array) := by
  simp [isArray, kindOf_raw w t kind props entries hc]

theorem hasOwn_raw (w : World) (t : Nat) (kind : Kind) (props entries : List (Value × Value))
    (hc : w.cell? t = some (.raw kind props entries)) (m : Nat) (key : Value) :
    hasOwn w (m + 1) (.obj t) key = decide (key ∈ props.map Prod.fst) := by
  simp [hasOwn, hc, ownKeysOf]

theorem underlying_wrapper (w : World) (t pt : Nat) (h : Handlers) (kind : Kind)
    (props entries : List (Value × Value)) (hc : w.cell? t = some (.raw kind props entries))
    (hpt : w.cell? pt = some (.proxy t h)) :
    underlying w (w.heap.length + 1) (.obj pt) = .obj t := by
  have hl := cell_lt w t _ hc
  obtain ⟨m, hm⟩ : ∃ m, w.heap.length = m + 1 := ⟨w.heap.length - 1, by omega⟩
  rw [hm]
  simp [underlying, hpt, hc]

theorem getImpl_raw_plain (k : Interp) (w : World) (o : Nat) (kind : Kind)
    (props entries : List (Value × Value)) (key recv : Value)
    (hc : w.cell? o = some (.raw kind props entries))
    (hk : kind = .Object ∨ kind = .Array) :
    getImpl k (.obj o) key recv w = .ok (rawProp kind props key) w := by
  simp only [getImpl, bind_apply, getW_apply, Res.bind_ok, hc]
  cases h : alookup key props with
  | some v => simp [rawProp, h, pure_apply]
  | none => rcases hk with hk | hk <;> simp [rawProp, h, hk, pure_apply]

theorem rawSetProps_lookup (kind : Kind) (props : List (Value × Value)) (key value : Value)
    (hk : key ≠ .str "length") :
    ∃ props1, rawSetProps kind props key value = .ok props1 ∧
      alookup key props1 = some value := by
  unfold rawSetProps
  split
  · rename_i s
    have hs : s ≠ "length" := fun h => hk (by rw [h])
    simp only [hs, if_false]
    split
    · split
      · exact ⟨_, rfl, alookup_ainsert_self _ _ _⟩
      · refine ⟨_, rfl, ?_⟩
        rw [alookup_ainsert_ne _ _ _ _ hk, alookup_ainsert_self]
    · exact ⟨_, rfl, alookup_ainsert_self _ _ _⟩
  · exact ⟨_, rfl, alookup_ainsert_self _ _ _⟩

theorem setImpl_raw (k : Interp) (w : World) (t pt : Nat) (h : Handlers) (kind : Kind)
    (props entries props1 : List (Value × Value)) (key value : Value)
    (hc : w.cell? t = some (.raw kind props entries)) (hpt : w.cell? pt = some (.proxy t h))
    (hs : rawSetProps kind props key value = .ok props1) :
    setImpl k (.obj t) key value (.obj pt) w
      = .ok (.bool true) (w.setCell t (.raw kind props1 entries)) := by
  simp [setImpl, bind_apply, getW_apply, Res.bind_ok, hc,
    underlying_wrapper w t pt h kind props entries hc hpt, hs, modifyW_apply, pure_apply]

theorem toRaw_wrapper (w : World) (p o : Nat) (h : alookup p w.reactiveToRaw = some o) :
    toRaw w (.obj p) = .obj o := by
  simp [toRaw, h]

/-- The trap `set` of a mutable wrapper `pt` of a plain object or array `t`, when the write
is not redirected into a Ref: the value with its wrapper removed is written to the raw
object, then the mutation is triggered. -/
theorem createSetter_store (n : Nat) (w : World) (t pt : Nat) (kind : Kind)
    (props entries props1 : List (Value × Value)) (key value : Value)
    (hc : w.cell? t = some (.raw kind props entries)) (hkind : kind = .Object ∨ kind = .Array)
    (hpt : w.cell? pt = some (.proxy t .mutableHandlers))
    (hraw : alookup pt w.reactiveToRaw = some t)
    (hold : kind = .Array ∨ isRef (interp (n + 1)) (rawProp kind props key) w = .ok false w)
    (hs : rawSetProps kind props key (toRaw w value) = .ok props1) :
    interp (n + 2) (.set (.obj pt) key value (.obj pt)) w
      = (setterTrigger (interp (n + 1)) t (decide (key ∈ props.map Prod.fst)) key
          (toRaw w value) (rawProp kind props key)
          (w.setCell t (.raw kind props1 entries))).bind fun _ w1 => .ok (.bool true) w1 := by
  have h0 : interp (n + 2) (.set (.obj pt) key value (.obj pt)) w
      = createSetter false false (interp (n + 1)) (.obj t) key value (.obj pt) w := by
    show setImpl (interp (n + 1)) (.obj pt) key value (.obj pt) w = _
    simp [setImpl, bind_apply, getW_apply, Res.bind_ok, hpt]
  have hget : interp (n + 1) (.get (.obj t) key (.obj t)) w
      = .ok (rawProp kind props key) w :=
    getImpl_raw_plain (interp n) w t kind props entries key _ hc hkind
  have hset : interp (n + 1) (.set (.obj t) key (toRaw w value) (.obj pt)) w
      = .ok (.bool true) (w.setCell t (.raw kind props1 entries)) :=
    setImpl_raw (interp n) w t pt _ kind props entries props1 key _ hc hpt hs
  have harr := isArray_raw w t kind props entries hc
  have hown := hasOwn_raw w t kind props entries hc w.heap.length key
  have htr : toRaw (w.setCell t (.raw kind props1 entries)) (.obj pt) = .obj t :=
    toRaw_wrapper _ pt t hraw
  rw [h0]
  rcases hold with hk | hr
  · subst hk
    simp [createSetter, bind_apply, getW_apply, Res.bind_ok, hget, harr, pure_apply,
      hset, htr]
    rw [hown]
    unfold setterTrigger
    cases hd : decide (key ∈ props.map Prod.fst) <;>
      cases hch : hasChanged (toRaw w value) (rawProp .Array props key) <;>
      simp [bind_apply, pure_apply, Res.bind] <;> rfl
  · cases hka : (kind == Kind.Array)
    · simp [createSetter, bind_apply, getW_apply, Res.bind_ok, hget, harr, hka, hr, pure_apply,
        hset, htr]
      rw [hown]
      unfold setterTrigger
      cases hd : decide (key ∈ props.map Prod.fst) <;>
        cases hch : hasChanged (toRaw w value) (rawProp kind props key) <;>
        simp [bind_apply, pure_apply, Res.bind] <;> rfl
    · simp [createSetter, bind_apply, getW_apply, Res.bind_ok, hget, harr, hka, pure_apply,
        hset, htr]
      rw [hown]
      unfold setterTrigger
      cases hd : decide (key ∈ props.map Prod.fst) <;>
        cases hch : hasChanged (toRaw w value) (rawProp kind props key) <;>
        simp [bind_apply, pure_apply, Res.bind] <;> rfl

/-- The trap `get` of a mutable wrapper `pt` of a plain object or array `t` whose slot
holds a raw object `o` that is not a Ref: the read is recorded, then the slot is wrapped. -/
theorem createGetter_object (n : Nat) (w : World) (t pt : Nat) (kind : Kind)
    (props entries : List (Value × Value)) (key : Value) (o : Nat) (ko : Kind)
    (po eo : List (Value × Value))
    (hc : w.cell? t = some (.raw kind props entries)) (hkind : kind = .Object ∨ kind = .Array)
    (hpt : w.cell? pt = some (.proxy t .mutableHandlers))
    (hinst : isArrayInstrumentation key = none)
    (hsym : (isSymbol key && isBuiltInSymbol key) = false)
    (hslot : rawProp kind props key = .obj o) (ho : w.cell? o = some (.raw ko po eo))
    (hnr : strictEq (rawProp ko po (.str "_isRef")) (.bool true) = false) :
    interp (n + 2) (.get (.obj pt) key (.obj pt)) w
      = (track (interp (n + 1)) (.obj t) "get" key w).bind fun _ w2 =>
          if isObject w2 (.obj o) then reactive (interp (n + 1)) (.obj o) w2
          else .ok (.obj o) w2 := by
  have h0 : interp (n + 2) (.get (.obj pt) key (.obj pt)) w
      = createGetter false false (interp (n + 1)) (.obj t) key (.obj pt) w := by
    show getImpl (interp (n + 1)) (.obj pt) key (.obj pt) w = _
    simp [getImpl, bind_apply, getW_apply, Res.bind_ok, hpt]
  have hget : interp (n + 1) (.get (.obj t) key (.obj pt)) w = .ok (.obj o) w := by
    rw [← hslot]
    exact getImpl_raw_plain (interp n) w t kind props entries key _ hc hkind
  have href : isRef (interp (n + 1)) (.obj o) w = .ok false w := by
    rw [isRef_raw _ (interp_readsRaw n) w o ko po eo ho, hnr]
  rw [h0]
  simp only [createGetter, bind_apply, getW_apply, Res.bind_ok, hinst, ite_self, hget, hsym,
    Bool.false_eq_true, if_false, href, Bool.false_and]
  cases track (interp (n + 1)) (.obj t) "get" key w with
  | ok u w2 =>
    simp only [Res.bind_ok, bind_apply, getW_apply]
    cases isObject w2 (.obj o) <;> simp [pure_apply]
  | throw e w2 => rfl
  | timeout => rfl
  | unsupported => rfl

theorem isRef_refCell (k : Interp) (w : World) (r : Nat) (cur : Value) (sh : Bool)
    (hr : w.cell? r = some (.ref cur sh)) :
    isRef (step k) (.obj r) w = .ok true w := by
  have h1 : step k (.get (.obj r) (.str "_isRef") (.obj r)) w = .ok (.bool true) w := by
    show getImpl k (.obj r) (.str "_isRef") (.obj r) w = _
    simp [getImpl, bind_apply, getW_apply, Res.bind_ok, hr, pure_apply]
  simp [isRef, bind_apply, h1, Res.bind_ok, pure_apply, strictEq]

/-- The trap `set` of a mutable wrapper `pt` of a plain object `t` whose slot holds a Ref,
given a value that is not a Ref: the write is redirected into the Ref. -/
theorem createSetter_redirect (n : Nat) (w : World) (t pt : Nat)
    (props entries : List (Value × Value)) (key value : Value) (r : Nat) (cur : Value)
    (sh : Bool)
    (hc : w.cell? t = some (.raw .Object props entries))
    (hpt : w.cell? pt = some (.proxy t .mutableHandlers))
    (hslot : rawProp .Object props key = .obj r) (hr : w.cell? r = some (.ref cur sh))
    (hv : isRef (interp (n + 1)) (toRaw w value) w = .ok false w) :
    interp (n + 2) (.set (.obj pt) key value (.obj pt)) w
      = (refSetValue (interp n) r (toRaw w value) w).bind fun _ w1 => .ok (.bool true) w1 := by
  have h0 : interp (n + 2) (.set (.obj pt) key value (.obj pt)) w
      = createSetter false false (interp (n + 1)) (.obj t) key value (.obj pt) w := by
    show setImpl (interp (n + 1)) (.obj pt) key value (.obj pt) w = _
    simp [setImpl, bind_apply, getW_apply, Res.bind_ok, hpt]
  have hget : interp (n + 1) (.get (.obj t) key (.obj t)) w = .ok (.obj r) w := by
    rw [← hslot]
    exact getImpl_raw_plain (interp n) w t .Object props entries key _ hc (Or.inl rfl)
  have harr := isArray_raw w t .Object props entries hc
  have hold : isRef (interp (n + 1)) (.obj r) w = .ok true w := isRef_refCell (interp n) w r cur sh hr
  have hset : interp (n + 1) (.set (.obj r) (.str "value") (toRaw w value) (.obj r)) w
      = (refSetValue (interp n) r (toRaw w value) w).bind fun _ w1 => .ok (.bool true) w1 := by
    show setImpl (interp n) (.obj r) (.str "value") (toRaw w value) (.obj r) w = _
    simp [setImpl, bind_apply, getW_apply, Res.bind_ok, hr]
    rfl
  rw [h0]
  simp [createSetter, bind_apply, getW_apply, Res.bind_ok, hget, harr, hold, hv, pure_apply,
    hset]
  cases refSetValue (interp n) r (toRaw w value) w <;> rfl

theorem refSetValue_primitive (k : Interp) (w : World) (r : Nat) (cur v : Value) (sh : Bool)
    (hr : w.cell? r = some (.ref cur sh)) (hv : isObject w v = false) :
    refSetValue k r v w
      = trigger k (.obj r) "set" (.str "value") (.obj (refAssigned w r v sh).heap.length.pred)
          .undefined .undefined (refAssigned w r v sh) := by
  cases sh <;>
    simp [refSetValue, bind_apply, Res.bind_ok, getW_apply, hr, convert, hv, alloc,
      modifyW_apply, refAssigned, World.setCell, pure_apply]

theorem toRaw_primitive (w : World) (v : Value) (hv : ∀ a, v ≠ .obj a) : toRaw w v = v := by
  cases v <;> first | rfl | exact absurd rfl (hv _)

theorem isObject_primitive (w : World) (v : Value) (hv : ∀ a, v ≠ .obj a) :
    isObject w v = false := by
  cases v <;> first | rfl | exact absurd rfl (hv _)

theorem isRef_primitive (k : Interp) (w : World) (v : Value) (hv : ∀ a, v ≠ .obj a) :
    isRef k v w = .ok false w := by
  cases v <;> first | rfl | exact absurd rfl (hv _)

theorem hasChanged_iff (a b : Value) :
    hasChanged a b = true ↔ strictEq a b = false ∧ ¬ (a = .nan ∧ b = .nan) := by
  cases a <;> cases b <;> simp [hasChanged, strictEq]

theorem rawProp_lookup (kind : Kind) (props : List (Value × Value)) (key v : Value)
    (h : alookup key props = some v) : rawProp kind props key = v := by
  simp [rawProp, h]

/-- C28 (amended): for every plain object or array `t` with mutable wrapper `pt`, every
wrapper `p` of a raw object `o` and every key other than `length` whose slot does not hold
a Ref: the write `pt[key] = p` stores the raw object `o` itself in the slot of `t` and then
triggers the mutation with `o`; and in every later state in which the slot still holds
`o`, reading `pt[key]` records the read and then returns what `reactive(o)` returns. -/
theorem C28_setter_stores_raw (n : Nat) (w : World) (t pt o p : Nat) (kind : Kind)
    (props entries : List (Value × Value)) (key : Value)
    (hc : w.cell? t = some (.raw kind props entries)) (hkind : kind = .Object ∨ kind = .Array)
    (hpt : w.cell? pt = some (.proxy t .mutableHandlers))
    (hraw : alookup pt w.reactiveToRaw = some t)
    (hp : alookup p w.reactiveToRaw = some o)
    (hkey : key ≠ .str "length")
    (hold : kind = .Array ∨ isRef (interp (n + 1)) (rawProp kind props key) w = .ok false w) :
    ∃ props1,
      interp (n + 2) (.set (.obj pt) key (.obj p) (.obj pt)) w
        = (setterTrigger (interp (n + 1)) t (decide (key ∈ props.map Prod.fst)) key
            (.obj o) (rawProp kind props key)
            (w.setCell t (.raw kind props1 entries))).bind (fun _ w1 => .ok (.bool true) w1) ∧
      (w.setCell t (.raw kind props1 entries)).cell? t = some (.raw kind props1 entries) ∧
      rawProp kind props1 key = .obj o ∧
      ∀ (m : Nat) (w1 : World) (ko : Kind) (po eo : List (Value × Value)),
        w1.cell? t = some (.raw kind props1 entries) →
        w1.cell? pt = some (.proxy t .mutableHandlers) →
        w1.cell? o = some (.raw ko po eo) →
        strictEq (rawProp ko po (.str "_isRef")) (.bool true) = false →
        isArrayInstrumentation key = none →
        (isSymbol key && isBuiltInSymbol key) = false →
        interp (m + 2) (.get (.obj pt) key (.obj pt)) w1
          = (track (interp (m + 1)) (.obj t) "get" key w1).bind fun _ w2 =>
              if isObject w2 (.obj o) then reactive (interp (m + 1)) (.obj o) w2
              else .ok (.obj o) w2 := by
  obtain ⟨props1, hs, hl⟩ := rawSetProps_lookup kind props key (.obj o) hkey
  have htr := toRaw_wrapper w p o hp
  have hslot := rawProp_lookup kind props1 key _ hl
  refine ⟨props1, ?_, cell?_setCell_self w t _ (cell_lt w t _ hc), hslot, ?_⟩
  · have := createSetter_store n w t pt kind props entries props1 key (.obj p) hc hkind hpt
      hraw hold (by rw [htr]; exact hs)
    rw [htr] at this
    exact this
  · intro m w1 ko po eo h1 h2 h3 h4 h5 h6
    exact createGetter_object m w1 t pt kind props1 entries key o ko po eo h1 hkind h2 h5 h6
      hslot h3 h4

/-- Witness for C28: `reactive(t).k = reactive(o)` for the two objects of
`twoWrappedWorld`. -/
theorem C28_setter_stores_raw_witness :
    ∃ props1,
      interp 2 (.set (.obj 1) (.str "k") (.obj 3) (.obj 1)) twoWrappedWorld
        = (setterTrigger (interp 1) 0 false (.str "k") (.obj 2) .undefined
            (twoWrappedWorld.setCell 0 (.raw .Object props1 []))).bind
              (fun _ w1 => .ok (.bool true) w1) ∧
      rawProp .Object props1 (.str "k") = .obj 2 := by
  obtain ⟨props1, h1, _, h3, _⟩ := C28_setter_stores_raw 0 twoWrappedWorld 0 1 2 3 .Object
    [(.str "x", .num (Decimal.ofInt 1))] [] (.str "k") rfl (Or.inl rfl) rfl rfl rfl
    (by decide) (Or.inr rfl)
  exact ⟨props1, h1, h3⟩

/-- Counterexample to C28 as stated: a Map is an observable raw object, and a property
write through its mutable wrapper stores the wrapper `reactive(o)`, not `o`, in the raw
Map. -/
theorem C28_counterexample :
    varOf (runScript 30 wrapperStoredInMap) "slotIsRaw" = some (.bool false) ∧
    varOf (runScript 30 wrapperStoredInMap) "slotIsWrapper" = some (.bool true) := by
  decide!

/-! ## What the deep mutable trap `set` emits (C10) -/

/-- C10 (amended): for every plain object `t` with deep mutable wrapper `pt`, every key
whose slot does not hold a Ref and every value `v`: the write `pt[key] = v` stores
`toRaw(v)` in the raw object and then emits an `add` mutation if the key was not an own key
of the raw object, otherwise a `set` mutation exactly when `toRaw(v) !== old` and not
(`toRaw(v)` is NaN and `old` is NaN), otherwise nothing; the write reports `true`. -/
theorem C10_set_emits_add_or_set (n : Nat) (w : World) (t pt : Nat)
    (props entries : List (Value × Value)) (key value : Value)
    (hc : w.cell? t = some (.raw .Object props entries))
    (hpt : w.cell? pt = some (.proxy t .mutableHandlers))
    (hraw : alookup pt w.reactiveToRaw = some t)
    (hold : isRef (interp (n + 1)) (rawProp .Object props key) w = .ok false w) :
    (key ∉ props.map Prod.fst →
      interp (n + 2) (.set (.obj pt) key value (.obj pt)) w
        = (trigger (interp (n + 1)) (.obj t) "add" key (toRaw w value) .undefined .undefined
            (w.setCell t (.raw .Object (ainsert key (toRaw w value) props) entries))).bind
              fun _ w1 => .ok (.bool true) w1) ∧
    (key ∈ props.map Prod.fst →
      (strictEq (toRaw w value) (rawProp .Object props key) = false ∧
        ¬ (toRaw w value = .nan ∧ rawProp .Object props key = .nan)) →
      interp (n + 2) (.set (.obj pt) key value (.obj pt)) w
        = (trigger (interp (n + 1)) (.obj t) "set" key (toRaw w value)
            (rawProp .Object props key) .undefined
            (w.setCell t (.raw .Object (ainsert key (toRaw w value) props) entries))).bind
              fun _ w1 => .ok (.bool true) w1) ∧
    (key ∈ props.map Prod.fst →
      ¬ (strictEq (toRaw w value) (rawProp .Object props key) = false ∧
        ¬ (toRaw w value = .nan ∧ rawProp .Object props key = .nan)) →
      interp (n + 2) (.set (.obj pt) key value (.obj pt)) w
        = .ok (.bool true)
            (w.setCell t (.raw .Object (ainsert key (toRaw w value) props) entries))) := by
  have h := createSetter_store n w t pt .Object props entries
    (ainsert key (toRaw w value) props) key value hc (Or.inl rfl) hpt hraw (Or.inr hold) rfl
  refine ⟨fun hk => ?_, fun hk hch => ?_, fun hk hch => ?_⟩
  · rw [h]
    simp [setterTrigger, hk]
  · rw [h]
    simp [setterTrigger, hk, (hasChanged_iff _ _).mpr hch]
  · rw [h]
    have : hasChanged (toRaw w value) (rawProp .Object props key) = false := by
      cases hh : hasChanged (toRaw w value) (rawProp .Object props key)
      · rfl
      · exact absurd ((hasChanged_iff _ _).mp hh) hch
    simp [setterTrigger, hk, this, pure_apply, Res.bind]

/-- Witness for C10: the write `pt.x = 2` on the wrapper of `{ x: 1 }` in
`twoWrappedWorld` emits a `set` mutation; and in the script `addThenSet` the effect that
reads `product.name` is re-run once by the write of `'Socks'` over `'Shoes'` and not by
the second write of `'Socks'`. -/
theorem C10_set_emits_add_or_set_witness :
    interp 2 (.set (.obj 1) (.str "x") (.num (Decimal.ofInt 2)) (.obj 1)) twoWrappedWorld
      = (trigger (interp 1) (.obj 0) "set" (.str "x") (.num (Decimal.ofInt 2))
          (.num (Decimal.ofInt 1)) .undefined
          (twoWrappedWorld.setCell 0 (.raw .Object
            (ainsert (.str "x") (.num (Decimal.ofInt 2))
              [(.str "x", .num (Decimal.ofInt 1))]) []))).bind
            (fun _ w1 => .ok (.bool true) w1) ∧
    varOf (runScript 40 addThenSet) "runsAfterChange" = some (.num (Decimal.ofInt 2)) ∧
    varOf (runScript 40 addThenSet) "runs" = some (.num (Decimal.ofInt 2)) ∧
    varOf (runScript 40 addThenSet) "name" = some (.str "Socks") :=
  ⟨(C10_set_emits_add_or_set 0 twoWrappedWorld 0 1 [(.str "x", .num (Decimal.ofInt 1))] []
      (.str "x") (.num (Decimal.ofInt 2)) rfl rfl rfl rfl).2.1 (by decide)
      ⟨by decide, by decide⟩,
    by decide!, by decide!, by decide!⟩

/-- Counterexample to C10 as stated: the write `p.k = reactive(x)` over the raw object `x`
has `v !== old` and emits nothing (the effect reading `p.k` is not re-run), and the write
`q.a = 2` over a Ref emits no mutation of `q` (the effect subscribed to `'a' in q` is not
re-run). -/
theorem C10_counterexample :
    varOf (runScript 60 unchangedRawWrites) "differs" = some (.bool false) ∧
    varOf (runScript 60 unchangedRawWrites) "runs" = some (.num (Decimal.ofInt 1)) ∧
    varOf (runScript 60 unchangedRawWrites) "hasRuns" = some (.num (Decimal.ofInt 1)) := by
  decide!

/-! ## A write to a slot holding a Ref (C8) -/

theorem refAssigned_cell (w : World) (r : Nat) (v : Value) (sh : Bool)
    (h : r < w.heap.length) :
    (refAssigned w r v sh).cell? r = some (.ref v sh) :=
  cell_append (w.setCell r (.ref v sh)) r _ _ (cell?_setCell_self w r (.ref v sh) h)

theorem cell?_setCell_other (w : World) (a b : Nat) (c : Cell) (h : b ≠ a) :
    (w.setCell a c).cell? b = w.cell? b := by
  simp [World.setCell, World.cell?, List.getElem?_set, Ne.symm h]

theorem refAssigned_other (w : World) (r a : Nat) (v : Value) (sh : Bool) (c : Cell)
    (hne : a ≠ r) (hc : w.cell? a = some c) :
    (refAssigned w r v sh).cell? a = some c :=
  cell_append (w.setCell r (.ref v sh)) a _ _ (by rw [cell?_setCell_other w r a _ hne]; exact hc)

/-- C8 (amended): for every deep reactive plain object `o` (wrapper `pt` of the raw object
`t`) whose slot holds a Ref `r`, and every value `v` that is not a Ref: the write
`pt[key] = v` is the assignment `r.value = toRaw(v)`.  When `v` is not an object, that
assignment stores `v` in `r`, leaves the slot of `t` holding `r`, and triggers the `set`
of `r.value`; and in every state in which the slot holds a Ref `r`, reading `pt[key]`
is reading `r.value`. -/
theorem C8_write_redirected_into_ref (n : Nat) (w : World) (t pt : Nat)
    (props entries : List (Value × Value)) (key value : Value) (r : Nat) (cur : Value)
    (sh : Bool)
    (hc : w.cell? t = some (.raw .Object props entries))
    (hpt : w.cell? pt = some (.proxy t .mutableHandlers))
    (hslot : rawProp .Object props key = .obj r) (hr : w.cell? r = some (.ref cur sh))
    (hv : isRef (interp (n + 1)) (toRaw w value) w = .ok false w) :
    interp (n + 2) (.set (.obj pt) key value (.obj pt)) w
        = (refSetValue (interp n) r (toRaw w value) w).bind (fun _ w1 => .ok (.bool true) w1) ∧
    ((∀ a, value ≠ .obj a) →
      interp (n + 2) (.set (.obj pt) key value (.obj pt)) w
        = (trigger (interp n) (.obj r) "set" (.str "value")
            (.obj (refAssigned w r value sh).heap.length.pred) .undefined .undefined
            (refAssigned w r value sh)).bind (fun _ w1 => .ok (.bool true) w1) ∧
      (refAssigned w r value sh).cell? r = some (.ref value sh) ∧
      (refAssigned w r value sh).cell? t = some (.raw .Object props entries)) ∧
    ∀ (m : Nat) (w1 : World) (cur1 : Value) (sh1 : Bool),
      w1.cell? t = some (.raw .Object props entries) →
      w1.cell? pt = some (.proxy t .mutableHandlers) →
      w1.cell? r = some (.ref cur1 sh1) →
      (isSymbol key && isBuiltInSymbol key) = false →
      interp (m + 2) (.get (.obj pt) key (.obj pt)) w1
        = interp (m + 1) (.get (.obj r) (.str "value") (.obj r)) w1 := by
  have h := createSetter_redirect n w t pt props entries key value r cur sh hc hpt hslot hr hv
  refine ⟨h, fun hp => ?_, ?_⟩
  · have htr := toRaw_primitive w value hp
    have hne : t ≠ r := by
      intro e
      rw [e, hr] at hc
      exact nomatch hc
    refine ⟨?_, refAssigned_cell w r value sh (cell_lt w r _ hr),
      refAssigned_other w r t value sh _ hne hc⟩
    rw [h, htr, refSetValue_primitive (interp n) w r cur value sh hr
      (isObject_primitive w value hp)]
  · intro m w1 cur1 sh1 h1 h2 h3 h4
    have h0 : interp (m + 2) (.get (.obj pt) key (.obj pt)) w1
        = createGetter false false (interp (m + 1)) (.obj t) key (.obj pt) w1 := by
      show getImpl (interp (m + 1)) (.obj pt) key (.obj pt) w1 = _
      simp [getImpl, bind_apply, getW_apply, Res.bind_ok, h2]
    have harr : isArray w1 (.obj t) = false := by
      rw [isArray_raw w1 t .Object props entries h1]
      rfl
    have hget : interp (m + 1) (.get (.obj t) key (.obj pt)) w1 = .ok (.obj r) w1 := by
      rw [← hslot]
      exact getImpl_raw_plain (interp m) w1 t .Object props entries key _ h1 (Or.inl rfl)
    rw [h0]
    exact createGetter_ref_slot false (interp (m + 1)) t key (.obj pt) (.obj r) w1 w1 w1
      harr harr h4 hget (isRef_refCell (interp m) w1 r cur1 sh1 h3)

/-- Witness for C8: `o.a = 2` in `refSlotWorld`, and the script
`inner = ref(1); o = reactive({ a: inner }); o.a = 2`, after which `inner.value` and `o.a`
are 2. -/
theorem C8_write_redirected_into_ref_witness :
    (interp 2 (.set (.obj 2) (.str "a") (.num (Decimal.ofInt 2)) (.obj 2)) refSlotWorld
        = (trigger (interp 0) (.obj 0) "set" (.str "value")
            (.obj (refAssigned refSlotWorld 0 (.num (Decimal.ofInt 2)) false).heap.length.pred)
            .undefined .undefined
            (refAssigned refSlotWorld 0 (.num (Decimal.ofInt 2)) false)).bind
              (fun _ w1 => .ok (.bool true) w1) ∧
      (refAssigned refSlotWorld 0 (.num (Decimal.ofInt 2)) false).cell? 0
        = some (.ref (.num (Decimal.ofInt 2)) false) ∧
      (refAssigned refSlotWorld 0 (.num (Decimal.ofInt 2)) false).cell? 1
        = some (.raw .Object [(.str "a", .obj 0)] [])) ∧
    varOf (runScript 30 numberIntoRefSlot) "innerValue" = some (.num (Decimal.ofInt 2)) ∧
    varOf (runScript 30 numberIntoRefSlot) "read" = some (.num (Decimal.ofInt 2)) :=
  ⟨(C8_write_redirected_into_ref 0 refSlotWorld 1 2 [(.str "a", .obj 0)] [] (.str "a")
      (.num (Decimal.ofInt 2)) 0 (.num (Decimal.ofInt 1)) false rfl rfl rfl rfl rfl).2.1
      (fun _ h => nomatch h),
    by decide!, by decide!⟩

/-- Counterexample to C8 as stated: for a plain object `v` (not a Ref), after `o.a = v`
the Ref holds the wrapper `reactive(v)`, so neither `inner.value` nor `o.a` is `v`. -/
theorem C8_counterexample :
    varOf (runScript 30 objectIntoRefSlot) "innerIsV" = some (.bool false) ∧
    varOf (runScript 30 objectIntoRefSlot) "readIsV" = some (.bool false) ∧
    varOf (runScript 30 objectIntoRefSlot) "readIsReactive" = some (.bool true) := by
  decide!

/-! ## Writes through a locked readonly wrapper (C9) -/

theorem kindOf_heap (w1 w2 : World) (h : w1.heap = w2.heap) (n : Nat) (v : Value) :
    kindOf w1 n v = kindOf w2 n v := by
  induction n generalizing v with
  | zero => rfl
  | succ n ih =>
    cases v <;> try rfl
    rename_i a
    have hc : w1.cell? a = w2.cell? a := by unfold World.cell?; rw [h]
    simp only [kindOf, hc]
    cases w2.cell? a with
    | none => rfl
    | some c => cases c <;> first | rfl | exact ih _

theorem nonConfigurableOwn_heap (w1 w2 : World) (h : w1.heap = w2.heap) (target key : Value) :
    nonConfigurableOwn w1 target key = nonConfigurableOwn w2 target key := by
  unfold nonConfigurableOwn isArray
  rw [kindOf_heap w1 w2 h, h]

/-- C9 (amended): the lock is engaged in the initial state and after `lock()`; and while
it is engaged, for every wrapper `ro` with the handlers `readonlyHandlers` or
`shallowReadonlyHandlers` (a readonly wrapper of an object that is not a collection), every
key and every value: the write `ro[key] = v` returns `true`, raises nothing and leaves the
whole state as it was apart from one more diagnostic, so the raw object is unchanged and no
effect is dispatched; the deletion `delete ro[key]` does the same for every key that is not
a non-configurable own property of the target; and for such a property (the `length` of an
array) the deletion emits the diagnostic and throws a TypeError, the state being otherwise
unchanged. -/
theorem C9_locked_readonly_discards (n : Nat) (w : World) (ro t : Nat) (h : Handlers)
    (key value receiver : Value)
    (hl : w.LOCKED = true) (hc : w.cell? ro = some (.proxy t h))
    (hh : h = .readonlyHandlers ∨ h = .shallowReadonlyHandlers) :
    World.init.LOCKED = true ∧ (lock w).LOCKED = true ∧
    interp (n + 1) (.set (.obj ro) key value receiver) w
      = .ok (.bool true)
          { w with warnings := w.warnings ++ ["Set operation failed: target is readonly."] } ∧
    (nonConfigurableOwn w (.obj t) key = false →
      interp (n + 1) (.deleteProperty (.obj ro) key) w
        = .ok (.bool true)
            { w with
              warnings := w.warnings ++ ["Delete operation failed: target is readonly."] }) ∧
    (nonConfigurableOwn w (.obj t) key = true →
      interp (n + 1) (.deleteProperty (.obj ro) key) w
        = .throw TypeError
            { w with
              warnings := w.warnings ++ ["Delete operation failed: target is readonly."] }) := by
  have h0 : ∀ hd, h = hd → (hd = .readonlyHandlers ∨ hd = .shallowReadonlyHandlers) →
      deleteImpl (interp n) (.obj ro) key w
        = if nonConfigurableOwn w (.obj t) key then
            .throw TypeError { w with
              warnings := w.warnings ++ ["Delete operation failed: target is readonly."] }
          else .ok (.bool true) { w with
              warnings := w.warnings ++ ["Delete operation failed: target is readonly."] } := by
    intro hd e1 e2
    subst e1
    have hw : readonlyDeleteProperty (interp n) (.obj t) key w
        = .ok (.bool true) { w with
            warnings := w.warnings ++ ["Delete operation failed: target is readonly."] } := by
      simp [readonlyDeleteProperty, bind_apply, getW_apply, Res.bind_ok, hl, warn,
        modifyW_apply, pure_apply]
    have hn := nonConfigurableOwn_heap { w with
      warnings := w.warnings ++ ["Delete operation failed: target is readonly."] } w rfl
      (.obj t) key
    rcases e2 with e2 | e2 <;> subst e2 <;>
      simp only [deleteImpl, bind_apply, getW_apply, Res.bind_ok, hc, hw, hn] <;>
      cases nonConfigurableOwn w (.obj t) key <;> simp [truthy, pure_apply, throwE]
  refine ⟨rfl, rfl, ?_, ?_, ?_⟩
  · show setImpl (interp n) (.obj ro) key value receiver w = _
    rcases hh with hh | hh <;> subst hh <;>
      simp [setImpl, bind_apply, getW_apply, Res.bind_ok, hc, createSetter, hl, warn,
        modifyW_apply, pure_apply]
  · intro hk
    show deleteImpl (interp n) (.obj ro) key w = _
    rw [h0 h rfl hh, hk]
    rfl
  · intro hk
    show deleteImpl (interp n) (.obj ro) key w = _
    rw [h0 h rfl hh, hk]
    rfl

/-- Witness for C9: `ro.x = 2` and `delete ro.x` on the readonly wrapper of `{ x: 1 }`; and
in the script, after `ro2.x = 2`, `ro2.x` is still 1. -/
theorem C9_locked_readonly_discards_witness :
    interp 1 (.set (.obj 1) (.str "x") (.num (Decimal.ofInt 2)) (.obj 1)) readonlyWrappedWorld
      = .ok (.bool true)
          { readonlyWrappedWorld with
            warnings := ["Set operation failed: target is readonly."] } ∧
    interp 1 (.deleteProperty (.obj 1) (.str "x")) readonlyWrappedWorld
      = .ok (.bool true)
          { readonlyWrappedWorld with
            warnings := ["Delete operation failed: target is readonly."] } ∧
    varOf (runScript 40 readonlyMapWrite) "x2" = some (.num (Decimal.ofInt 1)) :=
  ⟨(C9_locked_readonly_discards 0 readonlyWrappedWorld 1 0 .readonlyHandlers (.str "x")
      (.num (Decimal.ofInt 2)) (.obj 1) rfl rfl (Or.inl rfl)).2.2.1,
    (C9_locked_readonly_discards 0 readonlyWrappedWorld 1 0 .readonlyHandlers (.str "x")
      (.num (Decimal.ofInt 2)) (.obj 1) rfl rfl (Or.inl rfl)).2.2.2.1 (by decide),
    by decide!⟩

/-- Counterexample to C9 as stated: with the lock engaged, a property write through the
readonly wrapper of a Map changes the raw Map; and the deletion of `length` through the
readonly wrapper of an array throws a TypeError. -/
theorem C9_counterexample :
    varOf (runScript 40 readonlyMapWrite) "raw" = some (.num (Decimal.ofInt 2)) ∧
    thrownBy (runScript 40 readonlyArrayDeleteLength) = some TypeError ∧
    varOf (runScript 40 readonlyArrayDeleteLength) "done" = none := by
  decide!

/-! ## The setter of a ref (C6) -/

/-- C6 at its failing input: the setter of a ref triggers whatever the value.  For every
ref `r` and every value `v` that is not an object, the current value included, the
assignment `r.value = v` is the `trigger` of `(r, 'value')`; and in the scripts the effect
subscribed to `r.value` is re-run by `r.value = NaN` over NaN and by `r.value = r.value`
(`runs` is 2, not 1). -/
theorem C6_ref_setter_always_triggers :
    (∀ (k : Interp) (w : World) (r : Nat) (cur v : Value) (sh : Bool),
      w.cell? r = some (.ref cur sh) → isObject w v = false →
      refSetValue k r v w
        = trigger k (.obj r) "set" (.str "value")
            (.obj (refAssigned w r v sh).heap.length.pred) .undefined .undefined
            (refAssigned w r v sh)) ∧
    varOf (runScript 40 nanIntoRef) "runs" = some (.num (Decimal.ofInt 2)) ∧
    varOf (runScript 40 sameIntoRef) "runs" = some (.num (Decimal.ofInt 2)) :=
  ⟨fun k w r cur v sh hr hv => refSetValue_primitive k w r cur v sh hr hv,
    by decide!, by decide!⟩

/-! ## Tracking precision (C2) -/

theorem cleanup_cell_ne (e a : Nat) (w : World) (h : a ≠ e) :
    (cleanup e w).cell? a = w.cell? a := by
  cases hr : w.effect? e with
  | none => rw [cleanup_none e w hr]
  | some r =>
    rw [cleanup_some e w r hr]
    exact cell?_setCell_other w e a _ h

theorem cleanup_vars (e : Nat) (w : World) : (cleanup e w).vars = w.vars := by
  unfold cleanup
  split <;> rfl

/-- After `cleanup(e)` in a consistent state the effect `e` is in no subscriber set. -/
theorem cleanup_unsubscribed (e : Nat) (w : World) (r : EffectRec)
    (hr : w.effect? e = some r) (hc : Consistent w) (t : Nat) (key : Value) :
    e ∉ (cleanup e w).dep t key := by
  intro hm
  have h1 := ((consistent_cleanup e w hc).index e _ (cleanup_effect? e w r hr) t key).mp hm
  exact absurd h1 (List.not_mem_nil _)

/-- The trap `get` of a mutable wrapper `pt` of a plain object `t` whose slot holds a value
that is not an object: the read is recorded and the value returned. -/
theorem createGetter_primitive (n : Nat) (w : World) (t pt : Nat)
    (props entries : List (Value × Value)) (key v : Value)
    (hc : w.cell? t = some (.raw .Object props entries))
    (hpt : w.cell? pt = some (.proxy t .mutableHandlers))
    (hsym : (isSymbol key && isBuiltInSymbol key) = false)
    (hslot : rawProp .Object props key = v) (hv : ∀ a, v ≠ .obj a) :
    interp (n + 2) (.get (.obj pt) key (.obj pt)) w
      = (track (interp (n + 1)) (.obj t) "get" key w).bind fun _ w2 => .ok v w2 := by
  have h0 : interp (n + 2) (.get (.obj pt) key (.obj pt)) w
      = createGetter false false (interp (n + 1)) (.obj t) key (.obj pt) w := by
    show getImpl (interp (n + 1)) (.obj pt) key (.obj pt) w = _
    simp [getImpl, bind_apply, getW_apply, Res.bind_ok, hpt]
  have hget : interp (n + 1) (.get (.obj t) key (.obj pt)) w = .ok v w := by
    rw [← hslot]
    exact getImpl_raw_plain (interp n) w t .Object props entries key _ hc (Or.inl rfl)
  have harr : isArray w (.obj t) = false := by
    rw [isArray_raw w t .Object props entries hc]
    rfl
  rw [h0]
  simp only [createGetter, bind_apply, getW_apply, Res.bind_ok, harr, hget, hsym,
    Bool.false_eq_true, if_false, isRef_primitive _ w v hv, Bool.false_and]
  cases track (interp (n + 1)) (.obj t) "get" key w with
  | ok u w2 =>
    simp only [Res.bind_ok, bind_apply, getW_apply, isObject_primitive w2 v hv]
    rfl
  | throw e w2 => rfl
  | timeout => rfl
  | unsupported => rfl

/-- Evaluation of `a.flag` for a variable bound to an object. -/
theorem eval_get_var (n : Nat) (w : World) (a flag : String) (pa : Nat)
    (ha : alookup a w.vars = some (.obj pa)) :
    interp (n + 2) (.eval (.get (.var a) (slit flag))) w
      = interp (n + 1) (.get (.obj pa) (.str flag) (.obj pa)) w := by
  show evalProg (interp (n + 1)) (.get (.var a) (slit flag)) w = _
  have h1 : interp (n + 1) (.eval (.var a)) w = .ok (.obj pa) w := by
    show evalProg (interp n) (.var a) w = _
    simp [evalProg, bind_apply, getW_apply, Res.bind_ok, ha, pure_apply]
  have h2 : interp (n + 1) (.eval (slit flag)) w = .ok (.str flag) w := rfl
  simp [evalProg, bind_apply, Res.bind_ok, h1, h2, toPropertyKey]

/-- A run of an effect whose body is `if (a.flag) thenP`, in a state where `a.flag` is
`false`: the run subscribes the effect to `(a, flag)` and to nothing else. -/
theorem run_guardedRead (n : Nat) (w : World) (e f ta pa : Nat) (r : EffectRec)
    (props entries : List (Value × Value)) (a flag : String) (thenP : Prog) (this : Value)
    (args : List Value)
    (hr : w.effect? e = some r) (hact : r.active = true) (hs : e ∉ w.effectStack)
    (hraw : r.raw = .obj f) (hf : w.cell? f = some (.fn [] (guardedRead a flag thenP)))
    (hot : truthy r.options.onTrack = false)
    (hta : w.cell? ta = some (.raw .Object props entries))
    (hpa : w.cell? pa = some (.proxy ta .mutableHandlers))
    (hvar : alookup a w.vars = some (.obj pa))
    (hflag : alookup (.str flag) props = some (.bool false))
    (hc : Consistent w) :
    interp (n + 6) (.apply (.obj e) this args) w
      = .ok .undefined (runExit (trackAdded (runEnter e (cleanup e w)) e ta (.str flag)
          { r with deps := [] })) := by
  have hce := effect?_cell w e r hr
  have hfe : f ≠ e := fun h => by rw [h, hce] at hf; exact nomatch hf
  have htae : ta ≠ e := fun h => by rw [h, hce] at hta; exact nomatch hta
  have hpae : pa ≠ e := fun h => by rw [h, hce] at hpa; exact nomatch hpa
  have hfW : (runEnter e (cleanup e w)).cell? f = some (.fn [] (guardedRead a flag thenP)) :=
    (cleanup_cell_ne e f w hfe).trans hf
  have htaW : (runEnter e (cleanup e w)).cell? ta = some (.raw .Object props entries) :=
    (cleanup_cell_ne e ta w htae).trans hta
  have hpaW : (runEnter e (cleanup e w)).cell? pa = some (.proxy ta .mutableHandlers) :=
    (cleanup_cell_ne e pa w hpae).trans hpa
  have hvarW : alookup a (runEnter e (cleanup e w)).vars = some (.obj pa) := by
    show alookup a (cleanup e w).vars = _
    rw [cleanup_vars]
    exact hvar
  have heW : (runEnter e (cleanup e w)).effect? e = some { r with deps := [] } :=
    (effect?_heap _ (cleanup e w) rfl e).trans (cleanup_effect? e w r hr)
  have hdep : e ∉ (runEnter e (cleanup e w)).dep ta (.str flag) :=
    cleanup_unsubscribed e w r hr hc ta (.str flag)
  have h1 : interp (n + 6) (.apply (.obj e) this args) w
      = (interp (n + 5) (.apply (.obj f) .undefined args)
          (runEnter e (cleanup e w))).finally runExit := by
    show applyImpl (interp (n + 5)) (.obj e) this args w = _
    rw [apply_effect (interp (n + 5)) w e r this args hr,
      run_active (interp (n + 5)) w e r _ _ hr hact hs, hraw]
  have h2 : interp (n + 5) (.apply (.obj f) .undefined args) (runEnter e (cleanup e w))
      = interp (n + 4) (.eval (guardedRead a flag thenP)) (runEnter e (cleanup e w)) := by
    show applyImpl (interp (n + 4)) (.obj f) .undefined args _ = _
    simp only [applyImpl, bind_apply, getW_apply, Res.bind_ok, hfW, modifyW_apply, bindParams]
  have h3 : interp (n + 3) (.eval (.get (.var a) (slit flag))) (runEnter e (cleanup e w))
      = .ok (.bool false) (trackAdded (runEnter e (cleanup e w)) e ta (.str flag)
          { r with deps := [] }) := by
    rw [eval_get_var (n + 1) _ a flag pa hvarW,
      createGetter_primitive n _ ta pa props entries (.str flag) (.bool false) htaW hpaW rfl
        (rawProp_lookup .Object props _ _ hflag) (fun _ h => nomatch h),
      track_add (interp (n + 1)) "get" (.str flag) _ e ta _ rfl rfl heW hot hdep]
    rfl
  have h4 : interp (n + 4) (.eval (guardedRead a flag thenP)) (runEnter e (cleanup e w))
      = .ok .undefined (trackAdded (runEnter e (cleanup e w)) e ta (.str flag)
          { r with deps := [] }) := by
    show evalProg (interp (n + 3)) (.ite (.get (.var a) (slit flag)) thenP undefinedLit) _ = _
    simp only [evalProg, bind_apply, Res.bind_ok, h3, truthy]
    rfl
  rw [h1, h2, h4]
  rfl

theorem resolvedSets_plain (w w0 w1 : World) (depsMap : List (Value × List Nat)) (t : Nat)
    (type : String) (key newValue : Value) (sets : List (List Nat))
    (harr : isArray w (.obj t) = false) (hclear : type ≠ "clear")
    (h : resolvedSets w depsMap (.obj t) type key newValue w0 = .ok sets w1) :
    ∀ d ∈ sets, alookup key depsMap = some d ∨ alookup ITERATE_KEY depsMap = some d := by
  unfold resolvedSets at h
  rw [if_neg hclear, harr] at h
  simp only [Bool.and_false, Bool.false_eq_true, if_false, pure_apply] at h
  cases h
  intro d hd
  rcases List.mem_append.mp hd with hd | hd
  · left
    split at hd
    · exact Option.mem_toList.mp hd
    · exact absurd hd (List.not_mem_nil _)
  · right
    split at hd
    · exact Option.mem_toList.mp hd
    · exact absurd hd (List.not_mem_nil _)

theorem dep_of_lookup (w : World) (t : Nat) (key : Value) (depsMap : List (Value × List Nat))
    (d : List Nat) (h1 : alookup t w.targetMap = some depsMap)
    (h2 : alookup key depsMap = some d) : w.dep t key = d := by
  simp [World.dep, h1, h2]

theorem guardedWorld_consistent : Consistent guardedWorld := by
  have hd : ∀ t key x, x ∈ guardedWorld.dep t key ↔
      x = 3 ∧ t = 0 ∧ (key = .str "flag" ∨ key = .str "x") := by
    intro t key x
    by_cases ht : t = 0
    · subst ht
      by_cases hk : key = .str "flag"
      · subst hk
        simp [World.dep, guardedWorld, alookup]
      · have hk2 : ¬ (Value.str "flag" = key) := fun h => hk h.symm
        by_cases hx : key = .str "x"
        · subst hx
          simp [World.dep, guardedWorld, alookup]
        · have hx2 : ¬ (Value.str "x" = key) := fun h => hx h.symm
          simp [World.dep, guardedWorld, alookup, hk, hk2, hx, hx2]
    · have ht2 : ¬ (0 = t) := fun h => ht h.symm
      simp [World.dep, guardedWorld, alookup, ht, ht2]
  have he : ∀ e r, guardedWorld.effect? e = some r →
      e = 3 ∧ r.deps = [(0, .str "flag"), (0, .str "x")] := by
    intro e r h
    match e, h with
    | 0, h => cases h
    | 1, h => cases h
    | 2, h => cases h
    | 3, h =>
      cases h
      exact ⟨rfl, rfl⟩
    | n + 4, h => cases h
  refine ⟨⟨by decide, ?_⟩, ?_, ?_, ?_⟩
  · intro p hp
    simp only [guardedWorld, List.mem_singleton] at hp
    subst hp
    decide
  · intro e r h t key
    obtain ⟨rfl, hr⟩ := he e r h
    rw [hd, hr]
    simp only [List.mem_cons, Prod.mk.injEq, List.mem_singleton, true_and, List.not_mem_nil,
      or_false]
    tauto
  · intro e r h
    rw [(he e r h).2]
    decide
  · intro t key x hx
    rw [((hd t key x).mp hx).1]
    decide

theorem mem_dispatched (w : World) (sets : List (List Nat)) (e : Nat) :
    e ∈ dispatched w sets ↔ (∃ d ∈ sets, e ∈ d) ∧ some e ≠ w.activeEffect := by
  unfold dispatched
  rw [List.mem_append, Or.comm, addAll_mem]
  simp

/-! ## Reads that are not made leave no subscription (C2) -/

theorem dep_targetMap (w w1 : World) (h : w1.targetMap = w.targetMap) (t : Nat) (key : Value) :
    w1.dep t key = w.dep t key := by
  rw [World.dep_depIn, World.dep_depIn, h]

theorem cleanup_dep_subset (e : Nat) (w : World) (t : Nat) (key : Value) (x : Nat)
    (h : x ∈ (cleanup e w).dep t key) : x ∈ w.dep t key := by
  cases hr : w.effect? e with
  | none => rwa [cleanup_none e w hr] at h
  | some r =>
    rw [cleanup_dep e w r hr] at h
    split at h
    · exact ((mem_sdelete _ _ _).mp h).1
    · exact h

theorem noNewSubscriber_core (t0 : Nat) (k0 : Value) : StableCore (NoNewSubscriber t0 k0) where
  refl := fun _ => ⟨fun _ h => h⟩
  trans := fun _ _ _ h1 h2 => ⟨fun e h => h1.sub e (h2.sub e h)⟩
  alloc := fun _ _ _ => ⟨fun _ h => h⟩
  allocEffect := fun _ _ _ => ⟨fun _ h => h⟩
  setCell := fun _ _ _ _ => ⟨fun _ h => h⟩
  other := fun w w1 _ ht _ _ => ⟨fun e h => by rwa [dep_targetMap w w1 ht] at h⟩
  cleaned := fun w e => ⟨fun x h => cleanup_dep_subset e w t0 k0 x h⟩
  stopMark := fun w a => ⟨fun e h => by
    cases hr : w.effect? a with
    | none => rwa [markStopped_none a w hr] at h
    | some r => rw [markStopped_some a w r hr] at h; exact h⟩
  run := fun w e r w1 _ _ _ h => ⟨fun x hx => by
    have h1 : x ∈ w1.dep t0 k0 := by
      rwa [dep_targetMap w1 (runExit w1) (runExit_heap w1).2] at hx
    exact cleanup_dep_subset e w t0 k0 x (h.sub x h1)⟩

theorem track_noNew (t0 : Nat) (k0 : Value) {k : Interp}
    (hk : ∀ c, Preserves (NoNewSubscriber t0 k0) (k c)) (target : Value) (type : String)
    (key : Value) (h : target ≠ .obj t0 ∨ key ≠ k0) :
    Preserves (NoNewSubscriber t0 k0) (track k target type key) := by
  have hR := noNewSubscriber_core t0 k0
  constructor
  intro w
  cases hs : w.shouldTrack with
  | false => rw [track_disabled k target type key w (Or.inl hs)]; exact hR.refl w
  | true =>
    cases ha : w.activeEffect with
    | none => rw [track_disabled k target type key w (Or.inr ha)]; exact hR.refl w
    | some e =>
      cases target with
      | obj t =>
        by_cases hm : e ∈ w.dep t key
        · rw [track_member k type key w e t hs ha hm]
          exact hR.refl w
        · simp only [track, bind_apply, getW_apply, Res.bind_ok]
          rw [hs, ha]
          simp only []
          rw [World.dep_eq, if_neg hm]
          cases hr : w.effect? e with
          | none => trivial
          | some r =>
            simp only [bind_apply, modifyW_apply, Res.bind_ok]
            have hadd : NoNewSubscriber t0 k0 w (trackAdded w e t key r) := by
              constructor
              intro x hx
              rw [trackAdded_dep_eq] at hx
              split at hx
              · rename_i hq
                rcases h with h | h
                · exact absurd (by rw [hq.1]) h
                · exact absurd hq.2.symm h
              · exact hx
            refine Res.Rel.trans hR hadd (Preserves.out ?_ _)
            split
            · exact pres_bind hR (pres_alloc hR _ (fun _ h => nomatch h)) (fun _ =>
                pres_bind hR (hk _) (fun _ => pres_pure hR ()))
            · exact pres_pure hR ()
      | undefined => simp only [track, bind_apply, getW_apply, Res.bind_ok]; rw [hs, ha]; exact hR.refl w
      | null => simp only [track, bind_apply, getW_apply, Res.bind_ok]; rw [hs, ha]; exact hR.refl w
      | bool b => simp only [track, bind_apply, getW_apply, Res.bind_ok]; rw [hs, ha]; exact hR.refl w
      | num x => simp only [track, bind_apply, getW_apply, Res.bind_ok]; rw [hs, ha]; exact hR.refl w
      | nan => simp only [track, bind_apply, getW_apply, Res.bind_ok]; rw [hs, ha]; exact hR.refl w
      | str s => simp only [track, bind_apply, getW_apply, Res.bind_ok]; rw [hs, ha]; exact hR.refl w
      | sym s => simp only [track, bind_apply, getW_apply, Res.bind_ok]; rw [hs, ha]; exact hR.refl w
      | fn b => simp only [track, bind_apply, getW_apply, Res.bind_ok]; rw [hs, ha]; exact hR.refl w

theorem refGetValue_noNew (t0 : Nat) (k0 : Value) {k : Interp}
    (hk : ∀ c, Preserves (NoNewSubscriber t0 k0) (k c)) (r : Nat) (h : r ≠ t0 ∨ Value.str "value" ≠ k0) :
    Preserves (NoNewSubscriber t0 k0) (refGetValue k r) := by
  have hR := noNewSubscriber_core t0 k0
  unfold refGetValue
  refine pres_eta ?_
  repeat' (first
    | with_reducible exact hk _
    | with_reducible exact pres_pure hR _
    | with_reducible exact pres_getW hR
    | with_reducible exact pres_throwE hR _
    | with_reducible exact pres_unsupportedM
    | with_reducible exact pres_alloc hR _ (fun _ h => nomatch h)
    | with_reducible exact pres_warn hR _
    | exact track_noNew t0 k0 hk _ _ _ (h.imp (fun h1 h2 => h1 (Value.obj.inj h2)) id)
    | with_reducible apply pres_bind hR
    | with_reducible apply pres_modifyW
    | exact hR.other _ _ rfl rfl rfl rfl
    | exact hR.setCell _ _ _ (fun _ h => nomatch h)
    | exact hR.cleaned _ _ | exact hR.stopMark _ _
    | exact stable_register hR .. | exact stable_resetTracking hR ..
    | exact stable_computedStore hR ..
    | intro _ | split | dsimp only)

theorem computedGetValue_noNew (t0 : Nat) (k0 : Value) {k : Interp}
    (hk : ∀ c, Preserves (NoNewSubscriber t0 k0) (k c)) (c : Nat) (h : c ≠ t0 ∨ Value.str "value" ≠ k0) :
    Preserves (NoNewSubscriber t0 k0) (computedGetValue k c) := by
  have hR := noNewSubscriber_core t0 k0
  unfold computedGetValue
  refine pres_eta ?_
  repeat' (first
    | with_reducible exact hk _
    | with_reducible exact pres_pure hR _
    | with_reducible exact pres_getW hR
    | with_reducible exact pres_throwE hR _
    | with_reducible exact pres_unsupportedM
    | with_reducible exact pres_alloc hR _ (fun _ h => nomatch h)
    | with_reducible exact pres_warn hR _
    | exact track_noNew t0 k0 hk _ _ _ (h.imp (fun h1 h2 => h1 (Value.obj.inj h2)) id)
    | with_reducible apply pres_bind hR
    | with_reducible apply pres_modifyW
    | exact hR.other _ _ rfl rfl rfl rfl
    | exact hR.setCell _ _ _ (fun _ h => nomatch h)
    | exact hR.cleaned _ _ | exact hR.stopMark _ _
    | exact stable_register hR .. | exact stable_resetTracking hR ..
    | exact stable_computedStore hR ..
    | intro _ | split | dsimp only)

theorem createGetter_noNew (t0 : Nat) (k0 : Value) {k : Interp}
    (hk : ∀ c, Preserves (NoNewSubscriber t0 k0) (k c)) (isReadonly : Bool) (shallow : Bool) (target : Value) (key : Value) (receiver : Value) (h : target ≠ .obj t0 ∨ key ≠ k0) :
    Preserves (NoNewSubscriber t0 k0) (createGetter isReadonly shallow k target key receiver) := by
  have hR := noNewSubscriber_core t0 k0
  unfold createGetter
  refine pres_eta ?_
  repeat' (first
    | with_reducible exact hk _
    | with_reducible exact pres_pure hR _
    | with_reducible exact pres_getW hR
    | with_reducible exact pres_throwE hR _
    | with_reducible exact pres_unsupportedM
    | with_reducible exact pres_alloc hR _ (fun _ h => nomatch h)
    | with_reducible exact pres_warn hR _
    | exact track_noNew t0 k0 hk _ _ _ h
    | with_reducible exact isRef_pres hR hk ..
    | with_reducible exact readonly_pres hR hk ..
    | with_reducible exact reactive_pres hR hk ..
    | with_reducible apply pres_bind hR
    | with_reducible apply pres_modifyW
    | exact hR.other _ _ rfl rfl rfl rfl
    | exact hR.setCell _ _ _ (fun _ h => nomatch h)
    | exact hR.cleaned _ _ | exact hR.stopMark _ _
    | exact stable_register hR .. | exact stable_resetTracking hR ..
    | exact stable_computedStore hR ..
    | intro _ | split | dsimp only)

theorem has_noNew (t0 : Nat) (k0 : Value) {k : Interp}
    (hk : ∀ c, Preserves (NoNewSubscriber t0 k0) (k c)) (target : Value) (key : Value) (h : target ≠ .obj t0 ∨ key ≠ k0) :
    Preserves (NoNewSubscriber t0 k0) (has k target key) := by
  have hR := noNewSubscriber_core t0 k0
  unfold has
  refine pres_eta ?_
  repeat' (first
    | with_reducible exact hk _
    | with_reducible exact pres_pure hR _
    | with_reducible exact pres_getW hR
    | with_reducible exact pres_throwE hR _
    | with_reducible exact pres_unsupportedM
    | with_reducible exact pres_alloc hR _ (fun _ h => nomatch h)
    | with_reducible exact pres_warn hR _
    | exact track_noNew t0 k0 hk _ _ _ h
    | with_reducible apply pres_bind hR
    | with_reducible apply pres_modifyW
    | exact hR.other _ _ rfl rfl rfl rfl
    | exact hR.setCell _ _ _ (fun _ h => nomatch h)
    | exact hR.cleaned _ _ | exact hR.stopMark _ _
    | exact stable_register hR .. | exact stable_resetTracking hR ..
    | exact stable_computedStore hR ..
    | intro _ | split | dsimp only)

theorem ownKeys_noNew (t0 : Nat) (k0 : Value) {k : Interp}
    (hk : ∀ c, Preserves (NoNewSubscriber t0 k0) (k c)) (target : Value) (h : target ≠ .obj t0 ∨ ITERATE_KEY ≠ k0) :
    Preserves (NoNewSubscriber t0 k0) (ownKeys k target) := by
  have hR := noNewSubscriber_core t0 k0
  unfold ownKeys
  refine pres_eta ?_
  repeat' (first
    | with_reducible exact hk _
    | with_reducible exact pres_pure hR _
    | with_reducible exact pres_getW hR
    | with_reducible exact pres_throwE hR _
    | with_reducible exact pres_unsupportedM
    | with_reducible exact pres_alloc hR _ (fun _ h => nomatch h)
    | with_reducible exact pres_warn hR _
    | exact track_noNew t0 k0 hk _ _ _ h
    | with_reducible apply pres_bind hR
    | with_reducible apply pres_modifyW
    | exact hR.other _ _ rfl rfl rfl rfl
    | exact hR.setCell _ _ _ (fun _ h => nomatch h)
    | exact hR.cleaned _ _ | exact hR.stopMark _ _
    | exact stable_register hR .. | exact stable_resetTracking hR ..
    | exact stable_computedStore hR ..
    | intro _ | split | dsimp only)

theorem size_noNew (t0 : Nat) (k0 : Value) {k : Interp}
    (hk : ∀ c, Preserves (NoNewSubscriber t0 k0) (k c)) (target : Value) (h : ITERATE_KEY ≠ k0) :
    Preserves (NoNewSubscriber t0 k0) (size k target) := by
  have hR := noNewSubscriber_core t0 k0
  unfold size
  refine pres_eta ?_
  repeat' (first
    | with_reducible exact hk _
    | with_reducible exact pres_pure hR _
    | with_reducible exact pres_getW hR
    | with_reducible exact pres_throwE hR _
    | with_reducible exact pres_unsupportedM
    | with_reducible exact pres_alloc hR _ (fun _ h => nomatch h)
    | with_reducible exact pres_warn hR _
    | exact track_noNew t0 k0 hk _ _ _ (Or.inr h)
    | with_reducible exact protoSize_pres hR ..
    | with_reducible apply pres_bind hR
    | with_reducible apply pres_modifyW
    | exact hR.other _ _ rfl rfl rfl rfl
    | exact hR.setCell _ _ _ (fun _ h => nomatch h)
    | exact hR.cleaned _ _ | exact hR.stopMark _ _
    | exact stable_register hR .. | exact stable_resetTracking hR ..
    | exact stable_computedStore hR ..
    | intro _ | split | dsimp only)

theorem rel_bind {R : World → World → Prop} (hR : StableCore R) {α β : Type} {w : World}
    {r : Res α} {f : α → World → Res β} (hr : r.Rel R w)
    (hf : ∀ a w1, (f a w1).Rel R w1) : (r.bind f).Rel R w := by
  cases r with
  | ok a w1 => exact Res.Rel.trans hR hr (hf a w1)
  | throw e w1 => exact hr
  | timeout => trivial
  | unsupported => trivial

theorem rel_getW_bind {R : World → World → Prop} {β : Type} (f : World → M β) (w : World)
    (h : (f w w).Rel R w) : ((getW >>= f) w).Rel R w :=
  h

theorem isInstrumentation_size (key : Value) (name : String)
    (h : isInstrumentation key = some name) (hn : name = "size") : key = .str "size" := by
  subst hn
  unfold isInstrumentation at h
  split at h
  · split at h
    · rw [Option.some.inj h]
    · exact nomatch h
  · exact absurd (Option.some.inj h) (by decide)
  · exact nomatch h

theorem get_1_noNew (t0 : Nat) (k0 : Value) {k : Interp}
    (hk : ∀ c, Preserves (NoNewSubscriber t0 k0) (k c)) (target key : Value)
    (isReadonly : Bool) (w : World) (h : toRaw w target ≠ .obj t0 ∨ toRaw w key ≠ k0) :
    (get_1 k target key isReadonly w).Rel (NoNewSubscriber t0 k0) w := by
  have hR := noNewSubscriber_core t0 k0
  unfold get_1
  refine rel_getW_bind _ w ?_
  dsimp only
  generalize toRaw w target = tr at h ⊢
  generalize toRaw w key = kr at h ⊢
  refine Preserves.out ?_ w
  repeat' (first
    | with_reducible exact hk _
    | with_reducible exact pres_pure hR _
    | with_reducible exact pres_getW hR
    | with_reducible exact pres_throwE hR _
    | with_reducible exact pres_unsupportedM
    | with_reducible exact pres_alloc hR _ (fun _ h => nomatch h)
    | with_reducible exact pres_warn hR _
    | exact track_noNew t0 k0 hk _ _ _ h
    | with_reducible exact wrapWith_pres hR hk ..
    | with_reducible exact protoCall_pres hR ..
    | with_reducible apply pres_bind hR
    | with_reducible apply pres_modifyW
    | exact hR.other _ _ rfl rfl rfl rfl
    | exact hR.setCell _ _ _ (fun _ h => nomatch h)
    | exact hR.cleaned _ _ | exact hR.stopMark _ _
    | exact stable_register hR .. | exact stable_resetTracking hR ..
    | exact stable_computedStore hR ..
    | intro _ | split | dsimp only)

theorem has_1_noNew (t0 : Nat) (k0 : Value) {k : Interp}
    (hk : ∀ c, Preserves (NoNewSubscriber t0 k0) (k c)) (this key : Value)
    (w : World) (h : toRaw w this ≠ .obj t0 ∨ toRaw w key ≠ k0) :
    (has_1 k this key w).Rel (NoNewSubscriber t0 k0) w := by
  have hR := noNewSubscriber_core t0 k0
  unfold has_1
  refine rel_getW_bind _ w ?_
  dsimp only
  generalize toRaw w this = tr at h ⊢
  generalize toRaw w key = kr at h ⊢
  refine Preserves.out ?_ w
  repeat' (first
    | with_reducible exact hk _
    | with_reducible exact pres_pure hR _
    | with_reducible exact pres_getW hR
    | with_reducible exact pres_throwE hR _
    | with_reducible exact pres_unsupportedM
    | with_reducible exact pres_alloc hR _ (fun _ h => nomatch h)
    | with_reducible exact pres_warn hR _
    | exact track_noNew t0 k0 hk _ _ _ h
    | with_reducible exact protoCall_pres hR ..
    | with_reducible apply pres_bind hR
    | with_reducible apply pres_modifyW
    | exact hR.other _ _ rfl rfl rfl rfl
    | exact hR.setCell _ _ _ (fun _ h => nomatch h)
    | exact hR.cleaned _ _ | exact hR.stopMark _ _
    | exact stable_register hR .. | exact stable_resetTracking hR ..
    | exact stable_computedStore hR ..
    | intro _ | split | dsimp only)

theorem arrayInstrumentation_noNew (t0 : Nat) (k0 : Value) {k : Interp}
    (hk : ∀ c, Preserves (NoNewSubscriber t0 k0) (k c)) (name : String) (this : Value)
    (args : List Value) (w : World) (h : toRaw w this ≠ .obj t0) :
    (arrayInstrumentation name k this args w).Rel (NoNewSubscriber t0 k0) w := by
  have hR := noNewSubscriber_core t0 k0
  unfold arrayInstrumentation
  refine rel_getW_bind _ w ?_
  dsimp only
  generalize toRaw w this = tr at h ⊢
  refine Preserves.out ?_ w
  repeat' (first
    | with_reducible exact hk _
    | with_reducible exact pres_pure hR _
    | with_reducible exact pres_getW hR
    | with_reducible exact pres_throwE hR _
    | with_reducible exact pres_unsupportedM
    | with_reducible exact pres_alloc hR _ (fun _ h => nomatch h)
    | with_reducible exact pres_warn hR _
    | exact track_noNew t0 k0 hk _ _ _ (Or.inl h)
    | with_reducible exact arraySearch_pres hR ..
    | with_reducible apply forEachM_pres hR
    | with_reducible apply pres_bind hR
    | with_reducible apply pres_modifyW
    | exact hR.other _ _ rfl rfl rfl rfl
    | exact hR.setCell _ _ _ (fun _ h => nomatch h)
    | exact hR.cleaned _ _ | exact hR.stopMark _ _
    | exact stable_register hR .. | exact stable_resetTracking hR ..
    | exact stable_computedStore hR ..
    | intro _ | split | dsimp only)

theorem callInstrumentation_noNew (t0 : Nat) (k0 : Value) {k : Interp}
    (hk : ∀ c, Preserves (NoNewSubscriber t0 k0) (k c)) (isReadonly : Bool) (name : String)
    (this : Value) (args : List Value) (w : World)
    (h : name = "get" ∨ name = "has" →
      toRaw w this ≠ .obj t0 ∨ toRaw w (args.headD .undefined) ≠ k0) :
    (callInstrumentation isReadonly name k this args w).Rel (NoNewSubscriber t0 k0) w := by
  have hR := noNewSubscriber_core t0 k0
  unfold callInstrumentation
  dsimp only
  by_cases h1 : name = "get"
  · rw [if_pos h1]
    exact get_1_noNew t0 k0 hk _ _ _ w (h (Or.inl h1))
  · rw [if_neg h1]
    by_cases h2 : name = "has"
    · rw [if_pos h2]
      exact has_1_noNew t0 k0 hk _ _ w (h (Or.inr h2))
    · rw [if_neg h2]
      refine Preserves.out ?_ w
      repeat' (first
        | with_reducible exact hk _
        | with_reducible exact pres_pure hR _
        | with_reducible exact pres_getW hR
        | with_reducible exact pres_throwE hR _
        | with_reducible exact pres_unsupportedM
        | with_reducible exact pres_alloc hR _ (fun _ h => nomatch h)
        | with_reducible exact pres_warn hR _
        | with_reducible exact add_pres hR hk ..
        | with_reducible exact set_1_pres hR hk ..
        | with_reducible exact deleteEntry_pres hR hk ..
        | with_reducible exact clear_pres hR hk ..
        | with_reducible apply createReadonlyMethod_pres hR
        | with_reducible apply pres_bind hR
        | with_reducible apply pres_modifyW
        | exact hR.other _ _ rfl rfl rfl rfl
        | exact hR.setCell _ _ _ (fun _ h => nomatch h)
        | exact hR.cleaned _ _ | exact hR.stopMark _ _
        | exact stable_register hR .. | exact stable_resetTracking hR ..
        | exact stable_computedStore hR ..
        | intro _ | split | dsimp only)

theorem createInstrumentationGetter_noNew (t0 : Nat) (k0 : Value) {k : Interp}
    (hk : ∀ c, Preserves (NoNewSubscriber t0 k0) (k c)) (isReadonly : Bool)
    (target key receiver : Value) (h : ¬ (ITERATE_KEY = k0 ∧ key = .str "size")) :
    Preserves (NoNewSubscriber t0 k0)
      (createInstrumentationGetter isReadonly k target key receiver) := by
  have hR := noNewSubscriber_core t0 k0
  unfold createInstrumentationGetter
  refine pres_eta ?_
  repeat' (first
    | with_reducible exact hk _
    | with_reducible exact pres_pure hR _
    | with_reducible exact pres_getW hR
    | with_reducible exact pres_throwE hR _
    | with_reducible exact pres_unsupportedM
    | with_reducible exact pres_alloc hR _ (fun _ h => nomatch h)
    | with_reducible exact pres_warn hR _
    | exact size_noNew t0 k0 hk _ (fun h1 => h ⟨h1, isInstrumentation_size key _ (by assumption) (by assumption)⟩)
    | with_reducible apply pres_bind hR
    | with_reducible apply pres_modifyW
    | exact hR.other _ _ rfl rfl rfl rfl
    | exact hR.setCell _ _ _ (fun _ h => nomatch h)
    | exact hR.cleaned _ _ | exact hR.stopMark _ _
    | exact stable_register hR .. | exact stable_resetTracking hR ..
    | exact stable_computedStore hR ..
    | intro _ | split | dsimp only)

theorem getImpl_noNew (t0 : Nat) (k0 : Value) {k : Interp}
    (hk : ∀ c, Preserves (NoNewSubscriber t0 k0) (k c)) (target key receiver : Value)
    (w : World) (hB : recordsRead t0 k0 (.get target key receiver) w = false) :
    (getImpl k target key receiver w).Rel (NoNewSubscriber t0 k0) w := by
  have hR := noNewSubscriber_core t0 k0
  cases target with
  | obj a =>
    simp only [getImpl]
    refine rel_getW_bind _ w ?_
    dsimp only
    simp only [recordsRead] at hB
    cases hc : w.cell? a with
    | none => trivial
    | some c =>
      rw [hc] at hB
      cases c with
      | proxy t h =>
        cases h
        case mutableCollectionHandlers =>
          exact (createInstrumentationGetter_noNew t0 k0 hk _ _ _ _
            (of_decide_eq_false hB)).out w
        case readonlyCollectionHandlers =>
          exact (createInstrumentationGetter_noNew t0 k0 hk _ _ _ _
            (of_decide_eq_false hB)).out w
        all_goals
          exact (createGetter_noNew t0 k0 hk _ _ _ _ _
            ((not_and_or.mp (of_decide_eq_false hB)).imp
              (fun h1 h2 => h1 (Value.obj.inj h2)) id)).out w
      | ref v sh =>
        dsimp only
        by_cases hv : key = .str "value"
        · rw [if_pos hv]
          have h1 := of_decide_eq_false hB
          exact (refGetValue_noNew t0 k0 hk a
            (not_and_or.mp (fun h2 => h1 ⟨h2.1, hv, h2.2⟩))).out w
        · rw [if_neg hv]
          refine Preserves.out ?_ w
          repeat' (first
            | with_reducible exact hk _
            | with_reducible exact pres_pure hR _
            | with_reducible exact pres_getW hR
            | with_reducible exact pres_throwE hR _
            | with_reducible exact pres_unsupportedM
            | with_reducible exact pres_alloc hR _ (fun _ h => nomatch h)
            | with_reducible exact pres_warn hR _
            | with_reducible apply pres_bind hR
            | with_reducible apply pres_modifyW
            | exact hR.other _ _ rfl rfl rfl rfl
            | exact hR.setCell _ _ _ (fun _ h => nomatch h)
            | exact hR.cleaned _ _ | exact hR.stopMark _ _
            | exact stable_register hR .. | exact stable_resetTracking hR ..
            | exact stable_computedStore hR ..
            | intro _ | split | dsimp only)
      | computed d v r s =>
        dsimp only
        by_cases hv : key = .str "value"
        · rw [if_pos hv]
          have h1 := of_decide_eq_false hB
          exact (computedGetValue_noNew t0 k0 hk a
            (not_and_or.mp (fun h2 => h1 ⟨h2.1, hv, h2.2⟩))).out w
        · rw [if_neg hv]
          refine Preserves.out ?_ w
          repeat' (first
            | with_reducible exact hk _
            | with_reducible exact pres_pure hR _
            | with_reducible exact pres_getW hR
            | with_reducible exact pres_throwE hR _
            | with_reducible exact pres_unsupportedM
            | with_reducible exact pres_alloc hR _ (fun _ h => nomatch h)
            | with_reducible exact pres_warn hR _
            | with_reducible apply pres_bind hR
            | with_reducible apply pres_modifyW
            | exact hR.other _ _ rfl rfl rfl rfl
            | exact hR.setCell _ _ _ (fun _ h => nomatch h)
            | exact hR.cleaned _ _ | exact hR.stopMark _ _
            | exact stable_register hR .. | exact stable_resetTracking hR ..
            | exact stable_computedStore hR ..
            | intro _ | split | dsimp only)
      | raw kind props entries =>
        dsimp only
        refine Preserves.out ?_ w
        repeat' (first
          | with_reducible exact hk _
          | with_reducible exact pres_pure hR _
          | with_reducible exact pres_getW hR
          | with_reducible exact pres_throwE hR _
          | with_reducible exact pres_unsupportedM
          | with_reducible exact pres_alloc hR _ (fun _ h => nomatch h)
          | with_reducible exact pres_warn hR _
          | with_reducible exact protoSize_pres hR ..
          | with_reducible apply pres_bind hR
          | with_reducible apply pres_modifyW
          | exact hR.other _ _ rfl rfl rfl rfl
          | exact hR.setCell _ _ _ (fun _ h => nomatch h)
          | exact hR.cleaned _ _ | exact hR.stopMark _ _
          | exact stable_register hR .. | exact stable_resetTracking hR ..
          | exact stable_computedStore hR ..
          | intro _ | split | dsimp only)
      | proxyRef o pk =>
        dsimp only
        refine Preserves.out ?_ w
        repeat' (first
          | with_reducible exact hk _
          | with_reducible exact pres_pure hR _
          | with_reducible exact pres_getW hR
          | with_reducible exact pres_throwE hR _
          | with_reducible exact pres_unsupportedM
          | with_reducible exact pres_alloc hR _ (fun _ h => nomatch h)
          | with_reducible exact pres_warn hR _
          | with_reducible apply pres_bind hR
          | with_reducible apply pres_modifyW
          | exact hR.other _ _ rfl rfl rfl rfl
          | exact hR.setCell _ _ _ (fun _ h => nomatch h)
          | exact hR.cleaned _ _ | exact hR.stopMark _ _
          | exact stable_register hR .. | exact stable_resetTracking hR ..
          | exact stable_computedStore hR ..
          | intro _ | split | dsimp only)
      | effect r =>
        dsimp only
        refine Preserves.out ?_ w
        repeat' (first
          | with_reducible exact hk _
          | with_reducible exact pres_pure hR _
          | with_reducible exact pres_getW hR
          | with_reducible exact pres_throwE hR _
          | with_reducible exact pres_unsupportedM
          | with_reducible exact pres_alloc hR _ (fun _ h => nomatch h)
          | with_reducible exact pres_warn hR _
          | with_reducible apply pres_bind hR
          | with_reducible apply pres_modifyW
          | exact hR.other _ _ rfl rfl rfl rfl
          | exact hR.setCell _ _ _ (fun _ h => nomatch h)
          | exact hR.cleaned _ _ | exact hR.stopMark _ _
          | exact stable_register hR .. | exact stable_resetTracking hR ..
          | exact stable_computedStore hR ..
          | intro _ | split | dsimp only)
      | fn ps b => exact hR.refl w
      | computedScheduler c => exact hR.refl w
      | computedWarnSetter => exact hR.refl w
  | undefined => exact hR.refl w
  | null => exact hR.refl w
  | bool b => exact hR.refl w
  | num x => exact hR.refl w
  | nan => exact hR.refl w
  | str s => exact hR.refl w
  | sym s => exact hR.refl w
  | fn b => exact hR.refl w



theorem hasImpl_noNew (t0 : Nat) (k0 : Value) {k : Interp}
    (hk : ∀ c, Preserves (NoNewSubscriber t0 k0) (k c)) (target key : Value)
    (w : World) (hB : recordsRead t0 k0 (.has target key) w = false) :
    (hasImpl k target key w).Rel (NoNewSubscriber t0 k0) w := by
  have hR := noNewSubscriber_core t0 k0
  cases target with
  | obj a =>
    simp only [hasImpl]
    refine rel_getW_bind _ w ?_
    dsimp only
    simp only [recordsRead] at hB
    cases hc : w.cell? a with
    | none => trivial
    | some c =>
      rw [hc] at hB
      cases c with
      | proxy t h =>
        cases h
        case mutableCollectionHandlers => exact (hk _).out w
        case readonlyCollectionHandlers => exact (hk _).out w
        all_goals
          exact (has_noNew t0 k0 hk _ _
            ((not_and_or.mp (of_decide_eq_false hB)).imp
              (fun h1 h2 => h1 (Value.obj.inj h2)) id)).out w
      | ref v sh => exact hR.refl w
      | computed d v r s => exact hR.refl w
      | raw kind props entries => exact hR.refl w
      | proxyRef o pk => exact hR.refl w
      | effect r => exact hR.refl w
      | fn ps b => exact hR.refl w
      | computedScheduler c => exact hR.refl w
      | computedWarnSetter => exact hR.refl w
  | undefined => exact hR.refl w
  | null => exact hR.refl w
  | bool b => exact hR.refl w
  | num x => exact hR.refl w
  | nan => exact hR.refl w
  | str s => exact hR.refl w
  | sym s => exact hR.refl w
  | fn b => exact hR.refl w

theorem ownKeysImpl_noNew (t0 : Nat) (k0 : Value) {k : Interp}
    (hk : ∀ c, Preserves (NoNewSubscriber t0 k0) (k c)) (target : Value)
    (w : World) (hB : recordsRead t0 k0 (.ownKeys target) w = false) :
    (ownKeysImpl k target w).Rel (NoNewSubscriber t0 k0) w := by
  have hR := noNewSubscriber_core t0 k0
  cases target with
  | obj a =>
    simp only [ownKeysImpl]
    refine rel_getW_bind _ w ?_
    dsimp only
    simp only [recordsRead] at hB
    cases hc : w.cell? a with
    | none => trivial
    | some c =>
      rw [hc] at hB
      cases c with
      | proxy t h =>
        cases h
        case mutableCollectionHandlers => exact (hk _).out w
        case readonlyCollectionHandlers => exact (hk _).out w
        all_goals
          exact (ownKeys_noNew t0 k0 hk _
            ((not_and_or.mp (of_decide_eq_false hB)).imp
              (fun h1 h2 => h1 (Value.obj.inj h2)) id)).out w
      | ref v sh => exact hR.alloc w _ (fun _ h => nomatch h)
      | computed d v r s => exact hR.alloc w _ (fun _ h => nomatch h)
      | raw kind props entries => exact hR.alloc w _ (fun _ h => nomatch h)
      | proxyRef o pk => exact hR.alloc w _ (fun _ h => nomatch h)
      | effect r => exact hR.alloc w _ (fun _ h => nomatch h)
      | fn ps b => exact hR.alloc w _ (fun _ h => nomatch h)
      | computedScheduler c => exact hR.alloc w _ (fun _ h => nomatch h)
      | computedWarnSetter => exact hR.alloc w _ (fun _ h => nomatch h)
  | undefined => exact hR.refl w
  | null => exact hR.refl w
  | bool b => exact hR.refl w
  | num x => exact hR.refl w
  | nan => exact hR.refl w
  | str s => exact hR.refl w
  | sym s => exact hR.refl w
  | fn b => exact hR.refl w

theorem applyImpl_noNew (t0 : Nat) (k0 : Value) {k : Interp}
    (hk : ∀ c, Preserves (NoNewSubscriber t0 k0) (k c)) (f this : Value) (args : List Value)
    (w : World) (hB : recordsRead t0 k0 (.apply f this args) w = false) :
    (applyImpl k f this args w).Rel (NoNewSubscriber t0 k0) w := by
  have hR := noNewSubscriber_core t0 k0
  cases f with
  | fn b =>
    cases b with
    | instrumentation ro name =>
      simp only [recordsRead] at hB
      have h1 := of_decide_eq_false hB
      exact callInstrumentation_noNew t0 k0 hk ro name this args w
        (fun h2 => not_and_or.mp (fun h3 => h1 ⟨h2, h3⟩))
    | arrayInstrumentation name =>
      simp only [recordsRead] at hB
      exact arrayInstrumentation_noNew t0 k0 hk name this args w (of_decide_eq_false hB)
    | proto kind name =>
      simp only [applyImpl]
      refine Preserves.out ?_ w
      repeat' (first
        | with_reducible exact hk _
        | with_reducible exact pres_pure hR _
        | with_reducible exact pres_getW hR
        | with_reducible exact pres_throwE hR _
        | with_reducible exact pres_unsupportedM
        | with_reducible exact pres_alloc hR _ (fun _ h => nomatch h)
        | with_reducible exact pres_warn hR _
        | with_reducible exact protoCall_pres hR ..
        | with_reducible exact arraySearch_pres hR ..
        | with_reducible apply pres_bind hR
        | with_reducible apply pres_modifyW
        | exact hR.other _ _ rfl rfl rfl rfl
        | exact hR.setCell _ _ _ (fun _ h => nomatch h)
        | exact hR.cleaned _ _ | exact hR.stopMark _ _
        | exact stable_register hR .. | exact stable_resetTracking hR ..
        | exact stable_computedStore hR ..
        | intro _ | split | dsimp only)
    | ctor kind => trivial
  | obj a =>
    simp only [applyImpl]
    refine Preserves.out ?_ w
    repeat' (first
      | with_reducible exact hk _
      | with_reducible exact pres_pure hR _
      | with_reducible exact pres_getW hR
      | with_reducible exact pres_throwE hR _
      | with_reducible exact pres_unsupportedM
      | with_reducible exact pres_alloc hR _ (fun _ h => nomatch h)
      | with_reducible exact pres_warn hR _
      | with_reducible exact run_pres hR hk ..
      | with_reducible exact computedScheduler_pres hR hk ..
      | with_reducible apply pres_bind hR
      | with_reducible apply pres_modifyW
      | exact hR.other _ _ rfl rfl rfl rfl
      | exact hR.setCell _ _ _ (fun _ h => nomatch h)
      | exact hR.cleaned _ _ | exact hR.stopMark _ _
      | exact stable_register hR .. | exact stable_resetTracking hR ..
      | exact stable_computedStore hR ..
      | intro _ | split | dsimp only)
  | undefined => exact hR.refl w
  | null => exact hR.refl w
  | bool b => exact hR.refl w
  | num x => exact hR.refl w
  | nan => exact hR.refl w
  | str s => exact hR.refl w
  | sym s => exact hR.refl w

theorem callApi_noNew (t0 : Nat) (k0 : Value) {k : Interp}
    (hk : ∀ c, Preserves (NoNewSubscriber t0 k0) (k c)) (f : Api) (args : List Value)
    (hf : f ≠ .track) : Preserves (NoNewSubscriber t0 k0) (callApi k f args) := by
  have hR := noNewSubscriber_core t0 k0
  unfold callApi
  refine pres_eta ?_
  repeat' (first
    | with_reducible exact hk _
    | with_reducible exact pres_pure hR _
    | with_reducible exact pres_getW hR
    | with_reducible exact pres_throwE hR _
    | with_reducible exact pres_unsupportedM
    | with_reducible exact pres_alloc hR _ (fun _ h => nomatch h)
    | with_reducible exact pres_warn hR _
    | exact absurd rfl hf
    | with_reducible exact effect_pres hR hk ..
    | with_reducible exact stop_pres hR hk ..
    | with_reducible exact trigger_pres hR hk ..
    | with_reducible exact markReadonly_pres hR ..
    | with_reducible exact markNonReactive_pres hR ..
    | with_reducible exact isRef_pres hR hk ..
    | with_reducible exact readonly_pres hR hk ..
    | with_reducible exact reactive_pres hR hk ..
    | with_reducible exact shallowReadonly_pres hR hk ..
    | with_reducible exact shallowReactive_pres hR hk ..
    | with_reducible exact ref_pres hR hk ..
    | with_reducible exact shallowRef_pres hR hk ..
    | with_reducible exact unref_pres hR hk ..
    | with_reducible exact computed_pres hR hk ..
    | with_reducible exact toRefs_pres hR hk ..
    | with_reducible apply pres_bind hR
    | with_reducible apply pres_modifyW
    | exact hR.other _ _ rfl rfl rfl rfl
    | exact hR.setCell _ _ _ (fun _ h => nomatch h)
    | exact hR.cleaned _ _ | exact hR.stopMark _ _
    | exact stable_register hR .. | exact stable_resetTracking hR ..
    | exact stable_computedStore hR ..
    | intro _ | split | dsimp only)

theorem evalProg_noNew (t0 : Nat) (k0 : Value) {k : Interp}
    (hk : ∀ c, Preserves (NoNewSubscriber t0 k0) (k c)) (p : Prog) (w : World)
    (hB : recordsRead t0 k0 (.eval p) w = false) :
    Preserves (NoNewSubscriber t0 k0) (evalProg k p) := by
  have hR := noNewSubscriber_core t0 k0
  cases p
  case api f args =>
    have hf : f ≠ .track := by
      intro h
      subst h
      exact nomatch hB
    simp only [evalProg]
    exact pres_bind hR (evalList_pres hR hk _) (fun _ => callApi_noNew t0 k0 hk f _ hf)
  all_goals
    simp only [evalProg]
    repeat' (first
      | with_reducible exact hk _
      | with_reducible exact pres_pure hR _
      | with_reducible exact pres_getW hR
      | with_reducible exact pres_throwE hR _
      | with_reducible exact pres_unsupportedM
      | with_reducible exact pres_alloc hR _ (fun _ h => nomatch h)
      | with_reducible exact pres_warn hR _
      | with_reducible exact evalList_pres hR hk ..
      | with_reducible exact evalProps_pres hR hk ..
      | with_reducible exact evalEntries_pres hR hk ..
      | with_reducible exact evalBinOp_pres hR ..
      | with_reducible apply pres_bind hR
      | with_reducible apply pres_modifyW
      | exact hR.other _ _ rfl rfl rfl rfl
      | exact hR.setCell _ _ _ (fun _ h => nomatch h)
      | exact hR.cleaned _ _ | exact hR.stopMark _ _
      | exact stable_register hR .. | exact stable_resetTracking hR ..
      | exact stable_computedStore hR ..
      | intro _ | split | dsimp only)

theorem step_noNew (t0 : Nat) (k0 : Value) {k : Interp}
    (hk : ∀ c, Preserves (NoNewSubscriber t0 k0) (k c)) (c : Call) (w : World)
    (hB : recordsRead t0 k0 c w = false) :
    (step k c w).Rel (NoNewSubscriber t0 k0) w := by
  have hR := noNewSubscriber_core t0 k0
  cases c with
  | eval p => exact (evalProg_noNew t0 k0 hk p w hB).out w
  | get target key receiver => exact getImpl_noNew t0 k0 hk target key receiver w hB
  | set target key value receiver => exact (setImpl_pres hR hk ..).out w
  | has target key => exact hasImpl_noNew t0 k0 hk target key w hB
  | deleteProperty target key => exact (deleteImpl_pres hR hk ..).out w
  | ownKeys target => exact ownKeysImpl_noNew t0 k0 hk target w hB
  | apply f this args => exact applyImpl_noNew t0 k0 hk f this args w hB

/-- No call of the interpreter that refuses the reads of (`t0`, `k0`) adds a member to the
subscriber set of (`t0`, `k0`). -/
theorem interpWithout_noNew (t0 : Nat) (k0 : Value) (n : Nat) (c : Call) :
    Preserves (NoNewSubscriber t0 k0) (interpWithout t0 k0 n c) := by
  induction n generalizing c with
  | zero => exact ⟨fun _ => trivial⟩
  | succ n ih =>
    constructor
    intro w
    show (if recordsRead t0 k0 c w then Res.unsupported
      else step (interpWithout t0 k0 n) c w).Rel (NoNewSubscriber t0 k0) w
    cases hB : recordsRead t0 k0 c w with
    | true => trivial
    | false => exact step_noNew t0 k0 ih c w hB

theorem resolvedSets_set (w w0 w1 : World) (depsMap : List (Value × List Nat)) (t : Nat)
    (key newValue : Value) (sets : List (List Nat))
    (hlen : (key = .str "length" && isArray w (.obj t)) = false)
    (hmap : instanceofMap w (.obj t) = false)
    (h : resolvedSets w depsMap (.obj t) "set" key newValue w0 = .ok sets w1) :
    ∀ d ∈ sets, alookup key depsMap = some d := by
  unfold resolvedSets at h
  rw [if_neg (by decide), hlen, hmap] at h
  simp only [Bool.false_eq_true, if_false, pure_apply] at h
  cases h
  intro d hd
  rcases List.mem_append.mp hd with hd | hd
  · split at hd
    · exact Option.mem_toList.mp hd
    · exact absurd hd (List.not_mem_nil _)
  · split at hd
    · rename_i hx
      exact absurd hx (by decide)
    · exact absurd hd (List.not_mem_nil _)

/-- C2 (amended): let `e` be an active effect that is not running, in a state whose
registry is consistent, and let (`t0`, `k0`) be any (entity, key) pair that the run of `e`
does not read: the run ends in the same way, with the result `v` in the state `w1`, when
every call that would record a read of (`t0`, `k0`) is refused (`interpWithout`).  Then
after the run `e` is not a member of the subscriber set of (`t0`, `k0`), whatever it
subscribed to in earlier runs; the set has no member it did not have before the run; and a
later `set` of the key `k0` of `t0` (other than the `length` of an array or an entry of a
`Map`) does not resolve `e` among the effects it dispatches.  With `t0` the object behind
`a`, `k0` the key `x` and a run in which `a.flag` is false, this is the first sentence of
the claim; for an arbitrary pair it is the inclusion of the general sentence: after a run
the effect is subscribed only to pairs read during that run. -/
theorem C2_tracking_precision (n : Nat) (w w1 : World) (e t0 : Nat) (k0 : Value)
    (r : EffectRec) (this : Value) (args : List Value) (v : Value)
    (hr : w.effect? e = some r) (hact : r.active = true) (hs : e ∉ w.effectStack)
    (hc : Consistent w)
    (hrun : interp (n + 1) (.apply (.obj e) this args) w = .ok v w1)
    (hno : interpWithout t0 k0 (n + 1) (.apply (.obj e) this args) w
      = interp (n + 1) (.apply (.obj e) this args) w) :
    e ∉ w1.dep t0 k0 ∧
    (∀ x, x ∈ w1.dep t0 k0 → x ∈ w.dep t0 k0) ∧
    ∀ (depsMap : List (Value × List Nat)) (newValue : Value) (sets : List (List Nat))
      (w2 : World),
      (k0 = .str "length" && isArray w1 (.obj t0)) = false →
      instanceofMap w1 (.obj t0) = false →
      alookup t0 w1.targetMap = some depsMap →
      resolvedSets w1 depsMap (.obj t0) "set" k0 newValue w1 = .ok sets w2 →
      e ∉ dispatched w1 sets := by
  rw [hrun] at hno
  have h1 : interpWithout t0 k0 (n + 1) (.apply (.obj e) this args) w
      = (interpWithout t0 k0 n (.apply r.raw .undefined args)
          (runEnter e (cleanup e w))).finally runExit := by
    show applyImpl (interpWithout t0 k0 n) (.obj e) this args w = _
    rw [apply_effect (interpWithout t0 k0 n) w e r this args hr,
      run_active (interpWithout t0 k0 n) w e r _ _ hr hact hs]
  rw [h1] at hno
  have h2 := (interpWithout_noNew t0 k0 n (.apply r.raw .undefined args)).out
    (runEnter e (cleanup e w))
  have h3 : ∀ x, x ∈ w1.dep t0 k0 → x ∈ (cleanup e w).dep t0 k0 := by
    cases hres : interpWithout t0 k0 n (.apply r.raw .undefined args)
        (runEnter e (cleanup e w)) with
    | ok v2 w3 =>
      rw [hres] at hno h2
      cases hno
      intro x hx
      rw [dep_targetMap w3 (runExit w3) (runExit_heap w3).2] at hx
      exact h2.sub x hx
    | throw x w3 => rw [hres] at hno; exact nomatch hno
    | timeout => rw [hres] at hno; exact nomatch hno
    | unsupported => rw [hres] at hno; exact nomatch hno
  have h4 : e ∉ w1.dep t0 k0 := fun hm =>
    cleanup_unsubscribed e w r hr hc t0 k0 (h3 e hm)
  refine ⟨h4, fun x hx => cleanup_dep_subset e w t0 k0 x (h3 x hx), ?_⟩
  intro depsMap newValue sets w2 hlen hmap hd hres hmem
  obtain ⟨⟨d, hd1, hd2⟩, _⟩ := (mem_dispatched w1 sets e).mp hmem
  have h5 := resolvedSets_set w1 w1 w2 depsMap t0 k0 newValue sets hlen hmap hres d hd1
  rw [← dep_of_lookup w1 t0 k0 depsMap d hd h5] at hd2
  exact h4 hd2

/-- Witness for C2: the effect `3` of `guardedWorld`, whose body is `if (a.flag) seen = a.x`
and which had read `a.flag` and `a.x`, is re-run with `a.flag` false; the run reads
`a.flag` and ends in the same way when the reads of `(a, x)` are refused; before the run the
effect is a subscriber of `(a, x)`, after it it is not.  In the script `conditionalRead` the
write `a.flag = false` re-runs the effect (2 runs) and the later write `a.x = 2` does not
(still 2 runs). -/
theorem C2_tracking_precision_witness :
    interp 6 (.apply (.obj 3) .undefined []) guardedWorld
      = .ok .undefined (afterGuardedRun guardedWorld 3 0 "flag"
          { raw := .obj 2, active := true, deps := [(0, .str "flag"), (0, .str "x")],
            options := {} }) ∧
    interpWithout 0 (.str "x") 6 (.apply (.obj 3) .undefined []) guardedWorld
      = interp 6 (.apply (.obj 3) .undefined []) guardedWorld ∧
    3 ∈ guardedWorld.dep 0 (.str "x") ∧
    3 ∉ (afterGuardedRun guardedWorld 3 0 "flag"
          { raw := .obj 2, active := true, deps := [(0, .str "flag"), (0, .str "x")],
            options := {} }).dep 0 (.str "x") ∧
    varOf (runScript 30 conditionalRead) "runsAfterFlag" = some (.num (Decimal.ofInt 2)) ∧
    varOf (runScript 30 conditionalRead) "runs" = some (.num (Decimal.ofInt 2)) :=
  ⟨run_guardedRead 0 guardedWorld 3 2 0 1 _ _ _ "a" "flag" _ .undefined []
      rfl rfl (by decide) rfl rfl rfl rfl rfl rfl rfl guardedWorld_consistent,
    rfl, by decide,
    (C2_tracking_precision 5 guardedWorld _ 3 0 (.str "x") _ .undefined [] .undefined
      rfl rfl (by decide) guardedWorld_consistent
      (run_guardedRead 0 guardedWorld 3 2 0 1 _ _ _ "a" "flag" _ .undefined []
        rfl rfl (by decide) rfl rfl rfl rfl rfl rfl rfl guardedWorld_consistent)
      rfl).1,
    by decide!, by decide!⟩

/-- Counterexample to C2 as stated.  The general sentence: an effect that reads `a.x`
while tracking is paused has read `(a, x)` during its last run and is in no subscriber set;
the write `a.x = 2` does not re-run it (`runs` stays 1 and `seen` stays 1).  The first
sentence: in `guardedLength` the re-run after `a.flag = false` (2 runs) does not read
`a.length`, yet the later write `a.length = 1` invokes the effect (3 runs), because it has
read the index `2`; in `guardedMapEntry` the re-run does not read the entry `x`, yet the
later `m.set('x', 2)` invokes the effect (3 runs), because it has read `m.size`. -/
theorem C2_counterexample :
    varOf (runScript 40 readWhilePaused) "runs" = some (.num (Decimal.ofInt 1)) ∧
    varOf (runScript 40 readWhilePaused) "seen" = some (.num (Decimal.ofInt 1)) ∧
    (runScript 40 readWhilePaused).world?.map (fun w => w.targetMap) = some [] ∧
    varOf (runScript 40 guardedLength) "runsAfterFlag" = some (.num (Decimal.ofInt 2)) ∧
    varOf (runScript 40 guardedLength) "runs" = some (.num (Decimal.ofInt 3)) ∧
    varOf (runScript 40 guardedMapEntry) "runsAfterFlag" = some (.num (Decimal.ofInt 2)) ∧
    varOf (runScript 40 guardedMapEntry) "runs" = some (.num (Decimal.ofInt 3)) := by
  decide!

/-! ## Adding to a reactive Set (C7) -/

theorem trigger_dispatched (k : Interp) (t : Nat) (type : String)
    (key newValue oldValue oldTarget : Value) (w : World) (depsMap : List (Value × List Nat))
    (hd : alookup t w.targetMap = some depsMap) :
    trigger k (.obj t) type key newValue oldValue oldTarget w =
      ((resolvedSets w depsMap (.obj t) type key newValue w).bind fun sets w1 =>
        forEachM (fun e => scheduleRun k e (.obj t) type key newValue oldValue oldTarget)
          (dispatched w sets) w1) := by
  simp only [trigger, bind_apply, getW_apply, Res.bind_ok, hd, resolveRunners_eq, dispatched]
  cases resolvedSets w depsMap (.obj t) type key newValue w with
  | ok sets w1 =>
    simp only [Res.bind_ok, forEachM_append]
    rfl
  | throw e w1 => rfl
  | timeout => rfl
  | unsupported => rfl

/-- The instrumented `add` with a value that the raw set does not hold: the value is
appended, then the `add` mutation is triggered; the raw set is returned. -/
theorem add_new (k : Interp) (w : World) (ts ps : Nat) (props entries : List (Value × Value))
    (v : Value) (hts : w.cell? ts = some (.raw .Set props entries))
    (hps : alookup ps w.reactiveToRaw = some ts)
    (hv : alookup (toRaw w v) entries = none) :
    add k (.obj ps) v w
      = (trigger k (.obj ts) "add" (toRaw w v) (toRaw w v) .undefined .undefined
          (w.setCell ts (.raw .Set props (entries ++ [(toRaw w v, toRaw w v)])))).bind
            fun _ w1 => .ok (.obj ts) w1 := by
  have h1 : protoCall "has" (.obj ts) [toRaw w v] w = .ok (.bool false) w := by
    simp [protoCall, bind_apply, getW_apply, Res.bind_ok, hts, collectionProtoNames, hv,
      pure_apply]
  have h2 : protoCall "add" (.obj ts) [toRaw w v] w
      = .ok (.obj ts)
          (w.setCell ts (.raw .Set props (entries ++ [(toRaw w v, toRaw w v)]))) := by
    simp [protoCall, bind_apply, getW_apply, Res.bind_ok, hts, collectionProtoNames, hv,
      pure_apply, modifyW_apply]
  simp only [add, bind_apply, getW_apply, Res.bind_ok, toRaw_wrapper w ps ts hps, h1, h2]
  simp [truthy, bind_apply, pure_apply]
  rfl

theorem resolvedSets_add (w w0 : World) (depsMap : List (Value × List Nat)) (t : Nat)
    (key newValue : Value) (harr : isArray w (.obj t) = false) :
    resolvedSets w depsMap (.obj t) "add" key newValue w0
      = .ok ((if key ≠ .undefined then (alookup key depsMap).toList else []) ++
          (alookup ITERATE_KEY depsMap).toList) w0 := by
  unfold resolvedSets
  rw [if_neg (by decide), harr]
  simp [pure_apply]

theorem dep_lookup (w : World) (t : Nat) (key : Value) (e : Nat) (h : e ∈ w.dep t key) :
    ∃ depsMap d, alookup t w.targetMap = some depsMap ∧ alookup key depsMap = some d ∧
      e ∈ d := by
  unfold World.dep at h
  cases h1 : alookup t w.targetMap with
  | none => simp [h1] at h
  | some depsMap =>
    cases h2 : alookup key depsMap with
    | none => simp [h1, h2] at h
    | some d =>
      simp [h1, h2] at h
      exact ⟨depsMap, d, rfl, h2, h⟩

theorem scheduleRun_plain (k : Interp) (e : Nat) (target : Value) (type : String)
    (key newValue oldValue oldTarget : Value) (w : World) (r : EffectRec)
    (hr : w.effect? e = some r) (hot : truthy r.options.onTrigger = false)
    (hsch : r.options.scheduler = .undefined) :
    scheduleRun k e target type key newValue oldValue oldTarget w
      = (k (.apply (.obj e) .undefined []) w).bind fun _ w1 => .ok () w1 := by
  simp only [scheduleRun, bind_apply, getW_apply, Res.bind_ok, hr, hot, hsch]
  simp [pure_apply, bind_apply, Res.bind_ok]
  rfl

/-- The trap `get` of the wrapper of a raw set for the key `size`: the read of the
iteration key is recorded, then the `size` accessor of the raw set is run. -/
theorem get_size (n : Nat) (w : World) (ts ps : Nat) (props entries : List (Value × Value))
    (hts : w.cell? ts = some (.raw .Set props entries))
    (hpc : w.cell? ps = some (.proxy ts .mutableCollectionHandlers))
    (hps : alookup ps w.reactiveToRaw = some ts) :
    interp (n + 2) (.get (.obj ps) (.str "size") (.obj ps)) w
      = (track (interp (n + 1)) (.obj ts) "iterate" ITERATE_KEY w).bind
          fun _ w1 => protoSize (.obj ts) w1 := by
  have h0 : interp (n + 2) (.get (.obj ps) (.str "size") (.obj ps)) w
      = createInstrumentationGetter false (interp (n + 1)) (.obj ts) (.str "size") (.obj ps)
          w := by
    show getImpl (interp (n + 1)) (.obj ps) (.str "size") (.obj ps) w = _
    simp [getImpl, bind_apply, getW_apply, Res.bind_ok, hpc]
  have hhas : interp (n + 1) (.has (.obj ts) (.str "size")) w = .ok (.bool true) w := by
    show hasImpl (interp n) (.obj ts) (.str "size") w = _
    simp [hasImpl, bind_apply, getW_apply, Res.bind_ok, hts, pure_apply, protoHas,
      collectionProtoNames]
  rw [h0]
  simp [createInstrumentationGetter, isInstrumentation, bind_apply, Res.bind_ok, hhas,
    size, getW_apply, toRaw_wrapper w ps ts hps, truthy]

theorem get_add (n : Nat) (w : World) (ts ps : Nat) (props entries : List (Value × Value))
    (hts : w.cell? ts = some (.raw .Set props entries))
    (hpc : w.cell? ps = some (.proxy ts .mutableCollectionHandlers)) :
    interp (n + 2) (.get (.obj ps) (.str "add") (.obj ps)) w
      = .ok (.fn (.instrumentation false "add")) w := by
  have h0 : interp (n + 2) (.get (.obj ps) (.str "add") (.obj ps)) w
      = createInstrumentationGetter false (interp (n + 1)) (.obj ts) (.str "add") (.obj ps)
          w := by
    show getImpl (interp (n + 1)) (.obj ps) (.str "add") (.obj ps) w = _
    simp [getImpl, bind_apply, getW_apply, Res.bind_ok, hpc]
  have hhas : interp (n + 1) (.has (.obj ts) (.str "add")) w = .ok (.bool true) w := by
    show hasImpl (interp n) (.obj ts) (.str "add") w = _
    simp [hasImpl, bind_apply, getW_apply, Res.bind_ok, hts, pure_apply, protoHas,
      collectionProtoNames]
  rw [h0]
  simp [createInstrumentationGetter, isInstrumentation, bind_apply, Res.bind_ok, hhas, truthy,
    pure_apply]

theorem protoSize_set (w : World) (ts : Nat) (props entries : List (Value × Value))
    (hts : w.cell? ts = some (.raw .Set props entries)) :
    protoSize (.obj ts) w = .ok (.num (Decimal.ofInt entries.length)) w := by
  simp [protoSize, bind_apply, getW_apply, Res.bind_ok, hts, pure_apply]

/-- C7 (amended): for every raw set `ts` with mutable wrapper `ps`, every value `v` that the set does
not hold and every effect `e` that is a subscriber of the iteration key of the set (which
is what a read of `s.size` records) and is not the running effect: `ps.add` is the
instrumented `add`; the call `ps.add(v)` appends `v` to the raw set and then dispatches a
duplicate-free list of effects that contains `e`; the dispatch of an effect without
scheduler and `onTrigger` hook is its invocation; and in every state where the set holds
the new elements, reading `ps.size` records the read and returns the old size plus one. -/
theorem C7_add_reruns_size_reader (n : Nat) (w : World) (ts ps e : Nat)
    (props entries : List (Value × Value)) (v : Value)
    (hts : w.cell? ts = some (.raw .Set props entries))
    (hpc : w.cell? ps = some (.proxy ts .mutableCollectionHandlers))
    (hps : alookup ps w.reactiveToRaw = some ts)
    (hv : alookup (toRaw w v) entries = none)
    (hsub : e ∈ w.dep ts ITERATE_KEY) (hne : w.activeEffect ≠ some e) :
    interp (n + 2) (.get (.obj ps) (.str "add") (.obj ps)) w
      = .ok (.fn (.instrumentation false "add")) w ∧
    (∃ sets,
      interp (n + 1) (.apply (.fn (.instrumentation false "add")) (.obj ps) [v]) w
        = (forEachM (fun e1 => scheduleRun (interp n) e1 (.obj ts) "add" (toRaw w v)
              (toRaw w v) .undefined .undefined)
            (dispatched (w.setCell ts (.raw .Set props
              (entries ++ [(toRaw w v, toRaw w v)]))) sets)
            (w.setCell ts (.raw .Set props (entries ++ [(toRaw w v, toRaw w v)])))).bind
              (fun _ w1 => .ok (.obj ts) w1) ∧
      e ∈ dispatched (w.setCell ts (.raw .Set props
        (entries ++ [(toRaw w v, toRaw w v)]))) sets ∧
      (dispatched (w.setCell ts (.raw .Set props
        (entries ++ [(toRaw w v, toRaw w v)]))) sets).Nodup) ∧
    (∀ (w1 : World) (r1 : EffectRec) (key newValue : Value), w1.effect? e = some r1 →
      truthy r1.options.onTrigger = false → r1.options.scheduler = .undefined →
      scheduleRun (interp n) e (.obj ts) "add" key newValue .undefined .undefined w1
        = (interp n (.apply (.obj e) .undefined []) w1).bind fun _ w2 => .ok () w2) ∧
    ∀ (m : Nat) (w1 : World) (props1 : List (Value × Value)),
      w1.cell? ts = some (.raw .Set props1 (entries ++ [(toRaw w v, toRaw w v)])) →
      w1.cell? ps = some (.proxy ts .mutableCollectionHandlers) →
      alookup ps w1.reactiveToRaw = some ts →
      interp (m + 2) (.get (.obj ps) (.str "size") (.obj ps)) w1
        = (track (interp (m + 1)) (.obj ts) "iterate" ITERATE_KEY w1).bind
            (fun _ w2 => protoSize (.obj ts) w2) ∧
      protoSize (.obj ts) w1 = .ok (.num (Decimal.ofInt (entries.length + 1))) w1 := by
  obtain ⟨depsMap, d, hd1, hd2, hd3⟩ := dep_lookup w ts ITERATE_KEY e hsub
  have hcell := cell?_setCell_self w ts (.raw .Set props (entries ++ [(toRaw w v, toRaw w v)]))
    (cell_lt w ts _ hts)
  have harr : isArray (w.setCell ts (.raw .Set props (entries ++ [(toRaw w v, toRaw w v)])))
      (.obj ts) = false := by
    rw [isArray_raw _ ts .Set _ _ hcell]
    rfl
  refine ⟨get_add n w ts ps props entries hts hpc,
    ⟨(if toRaw w v ≠ .undefined then (alookup (toRaw w v) depsMap).toList else []) ++
      (alookup ITERATE_KEY depsMap).toList, ?_, ?_, ?_⟩, ?_, ?_⟩
  · show applyImpl (interp n) (.fn (.instrumentation false "add")) (.obj ps) [v] w = _
    have h1 : applyImpl (interp n) (.fn (.instrumentation false "add")) (.obj ps) [v] w
        = add (interp n) (.obj ps) v w := by
      simp [applyImpl, callInstrumentation]
    rw [h1, add_new (interp n) w ts ps props entries v hts hps hv,
      trigger_dispatched (interp n) ts "add" _ _ _ _
        (w.setCell ts (.raw .Set props (entries ++ [(toRaw w v, toRaw w v)]))) depsMap hd1,
      resolvedSets_add _ _ depsMap ts _ _ harr]
    rfl
  · rw [mem_dispatched]
    refine ⟨⟨d, ?_, hd3⟩, fun h => hne h.symm⟩
    rw [hd2]
    simp
  · have hr := addAll_runners (w.setCell ts (.raw .Set props
      (entries ++ [(toRaw w v, toRaw w v)])))
      ((if toRaw w v ≠ .undefined then (alookup (toRaw w v) depsMap).toList else []) ++
        (alookup ITERATE_KEY depsMap).toList) ([], []) (Runners.empty _)
    refine List.nodup_append.mpr ⟨hr.nodup2, hr.nodup1, ?_⟩
    intro a h2 h1
    have := hr.computed a h2
    rw [hr.plain a h1] at this
    exact Bool.noConfusion this
  · intro w1 r1 key newValue h1 h2 h3
    exact scheduleRun_plain (interp n) e _ _ _ _ _ _ w1 r1 h1 h2 h3
  · intro m w1 props1 h1 h2 h3
    refine ⟨get_size m w1 ts ps props1 _ h1 h2 h3, ?_⟩
    rw [protoSize_set w1 ts props1 _ h1]
    simp

/-- Witness for C7: `s.add(3)` in `sizeReaderWorld`, where the effect `2` has read the size
of the set; and the script of the specification, in which `size` is 2 before `s.add(3)`
and 3 after it, the effect having run twice. -/
theorem C7_add_reruns_size_reader_witness :
    (∃ sets,
      interp 1 (.apply (.fn (.instrumentation false "add")) (.obj 1)
          [.num (Decimal.ofInt 3)]) sizeReaderWorld
        = (forEachM (fun e1 => scheduleRun (interp 0) e1 (.obj 0) "add"
              (.num (Decimal.ofInt 3)) (.num (Decimal.ofInt 3)) .undefined .undefined)
            (dispatched (sizeReaderWorld.setCell 0 (.raw .Set []
              ([(.num (Decimal.ofInt 1), .num (Decimal.ofInt 1)),
                (.num (Decimal.ofInt 2), .num (Decimal.ofInt 2))] ++
                [(.num (Decimal.ofInt 3), .num (Decimal.ofInt 3))]))) sets)
            (sizeReaderWorld.setCell 0 (.raw .Set []
              ([(.num (Decimal.ofInt 1), .num (Decimal.ofInt 1)),
                (.num (Decimal.ofInt 2), .num (Decimal.ofInt 2))] ++
                [(.num (Decimal.ofInt 3), .num (Decimal.ofInt 3))])))).bind
              (fun _ w1 => .ok (.obj 0) w1) ∧
      2 ∈ dispatched (sizeReaderWorld.setCell 0 (.raw .Set []
          ([(.num (Decimal.ofInt 1), .num (Decimal.ofInt 1)),
            (.num (Decimal.ofInt 2), .num (Decimal.ofInt 2))] ++
            [(.num (Decimal.ofInt 3), .num (Decimal.ofInt 3))]))) sets) ∧
    varOf (runScript 40 setAddSize) "sizeBefore" = some (.num (Decimal.ofInt 2)) ∧
    varOf (runScript 40 setAddSize) "size" = some (.num (Decimal.ofInt 3)) ∧
    varOf (runScript 40 setAddSize) "runs" = some (.num (Decimal.ofInt 2)) := by
  obtain ⟨sets, h1, h2, _⟩ := (C7_add_reruns_size_reader 0 sizeReaderWorld 0 1 2 []
    [(.num (Decimal.ofInt 1), .num (Decimal.ofInt 1)),
     (.num (Decimal.ofInt 2), .num (Decimal.ofInt 2))] (.num (Decimal.ofInt 3))
    rfl rfl rfl (by decide) (by decide) (by decide)).2.1
  exact ⟨⟨sets, h1, h2⟩, by decide!, by decide!, by decide!⟩

/-- Counterexample to C7 as stated: an effect that reads `s.size` and then calls `s.add(3)`
itself is not re-run by that call, and an effect with a scheduler is not re-run by a call
from outside; in both scripts the effect ran once and `size` is 2 although `s.size` is 3. -/
theorem C7_counterexample :
    varOf (runScript 40 setAddBySelf) "runs" = some (.num (Decimal.ofInt 1)) ∧
    varOf (runScript 40 setAddBySelf) "size" = some (.num (Decimal.ofInt 2)) ∧
    varOf (runScript 40 setAddBySelf) "now" = some (.num (Decimal.ofInt 3)) ∧
    varOf (runScript 40 setAddScheduled) "runs" = some (.num (Decimal.ofInt 1)) ∧
    varOf (runScript 40 setAddScheduled) "size" = some (.num (Decimal.ofInt 2)) ∧
    varOf (runScript 40 setAddScheduled) "now" = some (.num (Decimal.ofInt 3)) := by
  decide!

end Reactivity
